import Mathlib

/-!
# Zilany–Bruce cat auditory-nerve model (`zbcatmodel.c`)

A shallow embedding of `zbcatmodel.c` and theorems about it.

Modelling conventions.

* A C `double` is an element of a linearly ordered field `α` with a floor
  function (`ℚ` when a run is evaluated).  Arithmetic is exact: rounding,
  infinities and NaN are not part of this model.  Where the rounding of double
  arithmetic or a NaN decides what the program does, the source is translated a
  second time, over the type `Binary64` (section "Double arithmetic"); those
  definitions carry the suffix `64`.
* A C `int` is an element of `ℤ`; the conversion `(int) x` truncates toward
  zero.  Values outside the range of `int` are not modelled.
* The functions of `math.h` are a parameter `L : Libm α` of every definition
  that calls them; what a theorem needs of them is a hypothesis on `L`.
* A call of `mexErrMsgTxt` ends the MEX call; it is the `Except.error` outcome,
  one constructor of `MexError` per message.  `mexPrintf` output is not
  modelled.
* An array obtained from `mxCalloc` / `mxCreateNumericArray` is a `List` of
  zeros of the allocated length.  An access outside the allocated length has no
  defined behaviour in C; it is the outcome `MexError.outOfBounds`.
* The `static` variables of the stage functions are passed in and returned
  explicitly (`Statics`); they outlive a call.
* `SpikeGenerator` (`spikegen.h`) and the `COMPLEX` helpers (`complex.h`) are
  not among the sources; the former is a parameter, the latter are modelled.
-/

namespace ZBCat

set_option linter.unusedSectionVars false
set_option linter.unusedVariables false

variable {α : Type} [LinearOrderedField α] [FloorRing α]

/-- The ways a call can end without producing output.  Every constructor but the
last stands for one `mexErrMsgTxt` call of the source. -/
inductive MexError
  /-- Message "zbcatmodel requires 8 input arguments." -/
  | nrhs
  /-- Message "zbcatmodel requires 9 output arguments." -/
  | nlhs
  /-- Message "px must be a row vector" -/
  | pxNotRow
  /-- Message "binwidth should be between 0.002 and 0.010 ms (100 <= Fs <= 500 kHz)." -/
  | binwidthRange
  /-- Message "binwidth should be an integer number when given in units of microsecond." -/
  | binwidthNotInteger
  /-- Message "cf (= ..) must be between 80 Hz and 20 kHz / 40 kHz" -/
  | cfRange
  /-- Message "nrep must an integer." -/
  | nrepNotInteger
  /-- Message "nrep must be greater that 0." -/
  | nrepRange
  /-- Message "cohc (= ..) must be between 0 and 1" -/
  | cohcRange
  /-- Message "cihc (= ..) must be between 0 and 1" -/
  | cihcRange
  /-- Message "spont (= ..) must be between 0 and 150 spikes/s" -/
  | spontRange
  /-- Message "reptime should be equal to or longer than the stimulus duration." -/
  | reptimeShort
  /-- Message "The poles are in the right-half plane; system is unstable." (`SingleAN`) -/
  | polesUnstable
  /-- Message "The system becomes unstable." (`C1ChirpFilt`) -/
  | c1Unstable
  /-- Message "The zeros are in the right-half plane." (`C1ChirpFilt`) -/
  | c1Zeros
  /-- Message "The system becomes unstable." (`C2ChirpFilt`) -/
  | c2Unstable
  /-- Message "The zeros are in the right-hand plane." (`C2ChirpFilt`) -/
  | c2Zeros
  /-- An array access outside the allocated length. -/
  | outOfBounds
  deriving DecidableEq, Repr

/-- The C conversion `(int) x`: truncation toward zero. -/
def cInt (x : α) : Int := if 0 ≤ x then Int.floor x else Int.ceil x

/-- The C library `floor`, with a `double` result. -/
def cfloor (x : α) : α := ((Int.floor x : Int) : α)

/-- The C library `ceil`, with a `double` result. -/
def cceil (x : α) : α := ((Int.ceil x : Int) : α)

/-- The macro `__max`. -/
def cmax {β : Type} [LinearOrder β] (a b : β) : β := if a > b then a else b

/-- The macro `__min`. -/
def cmin {β : Type} [LinearOrder β] (a b : β) : β := if a < b then a else b

/-- The macro `TWOPI`. -/
def TWOPI : α := 6.28318530717959

/-- A real MATLAB array as the MEX interface presents it: `m` rows, `n` columns
(`mxGetN`), and the data in column-major order (`mxGetPr`). -/
structure MxArray (α : Type) where
  m : Nat
  n : Nat
  data : List α

/-- One call of the MEX function: the argument counts and the eight right-hand
side arguments (the first element of each scalar argument). -/
structure MexCall (α : Type) where
  nlhs : Nat
  nrhs : Nat
  px : MxArray α
  cf : α
  nrep : α
  binwidth : α
  reptime : α
  cohc : α
  cihc : α
  spont : α

/-- The input arguments of `SingleAN`, in the order of its parameter list. -/
structure ANArgs (α : Type) where
  px : List α
  cf : α
  nrep : Int
  binwidth : α
  totalstim : Int
  cohc : α
  cihc : α
  spont : α

/-- The part of `mexFunction` that precedes the call of `SingleAN` (lines 71-182):
the checks of the arguments, the computation of `totalstim` and the zero-padded
copy of the stimulus. -/
def mexFunctionArgs (c : MexCall α) : Except MexError (ANArgs α) :=
  if c.nrhs ≠ 8 then .error .nrhs else
  if c.nlhs ≠ 9 then .error .nlhs else
  let pxbins : Int := (c.px.n : Int)
  if pxbins = 1 then .error .pxNotRow else
  let binwidth := c.binwidth
  if binwidth < 0.002e-3 ∨ binwidth > 0.01e-3 then .error .binwidthRange else
  if cfloor (binwidth * 1e6) ≠ cceil (binwidth * 1e6) then .error .binwidthNotInteger else
  let cf := c.cf
  if (if binwidth > 0.005e-3 then cf < 80 ∨ cf > 20e3 else cf < 80 ∨ cf > 40e3) then
    .error .cfRange else
  let nrep : Int := cInt c.nrep
  if c.nrep ≠ (nrep : α) then .error .nrepNotInteger else
  if nrep < 1 then .error .nrepRange else
  let cohc := c.cohc
  if cohc < 0 ∨ cohc > 1 then .error .cohcRange else
  let cihc := c.cihc
  if cihc < 0 ∨ cihc > 1 then .error .cihcRange else
  let spont := c.spont
  if spont < 0 ∨ spont > 150 then .error .spontRange else
  let spont := if spont < 0.1 then 0.1 else spont
  let reptime := c.reptime
  let totalstim : Int := cInt (cfloor ((reptime * 1e3) / (binwidth * 1e3)))
  if totalstim < pxbins then .error .reptimeShort else
  if c.px.data.length < c.px.n then .error .outOfBounds else
  let px := c.px.data.take c.px.n ++ List.replicate (totalstim.toNat - c.px.n) 0
  .ok { px := px, cf := cf, nrep := nrep, binwidth := binwidth, totalstim := totalstim,
        cohc := cohc, cihc := cihc, spont := spont }


/-! ## The C math library and `complex.h` -/

/-- The functions of the C math library (`math.h`) that the model calls.  They are
a parameter of the embedding; `fabs`, `floor`, `ceil` and `fmod` are exact and are
defined directly. -/
structure Libm (α : Type) where
  exp : α → α
  log : α → α
  log10 : α → α
  pow : α → α → α
  sqrt : α → α
  sin : α → α
  cos : α → α
  tan : α → α
  atan : α → α
  tanh : α → α

/-- The facts about `pow` that the derived time constants rest on: a power of a
positive base is positive, and a base `≥ 1` raised to an exponent `≤ 0` is `≤ 1`. -/
structure Libm.PowLaws (L : Libm α) : Prop where
  pow_pos : ∀ x y : α, 0 < x → 0 < L.pow x y
  pow_le_one : ∀ x y : α, 1 ≤ x → y ≤ 0 → L.pow x y ≤ 1

/-- The C library `fmod` for a non-zero divisor: `x - y * trunc(x / y)`. -/
def fmod (x y : α) : α := x - y * ((cInt (x / y) : Int) : α)

/-- Modelled from the spec: the `COMPLEX` type of `complex.h`, which is not among the
sources: a pair of a real part `x` and an imaginary part `y`. -/
structure COMPLEX (α : Type) where
  x : α
  y : α

/-- Modelled from the spec: `compconj` of `complex.h`, the complex conjugate. -/
def compconj (z : COMPLEX α) : COMPLEX α := { x := z.x, y := -z.y }

/-- Modelled from the spec: `compmult` of `complex.h`, a real scalar times a complex
number. -/
def compmult (s : α) (z : COMPLEX α) : COMPLEX α := { x := s * z.x, y := s * z.y }

/-- Modelled from the spec: `compexp` of `complex.h`, the complex exponential
`exp(i*theta)`. -/
def compexp (L : Libm α) (theta : α) : COMPLEX α := { x := L.cos theta, y := L.sin theta }

/-- Modelled from the spec: `comp2sum` of `complex.h`, the sum of two complex numbers. -/
def comp2sum (a b : COMPLEX α) : COMPLEX α := { x := a.x + b.x, y := a.y + b.y }

/-- Modelled from the spec: `compprod` of `complex.h`, the product of two complex
numbers. -/
def compprod (a b : COMPLEX α) : COMPLEX α :=
  { x := a.x * b.x - a.y * b.y, y := a.x * b.y + a.y * b.x }

/-- Modelled from the spec: the macro `REAL` of `complex.h`, the real part. -/
def REAL (z : COMPLEX α) : α := z.x

/-! ## Arrays -/

/-- The value `a[i]` of an array of the allocated length `a.length`. -/
def readAt {β : Type} (a : List β) (i : Int) : Except MexError β :=
  if 0 ≤ i then
    match a.get? i.toNat with
    | some v => .ok v
    | none => .error .outOfBounds
  else .error .outOfBounds

/-- The assignment `a[i] = v` to an array of the allocated length `a.length`. -/
def writeAt {β : Type} (a : List β) (i : Int) (v : β) : Except MexError (List β) :=
  if 0 ≤ i ∧ i < (a.length : Int) then .ok (a.set i.toNat v) else .error .outOfBounds

/-- The element `a[i][j]` of a static two-dimensional array; the indices the source
uses are constants inside the declared bounds. -/
def get2 (a : List (List α)) (i j : Nat) : α := (a.getD i []).getD j 0

/-- The assignment `a[i][j] = v` to a static two-dimensional array. -/
def set2 (a : List (List α)) (i j : Nat) (v : α) : List (List α) :=
  a.set i ((a.getD i []).set j v)

/-! ## The stage functions -/

/-- The function `Get_tauwb`: the pair `(taumax[0], taumin[0])` it stores through its pointers. -/
def Get_tauwb (L : Libm α) (cf CAgain : α) (order : Int) : α × α :=
  let ratio := L.pow 10 (-CAgain / (20.0 * (order : α)))
  let Q10 := L.pow 10 (0.4708 * L.log10 (cf / 1e3) + 0.4664)
  let bw := cf / Q10
  let taumax := 2.0 / (TWOPI * bw)
  let taumin := taumax * ratio
  (taumax, taumin)

/-- The function `Get_taubm`: the triple `(bmTaumax[0], bmTaumin[0], ratio[0])` it stores through
its pointers. -/
def Get_taubm (L : Libm α) (_cf CAgain taumax : α) : α × α × α :=
  let bwfactor : α := 0.7
  let factor : α := 2.5
  let ratio := L.pow 10 (-CAgain / (20.0 * factor))
  let bmTaumax := taumax / bwfactor
  let bmTaumin := bmTaumax * ratio
  (bmTaumax, bmTaumin, ratio)

/-- The static variables of `C1ChirpFilt` (and, separately, of `C2ChirpFilt`):
`C1gain_norm`, `C1initphase`, `C1input[12][4]`, `C1output[12][4]`. -/
structure ChirpStatics (α : Type) where
  gain_norm : α
  initphase : α
  input : List (List α)
  output : List (List α)

/-- The local array `p[11]` of the chirp filters once `p[1].x` is fixed: `p[1]`,
`p[5]`, `p[3]`, their conjugates `p[2]`, `p[4]`, `p[6]`, and the copies `p[7..10]`.
The entry `p[0]` is never read. -/
def chirpPoles (p1x ipw rpa ipb : α) : List (COMPLEX α) :=
  let p1 : COMPLEX α := { x := p1x, y := ipw }
  let p5 : COMPLEX α := { x := p1.x - rpa, y := p1.y - ipb }
  let p3 : COMPLEX α := { x := (p1.x + p5.x) * 0.5, y := (p1.y + p5.y) * 0.5 }
  let p2 := compconj p1
  let p4 := compconj p3
  let p6 := compconj p5
  [{ x := 0, y := 0 }, p1, p2, p3, p4, p5, p6, p1, p2, p5, p6]

/-- The entry `p[r]` of a static or local array of `COMPLEX`; the indices the source
uses are inside the declared bounds. -/
def cget (p : List (COMPLEX α)) (r : Nat) : COMPLEX α := p.getD r { x := 0, y := 0 }

/-- The block of the chirp filters executed at `n == 0`: initial phase, cleared delay
lines, gain normalisation. -/
def chirpInit (L : Libm α) (sigma0 ipw rpa ipb rzero CF : α) (half_order_pole order_of_pole : Nat)
    (s : ChirpStatics α) : ChirpStatics α :=
  let p := chirpPoles (-sigma0) ipw rpa ipb
  let initphase := (List.range' 1 half_order_pole).foldl (fun acc i =>
    let preal := (cget p (i * 2 - 1)).x
    let pimg := (cget p (i * 2 - 1)).y
    acc + L.atan (CF / (-rzero)) - L.atan ((CF - pimg) / (-preal))
      - L.atan ((CF + pimg) / (-preal))) 0
  let io := (List.range' 1 (half_order_pole + 1)).foldl (fun (acc : List (List α) × List (List α)) i =>
    let inp := set2 (set2 (set2 acc.1 i 3 0) i 2 0) i 1 0
    let outp := set2 (set2 (set2 acc.2 i 3 0) i 2 0) i 1 0
    (inp, outp)) (s.input, s.output)
  let gain_norm := (List.range' 1 order_of_pole).foldl (fun acc r =>
    acc * (L.pow (CF - (cget p r).y) 2 + (cget p r).x * (cget p r).x)) 1.0
  { gain_norm := gain_norm, initphase := initphase, input := io.1, output := io.2 }

/-- The phase of the current poles (the loop after the pole update). -/
def chirpPhase (L : Libm α) (p : List (COMPLEX α)) (CF : α) (half_order_pole : Nat) : α :=
  (List.range' 1 half_order_pole).foldl (fun acc i =>
    let preal := (cget p (i * 2 - 1)).x
    let pimg := (cget p (i * 2 - 1)).y
    acc - L.atan ((CF - pimg) / (-preal)) - L.atan ((CF + pimg) / (-preal))) 0.0

/-- The time loop of the chirp filters: the input shift and the cascade of
`half_order_pole` second-order sections.  The result is the updated pair
(`input`, `output`). -/
def chirpCascade (L : Libm α) (p : List (COMPLEX α)) (fs_bilinear rzero x : α)
    (half_order_pole : Nat) (input output : List (List α)) : List (List α) × List (List α) :=
  let input := set2 input 1 3 (get2 input 1 2)
  let input := set2 input 1 2 (get2 input 1 1)
  let input := set2 input 1 1 x
  (List.range' 1 half_order_pole).foldl (fun (acc : List (List α) × List (List α)) i =>
    let input := acc.1
    let output := acc.2
    let preal := (cget p (i * 2 - 1)).x
    let pimg := (cget p (i * 2 - 1)).y
    let temp := L.pow (fs_bilinear - preal) 2 + L.pow pimg 2
    let dy := get2 input i 1 * (fs_bilinear - rzero) - 2 * rzero * get2 input i 2
      - (fs_bilinear + rzero) * get2 input i 3
      + 2 * get2 output i 1 * (fs_bilinear * fs_bilinear - preal * preal - pimg * pimg)
      - get2 output i 2 * ((fs_bilinear + preal) * (fs_bilinear + preal) + pimg * pimg)
    let dy := dy / temp
    let input := set2 input (i + 1) 3 (get2 output i 2)
    let input := set2 input (i + 1) 2 (get2 output i 1)
    let input := set2 input (i + 1) 1 dy
    let output := set2 output i 2 (get2 output i 1)
    let output := set2 output i 1 dy
    (input, output)) (input, output)

/-- The function `C1ChirpFilt`: the signal-path C1 filter.  Returns the filter output and the
updated static variables, or the error of one of its two checks. -/
def C1ChirpFilt (L : Libm α) (s : ChirpStatics α) (x binwidth cf : α) (n : Int)
    (taumax rsigma : α) : Except MexError (α × ChirpStatics α) :=
  let sigma0 := 1 / taumax
  let ipw := 1.01 * cf * TWOPI - 50
  let ipb := 0.2343 * TWOPI * cf - 1104
  let rpa := L.pow 10 (L.log10 cf * 0.9 + 0.55) + 2000
  let pzero := L.pow 10 (L.log10 cf * 0.7 + 1.6) + 500
  let order_of_pole : Nat := 10
  let half_order_pole : Nat := order_of_pole / 2
  let order_of_zero : Nat := half_order_pole
  let fs_bilinear := TWOPI * cf / L.tan (TWOPI * cf * binwidth / 2)
  let rzero := -pzero
  let CF := TWOPI * cf
  let s := if n = 0 then chirpInit L sigma0 ipw rpa ipb rzero CF half_order_pole order_of_pole s
    else s
  let norm_gain := L.sqrt s.gain_norm / L.pow (L.sqrt (CF * CF + rzero * rzero)) (order_of_zero : α)
  let p1x := -sigma0 - rsigma
  if p1x > 0.0 then .error .c1Unstable else
  let p := chirpPoles p1x ipw rpa ipb
  let phase := chirpPhase L p CF half_order_pole
  let rzero := -CF / L.tan ((s.initphase - phase) / (order_of_zero : α))
  if rzero > 0.0 then .error .c1Zeros else
  let io := chirpCascade L p fs_bilinear rzero x half_order_pole s.input s.output
  let dy := get2 io.2 half_order_pole 1 * norm_gain
  let c1filterout := dy / 4.0
  .ok (c1filterout, { s with input := io.1, output := io.2 })

/-- The function `C2ChirpFilt`: the parallel-path C2 filter.  Returns the filter output and the
updated static variables, or the error of one of its two checks. -/
def C2ChirpFilt (L : Libm α) (s : ChirpStatics α) (xx binwidth cf : α) (n : Int)
    (taumax fcohc : α) : Except MexError (α × ChirpStatics α) :=
  let sigma0 := 1 / taumax
  let ipw := 1.01 * cf * TWOPI - 50
  let ipb := 0.2343 * TWOPI * cf - 1104
  let rpa := L.pow 10 (L.log10 cf * 0.9 + 0.55) + 2000
  let pzero := L.pow 10 (L.log10 cf * 0.7 + 1.6) + 500
  let order_of_pole : Nat := 10
  let half_order_pole : Nat := order_of_pole / 2
  let order_of_zero : Nat := half_order_pole
  let fs_bilinear := TWOPI * cf / L.tan (TWOPI * cf * binwidth / 2)
  let rzero := -pzero
  let CF := TWOPI * cf
  let s := if n = 0 then chirpInit L sigma0 ipw rpa ipb rzero CF half_order_pole order_of_pole s
    else s
  let norm_gain := L.sqrt s.gain_norm / L.pow (L.sqrt (CF * CF + rzero * rzero)) (order_of_zero : α)
  let p1x := -sigma0 * fcohc
  if p1x > 0.0 then .error .c2Unstable else
  let p := chirpPoles p1x ipw rpa ipb
  let phase := chirpPhase L p CF half_order_pole
  let rzero := -CF / L.tan ((s.initphase - phase) / (order_of_zero : α))
  if rzero > 0.0 then .error .c2Zeros else
  let io := chirpCascade L p fs_bilinear rzero xx half_order_pole s.input s.output
  let dy := get2 io.2 half_order_pole 1 * norm_gain
  let c2filterout := dy / 4.0
  .ok (c2filterout, { s with input := io.1, output := io.2 })

/-- The static variables of `WbGammaTone`: `wbphase`, `wbgtf[4]`, `wbgtfl[4]`. -/
structure WbStatics (α : Type) where
  wbphase : α
  wbgtf : List (COMPLEX α)
  wbgtfl : List (COMPLEX α)

/-- The function `WbGammaTone`: the control-path wideband gammatone filter.  Returns the output
and the updated static variables.  (The source calls it with `order = 3`, inside the
declared length 4 of its arrays.) -/
def WbGammaTone (L : Libm α) (s : WbStatics α) (x binwidth centerfreq : α) (n : Int)
    (tau gain : α) (order : Nat) : α × WbStatics α :=
  let s : WbStatics α :=
    if n = 0 then
      let z := compmult 0 (compexp L 0)
      let ff := (List.range (order + 1)).foldl
        (fun (acc : List (COMPLEX α) × List (COMPLEX α)) i => (acc.1.set i z, acc.2.set i z))
        (s.wbgtfl, s.wbgtf)
      { wbphase := 0, wbgtfl := ff.1, wbgtf := ff.2 }
    else s
  let delta_phase := -TWOPI * centerfreq * binwidth
  let wbphase := s.wbphase + delta_phase
  let dtmp := tau * 2.0 / binwidth
  let c1LP := (dtmp - 1) / (dtmp + 1)
  let c2LP := 1.0 / (dtmp + 1)
  let wbgtf := s.wbgtf.set 0 (compmult x (compexp L wbphase))
  let wbgtf := (List.range' 1 order).foldl (fun (acc : List (COMPLEX α)) j =>
    acc.set j (comp2sum
      (compmult (c2LP * gain) (comp2sum (cget acc (j - 1)) (cget s.wbgtfl (j - 1))))
      (compmult c1LP (cget s.wbgtfl j)))) wbgtf
  let out := REAL (compprod (compexp L (-wbphase)) (cget wbgtf order))
  let wbgtfl := (List.range (order + 1)).foldl
    (fun (acc : List (COMPLEX α)) i => acc.set i (cget wbgtf i)) s.wbgtfl
  (out, { wbphase := wbphase, wbgtf := wbgtf, wbgtfl := wbgtfl })

/-- The function `gain_groupdelay`: the pair of the returned gain and the group delay stored
through `grdelay`. -/
def gain_groupdelay (L : Libm α) (binwidth centerfreq cf tau : α) : α × Int :=
  let tmpcos := L.cos (TWOPI * (centerfreq - cf) * binwidth)
  let dtmp2 := tau * 2.0 / binwidth
  let c1LP := (dtmp2 - 1) / (dtmp2 + 1)
  let c2LP := 1.0 / (dtmp2 + 1)
  let tmp1 := 1 + c1LP * c1LP - 2 * c1LP * tmpcos
  let tmp2 := 2 * c2LP * c2LP * (1 + tmpcos)
  let wb_gain := L.pow (tmp1 / tmp2) (1.0 / 2.0)
  let grdelay := cInt (cfloor (0.5 - (c1LP * c1LP - c1LP * tmpcos)
    / (1 + c1LP * c1LP - 2 * c1LP * tmpcos)))
  (wb_gain, grdelay)

/-- The function `delay_cat`: the delay (basilar membrane, synapse, ...) for the cat. -/
def delay_cat (L : Libm α) (cf : α) : α :=
  let A0 : α := 3.0
  let A1 : α := 12.5
  let x := 11.9 * L.log10 (0.80 + cf / 456.0)
  let delay := A0 * L.exp (-x / A1) * 1e-3
  delay

/-- The function `Boltzman`: the OHC nonlinear function. -/
def Boltzman (L : Libm α) (x asym s0 s1 x1 : α) : α :=
  let shift := 1.0 / (1.0 + asym)
  let x0 := s0 * L.log ((1.0 / shift - 1) / (1 + L.exp (x1 / s1)))
  let out1 := 1.0 / (1.0 + L.exp (-(x - x0) / s0) * (1.0 + L.exp (-(x - x1) / s1))) - shift
  let out := out1 / (1 - shift)
  out

/-- The static variables of `OhcLowPass` (`ohc[4]`, `ohcl[4]`) and of `IhcLowPass`
(`ihc[8]`, `ihcl[8]`). -/
structure LowPassStatics (α : Type) where
  cur : List α
  last : List α

/-- The body shared, word for word, by `OhcLowPass` and `IhcLowPass`. -/
def lowPassBody (s : LowPassStatics α) (x binwidth Fc : α) (n : Int) (gain : α) (order : Nat) :
    α × LowPassStatics α :=
  let s : LowPassStatics α :=
    if n = 0 then
      let cl := (List.range (order + 1)).foldl
        (fun (acc : List α × List α) i => (acc.1.set i 0, acc.2.set i 0)) (s.cur, s.last)
      { cur := cl.1, last := cl.2 }
    else s
  let c := 2.0 / binwidth
  let c1LP := (c - TWOPI * Fc) / (c + TWOPI * Fc)
  let c2LP := TWOPI * Fc / (TWOPI * Fc + c)
  let cur := s.cur.set 0 (x * gain)
  let cur := (List.range order).foldl (fun (acc : List α) i =>
    acc.set (i + 1) (c1LP * s.last.getD (i + 1) 0 + c2LP * (acc.getD i 0 + s.last.getD i 0))) cur
  let last := (List.range (order + 1)).foldl
    (fun (acc : List α) j => acc.set j (cur.getD j 0)) s.last
  (cur.getD order 0, { cur := cur, last := last })

/-- The function `OhcLowPass`: the low-pass filter after the OHC nonlinearity.  (Called with
`order = 2`, inside the declared length 4.) -/
def OhcLowPass (s : LowPassStatics α) (x binwidth Fc : α) (n : Int) (gain : α) (order : Nat) :
    α × LowPassStatics α :=
  lowPassBody s x binwidth Fc n gain order

/-- The function `IhcLowPass`: the IHC low-pass filter.  (Called with `order = 7`, inside the
declared length 8.) -/
def IhcLowPass (s : LowPassStatics α) (x binwidth Fc : α) (n : Int) (gain : α) (order : Nat) :
    α × LowPassStatics α :=
  lowPassBody s x binwidth Fc n gain order

/-- The function `NLafterohc`: the nonlinear function after the OHC low-pass filter. -/
def NLafterohc (L : Libm α) (x taumin taumax asym : α) : α :=
  let minR : α := 0.05
  let R := taumin / taumax
  let minR := if R < minR then 0.5 * R else minR
  let dc := (asym - 1) / (asym + 1.0) / 2.0 - minR
  let R1 := R - minR
  let s0 := -dc / L.log (R1 / (1 - minR))
  let x1 := |x|
  let out := taumax * (minR + (1.0 - minR) * L.exp (-x1 / s0))
  let out := if out < taumin then taumin else out
  let out := if out > taumax then taumax else out
  out

/-- The function `NLogarithm`: the IHC logarithmic transduction function. -/
def NLogarithm (L : Libm α) (x slope asym : α) : α :=
  let corner : α := 80
  let strength := 20.0e6 / L.pow 10 (corner / 20)
  let xx := L.log (1.0 + strength * |x|) * slope
  if x < 0 then
    let splx := 20 * L.log10 (-x / 20e-6)
    let asym_t := asym - (asym - 1) / (1 + L.exp (splx / 5.0))
    let xx := -1 / asym_t * xx
    xx
  else xx

/-- The static variables of `Synapse`. -/
structure SynapseStatics (α : Type) where
  synstrength : α
  synslope : α
  CI : α
  CL : α
  PG : α
  CG : α
  VL : α
  PL : α
  VI : α

/-- The block of `Synapse` executed at `n == 0`: the calibration of the static
variables from `spont` and `cf`.  The local `vsat` is assigned by the source only when
`kslope >= 0`; `vsat0` is the value the unassigned local holds otherwise. -/
def synapseInit (L : Libm α) (cf spont vsat0 : α) : SynapseStatics α :=
  let cf_factor :=
    if spont ≥ 50 then cmin 1e3 (L.pow 10 (0.29 * cf / 1e3 + 0.4))
    else
      let cfslope := L.pow spont 0.19 * L.pow 10 (-0.87)
      let cfconst := 0.1 * L.pow (L.log10 spont) 2 + 0.56 * L.log10 spont - 0.84
      let cfsat := L.pow 10 (cfslope * 8965.5 / 1e3 + cfconst)
      cmin cfsat (L.pow 10 (cfslope * cf / 1e3 + cfconst))
  let PImax : α := 0.6
  let kslope := (1 + 50.0) / (5 + 50.0) * cf_factor * 20.0 * PImax
  let Ass : α := 350
  let Asp := spont
  let TauR : α := 2e-3
  let TauST : α := 60e-3
  let Ar_Ast : α := 6
  let PTS : α := 1.0 + 9.0 * 50.0 / (9.0 + 50.0)
  let Aon := PTS * Ass
  let AR := (Aon - Ass) * Ar_Ast / (1 + Ar_Ast)
  let AST := Aon - Ass - AR
  let Prest := PImax / Aon * Asp
  let CG := (Asp * (Aon - Asp)) / (Aon * Prest * (1 - Asp / Ass))
  let gamma1 := CG / Asp
  let gamma2 := CG / Ass
  let k1 := -1 / TauR
  let k2 := -1 / TauST
  let VI0 := (1 - PImax / Prest)
    / (gamma1 * (AR * (k1 - k2) / CG / PImax + k2 / Prest / gamma1 - k2 / PImax / gamma2))
  let VI1 := (1 - PImax / Prest)
    / (gamma1 * (AST * (k2 - k1) / CG / PImax + k1 / Prest / gamma1 - k1 / PImax / gamma2))
  let VI := (VI0 + VI1) / 2
  let alpha := gamma2 / k1 / k2
  let beta := -(k1 + k2) * alpha
  let theta1 := alpha * PImax / VI
  let theta2 := VI / PImax
  let theta3 := gamma2 - 1 / PImax
  let PL := ((beta - theta2 * theta3) / theta1 - 1) * PImax
  let PG := 1 / (theta3 - 1 / PL)
  let VL := theta1 * PL * PG
  let CI := Asp / Prest
  let CL := CI * (Prest + PL) / PL
  let vsat := if kslope ≥ 0 then kslope + Prest else vsat0
  let tmpst := L.log 2 * vsat / Prest
  let synstrength := if tmpst < 400 then L.log (L.exp tmpst - 1) else tmpst
  let synslope := Prest / L.log 2 * synstrength
  let _spont : α := if spont < 0 then 50 else spont
  { synstrength := synstrength, synslope := synslope, CI := CI, CL := CL, PG := PG, CG := CG,
    VL := VL, PL := PL, VI := VI }

/-- The function `Synapse`: the synapse model.  Returns the output rate and the updated static
variables. -/
def Synapse (L : Libm α) (vsat0 : α) (s : SynapseStatics α) (x binwidth cf spont : α) (n : Int) :
    α × SynapseStatics α :=
  let s := if n = 0 then synapseInit L cf spont vsat0 else s
  let tmp := s.synstrength * x
  let tmp := if tmp < 400 then L.log (1 + L.exp tmp) else tmp
  let PPI := s.synslope / s.synstrength * tmp
  let CIlast := s.CI
  let CI := s.CI + (binwidth / s.VI) * (-PPI * s.CI + s.PL * (s.CL - s.CI))
  let CL := s.CL + (binwidth / s.VL) * (-s.PL * (s.CL - CIlast) + s.PG * (s.CG - s.CL))
  let temp := 1 / s.PG + 1 / s.PL + 1 / PPI
  let CI' := if CI < 0 then s.CG / (PPI * temp) else CI
  let CL' := if CI < 0 then CI' * (PPI + s.PL) / s.PL else CL
  let out := CI' * PPI
  (out, { s with CI := CI', CL := CL' })

/-! ## `SingleAN` -/

/-- The nine output arrays of the MEX function, in the order of `plhs`. -/
structure Outputs (α : Type) where
  timeout : List α
  meout : List α
  c1filterout : List α
  c2filterout : List α
  c1vihc : List α
  c2vihc : List α
  ihcout : List α
  synout : List α
  psth : List α

/-- The static variables of all stage functions.  They outlive a call, so a call
starts from whatever an earlier call left in them. -/
structure Statics (α : Type) where
  c1 : ChirpStatics α
  c2 : ChirpStatics α
  wb : WbStatics α
  ohc : LowPassStatics α
  ihc : LowPassStatics α
  syn : SynapseStatics α

/-- Modelled from the spec: `SpikeGenerator` of `spikegen.h`, which is not among the
sources.  It consumes the delay-aligned rate sequence `synout`, `binwidth`, `totalstim`
and `nrep`, and the model takes the ordered spike times it stores in `sptime` as its
result; the returned count `nspikes` is their number. -/
abbrev SpikeGen (α : Type) := List α → α → Int → α → List α

/-- The quantities `SingleAN` derives before the sample loop (lines 279-322) and does
not change afterwards. -/
structure ANConsts (α : Type) where
  megainmax : α
  centerfreq : α
  Taumax : α
  Taumin : α
  bmTaumax : α
  bmTaumin : α
  ratiobm : α
  bmTaubm : α
  taubm : α
  ratiowb : α
  fcohc : α
  TauWBMax : α
  TauWBMin : α
  wborder : Nat
  ohcasym : α
  ihcasym : α
  m11 : α
  m12 : α
  m21 : α
  m22 : α
  m23 : α
  m24 : α
  m25 : α
  m26 : α
  m31 : α
  m32 : α
  m33 : α
  m34 : α
  m35 : α
  m36 : α

/-- The cochlear-amplifier gain of `SingleAN` (lines 289-290), with its floor of 15. -/
def SingleAN_CAgain (L : Libm α) (cf : α) : α :=
  let CAgain := 52 / 2 * (L.tanh (2.2 * L.log10 (cf / 600) + 0.15) + 1)
  if CAgain < 15 then 15 else CAgain

/-- Lines 279-322 of `SingleAN`: the derived constants. -/
def SingleAN_consts (L : Libm α) (cf binwidth cohc : α) : ANConsts α :=
  let megainmax : α := 41.1405
  let bmplace := 11.9 * L.log10 (0.80 + cf / 456.0)
  let centerfreq := 456.0 * (L.pow 10 ((bmplace + 1.2) / 11.9) - 0.80)
  let CAgain := SingleAN_CAgain L cf
  let bmorder : Int := 3
  let tw := Get_tauwb L cf CAgain bmorder
  let Taumax := tw.1
  let Taumin := tw.2
  let tb := Get_taubm L cf CAgain Taumax
  let bmTaumax := tb.1
  let bmTaumin := tb.2.1
  let ratiobm := tb.2.2
  let taubm := cohc * (Taumax - Taumin) + Taumin
  let ratiowb := Taumin / Taumax
  let bmTaubm := cohc * (bmTaumax - bmTaumin) + bmTaumin
  let fcohc := bmTaumax / bmTaubm
  let wborder : Nat := 3
  let TauWBMax := Taumin + 0.2 * (Taumax - Taumin)
  let TauWBMin := TauWBMax / Taumax * Taumin
  let ohcasym : α := 7.0
  let ihcasym : α := 3.0
  let fp : α := 1e3
  let C := TWOPI * fp / L.tan (TWOPI / 2 * fp * binwidth)
  { megainmax := megainmax, centerfreq := centerfreq, Taumax := Taumax, Taumin := Taumin,
    bmTaumax := bmTaumax, bmTaumin := bmTaumin, ratiobm := ratiobm, bmTaubm := bmTaubm,
    taubm := taubm, ratiowb := ratiowb, fcohc := fcohc,
    TauWBMax := TauWBMax, TauWBMin := TauWBMin, wborder := wborder,
    ohcasym := ohcasym, ihcasym := ihcasym,
    m11 := C / (C + 693.48), m12 := (693.48 - C) / C,
    m21 := 1 / (L.pow C 2 + 11053 * C + 1.163e8), m22 := -2 * L.pow C 2 + 2.326e8,
    m23 := L.pow C 2 - 11053 * C + 1.163e8,
    m24 := L.pow C 2 + 1356.3 * C + 7.4417e8, m25 := -2 * L.pow C 2 + 14.8834e8,
    m26 := L.pow C 2 - 1356.3 * C + 7.4417e8,
    m31 := 1 / (L.pow C 2 + 4620 * C + 909059944), m32 := -2 * L.pow C 2 + 2 * 909059944,
    m33 := L.pow C 2 - 4620 * C + 909059944,
    m34 := 5.7585e5 * C + 7.1665e7, m35 := 14.333e7, m36 := 7.1665e7 - 5.7585e5 * C }

/-- The variables of `SingleAN` that the sample loop changes: the temporary arrays, the
two output arrays the loop writes itself (`meout`, `timeout`), the control-path
variables, and the static variables of the stage functions. -/
structure ANLoop (α : Type) where
  mey1 : List α
  mey2 : List α
  mey3 : List α
  meout : List α
  timeout : List α
  grd : List Int
  tmpgain : List α
  lasttmpgain : α
  wbgain : α
  tauwb : α
  c1filterouttmp : List α
  c2filterouttmp : List α
  c1vihctmp : List α
  c2vihctmp : List α
  ihcouttmp : List α
  synouttmp : List α
  statics : Statics α

/-- The middle-ear section of the loop body (lines 326-347) at sample `n`: the three
stage values `mey1[n]`, `mey2[n]`, `mey3[n]`. -/
def SingleAN_middleEar (k : ANConsts α) (px mey1 mey2 mey3 : List α) (n : Nat) :
    Except MexError (α × α × α) :=
  if n = 0 then do
    let px0 ← readAt px 0
    let y1 := k.m11 * px0
    let y2 := y1 * k.m24 * k.m21
    let y3 := y2 * k.m34 * k.m31
    pure (y1, y2, y3)
  else if n = 1 then do
    let px1 ← readAt px 1
    let px0 ← readAt px 0
    let mey1_0 ← readAt mey1 0
    let mey2_0 ← readAt mey2 0
    let mey3_0 ← readAt mey3 0
    let y1 := k.m11 * (-k.m12 * mey1_0 + px1 - px0)
    let y2 := k.m21 * (-k.m22 * mey2_0 + k.m24 * y1 + k.m25 * mey1_0)
    let y3 := k.m31 * (-k.m32 * mey3_0 + k.m34 * y2 + k.m35 * mey2_0)
    pure (y1, y2, y3)
  else do
    let pxn ← readAt px n
    let pxn1 ← readAt px ((n : Int) - 1)
    let mey1_1 ← readAt mey1 ((n : Int) - 1)
    let mey1_2 ← readAt mey1 ((n : Int) - 2)
    let mey2_1 ← readAt mey2 ((n : Int) - 1)
    let mey2_2 ← readAt mey2 ((n : Int) - 2)
    let mey3_1 ← readAt mey3 ((n : Int) - 1)
    let mey3_2 ← readAt mey3 ((n : Int) - 2)
    let y1 := k.m11 * (-k.m12 * mey1_1 + pxn - pxn1)
    let y2 := k.m21 * (-k.m22 * mey2_1 - k.m23 * mey2_2 + k.m24 * y1 + k.m25 * mey1_1
      + k.m26 * mey1_2)
    let y3 := k.m31 * (-k.m32 * mey3_1 - k.m33 * mey3_2 + k.m34 * y2 + k.m35 * mey2_1
      + k.m36 * mey2_2)
    pure (y1, y2, y3)

/-- One pass through the body of the sample loop of `SingleAN` (lines 326-399), for
the sample index `n`. -/
def SingleAN_sample (L : Libm α) (vsat0 : α) (a : ANArgs α) (k : ANConsts α) (st : ANLoop α)
    (n : Nat) : Except MexError (ANLoop α) := do
  let y ← SingleAN_middleEar k a.px st.mey1 st.mey2 st.mey3 n
  let mey1 ← writeAt st.mey1 n y.1
  let mey2 ← writeAt st.mey2 n y.2.1
  let mey3 ← writeAt st.mey3 n y.2.2
  let meout_n := y.2.2 / k.megainmax
  let meout ← writeAt st.meout n meout_n
  let timeout ← writeAt st.timeout n ((n : α) * a.binwidth)
  let wb := WbGammaTone L st.statics.wb meout_n a.binwidth k.centerfreq n st.tauwb st.wbgain
    k.wborder
  let wbout1 := wb.1
  let wbout := L.pow (st.tauwb / k.TauWBMax) (k.wborder : α) * wbout1 * 10e3
    * cmax 1 (a.cf / 5e3)
  let ohcnonlinout := Boltzman L wbout k.ohcasym 12.0 5.0 5.0
  let oh := OhcLowPass st.statics.ohc ohcnonlinout a.binwidth 600 n 1.0 2
  let ohcout := oh.1
  let tmptauc1 := NLafterohc L ohcout k.bmTaumin k.bmTaumax k.ohcasym
  let tauc1 := a.cohc * (tmptauc1 - k.bmTaumin) + k.bmTaumin
  let rsigma := 1 / tauc1 - 1 / k.bmTaumax
  let _ ← (if 1 / tauc1 < 0.0 then Except.error MexError.polesUnstable else Except.ok ())
  let tauwb := k.TauWBMax + (tauc1 - k.bmTaumax) * (k.TauWBMax - k.TauWBMin)
    / (k.bmTaumax - k.bmTaumin)
  let gg := gain_groupdelay L a.binwidth k.centerfreq a.cf tauwb
  let wb_gain := gg.1
  let grd ← writeAt st.grd n gg.2
  let tmpgain ← (if gg.2 + (n : Int) < a.totalstim then writeAt st.tmpgain (gg.2 + (n : Int)) wb_gain
    else Except.ok st.tmpgain)
  let tmpgain_n ← readAt tmpgain n
  let tmpgain ← (if tmpgain_n = 0 then writeAt tmpgain n st.lasttmpgain else Except.ok tmpgain)
  let wbgain ← readAt tmpgain n
  let lasttmpgain := wbgain
  let c1 ← C1ChirpFilt L st.statics.c1 meout_n a.binwidth a.cf n k.bmTaumax rsigma
  let c1filterouttmp ← writeAt st.c1filterouttmp n c1.1
  let c2 ← C2ChirpFilt L st.statics.c2 meout_n a.binwidth a.cf n k.bmTaumax (1 / k.ratiobm)
  let c2filterouttmp ← writeAt st.c2filterouttmp n c2.1
  let c1vihc_n := NLogarithm L (a.cihc * c1.1) 0.1 k.ihcasym
  let c1vihctmp ← writeAt st.c1vihctmp n c1vihc_n
  let c2vihc_n := -NLogarithm L (c2.1 * |c2.1| * a.cf / 10 * a.cf / 2e3) 0.2 1.0
  let c2vihctmp ← writeAt st.c2vihctmp n c2vihc_n
  let ih := IhcLowPass st.statics.ihc (c1vihc_n + c2vihc_n) a.binwidth 3800 n 1.0 7
  let ihcouttmp ← writeAt st.ihcouttmp n ih.1
  let sy := Synapse L vsat0 st.statics.syn ih.1 a.binwidth a.cf a.spont n
  let synouttmp ← writeAt st.synouttmp n sy.1
  pure { mey1 := mey1, mey2 := mey2, mey3 := mey3, meout := meout, timeout := timeout,
         grd := grd, tmpgain := tmpgain, lasttmpgain := lasttmpgain, wbgain := wbgain,
         tauwb := tauwb, c1filterouttmp := c1filterouttmp, c2filterouttmp := c2filterouttmp,
         c1vihctmp := c1vihctmp, c2vihctmp := c2vihctmp, ihcouttmp := ihcouttmp,
         synouttmp := synouttmp,
         statics := { c1 := c1.2, c2 := c2.2, wb := wb.2, ohc := oh.2, ihc := ih.2, syn := sy.2 } }

/-- The allocations and assignments of `SingleAN` before the sample loop (lines
263-309): zeroed temporary arrays of length `totalstim`, the initial `tauwb` and gain,
and `tmpgain[0] = wbgain`. -/
def SingleAN_start (L : Libm α) (a : ANArgs α) (k : ANConsts α) (s : Statics α)
    (out : Outputs α) : Except MexError (ANLoop α) := do
  let zeros : List α := List.replicate a.totalstim.toNat 0
  let tauwb := k.TauWBMax + (k.bmTaubm - k.bmTaumax) * (k.TauWBMax - k.TauWBMin)
    / (k.bmTaumax - k.bmTaumin)
  let gg := gain_groupdelay L a.binwidth k.centerfreq a.cf tauwb
  let wbgain := gg.1
  let tmpgain ← writeAt zeros 0 wbgain
  pure { mey1 := zeros, mey2 := zeros, mey3 := zeros, meout := out.meout, timeout := out.timeout,
         grd := List.replicate a.totalstim.toNat 0, tmpgain := tmpgain, lasttmpgain := wbgain,
         wbgain := wbgain, tauwb := tauwb, c1filterouttmp := zeros, c2filterouttmp := zeros,
         c1vihctmp := zeros, c2vihctmp := zeros, ihcouttmp := zeros, synouttmp := zeros,
         statics := s }

/-- The sample loop of `SingleAN` run for the sample indices `0, ..., m-1`. -/
def SingleAN_loop (L : Libm α) (vsat0 : α) (a : ANArgs α) (k : ANConsts α) (st : ANLoop α)
    (m : Nat) : Except MexError (ANLoop α) :=
  (List.range m).foldlM (SingleAN_sample L vsat0 a k) st

/-- The variables of `SingleAN` after its allocations and the first `m` passes of the
sample loop. -/
def SingleAN_samples (L : Libm α) (vsat0 : α) (s : Statics α) (a : ANArgs α) (out : Outputs α)
    (m : Nat) : Except MexError (ANLoop α) := do
  let k := SingleAN_consts L a.cf a.binwidth a.cohc
  let st0 ← SingleAN_start L a k s out
  SingleAN_loop L vsat0 a k st0 m

/-- The sample count `delaypoint` of the path delay (lines 405-406). -/
def SingleAN_delaypoint (L : Libm α) (cf binwidth : α) : Int :=
  let delay := delay_cat L cf
  cmax 0 (cInt (cceil (delay / binwidth)))

/-- One pass through the body of the second delay loop (lines 414-419), for the
index `i`. -/
def SingleAN_shift (delaypoint : Int) (st : ANLoop α) (out : Outputs α) (i : Nat) :
    Except MexError (Outputs α) := do
  let v1 ← readAt st.c1filterouttmp ((i : Int) - delaypoint)
  let c1filterout ← writeAt out.c1filterout i v1
  let v2 ← readAt st.c2filterouttmp ((i : Int) - delaypoint)
  let c2filterout ← writeAt out.c2filterout i v2
  let v3 ← readAt st.c1vihctmp ((i : Int) - delaypoint)
  let c1vihc ← writeAt out.c1vihc i v3
  let v4 ← readAt st.c2vihctmp ((i : Int) - delaypoint)
  let c2vihc ← writeAt out.c2vihc i v4
  let v5 ← readAt st.ihcouttmp ((i : Int) - delaypoint)
  let ihcout ← writeAt out.ihcout i v5
  let v6 ← readAt st.synouttmp ((i : Int) - delaypoint)
  let synout ← writeAt out.synout i v6
  pure { out with c1filterout := c1filterout, c2filterout := c2filterout, c1vihc := c1vihc,
                  c2vihc := c2vihc, ihcout := ihcout, synout := synout }

/-- The delay adjustment of `SingleAN` (lines 403-420): `synout[i] = spont` for
`i < delaypoint`, then the shifted copies for `delaypoint ≤ i < totalstim`. -/
def SingleAN_delay (L : Libm α) (a : ANArgs α) (st : ANLoop α) (out : Outputs α) :
    Except MexError (Outputs α) := do
  let delaypoint := SingleAN_delaypoint L a.cf a.binwidth
  let synout ← (List.range delaypoint.toNat).foldlM
    (fun (syn : List α) (i : Nat) => writeAt syn (i : Int) a.spont) out.synout
  let out : Outputs α := { out with meout := st.meout, timeout := st.timeout, synout := synout }
  (List.range' delaypoint.toNat (a.totalstim - delaypoint).toNat).foldlM
    (SingleAN_shift delaypoint st) out

/-- The spike generation and the folding of the spike times into the PSTH (lines
276, 424-430).  The buffer `sptime` holds `ceil(totalstim*binwidth*nrep/0.00075)`
spike times. -/
def SingleAN_psth (G : SpikeGen α) (a : ANArgs α) (out : Outputs α) :
    Except MexError (Outputs α) := do
  let capacity : Int := cInt (cceil ((a.totalstim : α) * a.binwidth * (a.nrep : α) / 0.00075))
  let sptime := G out.synout a.binwidth a.totalstim (a.nrep : α)
  let _ ← (if capacity < (sptime.length : Int) then Except.error MexError.outOfBounds
    else Except.ok ())
  let psth ← sptime.foldlM (fun (psth : List α) t => do
    let ipst := cInt (fmod t (a.binwidth * (a.totalstim : α)) / a.binwidth)
    let v ← readAt psth ipst
    writeAt psth ipst (v + 1)) out.psth
  pure { out with psth := psth }

/-- The function `SingleAN`: the model of one fibre.  `s` holds the static variables at entry and
`out` the nine output arrays as the caller created them; the result is the output
arrays and the static variables at exit. -/
def SingleAN (L : Libm α) (G : SpikeGen α) (vsat0 : α) (s : Statics α) (a : ANArgs α)
    (out : Outputs α) : Except MexError (Outputs α × Statics α) := do
  let st ← SingleAN_samples L vsat0 s a out a.totalstim.toNat
  let out ← SingleAN_delay L a st out
  let out ← SingleAN_psth G a out
  pure (out, st.statics)

/-- The nine output arrays as `mexFunction` creates them with `mxCreateNumericArray`:
zeros, of length `totalstim`. -/
def zeroOutputs (totalstim : Int) : Outputs α :=
  let zeros : List α := List.replicate totalstim.toNat 0
  { timeout := zeros, meout := zeros, c1filterout := zeros, c2filterout := zeros,
    c1vihc := zeros, c2vihc := zeros, ihcout := zeros, synout := zeros, psth := zeros }

/-- The function `mexFunction`: the argument checks, the creation of the nine zeroed output arrays
of length `totalstim`, and the call of `SingleAN`. -/
def mexFunction (L : Libm α) (G : SpikeGen α) (vsat0 : α) (s : Statics α) (c : MexCall α) :
    Except MexError (Outputs α × Statics α) :=
  match mexFunctionArgs c with
  | .error e => .error e
  | .ok a => SingleAN L G vsat0 s a (zeroOutputs a.totalstim)

/-- The entries `xs[i]` and `ys[j]` both exist and are equal. -/
def SameAt {β : Type} (xs : List β) (i : Nat) (ys : List β) (j : Nat) : Prop :=
  ∃ v, xs[i]? = some v ∧ ys[j]? = some v

/-- The array `x'` is `x` with `x'[i] = tmp[i - d]` for `d ≤ i < d + cnt`: what `cnt`
passes of the second delay loop make of one output array. -/
def ShiftedFrom {β : Type} (tmp x x' : List β) (d cnt : Nat) : Prop :=
  x'.length = x.length ∧
    (∀ i, d ≤ i → i < d + cnt → ∃ v, tmp[i - d]? = some v ∧ x'[i]? = some v) ∧
    (∀ i, (i < d ∨ d + cnt ≤ i) → x'[i]? = x[i]?)

/-- The array `x'` has the length of `x` and its entries below `m`. -/
def StableBelow {β : Type} (m : Nat) (x x' : List β) : Prop :=
  x'.length = x.length ∧ ∀ i, i < m → x'[i]? = x[i]?

/-- The arrays of two loop states agree below the index `m`. -/
def LoopStableBelow (m : Nat) (st st' : ANLoop α) : Prop :=
  StableBelow m st.meout st'.meout ∧ StableBelow m st.timeout st'.timeout ∧
  StableBelow m st.c1filterouttmp st'.c1filterouttmp ∧
  StableBelow m st.c2filterouttmp st'.c2filterouttmp ∧
  StableBelow m st.c1vihctmp st'.c1vihctmp ∧
  StableBelow m st.c2vihctmp st'.c2vihctmp ∧
  StableBelow m st.ihcouttmp st'.ihcouttmp ∧
  StableBelow m st.synouttmp st'.synouttmp


/-- A rational exponential: `1/(1 - t)` for `t ≤ 0` and `1 + t` for `t > 0`. -/
def ratExp (t : ℚ) : ℚ := if t ≤ 0 then 1 / (1 - t) else 1 + t

/-- The inverse of `ratExp` on the positive rationals. -/
def ratLog (y : ℚ) : ℚ := if y ≤ 0 then 0 else if y ≤ 1 then 1 - 1 / y else y - 1

/-- A rational arc tangent with values in `(-1, 1)`. -/
def ratAtan (z : ℚ) : ℚ := z / (1 + |z|)

/-- The inverse of `ratAtan` on `(-1, 1)`. -/
def ratTan (t : ℚ) : ℚ := t / (1 - |t|)

/-- A rational stand-in for the C math library, used to run the model on concrete
rational inputs. -/
def ratLibm : Libm ℚ :=
  { exp := ratExp
    log := ratLog
    log10 := fun y => ratLog y / ratLog 10
    pow := fun x y =>
      if y = 2 then x * x else if y = 3 then x * x * x else if y = 5 then x * x * x * x * x
      else if y = 1 / 2 then (1 + x) / 2 else ratExp (y * ratLog x)
    sqrt := fun x => (1 + x) / 2
    sin := fun t => t / (1 + t * t / 4)
    cos := fun t => (1 - t * t / 4) / (1 + t * t / 4)
    tan := ratTan
    atan := ratAtan
    tanh := fun t => t / (1 + |t|) }

/-- Static variables as the program loader leaves them: all zero. -/
def Statics.zero : Statics ℚ :=
  let z44 : List (List ℚ) := List.replicate 12 (List.replicate 4 0)
  let ch : ChirpStatics ℚ := { gain_norm := 0, initphase := 0, input := z44, output := z44 }
  let zc : List (COMPLEX ℚ) := List.replicate 4 { x := 0, y := 0 }
  { c1 := ch, c2 := ch, wb := { wbphase := 0, wbgtf := zc, wbgtfl := zc },
    ohc := { cur := List.replicate 4 0, last := List.replicate 4 0 },
    ihc := { cur := List.replicate 8 0, last := List.replicate 8 0 },
    syn := { synstrength := 0, synslope := 0, CI := 0, CL := 0, PG := 0, CG := 0, VL := 0,
             PL := 0, VI := 0 } }


/-- A call that passes every check: a two-sample row-vector stimulus, 10 µs sample
period, five samples of repetition period. -/
def exampleCall : MexCall ℚ :=
  { nlhs := 9, nrhs := 8, px := { m := 1, n := 2, data := [1/2, 1/4] }, cf := 1000, nrep := 1,
    binwidth := 1e-5, reptime := 5e-5, cohc := 1, cihc := 1, spont := 50 }


/-- The arguments `mexFunction` hands to `SingleAN` for `exampleCall`. -/
def exampleArgs : ANArgs ℚ :=
  { px := [1/2, 1/4, 0, 0, 0], cf := 1000, nrep := 1, binwidth := 1e-5, totalstim := 5,
    cohc := 1, cihc := 1, spont := 50 }

/-- The stimulus of `exampleCall` cut down to its first sample: a 1-by-1 array. -/
def singleSampleCall : MexCall ℚ :=
  { exampleCall with px := { m := 1, n := 1, data := [1/2] } }


/-- The result of a computation that succeeds, and `d` for one that fails. -/
def okOr {ε β : Type} (x : Except ε β) (d : β) : β :=
  match x with
  | .ok r => r
  | .error _ => d

deriving instance DecidableEq for ANArgs

/-- A call with a 71-sample row-vector stimulus that is silent but for its last sample,
`cf = 20 kHz`, 10 µs sample period and 71.5 sample periods of repetition period. -/
def impulseCall : MexCall ℚ :=
  { nlhs := 9, nrhs := 8, px := { m := 1, n := 71, data := List.replicate 70 0 ++ [1] },
    cf := 20000, nrep := 1, binwidth := 1e-5, reptime := 71.5e-5, cohc := 1, cihc := 1,
    spont := 50 }

/-- The arguments `mexFunction` hands to `SingleAN` for `impulseCall`. -/
def impulseArgs : ANArgs ℚ :=
  { px := List.replicate 70 0 ++ [1], cf := 20000, nrep := 1, binwidth := 1e-5,
    totalstim := 71, cohc := 1, cihc := 1, spont := 50 }

/-- A spike generator that reports a single spike, at 0.1 ms. -/
def oneSpike : SpikeGen ℚ := fun _ _ _ _ => [1e-4]

/-- The result of `mexFunction` for `impulseCall`, run with the rational stand-in for the
math library, the generator `oneSpike` and zeroed static variables. -/
def impulseRun : Outputs ℚ × Statics ℚ :=
  okOr (mexFunction ratLibm oneSpike 0 Statics.zero impulseCall) (zeroOutputs 0, Statics.zero)

/-- The test that a run produced output and that the returned `meout[70]` exists and is
not 0. -/
def runCheck (x : Except MexError (Outputs ℚ × Statics ℚ)) : Bool :=
  match x with
  | .ok r => (r.1.meout[70]?).isSome && decide (r.1.meout[70]? ≠ some 0)
  | .error _ => false

/-- The variables of `SingleAN` after the first 17 passes of the sample loop of that run. -/
def impulseRun17 : Option (ANLoop ℚ) :=
  (SingleAN_samples ratLibm 0 Statics.zero impulseArgs (zeroOutputs 71) 17).toOption

/-! ## Quantities of one pass of the sample loop -/

/-- The time constant `tauc1` of the C1 filter that the pass `n` of the sample loop
computes (lines 353-360) from the middle-ear value `meout_n` of the sample. -/
def SingleAN_tauc1 (L : Libm α) (a : ANArgs α) (k : ANConsts α) (st : ANLoop α) (n : Nat)
    (meout_n : α) : α :=
  let wb := WbGammaTone L st.statics.wb meout_n a.binwidth k.centerfreq n st.tauwb st.wbgain
    k.wborder
  let wbout1 := wb.1
  let wbout := L.pow (st.tauwb / k.TauWBMax) (k.wborder : α) * wbout1 * 10e3
    * cmax 1 (a.cf / 5e3)
  let ohcnonlinout := Boltzman L wbout k.ohcasym 12.0 5.0 5.0
  let oh := OhcLowPass st.statics.ohc ohcnonlinout a.binwidth 600 n 1.0 2
  let ohcout := oh.1
  let tmptauc1 := NLafterohc L ohcout k.bmTaumin k.bmTaumax k.ohcasym
  let tauc1 := a.cohc * (tmptauc1 - k.bmTaumin) + k.bmTaumin
  tauc1

/-- The control-path time constant `tauwb` that the pass `n` computes (line 365). -/
def SingleAN_tauwb (L : Libm α) (a : ANArgs α) (k : ANConsts α) (st : ANLoop α) (n : Nat)
    (meout_n : α) : α :=
  let tauc1 := SingleAN_tauc1 L a k st n meout_n
  let tauwb := k.TauWBMax + (tauc1 - k.bmTaumax) * (k.TauWBMax - k.TauWBMin)
    / (k.bmTaumax - k.bmTaumin)
  tauwb

/-! ## Concrete loop states -/

/-- A loop state with empty arrays, the value of `okOr` for a failed computation. -/
def ANLoop.empty : ANLoop ℚ :=
  { mey1 := [], mey2 := [], mey3 := [], meout := [], timeout := [], grd := [], tmpgain := [],
    lasttmpgain := 0, wbgain := 0, tauwb := 0, c1filterouttmp := [], c2filterouttmp := [],
    c1vihctmp := [], c2vihctmp := [], ihcouttmp := [], synouttmp := [],
    statics := Statics.zero }

/-- A call that passes every check, with a silent two-sample stimulus, 10 µs sample period
and five samples of repetition period. -/
def silentCall : MexCall ℚ :=
  { nlhs := 9, nrhs := 8, px := { m := 1, n := 2, data := [0, 0] }, cf := 1000, nrep := 1,
    binwidth := 1e-5, reptime := 5e-5, cohc := 1, cihc := 1, spont := 50 }

/-- The arguments `mexFunction` hands to `SingleAN` for `silentCall`. -/
def silentArgs : ANArgs ℚ :=
  { px := [0, 0, 0, 0, 0], cf := 1000, nrep := 1, binwidth := 1e-5, totalstim := 5,
    cohc := 1, cihc := 1, spont := 50 }

/-- Arguments of `SingleAN` with a silent five-sample stimulus and the scaling factor
`cohc = -100`, which is outside the range that `mexFunction` accepts. -/
def polesArgs : ANArgs ℚ :=
  { px := [0, 0, 0, 0, 0], cf := 1000, nrep := 1, binwidth := 1e-5, totalstim := 5,
    cohc := -100, cihc := 1, spont := 50 }

/-- The variables of `SingleAN` before the first pass of the sample loop for `polesArgs`. -/
def polesStart : ANLoop ℚ :=
  okOr (SingleAN_samples ratLibm 0 Statics.zero polesArgs (zeroOutputs 5) 0) ANLoop.empty

/-- The variables of `SingleAN` before the first pass of the sample loop for `silentArgs`. -/
def silentStart : ANLoop ℚ :=
  okOr (SingleAN_samples ratLibm 0 Statics.zero silentArgs (zeroOutputs 5) 0) ANLoop.empty

/-- The variables of `SingleAN` after the first pass of the sample loop for `silentArgs`. -/
def silentPass : ANLoop ℚ :=
  okOr (SingleAN_sample ratLibm 0 silentArgs
    (SingleAN_consts ratLibm silentArgs.cf silentArgs.binwidth silentArgs.cohc)
    silentStart 0) ANLoop.empty

/-! ## The zero of the chirp filters -/

/-- The real zero `rzero` that `C1ChirpFilt` solves by phase matching (lines 496-588),
for a call that passed the check of `p[1].x`. -/
def C1ChirpFilt_rzero (L : Libm α) (s : ChirpStatics α) (binwidth cf : α) (n : Int)
    (taumax rsigma : α) : α :=
  let sigma0 := 1 / taumax
  let ipw := 1.01 * cf * TWOPI - 50
  let ipb := 0.2343 * TWOPI * cf - 1104
  let rpa := L.pow 10 (L.log10 cf * 0.9 + 0.55) + 2000
  let pzero := L.pow 10 (L.log10 cf * 0.7 + 1.6) + 500
  let order_of_pole : Nat := 10
  let half_order_pole : Nat := order_of_pole / 2
  let order_of_zero : Nat := half_order_pole
  let rzero := -pzero
  let CF := TWOPI * cf
  let s := if n = 0 then chirpInit L sigma0 ipw rpa ipb rzero CF half_order_pole order_of_pole s
    else s
  let p1x := -sigma0 - rsigma
  let p := chirpPoles p1x ipw rpa ipb
  let phase := chirpPhase L p CF half_order_pole
  let rzero := -CF / L.tan ((s.initphase - phase) / (order_of_zero : α))
  rzero

/-- The real zero `rzero` that `C2ChirpFilt` solves by phase matching (lines 642-734),
for a call that passed the check of `p[1].x`. -/
def C2ChirpFilt_rzero (L : Libm α) (s : ChirpStatics α) (binwidth cf : α) (n : Int)
    (taumax fcohc : α) : α :=
  let sigma0 := 1 / taumax
  let ipw := 1.01 * cf * TWOPI - 50
  let ipb := 0.2343 * TWOPI * cf - 1104
  let rpa := L.pow 10 (L.log10 cf * 0.9 + 0.55) + 2000
  let pzero := L.pow 10 (L.log10 cf * 0.7 + 1.6) + 500
  let order_of_pole : Nat := 10
  let half_order_pole : Nat := order_of_pole / 2
  let order_of_zero : Nat := half_order_pole
  let rzero := -pzero
  let CF := TWOPI * cf
  let s := if n = 0 then chirpInit L sigma0 ipw rpa ipb rzero CF half_order_pole order_of_pole s
    else s
  let p1x := -sigma0 * fcohc
  let p := chirpPoles p1x ipw rpa ipb
  let phase := chirpPhase L p CF half_order_pole
  let rzero := -CF / L.tan ((s.initphase - phase) / (order_of_zero : α))
  rzero

/-! ## Quantities of one call of `Synapse` -/

/-- The static variables of `Synapse` after the block executed at `n == 0` (lines
988-1045): calibrated when `n = 0`, else as the previous call left them. -/
def Synapse_statics (L : Libm α) (vsat0 : α) (s : SynapseStatics α) (cf spont : α) (n : Int) :
    SynapseStatics α :=
  if n = 0 then synapseInit L cf spont vsat0 else s

/-- The permeability `PPI` that `Synapse` computes from its input `x` (lines 1047-1049). -/
def Synapse_PPI (L : Libm α) (s : SynapseStatics α) (x : α) : α :=
  let tmp := s.synstrength * x
  let tmp := if tmp < 400 then L.log (1 + L.exp tmp) else tmp
  let PPI := s.synslope / s.synstrength * tmp
  PPI

/-- The immediate-pool concentration after the update of line 1052, before the test
`CI < 0`. -/
def Synapse_CIstep (L : Libm α) (s : SynapseStatics α) (x binwidth : α) : α :=
  let PPI := Synapse_PPI L s x
  let CI := s.CI + (binwidth / s.VI) * (-PPI * s.CI + s.PL * (s.CL - s.CI))
  CI

/-- The local-pool concentration after the update of line 1053. -/
def Synapse_CLstep (s : SynapseStatics α) (binwidth : α) : α :=
  let CIlast := s.CI
  let CL := s.CL + (binwidth / s.VL) * (-s.PL * (s.CL - CIlast) + s.PG * (s.CG - s.CL))
  CL

/-- The test that a computation failed with the error `e`. -/
def failsWith {β : Type} (x : Except MexError β) (e : MexError) : Bool :=
  match x with
  | .ok _ => false
  | .error e' => decide (e' = e)

/-! ## The PSTH bin of a spike time -/

/-- The bin index `ipst` that the folding loop computes for the spike time `t` (line 428). -/
def SingleAN_ipst (a : ANArgs α) (t : α) : Int :=
  let ipst := cInt (fmod t (a.binwidth * (a.totalstim : α)) / a.binwidth)
  ipst

/-- The arguments `silentArgs` with 100 repetitions, which make room for 7 spike times. -/
def psthArgs : ANArgs ℚ := { silentArgs with nrep := 100 }

/-- A spike generator that reports three spikes: at 0.01 ms, one repetition period of
`psthArgs` (0.05 ms) later, and at 0.025 ms. -/
def threeSpikes : SpikeGen ℚ := fun _ _ _ _ => [1e-5, 6e-5, 2.5e-5]

/-! ## The middle-ear filter as one recurrence -/

/-- The entry `a[i]` of a signal, with the history before index 0 taken as zero. -/
def histAt (a : List α) (i : Int) : α := if i < 0 then 0 else a.getD i.toNat 0

/-- The general three-stage recurrence of the middle-ear filter, as the specification
states it and as the source uses it for `n ≥ 2`: the stage values of a sample from the
input samples `x0 = px[n]`, `x1 = px[n-1]` and the stage values `p1`, `p2` of the samples
`n-1` and `n-2`. -/
def generalRecurrence (k : ANConsts α) (x0 x1 : α) (p1 p2 : α × α × α) : α × α × α :=
  let y1 := k.m11 * (-k.m12 * p1.1 + x0 - x1)
  let y2 := k.m21 * (-k.m22 * p1.2.1 - k.m23 * p2.2.1 + k.m24 * y1 + k.m25 * p1.1
    + k.m26 * p2.1)
  let y3 := k.m31 * (-k.m32 * p1.2.2 - k.m33 * p2.2.2 + k.m34 * y2 + k.m35 * p1.2.1
    + k.m36 * p2.2.1)
  (y1, y2, y3)

/-- The general recurrence started from rest on the input `px`: the pair of the stage
values of the samples `n` and `n-1`. -/
def middleEarFromRest (k : ANConsts α) (px : List α) : Nat → (α × α × α) × (α × α × α)
  | 0 => (generalRecurrence k (histAt px 0) (histAt px (-1)) (0, 0, 0) (0, 0, 0), (0, 0, 0))
  | n + 1 =>
    let r := middleEarFromRest k px n
    (generalRecurrence k (histAt px ((n : Int) + 1)) (histAt px n) r.1 r.2, r.1)

/-- The stage values of sample `i` of the recurrence started from rest; zero for `i < 0`. -/
def restAt (k : ANConsts α) (px : List α) (i : Int) : α × α × α :=
  if i < 0 then (0, 0, 0) else (middleEarFromRest k px i.toNat).1

/-! ## Independence of the static variables -/

/-- A static two-dimensional array has the declared dimensions `[12][4]`. -/
def Shape2 (m : List (List α)) : Prop :=
  m.length = 12 ∧ ∀ i, i < 12 → (m.getD i []).length = 4

/-- The static arrays have the dimensions the source declares: `[12][4]` for the four
arrays of the chirp filters, `[4]` for `wbgtf`, `wbgtfl`, `ohc`, `ohcl`, and `[8]` for `ihc`,
`ihcl`. -/
def Statics.WellShaped (s : Statics α) : Prop :=
  (Shape2 s.c1.input ∧ Shape2 s.c1.output) ∧ (Shape2 s.c2.input ∧ Shape2 s.c2.output) ∧
  (s.wb.wbgtf.length = 4 ∧ s.wb.wbgtfl.length = 4) ∧
  (s.ohc.cur.length = 4 ∧ s.ohc.last.length = 4) ∧
  (s.ihc.cur.length = 8 ∧ s.ihc.last.length = 8)

/-- Two arrays of the chirp filters have the declared dimensions and agree at the entries
`[1..6][1..3]`, the ones the filters use. -/
def Agree2 (m1 m2 : List (List α)) : Prop :=
  Shape2 m1 ∧ Shape2 m2 ∧
    ∀ i j, 1 ≤ i → i ≤ 6 → 1 ≤ j → j ≤ 3 → get2 m1 i j = get2 m2 i j

/-- The static variables of a chirp filter agree where the filter reads them. -/
def ChirpAgree (s1 s2 : ChirpStatics α) : Prop :=
  s1.gain_norm = s2.gain_norm ∧ s1.initphase = s2.initphase ∧
    Agree2 s1.input s2.input ∧ Agree2 s1.output s2.output

/-- The static arrays of `OhcLowPass` agree at the entries `[0..2]`, the ones it uses. -/
def OhcAgree (s1 s2 : LowPassStatics α) : Prop :=
  ∃ a b c d1 d2 a' b' c' e1 e2, s1 = { cur := [a, b, c, d1], last := [a', b', c', e1] } ∧
    s2 = { cur := [a, b, c, d2], last := [a', b', c', e2] }

/-- The static variables agree wherever a stage function reads them. -/
def StaticsAgree (s1 s2 : Statics α) : Prop :=
  ChirpAgree s1.c1 s2.c1 ∧ ChirpAgree s1.c2 s2.c2 ∧ s1.wb = s2.wb ∧ OhcAgree s1.ohc s2.ohc ∧
    s1.ihc = s2.ihc ∧ s1.syn = s2.syn

/-- Two results are the same error, or two values related by `R`. -/
def AgreeResult {β γ : Type} (R : β → γ → Prop) (x : Except MexError β) (y : Except MexError γ) :
    Prop :=
  match x, y with
  | .ok a, .ok b => R a b
  | .error e1, .error e2 => e1 = e2
  | _, _ => False

/-- What must hold of the static variables of two runs before the pass `n`: the declared
dimensions before the first pass, agreement where they are read before a later one. -/
def StaticsReady (n : Nat) (s1 s2 : Statics α) : Prop :=
  if n = 0 then s1.WellShaped ∧ s2.WellShaped else StaticsAgree s1 s2

/-- Two loop states differ at most in their static variables, and these are ready for the
pass `n`. -/
def LoopAgree (n : Nat) (st1 st2 : ANLoop α) : Prop :=
  st2 = { st1 with statics := st2.statics } ∧ StaticsReady n st1.statics st2.statics

/-- Static variables of the declared dimensions that an earlier run could have left:
every entry is 1. -/
def Statics.ones : Statics ℚ :=
  let o44 : List (List ℚ) := List.replicate 12 (List.replicate 4 1)
  let ch : ChirpStatics ℚ := { gain_norm := 1, initphase := 1, input := o44, output := o44 }
  let oc : List (COMPLEX ℚ) := List.replicate 4 { x := 1, y := 1 }
  { c1 := ch, c2 := ch, wb := { wbphase := 1, wbgtf := oc, wbgtfl := oc },
    ohc := { cur := List.replicate 4 1, last := List.replicate 4 1 },
    ihc := { cur := List.replicate 8 1, last := List.replicate 8 1 },
    syn := { synstrength := 1, synslope := 1, CI := 1, CL := 1, PG := 1, CG := 1, VL := 1,
             PL := 1, VI := 1 } }

/-! ## Facts about the math library used by the later results -/

/-- The range of `cos`: its values lie in `[-1, 1]`. -/
structure Libm.CosLaws (L : Libm α) : Prop where
  neg_one_le_cos : ∀ t : α, -1 ≤ L.cos t
  cos_le_one : ∀ t : α, L.cos t ≤ 1

/-! ## `Synapse` without the second check of `spont` -/

/-- The block of `Synapse` executed at `n == 0` with the statement `if(spont<0) spont = 50;`
of line 1044 removed; everything else is as in `synapseInit`. -/
def synapseInit_noRecheck (L : Libm α) (cf spont vsat0 : α) : SynapseStatics α :=
  let cf_factor :=
    if spont ≥ 50 then cmin 1e3 (L.pow 10 (0.29 * cf / 1e3 + 0.4))
    else
      let cfslope := L.pow spont 0.19 * L.pow 10 (-0.87)
      let cfconst := 0.1 * L.pow (L.log10 spont) 2 + 0.56 * L.log10 spont - 0.84
      let cfsat := L.pow 10 (cfslope * 8965.5 / 1e3 + cfconst)
      cmin cfsat (L.pow 10 (cfslope * cf / 1e3 + cfconst))
  let PImax : α := 0.6
  let kslope := (1 + 50.0) / (5 + 50.0) * cf_factor * 20.0 * PImax
  let Ass : α := 350
  let Asp := spont
  let TauR : α := 2e-3
  let TauST : α := 60e-3
  let Ar_Ast : α := 6
  let PTS : α := 1.0 + 9.0 * 50.0 / (9.0 + 50.0)
  let Aon := PTS * Ass
  let AR := (Aon - Ass) * Ar_Ast / (1 + Ar_Ast)
  let AST := Aon - Ass - AR
  let Prest := PImax / Aon * Asp
  let CG := (Asp * (Aon - Asp)) / (Aon * Prest * (1 - Asp / Ass))
  let gamma1 := CG / Asp
  let gamma2 := CG / Ass
  let k1 := -1 / TauR
  let k2 := -1 / TauST
  let VI0 := (1 - PImax / Prest)
    / (gamma1 * (AR * (k1 - k2) / CG / PImax + k2 / Prest / gamma1 - k2 / PImax / gamma2))
  let VI1 := (1 - PImax / Prest)
    / (gamma1 * (AST * (k2 - k1) / CG / PImax + k1 / Prest / gamma1 - k1 / PImax / gamma2))
  let VI := (VI0 + VI1) / 2
  let alpha := gamma2 / k1 / k2
  let beta := -(k1 + k2) * alpha
  let theta1 := alpha * PImax / VI
  let theta2 := VI / PImax
  let theta3 := gamma2 - 1 / PImax
  let PL := ((beta - theta2 * theta3) / theta1 - 1) * PImax
  let PG := 1 / (theta3 - 1 / PL)
  let VL := theta1 * PL * PG
  let CI := Asp / Prest
  let CL := CI * (Prest + PL) / PL
  let vsat := if kslope ≥ 0 then kslope + Prest else vsat0
  let tmpst := L.log 2 * vsat / Prest
  let synstrength := if tmpst < 400 then L.log (L.exp tmpst - 1) else tmpst
  let synslope := Prest / L.log 2 * synstrength
  { synstrength := synstrength, synslope := synslope, CI := CI, CL := CL, PG := PG, CG := CG,
    VL := VL, PL := PL, VI := VI }

/-- The function `Synapse` with the statement `if(spont<0) spont = 50;` removed. -/
def Synapse_noRecheck (L : Libm α) (vsat0 : α) (s : SynapseStatics α)
    (x binwidth cf spont : α) (n : Int) : α × SynapseStatics α :=
  let s := if n = 0 then synapseInit_noRecheck L cf spont vsat0 else s
  let tmp := s.synstrength * x
  let tmp := if tmp < 400 then L.log (1 + L.exp tmp) else tmp
  let PPI := s.synslope / s.synstrength * tmp
  let CIlast := s.CI
  let CI := s.CI + (binwidth / s.VI) * (-PPI * s.CI + s.PL * (s.CL - s.CI))
  let CL := s.CL + (binwidth / s.VL) * (-s.PL * (s.CL - CIlast) + s.PG * (s.CG - s.CL))
  let temp := 1 / s.PG + 1 / s.PL + 1 / PPI
  let CI' := if CI < 0 then s.CG / (PPI * temp) else CI
  let CL' := if CI < 0 then CI' * (PPI + s.PL) / s.PL else CL
  let out := CI' * PPI
  (out, { s with CI := CI', CL := CL' })

/-! ## The C2 transduction -/

/-- The value `c2vihctmp[n]` that the sample loop computes from the C2 filter output `c2` of
the sample (line 393). -/
def SingleAN_c2vihc (L : Libm α) (cf c2 : α) : α :=
  -NLogarithm L (c2 * |c2| * cf / 10 * cf / 2e3) 0.2 1.0

/-- The C2 transduction as the specification words it: the negated `NLogarithm` (slope 0.2,
asymmetry 1.0) of the C2 filter output cubed and multiplied by a scale factor `k`. -/
def c2vihcCubed (L : Libm α) (k c2 : α) : α :=
  -NLogarithm L (k * c2 ^ 3) 0.2 1.0

/-! ## The reference phase of the chirp filters -/

/-- The divisor `pow(10,corner/20)` of `strength` in `NLogarithm` (line 962). -/
def NLogarithm_strengthDen (L : Libm α) : α :=
  let corner : α := 80
  L.pow 10 (corner / 20)

/-- The argument `1.0+strength*fabs(x)` of the logarithm of `NLogarithm` (line 964). -/
def NLogarithm_logArg (L : Libm α) (x : α) : α :=
  let strength := 20.0e6 / NLogarithm_strengthDen L
  1.0 + strength * |x|

/-- The argument `-x/20e-6` of the `log10` of `NLogarithm` (line 967), evaluated when
`x < 0`. -/
def NLogarithm_log10Arg (x : α) : α := -x / 20e-6

/-- The divisor `asym_t` of `NLogarithm` (line 968), evaluated when `x < 0`. -/
def NLogarithm_asym_t (L : Libm α) (x asym : α) : α :=
  let splx := 20 * L.log10 (NLogarithm_log10Arg x)
  let asym_t := asym - (asym - 1) / (1 + L.exp (splx / 5.0))
  asym_t

/-- The local `shift` of `Boltzman` (line 862). -/
def Boltzman_shift (asym : α) : α := 1.0 / (1.0 + asym)

/-- The argument of the logarithm of `Boltzman` (line 863). -/
def Boltzman_logArg (L : Libm α) (asym s1 x1 : α) : α :=
  (1.0 / Boltzman_shift asym - 1) / (1 + L.exp (x1 / s1))

/-- The divisor of `out1` in `Boltzman` (line 865). -/
def Boltzman_out1Den (L : Libm α) (x asym s0 s1 x1 : α) : α :=
  let x0 := s0 * L.log (Boltzman_logArg L asym s1 x1)
  1.0 + L.exp (-(x - x0) / s0) * (1.0 + L.exp (-(x - x1) / s1))

/-- The local `minR` of `NLafterohc` after the test `R<minR` (lines 937-941). -/
def NLafterohc_minR (taumin taumax : α) : α :=
  let minR : α := 0.05
  let R := taumin / taumax
  let minR := if R < minR then 0.5 * R else minR
  minR

/-- The local `dc` of `NLafterohc` (line 943). -/
def NLafterohc_dc (taumin taumax asym : α) : α :=
  (asym - 1) / (asym + 1.0) / 2.0 - NLafterohc_minR taumin taumax

/-- The argument `R1/(1-minR)` of the logarithm of `NLafterohc` (lines 944-947). -/
def NLafterohc_logArg (taumin taumax : α) : α :=
  let R := taumin / taumax
  let R1 := R - NLafterohc_minR taumin taumax
  R1 / (1 - NLafterohc_minR taumin taumax)

/-- The local `s0` of `NLafterohc` (line 947), the divisor of `x1` in line 950. -/
def NLafterohc_s0 (L : Libm α) (taumin taumax asym : α) : α :=
  -NLafterohc_dc taumin taumax asym / L.log (NLafterohc_logArg taumin taumax)

/-- The divisor `tan((C1initphase-phase)/order_of_zero)` of the zero that `C1ChirpFilt`
solves by phase matching (line 588). -/
def C1ChirpFilt_rzeroDen (L : Libm α) (s : ChirpStatics α) (binwidth cf : α) (n : Int)
    (taumax rsigma : α) : α :=
  let sigma0 := 1 / taumax
  let ipw := 1.01 * cf * TWOPI - 50
  let ipb := 0.2343 * TWOPI * cf - 1104
  let rpa := L.pow 10 (L.log10 cf * 0.9 + 0.55) + 2000
  let pzero := L.pow 10 (L.log10 cf * 0.7 + 1.6) + 500
  let order_of_pole : Nat := 10
  let half_order_pole : Nat := order_of_pole / 2
  let order_of_zero : Nat := half_order_pole
  let rzero := -pzero
  let CF := TWOPI * cf
  let s := if n = 0 then chirpInit L sigma0 ipw rpa ipb rzero CF half_order_pole order_of_pole s
    else s
  let p1x := -sigma0 - rsigma
  let p := chirpPoles p1x ipw rpa ipb
  let phase := chirpPhase L p CF half_order_pole
  L.tan ((s.initphase - phase) / (order_of_zero : α))

/-- The divisor `tan((C2initphase-phase)/order_of_zero)` of the zero that `C2ChirpFilt`
solves by phase matching (line 733). -/
def C2ChirpFilt_rzeroDen (L : Libm α) (s : ChirpStatics α) (binwidth cf : α) (n : Int)
    (taumax fcohc : α) : α :=
  let sigma0 := 1 / taumax
  let ipw := 1.01 * cf * TWOPI - 50
  let ipb := 0.2343 * TWOPI * cf - 1104
  let rpa := L.pow 10 (L.log10 cf * 0.9 + 0.55) + 2000
  let pzero := L.pow 10 (L.log10 cf * 0.7 + 1.6) + 500
  let order_of_pole : Nat := 10
  let half_order_pole : Nat := order_of_pole / 2
  let order_of_zero : Nat := half_order_pole
  let rzero := -pzero
  let CF := TWOPI * cf
  let s := if n = 0 then chirpInit L sigma0 ipw rpa ipb rzero CF half_order_pole order_of_pole s
    else s
  let p1x := -sigma0 * fcohc
  let p := chirpPoles p1x ipw rpa ipb
  let phase := chirpPhase L p CF half_order_pole
  L.tan ((s.initphase - phase) / (order_of_zero : α))

/-- Round a rational to the nearest integer, a tie to the even one. -/
def roundHalfEven (q : ℚ) : Int :=
  let f := Int.floor q
  let d := q - f
  if d < 1 / 2 then f else if d > 1 / 2 then f + 1 else if f % 2 = 0 then f else f + 1

/-- The number of halvings that bring `n` below 2, at most `fuel` of them. -/
def halvings : Nat → Nat → Nat
  | 0, _ => 0
  | fuel + 1, n => if n < 2 then 0 else halvings fuel (n / 2) + 1

/-- The exponent `e` with `2^e ≤ q < 2^(e+1)` of a positive rational `q`. -/
def binaryExponent (q : ℚ) : Int :=
  let e0 : Int := (halvings q.num.natAbs q.num.natAbs : Int) - (halvings q.den q.den : Int)
  if q < (2 : ℚ) ^ e0 then e0 - 1 else e0

/-- The nearest number with a significand of 53 bits (a tie to the even significand): the
rounding of IEEE 754 binary64, with an unbounded exponent. -/
def binary64 (q : ℚ) : ℚ :=
  if q = 0 then 0 else
  let e := binaryExponent |q|
  (roundHalfEven (q / (2 : ℚ) ^ (e - 52)) : ℚ) * (2 : ℚ) ^ (e - 52)

/-- A C `double`: a NaN or a number. -/
inductive Binary64
  /-- A NaN ("not a number"). -/
  | nan
  /-- A number. -/
  | num (q : ℚ)
  deriving DecidableEq

/-- The `double` with the integer significand `m` and the exponent `e`, `m * 2^e`. -/
def Binary64.scaled (m e : Int) : Binary64 := .num ((m : ℚ) * (2 : ℚ) ^ e)

/-- The conversion of an `int` to `double`. -/
def Binary64.ofInt (i : Int) : Binary64 := .num (binary64 (i : ℚ))

instance (n : Nat) : OfNat Binary64 n := ⟨.num (binary64 (n : ℚ))⟩

instance : OfScientific Binary64 :=
  ⟨fun m s e => .num (binary64 (OfScientific.ofScientific m s e))⟩

/-- The sum of two doubles. -/
def Binary64.add : Binary64 → Binary64 → Binary64
  | .num x, .num y => .num (binary64 (x + y))
  | _, _ => .nan

/-- The difference of two doubles. -/
def Binary64.sub : Binary64 → Binary64 → Binary64
  | .num x, .num y => .num (binary64 (x - y))
  | _, _ => .nan

/-- The product of two doubles. -/
def Binary64.mul : Binary64 → Binary64 → Binary64
  | .num x, .num y => .num (binary64 (x * y))
  | _, _ => .nan

/-- The quotient of two doubles.  A division by zero gives an infinity or a NaN in C; it
is `nan` here. -/
def Binary64.div : Binary64 → Binary64 → Binary64
  | .num x, .num y => if y = 0 then .nan else .num (binary64 (x / y))
  | _, _ => .nan

/-- The negative of a double. -/
def Binary64.neg : Binary64 → Binary64
  | .num x => .num (-x)
  | .nan => .nan

instance : Add Binary64 := ⟨Binary64.add⟩

instance : Sub Binary64 := ⟨Binary64.sub⟩

instance : Mul Binary64 := ⟨Binary64.mul⟩

instance : Div Binary64 := ⟨Binary64.div⟩

instance : Neg Binary64 := ⟨Binary64.neg⟩

/-- The C comparison `x < y` of doubles: false when an operand is a NaN. -/
def Binary64.lt : Binary64 → Binary64 → Bool
  | .num x, .num y => decide (x < y)
  | _, _ => false

/-- The C comparison `x <= y` of doubles: false when an operand is a NaN. -/
def Binary64.le : Binary64 → Binary64 → Bool
  | .num x, .num y => decide (x ≤ y)
  | _, _ => false

/-- The C comparison `x != y` of doubles: true when an operand is a NaN. -/
def Binary64.cne : Binary64 → Binary64 → Bool
  | .num x, .num y => decide (x ≠ y)
  | _, _ => true

instance : LT Binary64 := ⟨fun a b => Binary64.lt a b = true⟩

instance : LE Binary64 := ⟨fun a b => Binary64.le a b = true⟩

instance (a b : Binary64) : Decidable (a < b) :=
  inferInstanceAs (Decidable (Binary64.lt a b = true))

instance (a b : Binary64) : Decidable (a ≤ b) :=
  inferInstanceAs (Decidable (Binary64.le a b = true))

/-- The C library `floor` on doubles. -/
def Binary64.floor : Binary64 → Binary64
  | .num x => .num ((Int.floor x : Int) : ℚ)
  | .nan => .nan

/-- The C library `ceil` on doubles. -/
def Binary64.ceil : Binary64 → Binary64
  | .num x => .num ((Int.ceil x : Int) : ℚ)
  | .nan => .nan

/-- The C library `fabs` on doubles. -/
def Binary64.fabs : Binary64 → Binary64
  | .num x => .num |x|
  | .nan => .nan

/-- The C library `fmod` on doubles, for a non-zero divisor: the exact remainder
`x - y * trunc(x / y)`, which is a double. -/
def Binary64.fmod : Binary64 → Binary64 → Binary64
  | .num x, .num y => if y = 0 then .nan else .num (x - y * ((cInt (x / y) : Int) : ℚ))
  | _, _ => .nan

/-- The C conversion `(int) x` of a double: truncation toward zero.  The conversion of a
NaN, or of a value whose truncation is outside the range of the 32-bit `int`, has no defined
behaviour in C; it is given the value `-2147483648` that the conversion instruction of
x86-64 returns. -/
def Binary64.toInt : Binary64 → Int
  | .num x => if -2147483648 ≤ cInt x ∧ cInt x ≤ 2147483647 then cInt x else -2147483648
  | .nan => -2147483648

/-- The part of `mexFunction` that precedes the call of `SingleAN` (lines 71-182) in double
arithmetic. -/
def mexFunctionArgs64 (c : MexCall Binary64) : Except MexError (ANArgs Binary64) :=
  if c.nrhs ≠ 8 then .error .nrhs else
  if c.nlhs ≠ 9 then .error .nlhs else
  let pxbins : Int := (c.px.n : Int)
  if pxbins = 1 then .error .pxNotRow else
  let binwidth := c.binwidth
  if binwidth < 0.002e-3 ∨ binwidth > 0.01e-3 then .error .binwidthRange else
  if Binary64.cne (Binary64.floor (binwidth * 1e6)) (Binary64.ceil (binwidth * 1e6)) then
    .error .binwidthNotInteger else
  let cf := c.cf
  if (if binwidth > 0.005e-3 then cf < 80 ∨ cf > 20e3 else cf < 80 ∨ cf > 40e3) then
    .error .cfRange else
  let nrep : Int := Binary64.toInt c.nrep
  if Binary64.cne c.nrep (Binary64.ofInt nrep) then .error .nrepNotInteger else
  if nrep < 1 then .error .nrepRange else
  let cohc := c.cohc
  if cohc < 0 ∨ cohc > 1 then .error .cohcRange else
  let cihc := c.cihc
  if cihc < 0 ∨ cihc > 1 then .error .cihcRange else
  let spont := c.spont
  if spont < 0 ∨ spont > 150 then .error .spontRange else
  let spont := if spont < 0.1 then 0.1 else spont
  let reptime := c.reptime
  let totalstim : Int := Binary64.toInt (Binary64.floor ((reptime * 1e3) / (binwidth * 1e3)))
  if totalstim < pxbins then .error .reptimeShort else
  if c.px.data.length < c.px.n then .error .outOfBounds else
  let px := c.px.data.take c.px.n ++ List.replicate (totalstim.toNat - c.px.n) 0
  .ok { px := px, cf := cf, nrep := nrep, binwidth := binwidth, totalstim := totalstim,
        cohc := cohc, cihc := cihc, spont := spont }

/-- The bin index `ipst` that the folding loop computes for the spike time `t` (line 428)
in double arithmetic. -/
def SingleAN_ipst64 (binwidth : Binary64) (totalstim : Int) (t : Binary64) : Int :=
  let ipst := Binary64.toInt
    (Binary64.fmod t (binwidth * Binary64.ofInt totalstim) / binwidth)
  ipst

/-- The macro `TWOPI` as a double. -/
def TWOPI64 : Binary64 := 6.28318530717959

/-- The cochlear-amplifier gain of `SingleAN` (lines 289-290) in double arithmetic. -/
def SingleAN_CAgain64 (L : Libm Binary64) (cf : Binary64) : Binary64 :=
  let CAgain := 52 / 2 * (L.tanh (2.2 * L.log10 (cf / 600) + 0.15) + 1)
  if CAgain < 15 then 15 else CAgain

/-- The function `Get_tauwb` in double arithmetic: the pair `(taumax[0], taumin[0])`. -/
def Get_tauwb64 (L : Libm Binary64) (cf CAgain : Binary64) (order : Int) :
    Binary64 × Binary64 :=
  let ratio := L.pow 10 (-CAgain / (20.0 * Binary64.ofInt order))
  let Q10 := L.pow 10 (0.4708 * L.log10 (cf / 1e3) + 0.4664)
  let bw := cf / Q10
  let taumax := 2.0 / (TWOPI64 * bw)
  let taumin := taumax * ratio
  (taumax, taumin)

/-- The function `Get_taubm` in double arithmetic: the triple
`(bmTaumax[0], bmTaumin[0], ratio[0])`. -/
def Get_taubm64 (L : Libm Binary64) (_cf CAgain taumax : Binary64) :
    Binary64 × Binary64 × Binary64 :=
  let bwfactor : Binary64 := 0.7
  let factor : Binary64 := 2.5
  let ratio := L.pow 10 (-CAgain / (20.0 * factor))
  let bmTaumax := taumax / bwfactor
  let bmTaumin := bmTaumax * ratio
  (bmTaumax, bmTaumin, ratio)

/-- The time constants that `SingleAN` derives before its sample loop. -/
structure TimeConsts64 where
  Taumax : Binary64
  Taumin : Binary64
  bmTaumax : Binary64
  bmTaumin : Binary64
  ratiobm : Binary64
  bmTaubm : Binary64
  TauWBMax : Binary64
  TauWBMin : Binary64
  tauwb : Binary64

/-- Lines 289-305 of `SingleAN` in double arithmetic: the time constants and the initial
`tauwb`. -/
def SingleAN_timeConsts64 (L : Libm Binary64) (cf cohc : Binary64) : TimeConsts64 :=
  let CAgain := SingleAN_CAgain64 L cf
  let bmorder : Int := 3
  let tw := Get_tauwb64 L cf CAgain bmorder
  let Taumax := tw.1
  let Taumin := tw.2
  let tb := Get_taubm64 L cf CAgain Taumax
  let bmTaumax := tb.1
  let bmTaumin := tb.2.1
  let ratiobm := tb.2.2
  let bmTaubm := cohc * (bmTaumax - bmTaumin) + bmTaumin
  let TauWBMax := Taumin + 0.2 * (Taumax - Taumin)
  let TauWBMin := TauWBMax / Taumax * Taumin
  let tauwb := TauWBMax + (bmTaubm - bmTaumax) * (TauWBMax - TauWBMin) / (bmTaumax - bmTaumin)
  { Taumax := Taumax, Taumin := Taumin, bmTaumax := bmTaumax, bmTaumin := bmTaumin,
    ratiobm := ratiobm, bmTaubm := bmTaubm, TauWBMax := TauWBMax, TauWBMin := TauWBMin,
    tauwb := tauwb }

/-- The function `NLafterohc` in double arithmetic. -/
def NLafterohc64 (L : Libm Binary64) (x taumin taumax asym : Binary64) : Binary64 :=
  let minR : Binary64 := 0.05
  let R := taumin / taumax
  let minR := if R < minR then 0.5 * R else minR
  let dc := (asym - 1) / (asym + 1.0) / 2.0 - minR
  let R1 := R - minR
  let s0 := -dc / L.log (R1 / (1 - minR))
  let x1 := Binary64.fabs x
  let out := taumax * (minR + (1.0 - minR) * L.exp (-x1 / s0))
  let out := if out < taumin then taumin else out
  let out := if out > taumax then taumax else out
  out

/-- The time constant `tauc1` of line 360 in double arithmetic. -/
def SingleAN_tauc1_64 (cohc tmptauc1 bmTaumin : Binary64) : Binary64 :=
  let tauc1 := cohc * (tmptauc1 - bmTaumin) + bmTaumin
  tauc1

/-- The pole shift `rsigma` of line 361 in double arithmetic. -/
def SingleAN_rsigma64 (tauc1 bmTaumax : Binary64) : Binary64 :=
  let rsigma := 1 / tauc1 - 1 / bmTaumax
  rsigma

/-- The control-path time constant `tauwb` of line 365 in double arithmetic. -/
def SingleAN_tauwb64 (k : TimeConsts64) (tauc1 : Binary64) : Binary64 :=
  let tauwb := k.TauWBMax + (tauc1 - k.bmTaumax) * (k.TauWBMax - k.TauWBMin)
    / (k.bmTaumax - k.bmTaumin)
  tauwb

/-- The function `Boltzman` in double arithmetic. -/
def Boltzman64 (L : Libm Binary64) (x asym s0 s1 x1 : Binary64) : Binary64 :=
  let shift := 1.0 / (1.0 + asym)
  let x0 := s0 * L.log ((1.0 / shift - 1) / (1 + L.exp (x1 / s1)))
  let out1 := 1.0 / (1.0 + L.exp (-(x - x0) / s0) * (1.0 + L.exp (-(x - x1) / s1))) - shift
  let out := out1 / (1 - shift)
  out

/-- The entry of a table of values at the argument `t`, a NaN when there is none. -/
def tableAt (tbl : List (Binary64 × Binary64)) (t : Binary64) : Binary64 :=
  match tbl.find? (fun p => decide (p.1 = t)) with
  | some p => p.2
  | none => .nan

/-- The real part `p[1].x` of the first pole that `C1ChirpFilt` tests (lines 506 and 566) in
double arithmetic. -/
def C1ChirpFilt_p1x64 (taumax rsigma : Binary64) : Binary64 :=
  let sigma0 := 1 / taumax
  let p1x := -sigma0 - rsigma
  p1x

/-- Values of `exp` in double arithmetic. -/
def glibc_exp : List (Binary64 × Binary64) :=
  [
    (Binary64.scaled 0 (0), Binary64.scaled 1 (0)),
    (Binary64.scaled 1 (0), Binary64.scaled 6121026514868073 (-51)),
    (Binary64.scaled (-5819543337061037) (-46), Binary64.scaled 7256181959475741 (-172)),
    (Binary64.scaled (-199) (0), Binary64.scaled 8425518315475103 (-340)),
    (Binary64.scaled 7214949128743585 (-48), Binary64.scaled 8883778342997189 (-16)),
    (Binary64.scaled 61 (0), Binary64.scaled 310429793570191987473121280 (0))]

/-- Values of `log` in double arithmetic. -/
def glibc_log : List (Binary64 × Binary64) :=
  [
    (Binary64.scaled 6716727923755449 (-57), Binary64.scaled (-6904044748568145) (-51)),
    (Binary64.scaled 2 (0), Binary64.scaled 6243314768165359 (-53)),
    (Binary64.scaled 8478431395464811 (-52), Binary64.scaled 1424597687817479 (-51))]

/-- Values of `log10` in double arithmetic. -/
def glibc_log10 : List (Binary64 × Binary64) :=
  [
    (Binary64.scaled 4484834628923119 (-49), Binary64.scaled 8117978336224583 (-53)),
    (Binary64.scaled 5381801554707743 (-50), Binary64.scaled 6119742444014917 (-53)),
    (Binary64.scaled 6004799503160661 (-55), Binary64.scaled (-3504481681265663) (-52)),
    (Binary64.scaled 3602879701896397 (-55), Binary64.scaled (-1) (0))]

/-- Values of `tanh` in double arithmetic. -/
def glibc_tanh : List (Binary64 × Binary64) :=
  [
    (Binary64.scaled 1200664514244077 (-49), Binary64.scaled 8757722963234505 (-53)),
    (Binary64.scaled (-7034319754678885) (-52), Binary64.scaled (-4124094882989267) (-52))]

/-- Values of `pow(10, .)` in double arithmetic. -/
def glibc_pow10 : List (Binary64 × Binary64) :=
  [
    (Binary64.scaled (-7698132961122715) (-53), Binary64.scaled 5034835845711853 (-55)),
    (Binary64.scaled 3541066237526711 (-52), Binary64.scaled 1720736795594299 (-48)),
    (Binary64.scaled (-4618879776673629) (-52), Binary64.scaled 6793325465680235 (-56)),
    (Binary64.scaled 6980579422424269 (-50), Binary64.scaled 6807064429273519 (-32)),
    (Binary64.scaled (-1) (-2), Binary64.scaled 2532560182582287 (-52)),
    (Binary64.scaled (-79263353441721) (-54), Binary64.scaled 8916404660359207 (-53)),
    (Binary64.scaled (-5404319552844595) (-54), Binary64.scaled 2257146638606633 (-52))]

/-- The math library in double arithmetic at the arguments at which the runs evaluated
below call it: the values that glibc returns there.  A NaN at every other argument, and
for the functions that these runs do not call. -/
def glibcTable : Libm Binary64 :=
  { exp := tableAt glibc_exp
    log := tableAt glibc_log
    log10 := tableAt glibc_log10
    pow := fun x y => if x = 10 then tableAt glibc_pow10 y else .nan
    sqrt := fun _ => .nan
    sin := fun _ => .nan
    cos := fun _ => .nan
    tan := fun _ => .nan
    atan := fun _ => .nan
    tanh := tableAt glibc_tanh }

/-- The call `c` as the program receives it: every value rounded to the nearest double. -/
def MexCall.toDouble (c : MexCall ℚ) : MexCall Binary64 :=
  { nlhs := c.nlhs, nrhs := c.nrhs,
    px := { m := c.px.m, n := c.px.n, data := c.px.data.map (fun q => Binary64.num (binary64 q)) },
    cf := .num (binary64 c.cf), nrep := .num (binary64 c.nrep),
    binwidth := .num (binary64 c.binwidth), reptime := .num (binary64 c.reptime),
    cohc := .num (binary64 c.cohc), cihc := .num (binary64 c.cihc),
    spont := .num (binary64 c.spont) }

/-- A call with a silent 7-sample row-vector stimulus, 10 µs sample period and the
repetition period 0.07 ms, which is the duration of the stimulus. -/
def sevenCall : MexCall ℚ :=
  { nlhs := 9, nrhs := 8, px := { m := 1, n := 7, data := List.replicate 7 0 }, cf := 1000,
    nrep := 1, binwidth := 1e-5, reptime := 7e-5, cohc := 1, cihc := 1, spont := 50 }

/-- A call with a silent 2-sample row-vector stimulus, 10 µs sample period and the
repetition period 0.7 ms. -/
def seventyCall : MexCall ℚ :=
  { nlhs := 9, nrhs := 8, px := { m := 1, n := 2, data := [0, 0] }, cf := 1000,
    nrep := 1, binwidth := 1e-5, reptime := 7e-4, cohc := 1, cihc := 1, spont := 50 }

/-- A call with a silent 2-sample row-vector stimulus, 10 µs sample period and the
repetition period 30000 s, for which `floor((reptime*1e3)/(binwidth*1e3))` is 3000000000. -/
def longCall : MexCall ℚ :=
  { nlhs := 9, nrhs := 8, px := { m := 1, n := 2, data := [0, 0] }, cf := 1000,
    nrep := 1, binwidth := 1e-5, reptime := 3e4, cohc := 1, cihc := 1, spont := 50 }

/-- The field `totalstim` of the arguments handed to `SingleAN`, when the checks pass. -/
def acceptedTotalstim {β : Type} (x : Except MexError (ANArgs β)) : Option Int :=
  match x with
  | .ok a => some a.totalstim
  | .error _ => none

/-- The call `silentCall` (10 µs sample period) in double arithmetic with a NaN as `cohc`,
`cihc` and `spont`. -/
def nanHealthCall : MexCall Binary64 :=
  { silentCall.toDouble with cohc := .nan, cihc := .nan, spont := .nan }

/-- The call `silentCall` (10 µs sample period) in double arithmetic with a NaN as `cf`. -/
def nanCfCall : MexCall Binary64 := { silentCall.toDouble with cf := .nan }

/-- The call `silentCall` in double arithmetic with the sample period 5 µs and a NaN as
`cf`. -/
def nanCfFineCall : MexCall Binary64 :=
  { silentCall.toDouble with cf := .nan, binwidth := 5e-6 }

/-- The arguments handed to `SingleAN`, when the checks pass. -/
def acceptedArgs {β : Type} (x : Except MexError (ANArgs β)) : Option (ANArgs β) :=
  match x with
  | .ok a => some a
  | .error _ => none

/-- The function on doubles that takes a number `x` to the rounded value of `f x`, and a NaN
to a NaN. -/
def Binary64.rounded (f : ℚ → ℚ) : Binary64 → Binary64
  | .num x => .num (binary64 (f x))
  | .nan => .nan

/-- A stand-in for the math library in double arithmetic that is defined at every number:
the values of the rational stand-in `ratLibm`, rounded to the nearest double. -/
def roundedLibm : Libm Binary64 :=
  { exp := Binary64.rounded ratLibm.exp
    log := Binary64.rounded ratLibm.log
    log10 := Binary64.rounded ratLibm.log10
    pow := fun x y =>
      match x, y with
      | .num a, .num b => .num (binary64 (ratLibm.pow a b))
      | _, _ => .nan
    sqrt := Binary64.rounded ratLibm.sqrt
    sin := Binary64.rounded ratLibm.sin
    cos := Binary64.rounded ratLibm.cos
    tan := Binary64.rounded ratLibm.tan
    atan := Binary64.rounded ratLibm.atan
    tanh := Binary64.rounded ratLibm.tanh }

theorem cInt_intCast (k : Int) : cInt ((k : Int) : α) = k := by
  unfold cInt
  split_ifs <;> simp

theorem cfloor_eq_cceil_iff (x : α) : cfloor x = cceil x ↔ ∃ k : Int, x = (k : α) := by
  unfold cfloor cceil
  constructor
  · intro h
    have h' : Int.floor x = Int.ceil x := by exact_mod_cast h
    refine ⟨Int.floor x, le_antisymm ?_ (Int.floor_le x)⟩
    calc x ≤ ((Int.ceil x : Int) : α) := Int.le_ceil x
      _ = ((Int.floor x : Int) : α) := by rw [h']
  · rintro ⟨k, rfl⟩
    simp

theorem ite_error_eq_ok_iff {ε β : Type} {p : Prop} [Decidable p] {e : ε} {r : Except ε β}
    {a : β} : (if p then Except.error e else r) = Except.ok a ↔ ¬ p ∧ r = Except.ok a := by
  by_cases hp : p <;> simp [hp]

/-- The accepted calls, and the arguments handed to `SingleAN` for them. -/
theorem mexFunctionArgs_eq_ok_iff (c : MexCall α) (a : ANArgs α) :
    mexFunctionArgs c = .ok a ↔
      c.nrhs = 8 ∧ c.nlhs = 9 ∧ c.px.n ≠ 1 ∧
      (0.002e-3 ≤ c.binwidth ∧ c.binwidth ≤ 0.01e-3) ∧
      cfloor (c.binwidth * 1e6) = cceil (c.binwidth * 1e6) ∧
      (80 ≤ c.cf ∧ c.cf ≤ (if c.binwidth > 0.005e-3 then 20e3 else 40e3)) ∧
      c.nrep = ((cInt c.nrep : Int) : α) ∧ 1 ≤ cInt c.nrep ∧
      (0 ≤ c.cohc ∧ c.cohc ≤ 1) ∧ (0 ≤ c.cihc ∧ c.cihc ≤ 1) ∧
      (0 ≤ c.spont ∧ c.spont ≤ 150) ∧
      (c.px.n : Int) ≤ cInt (cfloor ((c.reptime * 1e3) / (c.binwidth * 1e3))) ∧
      c.px.n ≤ c.px.data.length ∧
      a = { px := c.px.data.take c.px.n ++
              List.replicate ((cInt (cfloor ((c.reptime * 1e3) / (c.binwidth * 1e3)))).toNat
                - c.px.n) 0,
            cf := c.cf, nrep := cInt c.nrep, binwidth := c.binwidth,
            totalstim := cInt (cfloor ((c.reptime * 1e3) / (c.binwidth * 1e3))),
            cohc := c.cohc, cihc := c.cihc,
            spont := if c.spont < 0.1 then 0.1 else c.spont } := by
  simp only [mexFunctionArgs, ite_error_eq_ok_iff, Except.ok.injEq, not_or, not_lt,
    Decidable.not_not, ne_eq, Nat.cast_eq_one]
  constructor
  · rintro ⟨h1, h2, h3, h4, h5, h6, h7, h8, h9, h10, h11, h12, h13, rfl⟩
    refine ⟨h1, h2, h3, h4, h5, ?_, h7, h8, h9, h10, h11, h12, h13, rfl⟩
    split_ifs at h6 ⊢ <;> simpa only [not_or, not_lt, gt_iff_lt] using h6
  · rintro ⟨h1, h2, h3, h4, h5, h6, h7, h8, h9, h10, h11, h12, h13, rfl⟩
    refine ⟨h1, h2, h3, h4, h5, ?_, h7, h8, h9, h10, h11, h12, h13, rfl⟩
    split_ifs at h6 ⊢ <;> simpa only [not_or, not_lt, gt_iff_lt] using h6

theorem ite_error_eq_error_iff {ε β : Type} {p : Prop} [Decidable p] {e e' : ε}
    {r : Except ε β} :
    (if p then Except.error e else r) = Except.error e' ↔
      (p ∧ e = e') ∨ (¬ p ∧ r = Except.error e') := by
  by_cases hp : p <;> simp [hp]

theorem mexFunctionArgs_eq_cfRange_iff (c : MexCall α) :
    mexFunctionArgs c = .error .cfRange ↔
      c.nrhs = 8 ∧ c.nlhs = 9 ∧ c.px.n ≠ 1 ∧ ¬ (c.binwidth < 0.002e-3 ∨ c.binwidth > 0.01e-3) ∧
      cfloor (c.binwidth * 1e6) = cceil (c.binwidth * 1e6) ∧
      (if c.binwidth > 0.005e-3 then c.cf < 80 ∨ c.cf > 20e3 else c.cf < 80 ∨ c.cf > 40e3) := by
  simp only [mexFunctionArgs, ite_error_eq_error_iff, reduceCtorEq, and_false, false_or,
    and_true, or_false, Decidable.not_not, ne_eq, Nat.cast_eq_one]

theorem mexFunctionArgs_eq_pxNotRow_iff (c : MexCall α) :
    mexFunctionArgs c = .error .pxNotRow ↔ c.nrhs = 8 ∧ c.nlhs = 9 ∧ c.px.n = 1 := by
  simp only [mexFunctionArgs, ite_error_eq_error_iff, reduceCtorEq, and_false, false_or,
    and_true, or_false, Decidable.not_not, ne_eq, Nat.cast_eq_one]

theorem mexFunctionArgs_eq_reptimeShort_iff (c : MexCall α) :
    mexFunctionArgs c = .error .reptimeShort ↔
      c.nrhs = 8 ∧ c.nlhs = 9 ∧ c.px.n ≠ 1 ∧ ¬ (c.binwidth < 0.002e-3 ∨ c.binwidth > 0.01e-3) ∧
      cfloor (c.binwidth * 1e6) = cceil (c.binwidth * 1e6) ∧
      ¬ (if c.binwidth > 0.005e-3 then c.cf < 80 ∨ c.cf > 20e3 else c.cf < 80 ∨ c.cf > 40e3) ∧
      c.nrep = ((cInt c.nrep : Int) : α) ∧ ¬ cInt c.nrep < 1 ∧
      ¬ (c.cohc < 0 ∨ c.cohc > 1) ∧ ¬ (c.cihc < 0 ∨ c.cihc > 1) ∧
      ¬ (c.spont < 0 ∨ c.spont > 150) ∧
      cInt (cfloor ((c.reptime * 1e3) / (c.binwidth * 1e3))) < (c.px.n : Int) := by
  simp only [mexFunctionArgs, ite_error_eq_error_iff, reduceCtorEq, and_false, false_or,
    and_true, or_false, Decidable.not_not, ne_eq, Nat.cast_eq_one]

theorem cInt_cfloor (x : α) : cInt (cfloor x) = Int.floor x := by
  unfold cfloor
  exact cInt_intCast _

/-- In exact arithmetic, where no value is a NaN: whenever the argument checks of `mexFunction` let the call through to `SingleAN`,
the arguments handed over satisfy `2e-6 ≤ binwidth ≤ 1e-5`, `80 ≤ cf ≤ 40000`, `nrep` is an
integer `≥ 1` equal to the supplied value, `0 ≤ cohc ≤ 1`, `0 ≤ cihc ≤ 1`,
`0.1 ≤ spont ≤ 150` and `totalstim ≥ pxbins`; and when a supplied value makes one of these
impossible the call ends in an error instead of reaching `SingleAN`. -/
theorem validation_sound_exact (c : MexCall α) :
    (∀ a : ANArgs α, mexFunctionArgs c = .ok a →
      (2e-6 ≤ a.binwidth ∧ a.binwidth ≤ 1e-5) ∧ (80 ≤ a.cf ∧ a.cf ≤ 40000) ∧
      (1 ≤ a.nrep ∧ ((a.nrep : Int) : α) = c.nrep) ∧ (0 ≤ a.cohc ∧ a.cohc ≤ 1) ∧
      (0 ≤ a.cihc ∧ a.cihc ≤ 1) ∧ (0.1 ≤ a.spont ∧ a.spont ≤ 150) ∧
      (c.px.n : Int) ≤ a.totalstim) ∧
    (¬ ((2e-6 ≤ c.binwidth ∧ c.binwidth ≤ 1e-5) ∧ (80 ≤ c.cf ∧ c.cf ≤ 40000) ∧
        (∃ k : Int, 1 ≤ k ∧ ((k : Int) : α) = c.nrep) ∧ (0 ≤ c.cohc ∧ c.cohc ≤ 1) ∧
        (0 ≤ c.cihc ∧ c.cihc ≤ 1) ∧ (0 ≤ c.spont ∧ c.spont ≤ 150) ∧
        (c.px.n : Int) ≤ Int.floor ((c.reptime * 1e3) / (c.binwidth * 1e3))) →
      ∃ e, mexFunctionArgs c = .error e) := by
  have key : ∀ a : ANArgs α, mexFunctionArgs c = .ok a →
      ((2e-6 ≤ c.binwidth ∧ c.binwidth ≤ 1e-5) ∧ (80 ≤ c.cf ∧ c.cf ≤ 40000) ∧
        (∃ k : Int, 1 ≤ k ∧ ((k : Int) : α) = c.nrep) ∧ (0 ≤ c.cohc ∧ c.cohc ≤ 1) ∧
        (0 ≤ c.cihc ∧ c.cihc ≤ 1) ∧ (0 ≤ c.spont ∧ c.spont ≤ 150) ∧
        (c.px.n : Int) ≤ Int.floor ((c.reptime * 1e3) / (c.binwidth * 1e3))) ∧
      a.binwidth = c.binwidth ∧ a.cf = c.cf ∧ a.nrep = cInt c.nrep ∧ a.cohc = c.cohc ∧
      a.cihc = c.cihc ∧ a.spont = (if c.spont < 0.1 then 0.1 else c.spont) ∧
      a.totalstim = Int.floor ((c.reptime * 1e3) / (c.binwidth * 1e3)) := by
    intro a h
    obtain ⟨-, -, -, h4, -, h6, h7, h8, h9, h10, h11, h12, -, rfl⟩ :=
      (mexFunctionArgs_eq_ok_iff c a).1 h
    rw [cInt_cfloor] at h12
    refine ⟨⟨h4, ⟨h6.1, ?_⟩, ⟨_, h8, h7.symm⟩, h9, h10, h11, h12⟩, rfl, rfl, rfl, rfl, rfl, rfl,
      cInt_cfloor _⟩
    refine h6.2.trans ?_
    split_ifs <;> norm_num
  constructor
  · intro a h
    obtain ⟨⟨h4, h6, ⟨k, hk1, hk⟩, h9, h10, h11, h12⟩, e1, e2, e3, e4, e5, e6, e7⟩ := key a h
    rw [e1, e2, e3, e4, e5, e6, e7]
    refine ⟨h4, h6, ⟨?_, ?_⟩, h9, h10, ⟨?_, ?_⟩, h12⟩
    · rw [← hk, cInt_intCast]; exact hk1
    · rw [← hk, cInt_intCast]
    · split_ifs with hs
      · exact le_refl _
      · exact not_lt.1 hs
    · split_ifs with hs
      · norm_num
      · exact h11.2
  · intro hn
    cases hres : mexFunctionArgs c with
    | error e => exact ⟨e, rfl⟩
    | ok a => exact absurd (key a hres).1 hn

/-- In exact arithmetic, where no value is a NaN: for a call that passes the earlier checks, the characteristic-frequency check lets
`cf` through iff `80 ≤ cf ≤ 20000` when `binwidth > 5e-6`, and iff `80 ≤ cf ≤ 40000` when
`binwidth ≤ 5e-6`; and when the remaining arguments are valid (the call is accepted for some
`cf'`), the call is accepted iff `cf` lies in that range. -/
theorem cf_check_exact (c : MexCall α) (h1 : c.nrhs = 8) (h2 : c.nlhs = 9) (h3 : c.px.n ≠ 1)
    (h4 : 2e-6 ≤ c.binwidth ∧ c.binwidth ≤ 1e-5) (h5 : ∃ k : Int, c.binwidth * 1e6 = (k : α)) :
    (c.binwidth > 5e-6 →
      (mexFunctionArgs c ≠ .error .cfRange ↔ 80 ≤ c.cf ∧ c.cf ≤ 20000)) ∧
    (c.binwidth ≤ 5e-6 →
      (mexFunctionArgs c ≠ .error .cfRange ↔ 80 ≤ c.cf ∧ c.cf ≤ 40000)) ∧
    (∀ (cf' : α) (a' : ANArgs α), mexFunctionArgs { c with cf := cf' } = .ok a' →
      ((∃ a, mexFunctionArgs c = .ok a) ↔
        80 ≤ c.cf ∧ c.cf ≤ (if c.binwidth > 5e-6 then 20000 else 40000))) := by
  have h5' := (cfloor_eq_cceil_iff _).2 h5
  have h4' : ¬ (c.binwidth < 0.002e-3 ∨ c.binwidth > 0.01e-3) := by
    rw [not_or, not_lt, not_lt]; exact h4
  refine ⟨?_, ?_, ?_⟩
  · intro hb
    rw [Ne, mexFunctionArgs_eq_cfRange_iff]
    simp only [h1, h2, h3, h4', h5', ne_eq, not_false_eq_true, true_and, hb, if_true, not_or,
      not_lt]
    norm_num
  · intro hb
    have hb' : ¬ c.binwidth > 0.005e-3 := not_lt.2 hb
    rw [Ne, mexFunctionArgs_eq_cfRange_iff]
    simp only [h1, h2, h3, h4', h5', ne_eq, not_false_eq_true, true_and, hb', if_false, not_or,
      not_lt]
    norm_num
  · intro cf' a' hv
    obtain ⟨-, -, -, -, -, -, g7, g8, g9, g10, g11, g12, g13, -⟩ :=
      (mexFunctionArgs_eq_ok_iff _ a').1 hv
    constructor
    · rintro ⟨a, ha⟩
      obtain ⟨-, -, -, -, -, h6, -⟩ := (mexFunctionArgs_eq_ok_iff c a).1 ha
      refine ⟨h6.1, h6.2.trans (le_of_eq ?_)⟩
      split_ifs <;> norm_num
    · intro hcf
      refine ⟨_, (mexFunctionArgs_eq_ok_iff c _).2
        ⟨h1, h2, h3, h4, h5', ⟨hcf.1, hcf.2.trans (le_of_eq ?_)⟩, g7, g8, g9, g10, g11, g12, g13,
          rfl⟩⟩
      split_ifs <;> norm_num

/-- C7: a supplied spontaneous rate `s` with `s < 0` or `s > 150` makes the call end in an
error; every accepted call hands `max s 0.1` to `SingleAN`; and when the remaining arguments
are valid (the call is accepted for some `s'`), a rate `0 ≤ s < 0.1` runs the simulation
with `spont = 0.1` and a rate `0.1 ≤ s ≤ 150` runs it with `spont = s`. -/
theorem C7_spont_clamp (c : MexCall α) :
    (c.spont < 0 ∨ c.spont > 150 → ∃ e, mexFunctionArgs c = .error e) ∧
    (∀ a : ANArgs α, mexFunctionArgs c = .ok a → a.spont = max c.spont 0.1) ∧
    (∀ (s' : α) (a' : ANArgs α), mexFunctionArgs { c with spont := s' } = .ok a' →
      (0 ≤ c.spont → c.spont < 0.1 → mexFunctionArgs c = .ok { a' with spont := 0.1 }) ∧
      (0.1 ≤ c.spont → c.spont ≤ 150 →
        mexFunctionArgs c = .ok { a' with spont := c.spont })) := by
  refine ⟨?_, ?_, ?_⟩
  · intro hs
    cases hres : mexFunctionArgs c with
    | error e => exact ⟨e, rfl⟩
    | ok a =>
      obtain ⟨-, -, -, -, -, -, -, -, -, -, h11, -⟩ := (mexFunctionArgs_eq_ok_iff c a).1 hres
      rcases hs with hs | hs
      · exact absurd h11.1 (not_le.2 hs)
      · exact absurd h11.2 (not_le.2 hs)
  · intro a h
    obtain ⟨-, -, -, -, -, -, -, -, -, -, -, -, -, rfl⟩ := (mexFunctionArgs_eq_ok_iff c a).1 h
    show (if c.spont < 0.1 then 0.1 else c.spont) = max c.spont 0.1
    split_ifs with hs
    · exact (max_eq_right hs.le).symm
    · exact (max_eq_left (not_lt.1 hs)).symm
  · intro s' a' hv
    obtain ⟨g1, g2, g3, g4, g5, g6, g7, g8, g9, g10, -, g12, g13, rfl⟩ :=
      (mexFunctionArgs_eq_ok_iff _ a').1 hv
    constructor
    · intro hs0 hs1
      refine (mexFunctionArgs_eq_ok_iff c _).2
        ⟨g1, g2, g3, g4, g5, g6, g7, g8, g9, g10, ⟨hs0, hs1.le.trans (by norm_num)⟩, g12, g13, ?_⟩
      simp only [if_pos hs1]
    · intro hs0 hs1
      refine (mexFunctionArgs_eq_ok_iff c _).2
        ⟨g1, g2, g3, g4, g5, g6, g7, g8, g9, g10, ⟨le_trans (by norm_num) hs0, hs1⟩, g12, g13, ?_⟩
      simp only [if_neg (not_lt.2 hs0)]

/-- In exact arithmetic: when the remaining arguments are valid (the call is accepted for some repetition
period `r'`), the call ends in the duration error iff
`floor((reptime*1e3)/(binwidth*1e3)) < pxbins`; an accepted call has
`totalstim = floor((reptime*1e3)/(binwidth*1e3))`; and a call with
`reptime = pxbins*binwidth` is accepted with `totalstim = pxbins` and a stimulus buffer
that is the stimulus itself, without zero padding. -/
theorem duration_check_exact (c : MexCall α) (r' : α) (a' : ANArgs α)
    (hv : mexFunctionArgs { c with reptime := r' } = .ok a') :
    (mexFunctionArgs c = .error .reptimeShort ↔
      Int.floor ((c.reptime * 1e3) / (c.binwidth * 1e3)) < (c.px.n : Int)) ∧
    (∀ a : ANArgs α, mexFunctionArgs c = .ok a →
      a.totalstim = Int.floor ((c.reptime * 1e3) / (c.binwidth * 1e3))) ∧
    (c.reptime = (c.px.n : α) * c.binwidth →
      ∃ a : ANArgs α, mexFunctionArgs c = .ok a ∧ a.totalstim = (c.px.n : Int) ∧
        a.px = c.px.data.take c.px.n) := by
  obtain ⟨g1, g2, g3, g4, g5, g6, g7, g8, g9, g10, g11, -, g13, -⟩ :=
    (mexFunctionArgs_eq_ok_iff _ a').1 hv
  simp only [] at g1 g2 g3 g4 g5 g6 g7 g8 g9 g10 g11 g13
  refine ⟨?_, ?_, ?_⟩
  · rw [mexFunctionArgs_eq_reptimeShort_iff, cInt_cfloor]
    constructor
    · intro h
      exact h.2.2.2.2.2.2.2.2.2.2.2
    · intro h
      refine ⟨g1, g2, g3, ?_, g5, ?_, g7, not_lt.2 g8, ?_, ?_, ?_, h⟩
      · rw [not_or, not_lt, not_lt]; exact g4
      · split_ifs at g6 ⊢ <;> rw [not_or, not_lt, not_lt] <;> exact g6
      · rw [not_or, not_lt, not_lt]; exact g9
      · rw [not_or, not_lt, not_lt]; exact g10
      · rw [not_or, not_lt, not_lt]; exact g11
  · intro a h
    obtain ⟨-, -, -, -, -, -, -, -, -, -, -, -, -, rfl⟩ := (mexFunctionArgs_eq_ok_iff c a).1 h
    exact cInt_cfloor _
  · intro hr
    have hb : (0 : α) < c.binwidth := lt_of_lt_of_le (by norm_num) g4.1
    have hfl : Int.floor ((c.reptime * 1e3) / (c.binwidth * 1e3)) = (c.px.n : Int) := by
      have : (c.reptime * 1e3) / (c.binwidth * 1e3) = (((c.px.n : Int) : Int) : α) := by
        rw [hr]
        field_simp
        ring
      rw [this, Int.floor_intCast]
    refine ⟨_, (mexFunctionArgs_eq_ok_iff c _).2
      ⟨g1, g2, g3, g4, g5, g6, g7, g8, g9, g10, g11, ?_, g13, rfl⟩, ?_, ?_⟩
    · rw [cInt_cfloor, hfl]
    · show cInt (cfloor _) = _
      rw [cInt_cfloor, hfl]
    · show _ ++ List.replicate ((cInt (cfloor _)).toNat - _) 0 = _
      rw [cInt_cfloor, hfl]
      simp

/-- C9 (amended): when the remaining arguments are valid (the call is accepted for some
stimulus `px'`), every row-vector stimulus with `N ≥ 2` samples whose length does not exceed
`floor((reptime*1e3)/(binwidth*1e3))` is accepted, and the shape check rejects exactly the
stimuli with one column (`N = 1`). -/
theorem C9_stimulus_checks (c : MexCall α) (px' : MxArray α) (a' : ANArgs α)
    (hv : mexFunctionArgs { c with px := px' } = .ok a') :
    (c.px.m = 1 → c.px.data.length = c.px.n → 2 ≤ c.px.n →
      (c.px.n : Int) ≤ Int.floor ((c.reptime * 1e3) / (c.binwidth * 1e3)) →
      ∃ a : ANArgs α, mexFunctionArgs c = .ok a) ∧
    (mexFunctionArgs c = .error .pxNotRow ↔ c.px.n = 1) := by
  obtain ⟨g1, g2, -, g4, g5, g6, g7, g8, g9, g10, g11, -, -, -⟩ :=
    (mexFunctionArgs_eq_ok_iff _ a').1 hv
  simp only [] at g1 g2 g4 g5 g6 g7 g8 g9 g10 g11
  constructor
  · intro _ hlen hn htot
    refine ⟨_, (mexFunctionArgs_eq_ok_iff c _).2
      ⟨g1, g2, ?_, g4, g5, g6, g7, g8, g9, g10, g11, ?_, hlen.ge, rfl⟩⟩
    · omega
    · rw [cInt_cfloor]; exact htot
  · rw [mexFunctionArgs_eq_pxNotRow_iff]
    simp only [g1, g2, true_and]


theorem validation_sound_exact_example :
    mexFunctionArgs exampleCall = .ok exampleArgs ∧
      ((2e-6 ≤ exampleArgs.binwidth ∧ exampleArgs.binwidth ≤ 1e-5) ∧
        (80 ≤ exampleArgs.cf ∧ exampleArgs.cf ≤ 40000) ∧
        (1 ≤ exampleArgs.nrep ∧ ((exampleArgs.nrep : Int) : ℚ) = exampleCall.nrep) ∧
        (0 ≤ exampleArgs.cohc ∧ exampleArgs.cohc ≤ 1) ∧
        (0 ≤ exampleArgs.cihc ∧ exampleArgs.cihc ≤ 1) ∧
        (0.1 ≤ exampleArgs.spont ∧ exampleArgs.spont ≤ 150) ∧
        (exampleCall.px.n : Int) ≤ exampleArgs.totalstim) :=
  ⟨by with_unfolding_all rfl,
    (validation_sound_exact exampleCall).1 exampleArgs (by with_unfolding_all rfl)⟩

theorem cf_check_exact_example :
    exampleCall.binwidth > 5e-6 ∧
      (mexFunctionArgs exampleCall ≠ .error .cfRange ↔
        80 ≤ exampleCall.cf ∧ exampleCall.cf ≤ 20000) :=
  ⟨by norm_num [exampleCall],
    (cf_check_exact exampleCall rfl rfl (by decide)
      ⟨by norm_num [exampleCall], by norm_num [exampleCall]⟩
      ⟨10, by norm_num [exampleCall]⟩).1 (by norm_num [exampleCall])⟩

theorem C7_spont_clamp_witness :
    mexFunctionArgs { exampleCall with spont := 0.05 } = .ok { exampleArgs with spont := 0.1 } :=
  ((C7_spont_clamp { exampleCall with spont := 0.05 }).2.2 50 exampleArgs
    (by with_unfolding_all rfl)).1 (by norm_num) (by norm_num)

theorem duration_check_exact_example :
    ∃ a : ANArgs ℚ, mexFunctionArgs { exampleCall with reptime := 2e-5 } = .ok a ∧
      a.totalstim = 2 ∧ a.px = [1/2, 1/4] :=
  (duration_check_exact { exampleCall with reptime := 2e-5 } 5e-5 exampleArgs
    (by with_unfolding_all rfl)).2.2 (by norm_num [exampleCall])

/-- C9 as stated fails on a single-sample stimulus: `singleSampleCall` carries a non-empty
row vector (1 row, `N = 1`) no longer than the 5 samples of the repetition period, its other
arguments are those of the accepted `exampleCall`, and the shape check rejects it. -/
theorem C9_counterexample :
    singleSampleCall.px.m = 1 ∧ singleSampleCall.px.data.length = singleSampleCall.px.n ∧
      1 ≤ singleSampleCall.px.n ∧
      (singleSampleCall.px.n : Int) ≤
        Int.floor ((singleSampleCall.reptime * 1e3) / (singleSampleCall.binwidth * 1e3)) ∧
      mexFunctionArgs { singleSampleCall with px := exampleCall.px } = .ok exampleArgs ∧
      mexFunctionArgs singleSampleCall = .error .pxNotRow :=
  ⟨rfl, rfl, by decide, by with_unfolding_all decide, by with_unfolding_all rfl,
    by with_unfolding_all rfl⟩

theorem C9_stimulus_checks_witness :
    ∃ a : ANArgs ℚ, mexFunctionArgs exampleCall = .ok a :=
  (C9_stimulus_checks exampleCall exampleCall.px exampleArgs (by with_unfolding_all rfl)).1
    rfl rfl (by decide) (by with_unfolding_all decide)


/-! ## Arrays and loops -/

theorem bind_eq_ok_iff {ε β γ : Type} (x : Except ε β) (f : β → Except ε γ) (c : γ) :
    (x >>= f) = Except.ok c ↔ ∃ b, x = Except.ok b ∧ f b = Except.ok c := by
  cases x with
  | error e => simp [bind, Except.bind]
  | ok b => simp [bind, Except.bind]

theorem writeAt_eq_ok_iff {β : Type} (a a' : List β) (i : Int) (v : β) :
    writeAt a i v = .ok a' ↔ (0 ≤ i ∧ i < (a.length : Int)) ∧ a' = a.set i.toNat v := by
  unfold writeAt
  split_ifs with h
  · simp [h, eq_comm]
  · simp [h]

theorem readAt_eq_ok_iff {β : Type} (a : List β) (i : Int) (v : β) :
    readAt a i = .ok v ↔ 0 ≤ i ∧ a[i.toNat]? = some v := by
  unfold readAt
  split_ifs with h
  · rw [List.get?_eq_getElem?]
    cases hg : a[i.toNat]? with
    | none => simp [h]
    | some w => simp [h]
  · simp [h]

theorem writeAt_nat {β : Type} (a a' : List β) (i : Nat) (v : β)
    (h : writeAt a (i : Int) v = .ok a') : i < a.length ∧ a' = a.set i v := by
  obtain ⟨⟨-, h2⟩, h3⟩ := (writeAt_eq_ok_iff a a' i v).1 h
  exact ⟨by exact_mod_cast h2, by simpa using h3⟩

/-- The first delay loop: `d` assignments `a[i] = v`. -/
theorem fill_spec {β : Type} (v : β) : ∀ (d : Nat) (a a' : List β),
    (List.range d).foldlM (fun (acc : List β) (i : Nat) => writeAt acc (i : Int) v) a = .ok a' →
      a'.length = a.length ∧ d ≤ a.length ∧ (∀ i, i < d → a'[i]? = some v) ∧
        (∀ i, d ≤ i → a'[i]? = a[i]?) := by
  intro d
  induction d with
  | zero =>
    intro a a' h
    simp only [List.range_zero, List.foldlM_nil, pure, Except.pure, Except.ok.injEq] at h
    subst h
    simp
  | succ d ih =>
    intro a a' h
    rw [List.range_succ, List.foldlM_append, bind_eq_ok_iff] at h
    obtain ⟨b, hb, hstep⟩ := h
    obtain ⟨h1, h2, h3, h4⟩ := ih a b hb
    simp only [List.foldlM_cons, List.foldlM_nil, bind_eq_ok_iff, pure, Except.pure,
      Except.ok.injEq, exists_eq_right] at hstep
    obtain ⟨hd, rfl⟩ := writeAt_nat _ _ _ _ hstep
    refine ⟨by simp [h1], by omega, ?_, ?_⟩
    · intro i hi
      by_cases hid : i = d
      · subst hid; simp [hd]
      · rw [List.getElem?_set_ne (Ne.symm hid)]
        exact h3 i (by omega)
    · intro i hi
      rw [List.getElem?_set_ne (by omega)]
      exact h4 i (by omega)

theorem ShiftedFrom_refl {β : Type} (tmp x : List β) (d : Nat) : ShiftedFrom tmp x x d 0 :=
  ⟨rfl, fun i h1 h2 => absurd h2 (by omega), fun _ _ => rfl⟩

theorem ShiftedFrom_step {β : Type} {tmp x x1 x2 : List β} {delaypoint : Int} {cnt : Nat}
    {v : β} (hd : 0 ≤ delaypoint) (h : ShiftedFrom tmp x x1 delaypoint.toNat cnt)
    (hr : readAt tmp (((delaypoint.toNat + cnt : Nat) : Int) - delaypoint) = .ok v)
    (hw : writeAt x1 ((delaypoint.toNat + cnt : Nat) : Int) v = .ok x2) :
    ShiftedFrom tmp x x2 delaypoint.toNat (cnt + 1) := by
  obtain ⟨h1, h2, h3⟩ := h
  obtain ⟨hlt, rfl⟩ := writeAt_nat _ _ _ _ hw
  have hidx : (((delaypoint.toNat + cnt : Nat) : Int) - delaypoint).toNat = cnt := by
    have := Int.toNat_of_nonneg hd
    omega
  obtain ⟨-, hv⟩ := (readAt_eq_ok_iff _ _ _).1 hr
  rw [hidx] at hv
  refine ⟨by simp [h1], ?_, ?_⟩
  · intro i hi1 hi2
    by_cases hi : i = delaypoint.toNat + cnt
    · subst hi
      refine ⟨v, ?_, by simp [hlt]⟩
      rw [Nat.add_sub_cancel_left]; exact hv
    · obtain ⟨w, hw1, hw2⟩ := h2 i hi1 (by omega)
      exact ⟨w, hw1, by rw [List.getElem?_set_ne (Ne.symm hi)]; exact hw2⟩
  · intro i hi
    rw [List.getElem?_set_ne (by omega)]
    exact h3 i (by omega)

/-- What one pass of the second delay loop does. -/
theorem SingleAN_shift_eq_ok {delaypoint : Int} {st : ANLoop α} {out out' : Outputs α}
    {i : Nat} (h : SingleAN_shift delaypoint st out i = .ok out') :
    out'.timeout = out.timeout ∧ out'.meout = out.meout ∧ out'.psth = out.psth ∧
    (∃ v, readAt st.c1filterouttmp ((i : Int) - delaypoint) = .ok v ∧
      writeAt out.c1filterout i v = .ok out'.c1filterout) ∧
    (∃ v, readAt st.c2filterouttmp ((i : Int) - delaypoint) = .ok v ∧
      writeAt out.c2filterout i v = .ok out'.c2filterout) ∧
    (∃ v, readAt st.c1vihctmp ((i : Int) - delaypoint) = .ok v ∧
      writeAt out.c1vihc i v = .ok out'.c1vihc) ∧
    (∃ v, readAt st.c2vihctmp ((i : Int) - delaypoint) = .ok v ∧
      writeAt out.c2vihc i v = .ok out'.c2vihc) ∧
    (∃ v, readAt st.ihcouttmp ((i : Int) - delaypoint) = .ok v ∧
      writeAt out.ihcout i v = .ok out'.ihcout) ∧
    (∃ v, readAt st.synouttmp ((i : Int) - delaypoint) = .ok v ∧
      writeAt out.synout i v = .ok out'.synout) := by
  simp only [SingleAN_shift, bind_eq_ok_iff, pure, Except.pure, Except.ok.injEq] at h
  obtain ⟨v1, hv1, x1, hx1, v2, hv2, x2, hx2, v3, hv3, x3, hx3, v4, hv4, x4, hx4, v5, hv5, x5, hx5,
    v6, hv6, x6, hx6, rfl⟩ := h
  exact ⟨rfl, rfl, rfl, ⟨v1, hv1, hx1⟩, ⟨v2, hv2, hx2⟩, ⟨v3, hv3, hx3⟩, ⟨v4, hv4, hx4⟩,
    ⟨v5, hv5, hx5⟩, ⟨v6, hv6, hx6⟩⟩

/-- The second delay loop after `cnt` passes. -/
theorem shift_loop_spec {delaypoint : Int} (hd : 0 ≤ delaypoint) (st : ANLoop α)
    (out : Outputs α) : ∀ (cnt : Nat) (out' : Outputs α),
    (List.range' delaypoint.toNat cnt).foldlM (SingleAN_shift delaypoint st) out = .ok out' →
      out'.timeout = out.timeout ∧ out'.meout = out.meout ∧ out'.psth = out.psth ∧
      ShiftedFrom st.c1filterouttmp out.c1filterout out'.c1filterout delaypoint.toNat cnt ∧
      ShiftedFrom st.c2filterouttmp out.c2filterout out'.c2filterout delaypoint.toNat cnt ∧
      ShiftedFrom st.c1vihctmp out.c1vihc out'.c1vihc delaypoint.toNat cnt ∧
      ShiftedFrom st.c2vihctmp out.c2vihc out'.c2vihc delaypoint.toNat cnt ∧
      ShiftedFrom st.ihcouttmp out.ihcout out'.ihcout delaypoint.toNat cnt ∧
      ShiftedFrom st.synouttmp out.synout out'.synout delaypoint.toNat cnt := by
  intro cnt
  induction cnt with
  | zero =>
    intro out' h
    simp only [List.range'_zero, List.foldlM_nil, pure, Except.pure, Except.ok.injEq] at h
    subst h
    exact ⟨rfl, rfl, rfl, ShiftedFrom_refl _ _ _, ShiftedFrom_refl _ _ _, ShiftedFrom_refl _ _ _,
      ShiftedFrom_refl _ _ _, ShiftedFrom_refl _ _ _, ShiftedFrom_refl _ _ _⟩
  | succ cnt ih =>
    intro out' h
    rw [List.range'_concat, List.foldlM_append, bind_eq_ok_iff] at h
    obtain ⟨o1, ho1, hstep⟩ := h
    simp only [List.foldlM_cons, List.foldlM_nil, bind_eq_ok_iff, pure, Except.pure,
      Except.ok.injEq, exists_eq_right, Nat.one_mul] at hstep
    obtain ⟨e1, e2, e3, s1, s2, s3, s4, s5, s6⟩ := ih o1 ho1
    obtain ⟨f1, f2, f3, ⟨v1, r1, w1⟩, ⟨v2, r2, w2⟩, ⟨v3, r3, w3⟩, ⟨v4, r4, w4⟩, ⟨v5, r5, w5⟩,
      ⟨v6, r6, w6⟩⟩ := SingleAN_shift_eq_ok hstep
    exact ⟨f1.trans e1, f2.trans e2, f3.trans e3, ShiftedFrom_step hd s1 r1 w1, ShiftedFrom_step hd s2 r2 w2,
      ShiftedFrom_step hd s3 r3 w3, ShiftedFrom_step hd s4 r4 w4, ShiftedFrom_step hd s5 r5 w5, ShiftedFrom_step hd s6 r6 w6⟩

/-- What one pass of the sample loop does to the arrays: it stores the middle-ear
values, the time and one value per temporary array at index `n`, and nothing else. -/
theorem SingleAN_sample_eq_ok {L : Libm α} {vsat0 : α} {a : ANArgs α} {k : ANConsts α}
    {st st' : ANLoop α} {n : Nat} (h : SingleAN_sample L vsat0 a k st n = .ok st') :
    (∃ y, SingleAN_middleEar k a.px st.mey1 st.mey2 st.mey3 n = .ok y ∧
      writeAt st.mey1 n y.1 = .ok st'.mey1 ∧ writeAt st.mey2 n y.2.1 = .ok st'.mey2 ∧
      writeAt st.mey3 n y.2.2 = .ok st'.mey3 ∧
      writeAt st.meout n (y.2.2 / k.megainmax) = .ok st'.meout) ∧
    writeAt st.timeout n ((n : α) * a.binwidth) = .ok st'.timeout ∧
    (∃ v, writeAt st.c1filterouttmp n v = .ok st'.c1filterouttmp) ∧
    (∃ v, writeAt st.c2filterouttmp n v = .ok st'.c2filterouttmp) ∧
    (∃ v, writeAt st.c1vihctmp n v = .ok st'.c1vihctmp) ∧
    (∃ v, writeAt st.c2vihctmp n v = .ok st'.c2vihctmp) ∧
    (∃ v, writeAt st.ihcouttmp n v = .ok st'.ihcouttmp) ∧
    (∃ v, writeAt st.synouttmp n v = .ok st'.synouttmp) := by
  simp only [SingleAN_sample, bind_eq_ok_iff, pure, Except.pure, Except.ok.injEq] at h
  obtain ⟨y, hy, m1, hm1, m2, hm2, m3, hm3, mo, hmo, t, ht, -, -, g, hg, tg, htg, tn, htn, tg2,
    htg2, wg, hwg, c1, hc1, c1t, hc1t, c2, hc2, c2t, hc2t, c1v, hc1v, c2v, hc2v, ih, hih, sy, hsy,
    rfl⟩ := h
  exact ⟨⟨y, hy, hm1, hm2, hm3, hmo⟩, ht, ⟨_, hc1t⟩, ⟨_, hc2t⟩, ⟨_, hc1v⟩, ⟨_, hc2v⟩, ⟨_, hih⟩,
    ⟨_, hsy⟩⟩

theorem StableBelow_refl {β : Type} (m : Nat) (x : List β) : StableBelow m x x :=
  ⟨rfl, fun _ _ => rfl⟩

theorem StableBelow_write {β : Type} {m n : Nat} {x x1 x2 : List β} {v : β}
    (h : StableBelow m x x1) (hmn : m ≤ n) (hw : writeAt x1 (n : Int) v = .ok x2) :
    StableBelow m x x2 := by
  obtain ⟨-, rfl⟩ := writeAt_nat _ _ _ _ hw
  refine ⟨by simp [h.1], fun i hi => ?_⟩
  rw [List.getElem?_set_ne (by omega)]
  exact h.2 i hi

theorem writeAt_getElem {β : Type} {n : Nat} {x x' : List β} {v : β}
    (hw : writeAt x (n : Int) v = .ok x') : x'[n]? = some v := by
  obtain ⟨hlt, rfl⟩ := writeAt_nat _ _ _ _ hw
  simp [hlt]

theorem SingleAN_loop_succ (L : Libm α) (vsat0 : α) (a : ANArgs α) (k : ANConsts α)
    (st0 : ANLoop α) (m : Nat) :
    SingleAN_loop L vsat0 a k st0 (m + 1) =
      SingleAN_loop L vsat0 a k st0 m >>= fun st => SingleAN_sample L vsat0 a k st m := by
  unfold SingleAN_loop
  rw [List.range_succ, List.foldlM_append]
  congr 1
  funext st
  simp only [List.foldlM_cons, List.foldlM_nil]
  cases SingleAN_sample L vsat0 a k st m <;> rfl

/-- Later passes of the sample loop leave the entries stored by earlier passes alone:
if `m'` passes succeed, so do the first `m ≤ m'`, and the arrays agree below `m`. -/
theorem SingleAN_loop_stable (L : Libm α) (vsat0 : α) (a : ANArgs α) (k : ANConsts α)
    (st0 : ANLoop α) (m : Nat) : ∀ (m' : Nat) (st' : ANLoop α), m ≤ m' →
    SingleAN_loop L vsat0 a k st0 m' = .ok st' →
      ∃ st, SingleAN_loop L vsat0 a k st0 m = .ok st ∧ LoopStableBelow m st st' := by
  intro m'
  induction m' with
  | zero =>
    intro st' hm h
    have : m = 0 := by omega
    subst this
    exact ⟨st', h, StableBelow_refl _ _, StableBelow_refl _ _, StableBelow_refl _ _,
      StableBelow_refl _ _, StableBelow_refl _ _, StableBelow_refl _ _, StableBelow_refl _ _,
      StableBelow_refl _ _⟩
  | succ m' ih =>
    intro st' hm h
    by_cases hmm : m = m' + 1
    · subst hmm
      exact ⟨st', h, StableBelow_refl _ _, StableBelow_refl _ _, StableBelow_refl _ _,
        StableBelow_refl _ _, StableBelow_refl _ _, StableBelow_refl _ _, StableBelow_refl _ _,
        StableBelow_refl _ _⟩
    · rw [SingleAN_loop_succ, bind_eq_ok_iff] at h
      obtain ⟨st1, h1, hstep⟩ := h
      obtain ⟨st, hst, s1, s2, s3, s4, s5, s6, s7, s8⟩ := ih st1 (by omega) h1
      obtain ⟨⟨y, -, -, -, -, hmo⟩, ht, ⟨_, w3⟩, ⟨_, w4⟩, ⟨_, w5⟩, ⟨_, w6⟩, ⟨_, w7⟩, ⟨_, w8⟩⟩ :=
        SingleAN_sample_eq_ok hstep
      have hle : m ≤ m' := by omega
      exact ⟨st, hst, StableBelow_write s1 hle hmo, StableBelow_write s2 hle ht, StableBelow_write s3 hle w3, StableBelow_write s4 hle w4,
        StableBelow_write s5 hle w5, StableBelow_write s6 hle w6, StableBelow_write s7 hle w7, StableBelow_write s8 hle w8⟩

/-- The PSTH folding changes the array `psth` only, and keeps its length. -/
theorem SingleAN_psth_eq_ok {G : SpikeGen α} {a : ANArgs α} {out out' : Outputs α}
    (h : SingleAN_psth G a out = .ok out') :
    ∃ p, out' = { out with psth := p } ∧ p.length = out.psth.length := by
  simp only [SingleAN_psth, bind_eq_ok_iff, pure, Except.pure, Except.ok.injEq] at h
  obtain ⟨-, -, p, hp, rfl⟩ := h
  refine ⟨p, rfl, ?_⟩
  generalize G out.synout a.binwidth a.totalstim (a.nrep : α) = sp at hp
  generalize out.psth = p0 at hp
  induction sp generalizing p0 with
  | nil =>
    simp only [List.foldlM_nil, pure, Except.pure, Except.ok.injEq] at hp
    rw [hp]
  | cons t ts ih =>
    simp only [List.foldlM_cons, bind_eq_ok_iff] at hp
    obtain ⟨p1, ⟨v, -, hw⟩, hrest⟩ := hp
    rw [ih p1 hrest]
    obtain ⟨-, rfl⟩ := (writeAt_eq_ok_iff _ _ _ _).1 hw
    simp

theorem SingleAN_delaypoint_nonneg (L : Libm α) (cf binwidth : α) :
    0 ≤ SingleAN_delaypoint L cf binwidth := by
  unfold SingleAN_delaypoint cmax
  simp only []
  split_ifs with h
  · exact le_refl _
  · exact not_lt.1 h

/-- The delay adjustment: `meout` and `timeout` are the arrays the sample loop wrote,
`synout` holds `spont` below `delaypoint`, and the six delayed arrays are shifted copies
of the temporary arrays. -/
theorem SingleAN_delay_eq_ok {L : Libm α} {a : ANArgs α} {st : ANLoop α} {out out' : Outputs α}
    (h : SingleAN_delay L a st out = .ok out') :
    let d := (SingleAN_delaypoint L a.cf a.binwidth).toNat
    let cnt := (a.totalstim - SingleAN_delaypoint L a.cf a.binwidth).toNat
    out'.timeout = st.timeout ∧ out'.meout = st.meout ∧ out'.psth = out.psth ∧
    d ≤ out.synout.length ∧
    (∀ i, i < d → out'.synout[i]? = some a.spont) ∧
    out'.synout.length = out.synout.length ∧
    (∀ i, d ≤ i → i < d + cnt → ∃ v, st.synouttmp[i - d]? = some v ∧ out'.synout[i]? = some v) ∧
    ShiftedFrom st.c1filterouttmp out.c1filterout out'.c1filterout d cnt ∧
    ShiftedFrom st.c2filterouttmp out.c2filterout out'.c2filterout d cnt ∧
    ShiftedFrom st.c1vihctmp out.c1vihc out'.c1vihc d cnt ∧
    ShiftedFrom st.c2vihctmp out.c2vihc out'.c2vihc d cnt ∧
    ShiftedFrom st.ihcouttmp out.ihcout out'.ihcout d cnt := by
  intro d cnt
  simp only [SingleAN_delay, bind_eq_ok_iff] at h
  obtain ⟨syn, hsyn, hloop⟩ := h
  obtain ⟨f1, f2, f3, f4⟩ := fill_spec a.spont _ _ _ hsyn
  obtain ⟨e1, e2, e3, s1, s2, s3, s4, s5, s6⟩ :=
    shift_loop_spec (SingleAN_delaypoint_nonneg L a.cf a.binwidth) st _ _ _ hloop
  refine ⟨e1, e2, e3, f2, ?_, ?_, s6.2.1, s1, s2, s3, s4, s5⟩
  · intro i hi
    rw [s6.2.2 i (Or.inl hi)]
    exact f3 i hi
  · rw [s6.1]; exact f1

/-- An accepted call: its arguments, the variables after the whole sample loop, the
output of the delay adjustment, and the PSTH. -/
theorem mexFunction_eq_ok {L : Libm α} {G : SpikeGen α} {vsat0 : α} {s : Statics α}
    {c : MexCall α} {r : Outputs α × Statics α} (h : mexFunction L G vsat0 s c = .ok r) :
    ∃ a st out1, mexFunctionArgs c = .ok a ∧
      SingleAN_samples L vsat0 s a (zeroOutputs a.totalstim) a.totalstim.toNat = .ok st ∧
      SingleAN_delay L a st (zeroOutputs a.totalstim) = .ok out1 ∧
      ∃ p, r.1 = { out1 with psth := p } ∧ p.length = out1.psth.length := by
  unfold mexFunction at h
  cases ha : mexFunctionArgs c with
  | error e => rw [ha] at h; cases h
  | ok a =>
    rw [ha] at h
    simp only [SingleAN, bind_eq_ok_iff, pure, Except.pure, Except.ok.injEq] at h
    obtain ⟨st, hst, out1, hout1, out2, hout2, rfl⟩ := h
    obtain ⟨p, hp, hlen⟩ := SingleAN_psth_eq_ok hout2
    exact ⟨a, st, out1, rfl, hst, hout1, p, hp, hlen⟩

/-- The variables after `m ≤ m'` passes exist when those after `m'` passes do, and the
arrays agree below `m`. -/
theorem SingleAN_samples_stable {L : Libm α} {vsat0 : α} {s : Statics α} {a : ANArgs α}
    {out : Outputs α} {m m' : Nat} {st' : ANLoop α} (hm : m ≤ m')
    (h : SingleAN_samples L vsat0 s a out m' = .ok st') :
    ∃ st, SingleAN_samples L vsat0 s a out m = .ok st ∧ LoopStableBelow m st st' := by
  simp only [SingleAN_samples, bind_eq_ok_iff] at h ⊢
  obtain ⟨st0, h0, hl⟩ := h
  obtain ⟨st, hst, hs⟩ := SingleAN_loop_stable L vsat0 a _ st0 m m' st' hm hl
  exact ⟨st, ⟨st0, h0, hst⟩, hs⟩

/-- The variables after one more pass. -/
theorem SingleAN_samples_succ {L : Libm α} {vsat0 : α} {s : Statics α} {a : ANArgs α}
    {out : Outputs α} {m : Nat} {st' : ANLoop α}
    (h : SingleAN_samples L vsat0 s a out (m + 1) = .ok st') :
    ∃ st, SingleAN_samples L vsat0 s a out m = .ok st ∧
      SingleAN_sample L vsat0 a (SingleAN_consts L a.cf a.binwidth a.cohc) st m = .ok st' := by
  simp only [SingleAN_samples, bind_eq_ok_iff] at h ⊢
  obtain ⟨st0, h0, hl⟩ := h
  rw [SingleAN_loop_succ, bind_eq_ok_iff] at hl
  obtain ⟨st, hst, hstep⟩ := hl
  exact ⟨st, ⟨st0, h0, hst⟩, hstep⟩

/-- The arrays right after the allocations. -/
theorem SingleAN_samples_zero {L : Libm α} {vsat0 : α} {s : Statics α} {a : ANArgs α}
    {out : Outputs α} {st : ANLoop α} (h : SingleAN_samples L vsat0 s a out 0 = .ok st) :
    st.meout = out.meout ∧ st.timeout = out.timeout ∧ 0 < a.totalstim.toNat := by
  simp only [SingleAN_samples, SingleAN_loop, SingleAN_start, bind_eq_ok_iff, List.range_zero,
    List.foldlM_nil, pure, Except.pure, Except.ok.injEq] at h
  obtain ⟨st0, ⟨tg, htg, rfl⟩, rfl⟩ := h
  obtain ⟨⟨-, hlt⟩, -⟩ := (writeAt_eq_ok_iff _ _ _ _).1 htg
  refine ⟨rfl, rfl, ?_⟩
  simpa using hlt

theorem zeroOutputs_getElem (T : Int) (i : Nat) (hi : i < T.toNat) :
    (List.replicate T.toNat (0 : α))[i]? = some 0 := by
  simp [hi]

/-- The arguments handed to `SingleAN` by an accepted call. -/
theorem mexFunctionArgs_fields {c : MexCall α} {a : ANArgs α} (h : mexFunctionArgs c = .ok a) :
    a.cf = c.cf ∧ a.binwidth = c.binwidth ∧ a.spont = max c.spont 0.1 ∧
      a.totalstim = Int.floor ((c.reptime * 1e3) / (c.binwidth * 1e3)) := by
  obtain ⟨-, -, -, -, -, -, -, -, -, -, -, -, -, rfl⟩ := (mexFunctionArgs_eq_ok_iff c a).1 h
  refine ⟨rfl, rfl, ?_, cInt_cfloor _⟩
  show (if c.spont < 0.1 then 0.1 else c.spont) = max c.spont 0.1
  split_ifs with hs
  · exact (max_eq_right hs.le).symm
  · exact (max_eq_left (not_lt.1 hs)).symm

/-- C1: for every accepted call that produces output, each of the nine output sequences
has length `totalstim = floor((reptime*1e3)/(binwidth*1e3))`, and `synout[i]` is the
clamped spontaneous rate `max spont 0.1` for every `i < delaypoint`, where
`delaypoint = max(0, ceil(delay_cat(cf)/binwidth))`. -/
theorem C1_lengths_and_spont_fill (L : Libm α) (G : SpikeGen α) (vsat0 : α) (s : Statics α)
    (c : MexCall α) (r : Outputs α × Statics α) (h : mexFunction L G vsat0 s c = .ok r) :
    (∀ x ∈ [r.1.timeout, r.1.meout, r.1.c1filterout, r.1.c2filterout, r.1.c1vihc, r.1.c2vihc,
        r.1.ihcout, r.1.synout, r.1.psth],
      (x.length : Int) = Int.floor ((c.reptime * 1e3) / (c.binwidth * 1e3))) ∧
    (∀ i : Nat, (i : Int) < SingleAN_delaypoint L c.cf c.binwidth →
      r.1.synout[i]? = some (max c.spont 0.1)) := by
  obtain ⟨a, st, out1, ha, hst, hdel, p, hr, hp⟩ := mexFunction_eq_ok h
  obtain ⟨hcf, hbw, hspont, htot⟩ := mexFunctionArgs_fields ha
  obtain ⟨st0, hst0, hs1, hs2, -⟩ := SingleAN_samples_stable (Nat.zero_le _) hst
  obtain ⟨z1, z2, hpos⟩ := SingleAN_samples_zero hst0
  obtain ⟨e1, e2, e3, -, e5, e6, -, s1, s2, s3, s4, s5⟩ := SingleAN_delay_eq_ok hdel
  have hT : ((a.totalstim.toNat : Nat) : Int) = a.totalstim :=
    Int.toNat_of_nonneg (by omega)
  have hz : ∀ x : List α, x.length = (List.replicate a.totalstim.toNat (0 : α)).length →
      (x.length : Int) = Int.floor ((c.reptime * 1e3) / (c.binwidth * 1e3)) := by
    intro x hx
    rw [hx, List.length_replicate, hT, htot]
  constructor
  · intro x hx
    simp only [List.mem_cons, List.mem_singleton, List.not_mem_nil, or_false] at hx
    rw [hr] at hx
    rcases hx with rfl | rfl | rfl | rfl | rfl | rfl | rfl | rfl | rfl
    · exact hz _ (by rw [e1, hs2.1, z2]; rfl)
    · exact hz _ (by rw [e2, hs1.1, z1]; rfl)
    · exact hz _ s1.1
    · exact hz _ s2.1
    · exact hz _ s3.1
    · exact hz _ s4.1
    · exact hz _ s5.1
    · exact hz _ e6
    · exact hz _ (by rw [hp, e3]; rfl)
  · intro i hi
    rw [hr, ← hspont]
    refine e5 i ?_
    rw [hcf, hbw]
    omega

/-- C2: for every accepted call that produces output and every index `i` with
`delaypoint ≤ i < totalstim`, each of `c1filterout`, `c2filterout`, `c1vihc`, `c2vihc`,
`ihcout` and `synout` holds at `i` the value the sample loop computed and stored in the
corresponding temporary array at the pass `i - delaypoint`; for `i < delaypoint` the five
non-synapse sequences hold their initial value 0. -/
theorem C2_delay_alignment (L : Libm α) (G : SpikeGen α) (vsat0 : α) (s : Statics α)
    (c : MexCall α) (r : Outputs α × Statics α) (h : mexFunction L G vsat0 s c = .ok r) :
    ∃ a : ANArgs α, mexFunctionArgs c = .ok a ∧
      (∀ i : Nat, SingleAN_delaypoint L a.cf a.binwidth ≤ (i : Int) → (i : Int) < a.totalstim →
        ∃ st : ANLoop α,
          SingleAN_samples L vsat0 s a (zeroOutputs a.totalstim)
            (i - (SingleAN_delaypoint L a.cf a.binwidth).toNat + 1) = .ok st ∧
          SameAt r.1.c1filterout i st.c1filterouttmp
            (i - (SingleAN_delaypoint L a.cf a.binwidth).toNat) ∧
          SameAt r.1.c2filterout i st.c2filterouttmp
            (i - (SingleAN_delaypoint L a.cf a.binwidth).toNat) ∧
          SameAt r.1.c1vihc i st.c1vihctmp (i - (SingleAN_delaypoint L a.cf a.binwidth).toNat) ∧
          SameAt r.1.c2vihc i st.c2vihctmp (i - (SingleAN_delaypoint L a.cf a.binwidth).toNat) ∧
          SameAt r.1.ihcout i st.ihcouttmp (i - (SingleAN_delaypoint L a.cf a.binwidth).toNat) ∧
          SameAt r.1.synout i st.synouttmp
            (i - (SingleAN_delaypoint L a.cf a.binwidth).toNat)) ∧
      (∀ i : Nat, (i : Int) < SingleAN_delaypoint L a.cf a.binwidth →
        r.1.c1filterout[i]? = some 0 ∧ r.1.c2filterout[i]? = some 0 ∧ r.1.c1vihc[i]? = some 0 ∧
          r.1.c2vihc[i]? = some 0 ∧ r.1.ihcout[i]? = some 0) := by
  obtain ⟨a, st, out1, ha, hst, hdel, p, hr, -⟩ := mexFunction_eq_ok h
  refine ⟨a, ha, ?_, ?_⟩
  · intro i hi1 hi2
    have hdn := SingleAN_delaypoint_nonneg L a.cf a.binwidth
    obtain ⟨-, -, -, -, -, -, e7, s1, s2, s3, s4, s5⟩ := SingleAN_delay_eq_ok hdel
    have hd1 : (SingleAN_delaypoint L a.cf a.binwidth).toNat ≤ i := by omega
    have hd2 : i < (SingleAN_delaypoint L a.cf a.binwidth).toNat +
        (a.totalstim - SingleAN_delaypoint L a.cf a.binwidth).toNat := by omega
    obtain ⟨stn, hstn, -, -, t1, t2, t3, t4, t5, t6⟩ :=
      SingleAN_samples_stable (m := i - (SingleAN_delaypoint L a.cf a.binwidth).toNat + 1)
        (by omega) hst
    have key : ∀ (tmp tmpn x : List α), StableBelow
        (i - (SingleAN_delaypoint L a.cf a.binwidth).toNat + 1) tmpn tmp →
        (∃ v, tmp[i - (SingleAN_delaypoint L a.cf a.binwidth).toNat]? = some v ∧
          x[i]? = some v) →
        SameAt x i tmpn (i - (SingleAN_delaypoint L a.cf a.binwidth).toNat) := by
      rintro tmp tmpn x hs ⟨v, hv1, hv2⟩
      refine ⟨v, hv2, ?_⟩
      rw [← hs.2 _ (Nat.lt_succ_self _)]
      exact hv1
    rw [hr]
    exact ⟨stn, hstn, key _ _ _ t1 (s1.2.1 i hd1 hd2), key _ _ _ t2 (s2.2.1 i hd1 hd2),
      key _ _ _ t3 (s3.2.1 i hd1 hd2), key _ _ _ t4 (s4.2.1 i hd1 hd2),
      key _ _ _ t5 (s5.2.1 i hd1 hd2), key _ _ _ t6 (e7 i hd1 hd2)⟩
  · intro i hi
    obtain ⟨-, -, -, e4, -, -, -, s1, s2, s3, s4, s5⟩ := SingleAN_delay_eq_ok hdel
    have hi' : i < (SingleAN_delaypoint L a.cf a.binwidth).toNat := by omega
    have hlen : i < a.totalstim.toNat := by
      have : (zeroOutputs a.totalstim : Outputs α).synout.length = a.totalstim.toNat := by
        simp [zeroOutputs]
      omega
    rw [hr]
    refine ⟨?_, ?_, ?_, ?_, ?_⟩
    · rw [s1.2.2 i (Or.inl hi')]; exact zeroOutputs_getElem _ _ hlen
    · rw [s2.2.2 i (Or.inl hi')]; exact zeroOutputs_getElem _ _ hlen
    · rw [s3.2.2 i (Or.inl hi')]; exact zeroOutputs_getElem _ _ hlen
    · rw [s4.2.2 i (Or.inl hi')]; exact zeroOutputs_getElem _ _ hlen
    · rw [s5.2.2 i (Or.inl hi')]; exact zeroOutputs_getElem _ _ hlen

/-- C3 (amended): the middle-ear output is not delayed.  For every accepted call that
produces output and every `i < totalstim`, `meout[i]` is `mey3[i]/megainmax`, the
middle-ear filter value that the pass `i` of the sample loop computes for the sample `i`
itself. -/
theorem C3_meout_not_delayed (L : Libm α) (G : SpikeGen α) (vsat0 : α) (s : Statics α)
    (c : MexCall α) (r : Outputs α × Statics α) (h : mexFunction L G vsat0 s c = .ok r) :
    ∃ a : ANArgs α, mexFunctionArgs c = .ok a ∧
      ∀ i : Nat, (i : Int) < a.totalstim →
        ∃ (st : ANLoop α) (y : α × α × α),
          SingleAN_samples L vsat0 s a (zeroOutputs a.totalstim) i = .ok st ∧
          SingleAN_middleEar (SingleAN_consts L a.cf a.binwidth a.cohc) a.px
            st.mey1 st.mey2 st.mey3 i = .ok y ∧
          r.1.meout[i]? = some (y.2.2 / 41.1405) := by
  obtain ⟨a, st, out1, ha, hst, hdel, p, hr, -⟩ := mexFunction_eq_ok h
  refine ⟨a, ha, fun i hi => ?_⟩
  obtain ⟨-, e2, -⟩ := SingleAN_delay_eq_ok hdel
  obtain ⟨st1, hst1, hs, -⟩ := SingleAN_samples_stable (m := i + 1) (by omega) hst
  obtain ⟨st0, hst0, hstep⟩ := SingleAN_samples_succ hst1
  obtain ⟨⟨y, hy, -, -, -, hmo⟩, -⟩ := SingleAN_sample_eq_ok hstep
  refine ⟨st0, y, hst0, hy, ?_⟩
  rw [hr]
  show out1.meout[i]? = _
  rw [e2, hs.2 i (Nat.lt_succ_self i), writeAt_getElem hmo]
  rfl

theorem SingleAN_CAgain_ge (L : Libm α) (cf : α) : 15 ≤ SingleAN_CAgain L cf := by
  unfold SingleAN_CAgain
  simp only []
  split_ifs with h
  · exact le_refl _
  · exact not_lt.1 h

/-- C10: for every `cf > 0`, with `CAgain` computed from `cf` and floored at 15, the time
constants returned by `Get_tauwb` and `Get_taubm` satisfy `0 < Taumin ≤ Taumax` and
`0 < bmTaumin ≤ bmTaumax`. -/
theorem C10_time_constants (L : Libm α) (hL : L.PowLaws) (cf : α) (hcf : 0 < cf) :
    0 < (Get_tauwb L cf (SingleAN_CAgain L cf) 3).2 ∧
    (Get_tauwb L cf (SingleAN_CAgain L cf) 3).2 ≤ (Get_tauwb L cf (SingleAN_CAgain L cf) 3).1 ∧
    0 < (Get_taubm L cf (SingleAN_CAgain L cf) (Get_tauwb L cf (SingleAN_CAgain L cf) 3).1).2.1 ∧
    (Get_taubm L cf (SingleAN_CAgain L cf) (Get_tauwb L cf (SingleAN_CAgain L cf) 3).1).2.1 ≤
      (Get_taubm L cf (SingleAN_CAgain L cf) (Get_tauwb L cf (SingleAN_CAgain L cf) 3).1).1 := by
  have hCA := SingleAN_CAgain_ge L cf
  have hQ : 0 < L.pow 10 (0.4708 * L.log10 (cf / 1e3) + 0.4664) := hL.pow_pos _ _ (by norm_num)
  have hmax : 0 < 2.0 / (TWOPI * (cf / L.pow 10 (0.4708 * L.log10 (cf / 1e3) + 0.4664))) := by
    have hT : (0 : α) < TWOPI := by unfold TWOPI; norm_num
    have : (0 : α) < 2.0 := by norm_num
    positivity
  have hr1 : 0 < L.pow 10 (-SingleAN_CAgain L cf / (20.0 * ((3 : Int) : α))) :=
    hL.pow_pos _ _ (by norm_num)
  have hr1' : L.pow 10 (-SingleAN_CAgain L cf / (20.0 * ((3 : Int) : α))) ≤ 1 := by
    refine hL.pow_le_one _ _ (by norm_num) ?_
    have : (0 : α) < 20.0 * ((3 : Int) : α) := by norm_num
    exact div_nonpos_of_nonpos_of_nonneg (by linarith) this.le
  have hr2 : 0 < L.pow 10 (-SingleAN_CAgain L cf / (20.0 * 2.5)) := hL.pow_pos _ _ (by norm_num)
  have hr2' : L.pow 10 (-SingleAN_CAgain L cf / (20.0 * 2.5)) ≤ 1 := by
    refine hL.pow_le_one _ _ (by norm_num) ?_
    have : (0 : α) < 20.0 * 2.5 := by norm_num
    exact div_nonpos_of_nonpos_of_nonneg (by linarith) this.le
  have hbm : 0 < 2.0 / (TWOPI * (cf / L.pow 10 (0.4708 * L.log10 (cf / 1e3) + 0.4664))) / 0.7 :=
    div_pos hmax (by norm_num)
  simp only [Get_tauwb, Get_taubm]
  exact ⟨mul_pos hmax hr1, mul_le_of_le_one_right hmax.le hr1', mul_pos hbm hr2,
    mul_le_of_le_one_right hbm.le hr2'⟩

theorem ratExp_pos (t : ℚ) : 0 < ratExp t := by
  unfold ratExp
  split_ifs with h
  · have : (0 : ℚ) < 1 - t := by linarith
    positivity
  · linarith [not_le.1 h]

theorem ratLog_nonneg (x : ℚ) (hx : 1 ≤ x) : 0 ≤ ratLog x := by
  unfold ratLog
  split_ifs with h1 h2
  · exact le_refl _
  · have : x = 1 := le_antisymm h2 hx
    subst this; norm_num
  · linarith

/-- The rational stand-in satisfies the facts about `pow`. -/
theorem ratLibm_powLaws : ratLibm.PowLaws where
  pow_pos := by
    intro x y hx
    show 0 < (if y = 2 then x * x else if y = 3 then x * x * x
      else if y = 5 then x * x * x * x * x
      else if y = 1 / 2 then (1 + x) / 2 else ratExp (y * ratLog x))
    split_ifs
    · positivity
    · positivity
    · positivity
    · positivity
    · exact ratExp_pos _
  pow_le_one := by
    intro x y hx hy
    show (if y = 2 then x * x else if y = 3 then x * x * x
      else if y = 5 then x * x * x * x * x
      else if y = 1 / 2 then (1 + x) / 2 else ratExp (y * ratLog x)) ≤ 1
    split_ifs with h1 h2 h3 h4
    · subst h1; norm_num at hy
    · subst h2; norm_num at hy
    · subst h3; norm_num at hy
    · subst h4; norm_num at hy
    · have ht : y * ratLog x ≤ 0 := mul_nonpos_of_nonpos_of_nonneg hy (ratLog_nonneg x hx)
      unfold ratExp
      rw [if_pos ht]
      rw [div_le_one (by linarith)]
      linarith

theorem C10_time_constants_witness :
    (0 : ℚ) < 1000 ∧
      0 < (Get_tauwb ratLibm 1000 (SingleAN_CAgain ratLibm 1000) 3).2 ∧
      (Get_tauwb ratLibm 1000 (SingleAN_CAgain ratLibm 1000) 3).2 ≤
        (Get_tauwb ratLibm 1000 (SingleAN_CAgain ratLibm 1000) 3).1 :=
  ⟨by norm_num,
    (C10_time_constants ratLibm ratLibm_powLaws 1000 (by norm_num)).1,
    (C10_time_constants ratLibm ratLibm_powLaws 1000 (by norm_num)).2.1⟩

/-! ## A concrete run -/

theorem runCheck_spec (x : Except MexError (Outputs ℚ × Statics ℚ)) (d : Outputs ℚ × Statics ℚ)
    (h : runCheck x = true) :
    x = .ok (okOr x d) ∧ ((okOr x d).1.meout[70]?).isSome = true ∧
      (okOr x d).1.meout[70]? ≠ some 0 := by
  cases x with
  | error e => cases h
  | ok r =>
    have h' : (r.1.meout[70]?).isSome = true ∧ r.1.meout[70]? ≠ some 0 := by
      simpa [runCheck] using h
    exact ⟨rfl, h'.1, h'.2⟩

set_option maxRecDepth 100000 in
theorem impulseRun_check :
    runCheck (mexFunction ratLibm oneSpike 0 Statics.zero impulseCall) = true := by
  decide!

theorem impulseRun_ok :
    mexFunction ratLibm oneSpike 0 Statics.zero impulseCall = .ok impulseRun :=
  (runCheck_spec _ _ impulseRun_check).1

theorem impulseRun_meout :
    (impulseRun.1.meout[70]?).isSome = true ∧ impulseRun.1.meout[70]? ≠ some 0 :=
  (runCheck_spec _ _ impulseRun_check).2

theorem impulseArgs_ok : mexFunctionArgs impulseCall = .ok impulseArgs := by
  have h : (mexFunctionArgs impulseCall).toOption = some impulseArgs := by decide!
  cases hm : mexFunctionArgs impulseCall with
  | error e => rw [hm] at h; cases h
  | ok a =>
    rw [hm] at h
    exact congrArg Except.ok (Option.some.inj h)

theorem impulse_delaypoint :
    SingleAN_delaypoint ratLibm impulseArgs.cf impulseArgs.binwidth = 54 := by
  decide!

set_option maxRecDepth 100000 in
theorem impulseRun17_meout :
    impulseRun17.map (fun st => st.meout[70 - 54]?) = some (some 0) := by
  decide!

theorem C1_lengths_and_spont_fill_witness :
    mexFunction ratLibm oneSpike 0 Statics.zero impulseCall = .ok impulseRun ∧
      ((∀ x ∈ [impulseRun.1.timeout, impulseRun.1.meout, impulseRun.1.c1filterout,
          impulseRun.1.c2filterout, impulseRun.1.c1vihc, impulseRun.1.c2vihc,
          impulseRun.1.ihcout, impulseRun.1.synout, impulseRun.1.psth],
        (x.length : Int) =
          Int.floor ((impulseCall.reptime * 1e3) / (impulseCall.binwidth * 1e3))) ∧
      (∀ i : Nat, (i : Int) < SingleAN_delaypoint ratLibm impulseCall.cf impulseCall.binwidth →
        impulseRun.1.synout[i]? = some (max impulseCall.spont 0.1))) :=
  ⟨impulseRun_ok,
    C1_lengths_and_spont_fill ratLibm oneSpike 0 Statics.zero impulseCall impulseRun
      impulseRun_ok⟩

theorem C2_delay_alignment_witness :
    mexFunction ratLibm oneSpike 0 Statics.zero impulseCall = .ok impulseRun ∧
      ∃ a : ANArgs ℚ, mexFunctionArgs impulseCall = .ok a ∧
        (∀ i : Nat, SingleAN_delaypoint ratLibm a.cf a.binwidth ≤ (i : Int) →
          (i : Int) < a.totalstim →
          ∃ st : ANLoop ℚ,
            SingleAN_samples ratLibm 0 Statics.zero a (zeroOutputs a.totalstim)
              (i - (SingleAN_delaypoint ratLibm a.cf a.binwidth).toNat + 1) = .ok st ∧
            SameAt impulseRun.1.c1filterout i st.c1filterouttmp
              (i - (SingleAN_delaypoint ratLibm a.cf a.binwidth).toNat) ∧
            SameAt impulseRun.1.synout i st.synouttmp
              (i - (SingleAN_delaypoint ratLibm a.cf a.binwidth).toNat)) := by
  refine ⟨impulseRun_ok, ?_⟩
  obtain ⟨a, ha, h1, -⟩ :=
    C2_delay_alignment ratLibm oneSpike 0 Statics.zero impulseCall impulseRun impulseRun_ok
  refine ⟨a, ha, fun i hi1 hi2 => ?_⟩
  obtain ⟨st, hst, s1, -, -, -, -, s6⟩ := h1 i hi1 hi2
  exact ⟨st, hst, s1, s6⟩

/-- C3 as stated fails on `impulseCall`: the call is accepted and the run produces output,
`delaypoint = 54 ≤ 70 < 71 = totalstim`, the middle-ear filter value of the sample
`70 - 54 = 16`, stored by the pass 16 of the sample loop, is 0, and the returned
`meout[70]` exists and is not 0.  (The stimulus is silent before its sample 70, so the
same holds for every `delaypoint` from 1 to 70; with the `exp` and `log10` of the C
library the value is 63.) -/
theorem C3_counterexample :
    mexFunctionArgs impulseCall = .ok impulseArgs ∧
    mexFunction ratLibm oneSpike 0 Statics.zero impulseCall = .ok impulseRun ∧
    SingleAN_delaypoint ratLibm impulseArgs.cf impulseArgs.binwidth = 54 ∧
    impulseArgs.totalstim = 71 ∧
    impulseRun17.map (fun st => st.meout[70 - 54]?) = some (some 0) ∧
    (impulseRun.1.meout[70]?).isSome = true ∧ impulseRun.1.meout[70]? ≠ some 0 :=
  ⟨impulseArgs_ok, impulseRun_ok, impulse_delaypoint, rfl, impulseRun17_meout,
    impulseRun_meout.1, impulseRun_meout.2⟩

theorem C3_meout_not_delayed_witness :
    mexFunction ratLibm oneSpike 0 Statics.zero impulseCall = .ok impulseRun ∧
      ∃ a : ANArgs ℚ, mexFunctionArgs impulseCall = .ok a ∧
        ∀ i : Nat, (i : Int) < a.totalstim →
          ∃ (st : ANLoop ℚ) (y : ℚ × ℚ × ℚ),
            SingleAN_samples ratLibm 0 Statics.zero a (zeroOutputs a.totalstim) i = .ok st ∧
            SingleAN_middleEar (SingleAN_consts ratLibm a.cf a.binwidth a.cohc) a.px
              st.mey1 st.mey2 st.mey3 i = .ok y ∧
            impulseRun.1.meout[i]? = some (y.2.2 / 41.1405) :=
  ⟨impulseRun_ok,
    C3_meout_not_delayed ratLibm oneSpike 0 Statics.zero impulseCall impulseRun impulseRun_ok⟩


theorem bind_eq_error_iff {ε β γ : Type} (x : Except ε β) (f : β → Except ε γ) (e : ε) :
    (x >>= f) = Except.error e ↔ x = Except.error e ∨ ∃ b, x = Except.ok b ∧ f b = Except.error e := by
  cases x with
  | error e' => simp [bind, Except.bind]
  | ok b => simp [bind, Except.bind]

theorem writeAt_error {β : Type} {a : List β} {i : Int} {v : β} {e : MexError}
    (h : writeAt a i v = .error e) : e = .outOfBounds := by
  unfold writeAt at h
  split_ifs at h
  cases h; rfl

theorem readAt_error {β : Type} {a : List β} {i : Int} {e : MexError}
    (h : readAt a i = .error e) : e = .outOfBounds := by
  unfold readAt at h
  split_ifs at h
  · cases hg : a.get? i.toNat with
    | none => rw [hg] at h; cases h; rfl
    | some w => rw [hg] at h; cases h
  · cases h; rfl

theorem SingleAN_middleEar_error {k : ANConsts α} {px mey1 mey2 mey3 : List α} {n : Nat}
    {e : MexError} (h : SingleAN_middleEar k px mey1 mey2 mey3 n = .error e) :
    e = .outOfBounds := by
  unfold SingleAN_middleEar at h
  split_ifs at h
  all_goals
    simp only [bind_eq_error_iff, pure, Except.pure, reduceCtorEq, and_false, exists_false,
      or_false] at h
  · exact readAt_error h
  · rcases h with h | ⟨_, _, h | ⟨_, _, h | ⟨_, _, h | ⟨_, _, h⟩⟩⟩⟩ <;> exact readAt_error h
  · rcases h with h | ⟨_, _, h | ⟨_, _, h | ⟨_, _, h | ⟨_, _, h | ⟨_, _, h | ⟨_, _, h |
      ⟨_, _, h⟩⟩⟩⟩⟩⟩⟩ <;> exact readAt_error h

theorem zero_lit : (0.0 : α) = 0 := by norm_num

theorem ite_writeAt_error {β : Type} {c : Prop} [Decidable c] {a b : List β} {i : Int} {v : β}
    {e : MexError} (h : (if c then writeAt a i v else Except.ok b) = .error e) :
    e = .outOfBounds := by
  split_ifs at h
  exact writeAt_error h

/-- The ways a pass of the sample loop can fail. -/
theorem SingleAN_sample_error {L : Libm α} {vsat0 : α} {a : ANArgs α} {k : ANConsts α}
    {st : ANLoop α} {n : Nat} {e : MexError} (h : SingleAN_sample L vsat0 a k st n = .error e) :
    e = .outOfBounds ∨
    ∃ y, SingleAN_middleEar k a.px st.mey1 st.mey2 st.mey3 n = .ok y ∧
      ((e = .polesUnstable ∧ 1 / SingleAN_tauc1 L a k st n (y.2.2 / k.megainmax) < 0) ∨
       (¬ 1 / SingleAN_tauc1 L a k st n (y.2.2 / k.megainmax) < 0 ∧
        (C1ChirpFilt L st.statics.c1 (y.2.2 / k.megainmax) a.binwidth a.cf n k.bmTaumax
            (1 / SingleAN_tauc1 L a k st n (y.2.2 / k.megainmax) - 1 / k.bmTaumax) = .error e ∨
         C2ChirpFilt L st.statics.c2 (y.2.2 / k.megainmax) a.binwidth a.cf n k.bmTaumax
            (1 / k.ratiobm) = .error e))) := by
  simp only [SingleAN_sample, bind_eq_error_iff, bind_eq_ok_iff, pure, Except.pure,
    reduceCtorEq, and_false, exists_false, or_false] at h
  rcases h with h | ⟨y, hy, h⟩
  · exact Or.inl (SingleAN_middleEar_error h)
  rcases h with h | ⟨m1, -, h⟩
  · exact Or.inl (writeAt_error h)
  rcases h with h | ⟨m2, -, h⟩
  · exact Or.inl (writeAt_error h)
  rcases h with h | ⟨m3, -, h⟩
  · exact Or.inl (writeAt_error h)
  rcases h with h | ⟨mo, -, h⟩
  · exact Or.inl (writeAt_error h)
  rcases h with h | ⟨t, -, h⟩
  · exact Or.inl (writeAt_error h)
  rcases h with h | ⟨u, hu, h⟩
  · refine Or.inr ⟨y, hy, Or.inl ?_⟩
    change (if 1 / SingleAN_tauc1 L a k st n (y.2.2 / k.megainmax) < 0.0 then
      Except.error MexError.polesUnstable else Except.ok ()) = Except.error e at h
    split_ifs at h with hc
    cases h
    rw [zero_lit] at hc
    exact ⟨rfl, hc⟩
  have hc : ¬ 1 / SingleAN_tauc1 L a k st n (y.2.2 / k.megainmax) < 0 := by
    change (if 1 / SingleAN_tauc1 L a k st n (y.2.2 / k.megainmax) < 0.0 then
      Except.error MexError.polesUnstable else Except.ok ()) = Except.ok u at hu
    split_ifs at hu with hc
    rw [zero_lit] at hc
    exact hc
  rcases h with h | ⟨g, -, h⟩
  · exact Or.inl (writeAt_error h)
  rcases h with h | ⟨tg, -, h⟩
  · exact Or.inl (ite_writeAt_error h)
  rcases h with h | ⟨tn, -, h⟩
  · exact Or.inl (readAt_error h)
  rcases h with h | ⟨tg2, -, h⟩
  · exact Or.inl (ite_writeAt_error h)
  rcases h with h | ⟨wg, -, h⟩
  · exact Or.inl (readAt_error h)
  rcases h with h | ⟨c1, -, h⟩
  · exact Or.inr ⟨y, hy, Or.inr ⟨hc, Or.inl h⟩⟩
  rcases h with h | ⟨c1t, -, h⟩
  · exact Or.inl (writeAt_error h)
  rcases h with h | ⟨c2, -, h⟩
  · exact Or.inr ⟨y, hy, Or.inr ⟨hc, Or.inr h⟩⟩
  rcases h with h | ⟨c2t, -, h⟩
  · exact Or.inl (writeAt_error h)
  rcases h with h | ⟨c1v, -, h⟩
  · exact Or.inl (writeAt_error h)
  rcases h with h | ⟨c2v, -, h⟩
  · exact Or.inl (writeAt_error h)
  rcases h with h | ⟨ih, -, h⟩
  · exact Or.inl (writeAt_error h)
  exact Or.inl (writeAt_error h)


theorem C1ChirpFilt_error {L : Libm α} {s : ChirpStatics α} {x binwidth cf : α} {n : Int}
    {taumax rsigma : α} {e : MexError}
    (h : C1ChirpFilt L s x binwidth cf n taumax rsigma = .error e) :
    e = .c1Unstable ∨ e = .c1Zeros := by
  unfold C1ChirpFilt at h
  simp only [] at h
  split_ifs at h <;> cases h <;> simp

theorem C2ChirpFilt_error {L : Libm α} {s : ChirpStatics α} {x binwidth cf : α} {n : Int}
    {taumax fcohc : α} {e : MexError}
    (h : C2ChirpFilt L s x binwidth cf n taumax fcohc = .error e) :
    e = .c2Unstable ∨ e = .c2Zeros := by
  unfold C2ChirpFilt at h
  simp only [] at h
  split_ifs at h <;> cases h <;> simp

theorem ok_bind {ε β γ : Type} (b : β) (f : β → Except ε γ) :
    (Except.ok b >>= f) = f b := rfl

theorem error_bind {ε β γ : Type} (e : ε) (f : β → Except ε γ) :
    ((Except.error e : Except ε β) >>= f) = Except.error e := rfl

theorem writeAt_ok {β : Type} {a : List β} {n : Nat} (v : β) (h : n < a.length) :
    writeAt a (n : Int) v = .ok (a.set n v) := by
  unfold writeAt
  rw [if_pos ⟨Int.natCast_nonneg n, by exact_mod_cast h⟩]
  simp

theorem readAt_ok {β : Type} {a : List β} {n : Nat} (h : n < a.length) :
    readAt a (n : Int) = .ok (a.get ⟨n, h⟩) := by
  unfold readAt
  rw [if_pos (Int.natCast_nonneg n)]
  simp [List.get?_eq_getElem?, List.getElem?_eq_getElem h]

theorem readAt_isOk {β : Type} {a : List β} {i : Int} (h0 : 0 ≤ i) (h : i < a.length) :
    ∃ v, readAt a i = .ok v := by
  obtain ⟨m, rfl⟩ := Int.eq_ofNat_of_zero_le h0
  exact ⟨_, readAt_ok (by exact_mod_cast h)⟩

/-- The middle-ear section succeeds when the sample index is inside the arrays. -/
theorem SingleAN_middleEar_isOk (k : ANConsts α) (px mey1 mey2 mey3 : List α) (n : Nat)
    (hpx : n < px.length) (h1 : n < mey1.length) (h2 : n < mey2.length) (h3 : n < mey3.length) :
    ∃ y, SingleAN_middleEar k px mey1 mey2 mey3 n = .ok y := by
  unfold SingleAN_middleEar
  split_ifs with h0 h1'
  · subst h0
    obtain ⟨v, e0⟩ := readAt_isOk (a := px) (i := 0) le_rfl (by exact_mod_cast hpx)
    simp only [e0, ok_bind, pure, Except.pure]
    exact ⟨_, rfl⟩
  · subst h1'
    obtain ⟨v1, e1⟩ := readAt_isOk (a := px) (i := 1) (by norm_num) (by exact_mod_cast hpx)
    obtain ⟨v0, e0⟩ := readAt_isOk (a := px) (i := 0) le_rfl (by omega)
    obtain ⟨w1, f1⟩ := readAt_isOk (a := mey1) (i := 0) le_rfl (by omega)
    obtain ⟨w2, f2⟩ := readAt_isOk (a := mey2) (i := 0) le_rfl (by omega)
    obtain ⟨w3, f3⟩ := readAt_isOk (a := mey3) (i := 0) le_rfl (by omega)
    simp only [e0, e1, f1, f2, f3, ok_bind, pure, Except.pure]
    exact ⟨_, rfl⟩
  · obtain ⟨v0, e0⟩ := readAt_isOk (a := px) (i := (n : Int)) (by omega) (by omega)
    obtain ⟨v1, e1⟩ := readAt_isOk (a := px) (i := (n : Int) - 1) (by omega) (by omega)
    obtain ⟨w1, f1⟩ := readAt_isOk (a := mey1) (i := (n : Int) - 1) (by omega) (by omega)
    obtain ⟨w2, f2⟩ := readAt_isOk (a := mey2) (i := (n : Int) - 1) (by omega) (by omega)
    obtain ⟨w3, f3⟩ := readAt_isOk (a := mey3) (i := (n : Int) - 1) (by omega) (by omega)
    obtain ⟨u1, g1⟩ := readAt_isOk (a := mey1) (i := (n : Int) - 2) (by omega) (by omega)
    obtain ⟨u2, g2⟩ := readAt_isOk (a := mey2) (i := (n : Int) - 2) (by omega) (by omega)
    obtain ⟨u3, g3⟩ := readAt_isOk (a := mey3) (i := (n : Int) - 2) (by omega) (by omega)
    simp only [e0, e1, f1, f2, f3, g1, g2, g3, ok_bind, pure, Except.pure]
    exact ⟨_, rfl⟩

/-- A pass whose middle-ear section and first five stores succeed ends in the
instability error when `1/tauc1 < 0`. -/
theorem SingleAN_sample_polesUnstable {L : Libm α} (vsat0 : α) {a : ANArgs α} {k : ANConsts α}
    {st : ANLoop α} {n : Nat} {y : α × α × α}
    (hy : SingleAN_middleEar k a.px st.mey1 st.mey2 st.mey3 n = .ok y)
    (h1 : n < st.mey1.length) (h2 : n < st.mey2.length) (h3 : n < st.mey3.length)
    (h4 : n < st.meout.length) (h5 : n < st.timeout.length)
    (hc : 1 / SingleAN_tauc1 L a k st n (y.2.2 / k.megainmax) < 0) :
    SingleAN_sample L vsat0 a k st n = .error .polesUnstable := by
  unfold SingleAN_sample
  simp only [hy, ok_bind, writeAt_ok _ h1, writeAt_ok _ h2, writeAt_ok _ h3, writeAt_ok _ h4,
    writeAt_ok _ h5]
  have hc' : 1 / SingleAN_tauc1 L a k st n (y.2.2 / k.megainmax) < 0.0 := by
    rw [zero_lit]; exact hc
  unfold SingleAN_tauc1 at hc'
  simp only [] at hc'
  rw [if_pos hc']
  rfl


/-- The lengths of the arrays of a loop state: the temporary arrays have length `T`,
the two output arrays have the lengths `mo` and `to`. -/
theorem SingleAN_sample_lengths {L : Libm α} {vsat0 : α} {a : ANArgs α} {k : ANConsts α}
    {st st' : ANLoop α} {n : Nat} (h : SingleAN_sample L vsat0 a k st n = .ok st') :
    st'.mey1.length = st.mey1.length ∧ st'.mey2.length = st.mey2.length ∧
    st'.mey3.length = st.mey3.length ∧ st'.meout.length = st.meout.length ∧
    st'.timeout.length = st.timeout.length := by
  obtain ⟨⟨y, -, h1, h2, h3, h4⟩, h5, -⟩ := SingleAN_sample_eq_ok h
  obtain ⟨-, e1⟩ := writeAt_nat _ _ _ _ h1
  obtain ⟨-, e2⟩ := writeAt_nat _ _ _ _ h2
  obtain ⟨-, e3⟩ := writeAt_nat _ _ _ _ h3
  obtain ⟨-, e4⟩ := writeAt_nat _ _ _ _ h4
  obtain ⟨-, e5⟩ := writeAt_nat _ _ _ _ h5
  rw [e1, e2, e3, e4, e5]
  simp

theorem SingleAN_samples_lengths {L : Libm α} {vsat0 : α} {s : Statics α} {a : ANArgs α}
    {out : Outputs α} : ∀ (m : Nat) (st : ANLoop α),
    SingleAN_samples L vsat0 s a out m = .ok st →
    st.mey1.length = a.totalstim.toNat ∧ st.mey2.length = a.totalstim.toNat ∧
    st.mey3.length = a.totalstim.toNat ∧ st.meout.length = out.meout.length ∧
    st.timeout.length = out.timeout.length := by
  intro m
  induction m with
  | zero =>
    intro st h
    simp only [SingleAN_samples, SingleAN_loop, SingleAN_start, bind_eq_ok_iff, List.range_zero,
      List.foldlM_nil, pure, Except.pure, Except.ok.injEq] at h
    obtain ⟨st0, ⟨tg, htg, rfl⟩, rfl⟩ := h
    simp
  | succ m ih =>
    intro st' h
    obtain ⟨st, hst, hstep⟩ := SingleAN_samples_succ h
    obtain ⟨i1, i2, i3, i4, i5⟩ := ih st hst
    obtain ⟨l1, l2, l3, l4, l5⟩ := SingleAN_sample_lengths hstep
    exact ⟨l1.trans i1, l2.trans i2, l3.trans i3, l4.trans i4, l5.trans i5⟩

/-- An error of a pass of the sample loop is the result of every longer run of the loop. -/
theorem SingleAN_loop_error {L : Libm α} {vsat0 : α} {a : ANArgs α} {k : ANConsts α}
    {st0 st : ANLoop α} {n : Nat} {e : MexError}
    (hst : SingleAN_loop L vsat0 a k st0 n = .ok st)
    (he : SingleAN_sample L vsat0 a k st n = .error e) :
    ∀ m, n < m → SingleAN_loop L vsat0 a k st0 m = .error e := by
  intro m hm
  induction m with
  | zero => omega
  | succ m ih =>
    rw [SingleAN_loop_succ]
    rcases Nat.lt_succ_iff_lt_or_eq.1 hm with h | h
    · rw [ih h]; rfl
    · subst h
      rw [hst]; exact he

theorem SingleAN_samples_error {L : Libm α} {vsat0 : α} {s : Statics α} {a : ANArgs α}
    {out : Outputs α} {st : ANLoop α} {n m : Nat} {e : MexError}
    (hst : SingleAN_samples L vsat0 s a out n = .ok st)
    (he : SingleAN_sample L vsat0 a (SingleAN_consts L a.cf a.binwidth a.cohc) st n = .error e)
    (hm : n < m) : SingleAN_samples L vsat0 s a out m = .error e := by
  simp only [SingleAN_samples, bind_eq_ok_iff] at hst
  obtain ⟨st0, h0, hl⟩ := hst
  simp only [SingleAN_samples, h0, ok_bind]
  exact SingleAN_loop_error hl he m hm

theorem SingleAN_of_samples_error {L : Libm α} {G : SpikeGen α} {vsat0 : α} {s : Statics α}
    {a : ANArgs α} {out : Outputs α} {e : MexError}
    (h : SingleAN_samples L vsat0 s a out a.totalstim.toNat = .error e) :
    SingleAN L G vsat0 s a out = .error e := by
  simp only [SingleAN, h, error_bind]


theorem okOr_of_isOk {ε β : Type} (x : Except ε β) (d : β) (h : x.isOk = true) :
    x = .ok (okOr x d) := by
  cases x with
  | error e => cases h
  | ok r => rfl

theorem polesStart_ok :
    SingleAN_samples ratLibm 0 Statics.zero polesArgs (zeroOutputs 5) 0 = .ok polesStart :=
  okOr_of_isOk _ _ (by decide!)

theorem polesStart_middleEar :
    SingleAN_middleEar (SingleAN_consts ratLibm polesArgs.cf polesArgs.binwidth polesArgs.cohc)
      polesArgs.px polesStart.mey1 polesStart.mey2 polesStart.mey3 0 = .ok (0, 0, 0) :=
  (okOr_of_isOk _ (0, 0, 0) (by decide!)).trans (congrArg Except.ok (by decide!))

theorem polesStart_tauc1 :
    1 / SingleAN_tauc1 ratLibm polesArgs
      (SingleAN_consts ratLibm polesArgs.cf polesArgs.binwidth polesArgs.cohc) polesStart 0
      ((0 : ℚ) / (SingleAN_consts ratLibm polesArgs.cf polesArgs.binwidth
        polesArgs.cohc).megainmax) < 0 := by
  decide!

/-- C11: let `st` be the variables of `SingleAN` after the passes `0, ..., n-1` of the sample
loop, with `n < totalstim`, and let `tauc1` be the time constant that pass `n` computes.  The
middle-ear section of pass `n` returns its values `y`; if `1/tauc1 < 0`, pass `n` ends in the
instability error, the loop ends with that error after pass `n`, and `SingleAN` returns that
error and no output; if `1/tauc1 ≥ 0`, pass `n` does not end in the instability
error. -/
theorem C11_poles_check (L : Libm α) (G : SpikeGen α) (vsat0 : α) (s : Statics α)
    (a : ANArgs α) (out : Outputs α) (n : Nat) (st : ANLoop α)
    (hn : (n : Int) < a.totalstim)
    (hst : SingleAN_samples L vsat0 s a out n = .ok st)
    (hpx : a.px.length = a.totalstim.toNat)
    (hout : out.meout.length = a.totalstim.toNat ∧ out.timeout.length = a.totalstim.toNat) :
    ∃ y, SingleAN_middleEar (SingleAN_consts L a.cf a.binwidth a.cohc) a.px st.mey1 st.mey2
        st.mey3 n = .ok y ∧
      (1 / SingleAN_tauc1 L a (SingleAN_consts L a.cf a.binwidth a.cohc) st n
          (y.2.2 / (SingleAN_consts L a.cf a.binwidth a.cohc).megainmax) < 0 →
        SingleAN_sample L vsat0 a (SingleAN_consts L a.cf a.binwidth a.cohc) st n
          = .error .polesUnstable ∧
        SingleAN_samples L vsat0 s a out (n + 1) = .error .polesUnstable ∧
        SingleAN L G vsat0 s a out = .error .polesUnstable) ∧
      (0 ≤ 1 / SingleAN_tauc1 L a (SingleAN_consts L a.cf a.binwidth a.cohc) st n
          (y.2.2 / (SingleAN_consts L a.cf a.binwidth a.cohc).megainmax) →
        SingleAN_sample L vsat0 a (SingleAN_consts L a.cf a.binwidth a.cohc) st n
          ≠ .error .polesUnstable) := by
  have hT : n < a.totalstim.toNat := by omega
  obtain ⟨l1, l2, l3, l4, l5⟩ := SingleAN_samples_lengths n st hst
  obtain ⟨y, hy⟩ := SingleAN_middleEar_isOk (SingleAN_consts L a.cf a.binwidth a.cohc)
    a.px st.mey1 st.mey2 st.mey3 n
    (by omega) (by omega) (by omega) (by omega)
  refine ⟨y, hy, fun hc => ?_, fun hc he => ?_⟩
  · have he := SingleAN_sample_polesUnstable vsat0 hy (by omega) (by omega)
      (by omega) (by omega) (by omega) hc
    exact ⟨he, SingleAN_samples_error hst he (Nat.lt_succ_self n),
      SingleAN_of_samples_error (SingleAN_samples_error hst he hT)⟩
  · rcases SingleAN_sample_error he with h | ⟨y', hy', h | ⟨-, h | h⟩⟩
    · cases h
    · rw [hy] at hy'
      cases hy'
      exact absurd h.2 (not_lt.2 hc)
    · rcases C1ChirpFilt_error h with h | h <;> cases h
    · rcases C2ChirpFilt_error h with h | h <;> cases h

theorem C11_poles_check_witness :
    ((0 : Nat) : Int) < polesArgs.totalstim ∧
      SingleAN ratLibm oneSpike 0 Statics.zero polesArgs (zeroOutputs 5)
        = .error .polesUnstable := by
  refine ⟨by decide, ?_⟩
  obtain ⟨y, hy, h, -⟩ := C11_poles_check ratLibm oneSpike 0 Statics.zero polesArgs
    (zeroOutputs 5) 0 polesStart (by decide) polesStart_ok rfl ⟨rfl, rfl⟩
  rw [polesStart_middleEar] at hy
  cases hy
  exact (h polesStart_tauc1).2.2

/-- Two checks in a row: the second error arises exactly when the first check passes and
the second fires; a result is returned exactly when both pass. -/
theorem two_checks {β : Type} (c1 c2 : Prop) [Decidable c1] [Decidable c2] (e1 e2 : MexError)
    (r : β) (hne : e1 ≠ e2) :
    ((if c1 then (Except.error e1 : Except MexError β) else if c2 then .error e2 else .ok r)
        = .error e2 ↔ ¬ c1 ∧ c2) ∧
    ((∃ y, (if c1 then (Except.error e1 : Except MexError β) else if c2 then .error e2 else .ok r)
        = .ok y) ↔ ¬ c1 ∧ ¬ c2) := by
  by_cases h1 : c1 <;> by_cases h2 : c2 <;> simp [h1, h2, hne]


/-- The two checks of `C1ChirpFilt` in a row. -/
theorem C1ChirpFilt_checks (L : Libm α) (s : ChirpStatics α) (x binwidth cf : α) (n : Int)
    (taumax r : α) :
    ∃ y, C1ChirpFilt L s x binwidth cf n taumax r =
      if -(1 / taumax) - r > 0.0 then .error .c1Unstable
      else if C1ChirpFilt_rzero L s binwidth cf n taumax r > 0.0 then .error .c1Zeros
      else .ok y :=
  ⟨_, rfl⟩

/-- The two checks of `C2ChirpFilt` in a row. -/
theorem C2ChirpFilt_checks (L : Libm α) (s : ChirpStatics α) (x binwidth cf : α) (n : Int)
    (taumax r : α) :
    ∃ y, C2ChirpFilt L s x binwidth cf n taumax r =
      if -(1 / taumax) * r > 0.0 then .error .c2Unstable
      else if C2ChirpFilt_rzero L s binwidth cf n taumax r > 0.0 then .error .c2Zeros
      else .ok y :=
  ⟨_, rfl⟩

/-- The two chirp filters `C1ChirpFilt` and `C2ChirpFilt` fail on the check of the zero exactly when
the check of `p[1].x` passed and the zero solved by phase matching,
`rzero = -CF/tan((initphase - phase)/5)`, is strictly positive; they return a filter output
exactly when the check of `p[1].x` passed and `rzero ≤ 0`, the value `rzero = 0` included. -/
theorem chirp_zero_check (L : Libm α) (s : ChirpStatics α) (x binwidth cf : α) (n : Int)
    (taumax r : α) :
    (C1ChirpFilt L s x binwidth cf n taumax r = .error .c1Zeros ↔
      ¬ (-(1 / taumax) - r > 0) ∧ C1ChirpFilt_rzero L s binwidth cf n taumax r > 0) ∧
    ((∃ y, C1ChirpFilt L s x binwidth cf n taumax r = .ok y) ↔
      ¬ (-(1 / taumax) - r > 0) ∧ C1ChirpFilt_rzero L s binwidth cf n taumax r ≤ 0) ∧
    (C2ChirpFilt L s x binwidth cf n taumax r = .error .c2Zeros ↔
      ¬ (-(1 / taumax) * r > 0) ∧ C2ChirpFilt_rzero L s binwidth cf n taumax r > 0) ∧
    ((∃ y, C2ChirpFilt L s x binwidth cf n taumax r = .ok y) ↔
      ¬ (-(1 / taumax) * r > 0) ∧ C2ChirpFilt_rzero L s binwidth cf n taumax r ≤ 0) := by
  obtain ⟨y1, h1⟩ := C1ChirpFilt_checks L s x binwidth cf n taumax r
  obtain ⟨y2, h2⟩ := C2ChirpFilt_checks L s x binwidth cf n taumax r
  have k1 := two_checks (-(1 / taumax) - r > 0.0)
    (C1ChirpFilt_rzero L s binwidth cf n taumax r > 0.0) .c1Unstable .c1Zeros y1 (by decide)
  have k2 := two_checks (-(1 / taumax) * r > 0.0)
    (C2ChirpFilt_rzero L s binwidth cf n taumax r > 0.0) .c2Unstable .c2Zeros y2 (by decide)
  rw [← h1, zero_lit] at k1
  rw [← h2, zero_lit] at k2
  exact ⟨k1.1, k1.2.trans (and_congr_right fun _ => not_lt), k2.1,
    k2.2.trans (and_congr_right fun _ => not_lt)⟩

/-- The result of `Synapse` in terms of the static variables `s0` after the `n == 0`
block. -/
theorem Synapse_eq (L : Libm α) (vsat0 : α) (s : SynapseStatics α) (x binwidth cf spont : α)
    (n : Int) :
    Synapse L vsat0 s x binwidth cf spont n =
      ((if Synapse_CIstep L (Synapse_statics L vsat0 s cf spont n) x binwidth < 0 then
          (Synapse_statics L vsat0 s cf spont n).CG
            / (Synapse_PPI L (Synapse_statics L vsat0 s cf spont n) x
              * (1 / (Synapse_statics L vsat0 s cf spont n).PG
                + 1 / (Synapse_statics L vsat0 s cf spont n).PL
                + 1 / Synapse_PPI L (Synapse_statics L vsat0 s cf spont n) x))
          else Synapse_CIstep L (Synapse_statics L vsat0 s cf spont n) x binwidth)
            * Synapse_PPI L (Synapse_statics L vsat0 s cf spont n) x,
        { Synapse_statics L vsat0 s cf spont n with
          CI := if Synapse_CIstep L (Synapse_statics L vsat0 s cf spont n) x binwidth < 0 then
            (Synapse_statics L vsat0 s cf spont n).CG
              / (Synapse_PPI L (Synapse_statics L vsat0 s cf spont n) x
                * (1 / (Synapse_statics L vsat0 s cf spont n).PG
                  + 1 / (Synapse_statics L vsat0 s cf spont n).PL
                  + 1 / Synapse_PPI L (Synapse_statics L vsat0 s cf spont n) x))
            else Synapse_CIstep L (Synapse_statics L vsat0 s cf spont n) x binwidth
          CL := if Synapse_CIstep L (Synapse_statics L vsat0 s cf spont n) x binwidth < 0 then
            (if Synapse_CIstep L (Synapse_statics L vsat0 s cf spont n) x binwidth < 0 then
              (Synapse_statics L vsat0 s cf spont n).CG
                / (Synapse_PPI L (Synapse_statics L vsat0 s cf spont n) x
                  * (1 / (Synapse_statics L vsat0 s cf spont n).PG
                    + 1 / (Synapse_statics L vsat0 s cf spont n).PL
                    + 1 / Synapse_PPI L (Synapse_statics L vsat0 s cf spont n) x))
              else Synapse_CIstep L (Synapse_statics L vsat0 s cf spont n) x binwidth)
                * (Synapse_PPI L (Synapse_statics L vsat0 s cf spont n) x
                  + (Synapse_statics L vsat0 s cf spont n).PL)
                / (Synapse_statics L vsat0 s cf spont n).PL
            else Synapse_CLstep (Synapse_statics L vsat0 s cf spont n) binwidth }) :=
  rfl

/-- C14: with `s0` the static variables after the `n == 0` block and `PPI` the permeability
computed from `x`: `PPI = (synslope/synstrength)*log(1+exp(synstrength*x))` when
`synstrength*x < 400` and `(synslope/synstrength)*synstrength*x` otherwise; and when the
updated `CI` is not negative (no reset), the call leaves
`CI' = CI + (binwidth/VI)*(-PPI*CI + PL*(CL-CI))` and
`CL' = CL + (binwidth/VL)*(-PL*(CL-CI) + PG*(CG-CL))`, both from the values `CI`, `CL` before
the call, leaves the other static variables as they are, and returns `CI'*PPI`. -/
theorem C14_euler_step (L : Libm α) (vsat0 : α) (s : SynapseStatics α)
    (x binwidth cf spont : α) (n : Int)
    (h : ¬ (Synapse_statics L vsat0 s cf spont n).CI
        + (binwidth / (Synapse_statics L vsat0 s cf spont n).VI)
          * (-Synapse_PPI L (Synapse_statics L vsat0 s cf spont n) x
              * (Synapse_statics L vsat0 s cf spont n).CI
            + (Synapse_statics L vsat0 s cf spont n).PL
              * ((Synapse_statics L vsat0 s cf spont n).CL
                - (Synapse_statics L vsat0 s cf spont n).CI)) < 0) :
    ((Synapse_statics L vsat0 s cf spont n).synstrength * x < 400 →
      Synapse_PPI L (Synapse_statics L vsat0 s cf spont n) x =
        (Synapse_statics L vsat0 s cf spont n).synslope
          / (Synapse_statics L vsat0 s cf spont n).synstrength
          * L.log (1 + L.exp ((Synapse_statics L vsat0 s cf spont n).synstrength * x))) ∧
    (¬ (Synapse_statics L vsat0 s cf spont n).synstrength * x < 400 →
      Synapse_PPI L (Synapse_statics L vsat0 s cf spont n) x =
        (Synapse_statics L vsat0 s cf spont n).synslope
          / (Synapse_statics L vsat0 s cf spont n).synstrength
          * (Synapse_statics L vsat0 s cf spont n).synstrength * x) ∧
    (Synapse L vsat0 s x binwidth cf spont n).2.CI =
      (Synapse_statics L vsat0 s cf spont n).CI
        + (binwidth / (Synapse_statics L vsat0 s cf spont n).VI)
          * (-Synapse_PPI L (Synapse_statics L vsat0 s cf spont n) x
              * (Synapse_statics L vsat0 s cf spont n).CI
            + (Synapse_statics L vsat0 s cf spont n).PL
              * ((Synapse_statics L vsat0 s cf spont n).CL
                - (Synapse_statics L vsat0 s cf spont n).CI)) ∧
    (Synapse L vsat0 s x binwidth cf spont n).2.CL =
      (Synapse_statics L vsat0 s cf spont n).CL
        + (binwidth / (Synapse_statics L vsat0 s cf spont n).VL)
          * (-(Synapse_statics L vsat0 s cf spont n).PL
              * ((Synapse_statics L vsat0 s cf spont n).CL
                - (Synapse_statics L vsat0 s cf spont n).CI)
            + (Synapse_statics L vsat0 s cf spont n).PG
              * ((Synapse_statics L vsat0 s cf spont n).CG
                - (Synapse_statics L vsat0 s cf spont n).CL)) ∧
    (Synapse L vsat0 s x binwidth cf spont n).2 =
      { Synapse_statics L vsat0 s cf spont n with
        CI := (Synapse L vsat0 s x binwidth cf spont n).2.CI
        CL := (Synapse L vsat0 s x binwidth cf spont n).2.CL } ∧
    (Synapse L vsat0 s x binwidth cf spont n).1 =
      (Synapse L vsat0 s x binwidth cf spont n).2.CI
        * Synapse_PPI L (Synapse_statics L vsat0 s cf spont n) x := by
  have hS := Synapse_eq L vsat0 s x binwidth cf spont n
  generalize Synapse_statics L vsat0 s cf spont n = s0 at h hS ⊢
  have h' : ¬ Synapse_CIstep L s0 x binwidth < 0 := h
  rw [hS]
  dsimp only
  refine ⟨fun hx => ?_, fun hx => ?_, ?_, ?_, ?_, ?_⟩
  · simp only [Synapse_PPI, if_pos hx]
  · simp only [Synapse_PPI, if_neg hx, mul_assoc]
  · simp only [if_neg h']
    rfl
  · simp only [if_neg h']
    rfl
  · rfl
  · rfl

theorem C14_euler_step_witness :
    (Synapse ratLibm 0 Statics.zero.syn 0 1e-5 1000 50 0).1 =
      (Synapse ratLibm 0 Statics.zero.syn 0 1e-5 1000 50 0).2.CI
        * Synapse_PPI ratLibm (Synapse_statics ratLibm 0 Statics.zero.syn 1000 50 0) 0 :=
  (C14_euler_step ratLibm 0 Statics.zero.syn 0 1e-5 1000 50 0 (by decide!)).2.2.2.2.2

theorem SingleAN_start_eq_ok {L : Libm α} {a : ANArgs α} {k : ANConsts α} {s : Statics α}
    {out : Outputs α} {st0 : ANLoop α} (h : SingleAN_start L a k s out = .ok st0) :
    st0.tauwb = k.TauWBMax + (k.bmTaubm - k.bmTaumax) * (k.TauWBMax - k.TauWBMin)
      / (k.bmTaumax - k.bmTaumin) ∧
    st0.wbgain = (gain_groupdelay L a.binwidth k.centerfreq a.cf st0.tauwb).1 ∧
    st0.lasttmpgain = st0.wbgain ∧
    st0.tmpgain = (List.replicate a.totalstim.toNat (0 : α)).set 0 st0.wbgain ∧
    st0.grd = List.replicate a.totalstim.toNat 0 ∧ st0.statics = s := by
  simp only [SingleAN_start, bind_eq_ok_iff, pure, Except.pure, Except.ok.injEq] at h
  obtain ⟨tg, htg, rfl⟩ := h
  obtain ⟨-, e⟩ := writeAt_nat _ _ 0 _ htg
  exact ⟨rfl, rfl, rfl, e, rfl, rfl⟩

/-- The control-path part of a pass of the sample loop that succeeds. -/
theorem SingleAN_sample_control {L : Libm α} {vsat0 : α} {a : ANArgs α} {k : ANConsts α}
    {st st' : ANLoop α} {n : Nat} (h : SingleAN_sample L vsat0 a k st n = .ok st') :
    (∃ y, SingleAN_middleEar k a.px st.mey1 st.mey2 st.mey3 n = .ok y ∧
      ¬ 1 / SingleAN_tauc1 L a k st n (y.2.2 / k.megainmax) < 0 ∧
      st'.tauwb = SingleAN_tauwb L a k st n (y.2.2 / k.megainmax)) ∧
    writeAt st.grd n (gain_groupdelay L a.binwidth k.centerfreq a.cf st'.tauwb).2 = .ok st'.grd ∧
    ∃ tg1 v,
      (if (gain_groupdelay L a.binwidth k.centerfreq a.cf st'.tauwb).2 + (n : Int) < a.totalstim
        then writeAt st.tmpgain ((gain_groupdelay L a.binwidth k.centerfreq a.cf st'.tauwb).2 + (n : Int))
          (gain_groupdelay L a.binwidth k.centerfreq a.cf st'.tauwb).1
        else Except.ok st.tmpgain) = .ok tg1 ∧
      readAt tg1 n = .ok v ∧
      (if v = 0 then writeAt tg1 n st.lasttmpgain else Except.ok tg1) = .ok st'.tmpgain ∧
      readAt st'.tmpgain n = .ok st'.wbgain ∧ st'.lasttmpgain = st'.wbgain := by
  simp only [SingleAN_sample, bind_eq_ok_iff, pure, Except.pure, Except.ok.injEq] at h
  obtain ⟨y, hy, m1, hm1, m2, hm2, m3, hm3, mo, hmo, t, ht, u, hu, g, hg, tg, htg, tn, htn, tg2,
    htg2, wg, hwg, c1, hc1, c1t, hc1t, c2, hc2, c2t, hc2t, c1v, hc1v, c2v, hc2v, ih, hih, sy, hsy,
    rfl⟩ := h
  refine ⟨⟨y, hy, ?_, rfl⟩, hg, tg, tn, htg, htn, htg2, hwg, rfl⟩
  intro hc
  have hc' : 1 / SingleAN_tauc1 L a k st n (y.2.2 / k.megainmax) < 0.0 := by
    rw [zero_lit]; exact hc
  change (if 1 / SingleAN_tauc1 L a k st n (y.2.2 / k.megainmax) < 0.0
    then Except.error MexError.polesUnstable else Except.ok ()) = Except.ok u at hu
  rw [if_pos hc'] at hu
  cases hu

theorem silentPass_ok :
    SingleAN_sample ratLibm 0 silentArgs
      (SingleAN_consts ratLibm silentArgs.cf silentArgs.binwidth silentArgs.cohc)
      silentStart 0 = .ok silentPass :=
  okOr_of_isOk _ _ (by decide!)

/-- C17: the gain buffer `tmpgain` of the control path.  Before the loop, `wbgain` is the
gain computed from the initial `tauwb`, it is the last valid gain, and it is stored in the
zeroed buffer at slot 0.  In a pass `n` of the sample loop that runs to its end, with `g`
the gain and `grd[n]` the group delay computed from the new `tauwb`: `g` is stored in slot
`n + grd[n]` only if `n + grd[n] < totalstim`; then with `v` the content of slot `n`, the
gain `wbgain` handed to the next pass is `v` if `v` is not 0 and otherwise the last valid
gain, which is then also stored in slot `n`; and `wbgain` becomes the last valid gain. -/
theorem C17_gain_buffer (L : Libm α) (vsat0 : α) (a : ANArgs α) (k : ANConsts α) :
    (∀ (s : Statics α) (out : Outputs α) (st0 : ANLoop α),
      SingleAN_start L a k s out = .ok st0 →
        st0.wbgain = (gain_groupdelay L a.binwidth k.centerfreq a.cf
          (k.TauWBMax + (k.bmTaubm - k.bmTaumax) * (k.TauWBMax - k.TauWBMin)
            / (k.bmTaumax - k.bmTaumin))).1 ∧
        st0.lasttmpgain = st0.wbgain ∧
        st0.tmpgain = (List.replicate a.totalstim.toNat (0 : α)).set 0 st0.wbgain) ∧
    (∀ (st st' : ANLoop α) (n : Nat), SingleAN_sample L vsat0 a k st n = .ok st' →
      (∃ y, SingleAN_middleEar k a.px st.mey1 st.mey2 st.mey3 n = .ok y ∧
        st'.tauwb = SingleAN_tauwb L a k st n (y.2.2 / k.megainmax)) ∧
      st'.grd[n]? = some (gain_groupdelay L a.binwidth k.centerfreq a.cf st'.tauwb).2 ∧
      ∃ (tg1 : List α) (v : α),
        ((gain_groupdelay L a.binwidth k.centerfreq a.cf st'.tauwb).2 + (n : Int) < a.totalstim →
          0 ≤ (gain_groupdelay L a.binwidth k.centerfreq a.cf st'.tauwb).2 + (n : Int) ∧
          tg1 = st.tmpgain.set
            ((gain_groupdelay L a.binwidth k.centerfreq a.cf st'.tauwb).2 + (n : Int)).toNat
            (gain_groupdelay L a.binwidth k.centerfreq a.cf st'.tauwb).1) ∧
        (¬ (gain_groupdelay L a.binwidth k.centerfreq a.cf st'.tauwb).2 + (n : Int)
            < a.totalstim → tg1 = st.tmpgain) ∧
        tg1[n]? = some v ∧
        (v ≠ 0 → st'.wbgain = v ∧ st'.tmpgain = tg1) ∧
        (v = 0 → st'.wbgain = st.lasttmpgain ∧ st'.tmpgain = tg1.set n st.lasttmpgain) ∧
        st'.lasttmpgain = st'.wbgain) := by
  refine ⟨fun s out st0 h0 => ?_, fun st st' n h => ?_⟩
  · obtain ⟨e1, e2, e3, e4, -, -⟩ := SingleAN_start_eq_ok h0
    exact ⟨e1 ▸ e2, e3, e4⟩
  · obtain ⟨⟨y, hy, -, ht⟩, hg, tg1, v, h1, h2, h3, h4, h5⟩ := SingleAN_sample_control h
    refine ⟨⟨y, hy, ht⟩, writeAt_getElem hg, tg1, v, fun hlt => ?_, fun hge => ?_, ?_,
      fun hv => ?_, fun hv => ?_, h5⟩
    · rw [if_pos hlt] at h1
      obtain ⟨⟨h0, -⟩, e⟩ := (writeAt_eq_ok_iff _ _ _ _).1 h1
      exact ⟨h0, e⟩
    · rw [if_neg hge] at h1
      cases h1
      rfl
    · have := ((readAt_eq_ok_iff _ _ _).1 h2).2
      simpa using this
    · rw [if_neg hv] at h3
      cases h3
      rw [h2] at h4
      cases h4
      exact ⟨rfl, rfl⟩
    · rw [if_pos hv] at h3
      have hw := writeAt_getElem h3
      obtain ⟨-, e⟩ := writeAt_nat _ _ _ _ h3
      have hr := ((readAt_eq_ok_iff _ _ _).1 h4).2
      simp only [Int.toNat_ofNat] at hr
      rw [hw] at hr
      exact ⟨(Option.some.inj hr).symm, e⟩

theorem C17_gain_buffer_witness :
    SingleAN_sample ratLibm 0 silentArgs
        (SingleAN_consts ratLibm silentArgs.cf silentArgs.binwidth silentArgs.cohc)
        silentStart 0 = .ok silentPass ∧
      silentPass.lasttmpgain = silentPass.wbgain := by
  obtain ⟨-, -, tg1, v, -, -, -, -, -, h⟩ :=
    (C17_gain_buffer ratLibm 0 silentArgs
      (SingleAN_consts ratLibm silentArgs.cf silentArgs.binwidth silentArgs.cohc)).2
      silentStart silentPass 0 silentPass_ok
  exact ⟨silentPass_ok, h⟩

/-- The time constants of the C1 filter are positive and ordered. -/
theorem SingleAN_consts_bm (L : Libm α) (hL : L.PowLaws) (cf binwidth cohc : α) (hcf : 0 < cf) :
    0 < (SingleAN_consts L cf binwidth cohc).bmTaumin ∧
      (SingleAN_consts L cf binwidth cohc).bmTaumin
        ≤ (SingleAN_consts L cf binwidth cohc).bmTaumax := by
  have hCA := SingleAN_CAgain_ge L cf
  have hQ : 0 < L.pow 10 (0.4708 * L.log10 (cf / 1e3) + 0.4664) := hL.pow_pos _ _ (by norm_num)
  have hmax : 0 < 2.0 / (TWOPI * (cf / L.pow 10 (0.4708 * L.log10 (cf / 1e3) + 0.4664))) := by
    have hT : (0 : α) < TWOPI := by unfold TWOPI; norm_num
    have : (0 : α) < 2.0 := by norm_num
    positivity
  have hr2 : 0 < L.pow 10 (-SingleAN_CAgain L cf / (20.0 * 2.5)) := hL.pow_pos _ _ (by norm_num)
  have hr2' : L.pow 10 (-SingleAN_CAgain L cf / (20.0 * 2.5)) ≤ 1 := by
    refine hL.pow_le_one _ _ (by norm_num) ?_
    have : (0 : α) < 20.0 * 2.5 := by norm_num
    exact div_nonpos_of_nonpos_of_nonneg (by linarith) this.le
  have hbm : 0 < 2.0 / (TWOPI * (cf / L.pow 10 (0.4708 * L.log10 (cf / 1e3) + 0.4664))) / 0.7 :=
    div_pos hmax (by norm_num)
  simp only [SingleAN_consts, Get_tauwb, Get_taubm]
  exact ⟨mul_pos hbm hr2, mul_le_of_le_one_right hbm.le hr2'⟩

/-- The two clamps at the end of `NLafterohc`. -/
theorem NLafterohc_range (L : Libm α) (x taumin taumax asym : α) (h : taumin ≤ taumax) :
    taumin ≤ NLafterohc L x taumin taumax asym ∧ NLafterohc L x taumin taumax asym ≤ taumax := by
  unfold NLafterohc
  simp only []
  split_ifs with h1 h2 h3 h4 h5
  all_goals first
    | exact ⟨h, le_refl _⟩
    | exact ⟨le_refl _, h⟩
    | exact ⟨not_lt.1 ‹_›, not_lt.1 ‹_›⟩

/-- The time constant `tauc1` of a pass lies between `bmTaumin` and `bmTaumax` when `cohc`
is in `[0, 1]`. -/
theorem SingleAN_tauc1_range (L : Libm α) (a : ANArgs α) (k : ANConsts α) (st : ANLoop α)
    (n : Nat) (m : α) (hk : k.bmTaumin ≤ k.bmTaumax) (hc : 0 ≤ a.cohc ∧ a.cohc ≤ 1) :
    k.bmTaumin ≤ SingleAN_tauc1 L a k st n m ∧ SingleAN_tauc1 L a k st n m ≤ k.bmTaumax := by
  unfold SingleAN_tauc1
  simp only []
  generalize OhcLowPass (α := α) _ _ _ _ _ _ _ = oh
  obtain ⟨h1, h2⟩ := NLafterohc_range L oh.1 k.bmTaumin k.bmTaumax k.ohcasym hk
  constructor
  · nlinarith [hc.1]
  · nlinarith [hc.1, hc.2]

theorem C1ChirpFilt_stable (L : Libm α) (s : ChirpStatics α) (x binwidth cf : α) (n : Int)
    (taumax r : α) (h : ¬ -(1 / taumax) - r > 0) :
    C1ChirpFilt L s x binwidth cf n taumax r ≠ .error .c1Unstable := by
  obtain ⟨y, hy⟩ := C1ChirpFilt_checks L s x binwidth cf n taumax r
  rw [hy, zero_lit, if_neg h]
  split_ifs <;> simp

theorem failsWith_spec {β : Type} (x : Except MexError β) (e : MexError)
    (h : failsWith x e = true) : x = .error e := by
  cases x with
  | ok r => cases h
  | error e' =>
    have : e' = e := by simpa [failsWith] using h
    rw [this]

/-- C20 fails on the code: the checks of `mexFunction` bound the stimulus length by
`totalstim` but never compare `delaypoint` with it.  For every accepted call whose
`delaypoint = max(0, ceil(delay_cat(cf)/binwidth))` exceeds `totalstim`, the loop that fills
`synout[0..delaypoint)` leaves the array of length `totalstim`, and `mexFunction` returns no
output. -/
theorem C20_delaypoint_unchecked (L : Libm α) (G : SpikeGen α) (vsat0 : α) (s : Statics α)
    (c : MexCall α) (a : ANArgs α) (ha : mexFunctionArgs c = .ok a)
    (hd : a.totalstim < SingleAN_delaypoint L a.cf a.binwidth) :
    ∀ r, mexFunction L G vsat0 s c ≠ .ok r := by
  intro r h
  obtain ⟨a', st, out1, ha', -, hdelay, -⟩ := mexFunction_eq_ok h
  rw [ha] at ha'
  cases ha'
  have hT : (0 : Int) ≤ a.totalstim := by
    obtain ⟨-, -, -, -, -, -, -, -, -, -, -, hpx, -, rfl⟩ := (mexFunctionArgs_eq_ok_iff c a).1 ha
    exact le_trans (Int.natCast_nonneg _) hpx
  have hlen := (SingleAN_delay_eq_ok hdelay).2.2.2.1
  simp only [zeroOutputs, List.length_replicate] at hlen
  omega

set_option maxRecDepth 100000 in
theorem C20_delaypoint_unchecked_witness :
    mexFunctionArgs silentCall = .ok silentArgs ∧
      silentArgs.totalstim < SingleAN_delaypoint ratLibm silentArgs.cf silentArgs.binwidth ∧
      mexFunction ratLibm oneSpike 0 Statics.zero silentCall = .error .outOfBounds ∧
      ∀ r, mexFunction ratLibm oneSpike 0 Statics.zero silentCall ≠ .ok r :=
  ⟨by with_unfolding_all rfl, by decide!, failsWith_spec _ _ (by decide!),
    C20_delaypoint_unchecked ratLibm oneSpike 0 Statics.zero silentCall silentArgs
      (by with_unfolding_all rfl) (by decide!)⟩

theorem cInt_of_nonneg {x : α} (h : 0 ≤ x) : cInt x = Int.floor x := by
  unfold cInt
  rw [if_pos h]

/-- The remainder `fmod t P` of a non-negative `t` by a positive `P` lies in `[0, P)`. -/
theorem fmod_range {t P : α} (ht : 0 ≤ t) (hP : 0 < P) : 0 ≤ fmod t P ∧ fmod t P < P := by
  unfold fmod
  rw [cInt_of_nonneg (div_nonneg ht hP.le)]
  have h1 : ((Int.floor (t / P) : Int) : α) ≤ t / P := Int.floor_le _
  have h2 : t / P < ((Int.floor (t / P) : Int) : α) + 1 := Int.lt_floor_add_one _
  rw [le_div_iff₀ hP] at h1
  rw [div_lt_iff₀ hP] at h2
  constructor <;> nlinarith

theorem fmod_add_period {t P : α} (ht : 0 ≤ t) (hP : 0 < P) (m : Nat) :
    fmod (t + (m : α) * P) P = fmod t P := by
  unfold fmod
  have hm : (0 : α) ≤ (m : α) * P := mul_nonneg (Nat.cast_nonneg m) hP.le
  rw [cInt_of_nonneg (div_nonneg ht hP.le), cInt_of_nonneg (div_nonneg (add_nonneg ht hm) hP.le)]
  have e : (t + (m : α) * P) / P = t / P + ((m : Int) : α) := by
    field_simp
  rw [e, Int.floor_add_int]
  push_cast
  ring

/-- The bin index of a non-negative spike time is the floor of the quotient and lies in
`[0, totalstim)`. -/
theorem SingleAN_ipst_range (a : ANArgs α) (hb : 0 < a.binwidth) (hT : 0 < a.totalstim) {t : α}
    (ht : 0 ≤ t) :
    SingleAN_ipst a t = Int.floor (fmod t (a.binwidth * (a.totalstim : α)) / a.binwidth) ∧
      0 ≤ SingleAN_ipst a t ∧ SingleAN_ipst a t < a.totalstim := by
  have hTα : (0 : α) < (a.totalstim : α) := by exact_mod_cast hT
  have hP : 0 < a.binwidth * (a.totalstim : α) := mul_pos hb hTα
  obtain ⟨h0, h1⟩ := fmod_range ht hP
  have hq : 0 ≤ fmod t (a.binwidth * (a.totalstim : α)) / a.binwidth := div_nonneg h0 hb.le
  have e : SingleAN_ipst a t = Int.floor (fmod t (a.binwidth * (a.totalstim : α)) / a.binwidth) :=
    cInt_of_nonneg hq
  refine ⟨e, ?_, ?_⟩
  · rw [e]; exact Int.floor_nonneg.2 hq
  · rw [e, Int.floor_lt, div_lt_iff₀ hb]
    linarith [mul_comm a.binwidth (a.totalstim : α)]

theorem sum_set_succ (p : List α) : ∀ (i : Nat) (v : α), p[i]? = some v →
    (p.set i (v + 1)).sum = p.sum + 1 := by
  induction p with
  | nil => intro i v h; simp at h
  | cons x xs ih =>
    intro i v h
    cases i with
    | zero =>
      simp only [List.getElem?_cons_zero, Option.some.injEq] at h
      subst h
      simp only [List.set_cons_zero, List.sum_cons]
      ring
    | succ j =>
      simp only [List.getElem?_cons_succ] at h
      simp only [List.set_cons_succ, List.sum_cons, ih j v h]
      ring

/-- The folding loop over spike times whose bins are inside the array: it runs to its end,
adds to `psth[b]` the number of spikes of bin `b`, and adds the spike count to the sum. -/
theorem psth_fold_spec (f : α → Int) : ∀ (ts : List α) (p : List α),
    (∀ t ∈ ts, 0 ≤ f t ∧ f t < (p.length : Int)) →
    ∃ p', ts.foldlM (fun (psth : List α) t => do
        let v ← readAt psth (f t)
        writeAt psth (f t) (v + 1)) p = .ok p' ∧
      p'.length = p.length ∧
      (∀ (b : Nat) (v : α), p[b]? = some v →
        p'[b]? = some (v + ((ts.countP (fun t => decide (f t = (b : Int))) : Nat) : α))) ∧
      p'.sum = p.sum + (ts.length : α) := by
  intro ts
  induction ts with
  | nil =>
    intro p _
    exact ⟨p, rfl, rfl, fun b v h => by simpa using h, by simp⟩
  | cons t ts ih =>
    intro p h
    obtain ⟨h0, h1⟩ := h t (List.mem_cons_self _ _)
    obtain ⟨i, hi⟩ := Int.eq_ofNat_of_zero_le h0
    have hlt : i < p.length := by rw [hi] at h1; exact_mod_cast h1
    have hr : readAt p (f t) = .ok (p.get ⟨i, hlt⟩) := by rw [hi]; exact readAt_ok hlt
    have hw : writeAt p (f t) (p.get ⟨i, hlt⟩ + 1) = .ok (p.set i (p.get ⟨i, hlt⟩ + 1)) := by
      rw [hi]; exact writeAt_ok _ hlt
    obtain ⟨p', hp', hlen, hcnt, hsum⟩ := ih (p.set i (p.get ⟨i, hlt⟩ + 1)) (by
      intro t' ht'
      rw [List.length_set]
      exact h t' (List.mem_cons_of_mem _ ht'))
    refine ⟨p', ?_, ?_, ?_, ?_⟩
    · rw [List.foldlM_cons, hr, ok_bind, hw, ok_bind]
      exact hp'
    · rw [hlen, List.length_set]
    · intro b v hv
      by_cases hb : b = i
      · subst hb
        have hv' : p.get ⟨b, hlt⟩ = v := by
          rw [List.getElem?_eq_getElem hlt] at hv
          exact Option.some.inj hv
        have := hcnt b (v + 1) (by rw [← hv']; simp [hlt])
        rw [this, List.countP_cons_of_pos _ _ (by simpa using hi)]
        push_cast
        ring_nf
      · have := hcnt b v (by rw [List.getElem?_set_ne (Ne.symm hb)]; exact hv)
        rw [this, List.countP_cons_of_neg _ _ (by
          simp only [decide_eq_true_eq]
          rw [hi]
          exact_mod_cast Ne.symm hb)]
    · rw [hsum, sum_set_succ p i _ (by simp [hlt])]
      simp only [List.length_cons]
      push_cast
      ring

/-- In exact arithmetic: for a positive `binwidth` and `totalstim`, a zeroed array `psth` of length
`totalstim` and non-negative spike times `t_0..t_{k-1}` that fit the buffer `sptime`, the
folding loop runs to its end; afterwards `psth[b]` is the number of spikes with
`floor(fmod(t_i, binwidth*totalstim)/binwidth) = b`; each of these bin indices is the one the
code computes and lies in `[0, totalstim)`; the entries of `psth` sum to `k`; and a spike
time moved by a whole number of periods `binwidth*totalstim` falls in the same bin. -/
theorem psth_fold_exact (G : SpikeGen α) (a : ANArgs α) (out : Outputs α)
    (hb : 0 < a.binwidth) (hT : 0 < a.totalstim)
    (hz : out.psth = List.replicate a.totalstim.toNat 0)
    (hpos : ∀ t ∈ G out.synout a.binwidth a.totalstim (a.nrep : α), 0 ≤ t)
    (hcap : ((G out.synout a.binwidth a.totalstim (a.nrep : α)).length : Int) ≤
      cInt (cceil ((a.totalstim : α) * a.binwidth * (a.nrep : α) / 0.00075))) :
    ∃ out', SingleAN_psth G a out = .ok out' ∧
      (∀ b : Nat, (b : Int) < a.totalstim →
        out'.psth[b]? = some (((G out.synout a.binwidth a.totalstim (a.nrep : α)).countP
          (fun t => decide
            (Int.floor (fmod t (a.binwidth * (a.totalstim : α)) / a.binwidth) = (b : Int)))
          : Nat) : α)) ∧
      (∀ t ∈ G out.synout a.binwidth a.totalstim (a.nrep : α),
        SingleAN_ipst a t = Int.floor (fmod t (a.binwidth * (a.totalstim : α)) / a.binwidth) ∧
        0 ≤ Int.floor (fmod t (a.binwidth * (a.totalstim : α)) / a.binwidth) ∧
        Int.floor (fmod t (a.binwidth * (a.totalstim : α)) / a.binwidth) < a.totalstim) ∧
      out'.psth.sum = ((G out.synout a.binwidth a.totalstim (a.nrep : α)).length : α) ∧
      (∀ (t : α) (m : Nat), 0 ≤ t →
        SingleAN_ipst a (t + (m : α) * (a.binwidth * (a.totalstim : α))) = SingleAN_ipst a t) := by
  have hTα : (0 : α) < (a.totalstim : α) := by exact_mod_cast hT
  have hP : 0 < a.binwidth * (a.totalstim : α) := mul_pos hb hTα
  have hlen : (out.psth.length : Int) = a.totalstim := by
    rw [hz, List.length_replicate]
    omega
  obtain ⟨p', hp', hl, hcnt, hsum⟩ := psth_fold_spec (SingleAN_ipst a)
    (G out.synout a.binwidth a.totalstim (a.nrep : α)) out.psth (by
      intro t ht
      obtain ⟨-, h0, h1⟩ := SingleAN_ipst_range a hb hT (hpos t ht)
      exact ⟨h0, by rw [hlen]; exact h1⟩)
  refine ⟨{ out with psth := p' }, ?_, fun b hbT => ?_, fun t ht => ?_, ?_, fun t m ht => ?_⟩
  · have h1 : SingleAN_psth G a out =
        ((if cInt (cceil ((a.totalstim : α) * a.binwidth * (a.nrep : α) / 0.00075))
            < ((G out.synout a.binwidth a.totalstim (a.nrep : α)).length : Int)
          then Except.error MexError.outOfBounds else Except.ok ()) >>= fun _ =>
          (G out.synout a.binwidth a.totalstim (a.nrep : α)).foldlM
            (fun (psth : List α) t => do
              let v ← readAt psth (SingleAN_ipst a t)
              writeAt psth (SingleAN_ipst a t) (v + 1)) out.psth >>= fun psth =>
          Except.ok { out with psth := psth }) := rfl
    rw [h1, if_neg (not_lt.2 hcap), ok_bind, hp', ok_bind]
  · have hb' : b < a.totalstim.toNat := by omega
    have h0 : out.psth[b]? = some 0 := by rw [hz]; simp [hb']
    have := hcnt b 0 h0
    rw [zero_add] at this
    rw [this]
    congr 2
    apply List.countP_congr
    intro t ht
    rw [(SingleAN_ipst_range a hb hT (hpos t ht)).1]
  · obtain ⟨e, h0, h1⟩ := SingleAN_ipst_range a hb hT (hpos t ht)
    exact ⟨e, e ▸ h0, e ▸ h1⟩
  · show p'.sum = _
    rw [hsum, hz]
    simp
  · unfold SingleAN_ipst
    simp only []
    rw [fmod_add_period ht hP]

theorem psth_fold_exact_example :
    ∃ out', SingleAN_psth threeSpikes psthArgs (zeroOutputs 5) = .ok out' ∧
      out'.psth[1]? = some 2 ∧ out'.psth[2]? = some 1 ∧ out'.psth.sum = 3 := by
  obtain ⟨out', h, hc, -, hs, -⟩ := psth_fold_exact threeSpikes psthArgs (zeroOutputs 5)
    (by decide!) (by decide) rfl (by decide!) (by decide!)
  refine ⟨out', h, ?_, ?_, ?_⟩
  · rw [hc 1 (by decide)]
    decide!
  · rw [hc 2 (by decide)]
    decide!
  · rw [hs]
    decide!

theorem histAt_of_readAt {a : List α} {i : Int} {v : α} (h : readAt a i = .ok v) :
    histAt a i = v := by
  obtain ⟨h0, h1⟩ := (readAt_eq_ok_iff _ _ _).1 h
  unfold histAt
  rw [if_neg (not_lt.2 h0), List.getD_eq_getElem?_getD, h1]
  rfl

theorem histAt_neg (a : List α) {i : Int} (h : i < 0) : histAt a i = 0 := by
  unfold histAt
  rw [if_pos h]

theorem histAt_of_getElem {a : List α} {i : Nat} {v : α} (h : a[i]? = some v) :
    histAt a (i : Int) = v := by
  unfold histAt
  rw [if_neg (by omega), List.getD_eq_getElem?_getD, Int.toNat_ofNat, h]
  rfl

/-- The three branches of the middle-ear section are the general recurrence with zero
history. -/
theorem SingleAN_middleEar_general {k : ANConsts α} {px mey1 mey2 mey3 : List α} {n : Nat}
    {y : α × α × α} (h : SingleAN_middleEar k px mey1 mey2 mey3 n = .ok y) :
    y = generalRecurrence k (histAt px n) (histAt px ((n : Int) - 1))
      (histAt mey1 ((n : Int) - 1), histAt mey2 ((n : Int) - 1), histAt mey3 ((n : Int) - 1))
      (histAt mey1 ((n : Int) - 2), histAt mey2 ((n : Int) - 2), histAt mey3 ((n : Int) - 2)) := by
  unfold SingleAN_middleEar at h
  split_ifs at h with h0 h1
  · subst h0
    simp only [bind_eq_ok_iff, pure, Except.pure, Except.ok.injEq] at h
    obtain ⟨x0, hx0, rfl⟩ := h
    have e0 : histAt px ((0 : Nat) : Int) = x0 := histAt_of_readAt hx0
    simp only [generalRecurrence, e0, histAt_neg _ (show ((0 : Nat) : Int) - 1 < 0 by decide),
      histAt_neg _ (show ((0 : Nat) : Int) - 2 < 0 by decide)]
    refine Prod.ext ?_ (Prod.ext ?_ ?_) <;> simp only [] <;> ring
  · subst h1
    simp only [bind_eq_ok_iff, pure, Except.pure, Except.ok.injEq] at h
    obtain ⟨x1, hx1, x0, hx0, a1, ha1, a2, ha2, a3, ha3, rfl⟩ := h
    have e1 : histAt px ((1 : Nat) : Int) = x1 := histAt_of_readAt hx1
    have e0 : histAt px (((1 : Nat) : Int) - 1) = x0 := histAt_of_readAt hx0
    have f1 : histAt mey1 (((1 : Nat) : Int) - 1) = a1 := histAt_of_readAt ha1
    have f2 : histAt mey2 (((1 : Nat) : Int) - 1) = a2 := histAt_of_readAt ha2
    have f3 : histAt mey3 (((1 : Nat) : Int) - 1) = a3 := histAt_of_readAt ha3
    simp only [generalRecurrence, e0, e1, f1, f2, f3,
      histAt_neg _ (show ((1 : Nat) : Int) - 2 < 0 by decide)]
    refine Prod.ext ?_ (Prod.ext ?_ ?_) <;> simp only [] <;> ring
  · simp only [bind_eq_ok_iff, pure, Except.pure, Except.ok.injEq] at h
    obtain ⟨x0, hx0, x1, hx1, a1, ha1, b1, hb1, a2, ha2, b2, hb2, a3, ha3, b3, hb3, rfl⟩ := h
    simp only [generalRecurrence, histAt_of_readAt hx0, histAt_of_readAt hx1,
      histAt_of_readAt ha1, histAt_of_readAt ha2, histAt_of_readAt ha3, histAt_of_readAt hb1,
      histAt_of_readAt hb2, histAt_of_readAt hb3]

theorem restAt_natCast (k : ANConsts α) (px : List α) (n : Nat) :
    restAt k px (n : Int) = (middleEarFromRest k px n).1 := by
  unfold restAt
  rw [if_neg (by omega), Int.toNat_ofNat]

theorem middleEarFromRest_snd (k : ANConsts α) (px : List α) (n : Nat) :
    (middleEarFromRest k px n).2 = restAt k px ((n : Int) - 1) := by
  cases n with
  | zero => rfl
  | succ m =>
    have e : (((m + 1 : Nat) : Int) - 1) = (m : Int) := by omega
    rw [e, restAt_natCast]
    rfl

theorem restAt_step (k : ANConsts α) (px : List α) (n : Nat) :
    restAt k px (n : Int) = generalRecurrence k (histAt px n) (histAt px ((n : Int) - 1))
      (restAt k px ((n : Int) - 1)) (restAt k px ((n : Int) - 2)) := by
  rw [restAt_natCast]
  cases n with
  | zero => rfl
  | succ m =>
    have e1 : (((m + 1 : Nat) : Int) - 1) = (m : Int) := by omega
    have e2 : (((m + 1 : Nat) : Int) - 2) = (m : Int) - 1 := by omega
    rw [e1, e2, restAt_natCast, ← middleEarFromRest_snd]
    rfl

theorem histAt_of_below {a : List α} {m : Nat} {f : Int → α} (hf : ∀ j : Int, j < 0 → f j = 0)
    (h : ∀ i : Nat, i < m → a[i]? = some (f i)) (j : Int) (hj : j < m) : histAt a j = f j := by
  by_cases h0 : j < 0
  · rw [histAt_neg _ h0, hf j h0]
  · obtain ⟨i, rfl⟩ := Int.eq_ofNat_of_zero_le (not_lt.1 h0)
    exact histAt_of_getElem (h i (by omega))

/-- After `m` passes of the sample loop the middle-ear arrays hold, below `m`, the stage
values of the general recurrence started from rest. -/
theorem SingleAN_samples_rest {L : Libm α} {vsat0 : α} {s : Statics α} {a : ANArgs α}
    {out : Outputs α} : ∀ (m : Nat) (st : ANLoop α),
    SingleAN_samples L vsat0 s a out m = .ok st →
    ∀ i : Nat, i < m →
      st.mey1[i]? = some (restAt (SingleAN_consts L a.cf a.binwidth a.cohc) a.px i).1 ∧
      st.mey2[i]? = some (restAt (SingleAN_consts L a.cf a.binwidth a.cohc) a.px i).2.1 ∧
      st.mey3[i]? = some (restAt (SingleAN_consts L a.cf a.binwidth a.cohc) a.px i).2.2 ∧
      st.meout[i]? = some ((restAt (SingleAN_consts L a.cf a.binwidth a.cohc) a.px i).2.2
        / (SingleAN_consts L a.cf a.binwidth a.cohc).megainmax) := by
  intro m
  induction m with
  | zero => intro st _ i hi; omega
  | succ m ih =>
    intro st' h i hi
    obtain ⟨st, hst, hstep⟩ := SingleAN_samples_succ h
    have hinv := ih st hst
    obtain ⟨⟨y, hy, w1, w2, w3, w4⟩, -⟩ := SingleAN_sample_eq_ok hstep
    generalize SingleAN_consts L a.cf a.binwidth a.cohc = k at hinv hy w1 w2 w3 w4 ⊢
    have hz : ∀ j : Int, j < 0 → restAt k a.px j = (0, 0, 0) := fun j hj => by
      unfold restAt; rw [if_pos hj]
    have g1 : ∀ j : Int, j < m → histAt st.mey1 j = (restAt k a.px j).1 :=
      histAt_of_below (f := fun j => (restAt k a.px j).1) (fun j hj => by simp only [hz j hj])
        (fun i hi => (hinv i hi).1)
    have g2 : ∀ j : Int, j < m → histAt st.mey2 j = (restAt k a.px j).2.1 :=
      histAt_of_below (f := fun j => (restAt k a.px j).2.1) (fun j hj => by simp only [hz j hj])
        (fun i hi => (hinv i hi).2.1)
    have g3 : ∀ j : Int, j < m → histAt st.mey3 j = (restAt k a.px j).2.2 :=
      histAt_of_below (f := fun j => (restAt k a.px j).2.2) (fun j hj => by simp only [hz j hj])
        (fun i hi => (hinv i hi).2.2.1)
    have hyr : y = restAt k a.px (m : Int) := by
      rw [SingleAN_middleEar_general hy, restAt_step, g1 _ (by omega), g2 _ (by omega),
        g3 _ (by omega), g1 _ (by omega), g2 _ (by omega), g3 _ (by omega)]
    rcases Nat.lt_succ_iff_lt_or_eq.1 hi with hlt | rfl
    · obtain ⟨i1, i2, i3, i4⟩ := hinv i hlt
      obtain ⟨-, e1⟩ := writeAt_nat _ _ _ _ w1
      obtain ⟨-, e2⟩ := writeAt_nat _ _ _ _ w2
      obtain ⟨-, e3⟩ := writeAt_nat _ _ _ _ w3
      obtain ⟨-, e4⟩ := writeAt_nat _ _ _ _ w4
      rw [e1, e2, e3, e4, List.getElem?_set_ne (by omega), List.getElem?_set_ne (by omega),
        List.getElem?_set_ne (by omega), List.getElem?_set_ne (by omega)]
      exact ⟨i1, i2, i3, i4⟩
    · rw [writeAt_getElem w1, writeAt_getElem w2, writeAt_getElem w3, writeAt_getElem w4, hyr]
      exact ⟨rfl, rfl, rfl, rfl⟩

/-- C18: the middle-ear section of the sample loop, in each of its three branches
(`n = 0`, `n = 1`, `n ≥ 2`), computes the general three-stage recurrence with the history
before index 0 (`px`, `mey1`, `mey2`, `mey3` at the indices `-1` and `-2`) taken as zero;
and for every accepted call that produces output, `meout[i]` is the third stage value of
that one recurrence started from rest on the stimulus, divided by 41.1405. -/
theorem C18_middle_ear_recurrence (L : Libm α) (G : SpikeGen α) (vsat0 : α) (s : Statics α)
    (c : MexCall α) (a : ANArgs α) (r : Outputs α × Statics α)
    (ha : mexFunctionArgs c = .ok a) (h : mexFunction L G vsat0 s c = .ok r) :
    (∀ (k : ANConsts α) (px mey1 mey2 mey3 : List α) (n : Nat) (y : α × α × α),
      SingleAN_middleEar k px mey1 mey2 mey3 n = .ok y →
        y = generalRecurrence k (histAt px n) (histAt px ((n : Int) - 1))
          (histAt mey1 ((n : Int) - 1), histAt mey2 ((n : Int) - 1), histAt mey3 ((n : Int) - 1))
          (histAt mey1 ((n : Int) - 2), histAt mey2 ((n : Int) - 2),
            histAt mey3 ((n : Int) - 2))) ∧
    (∀ i : Nat, (i : Int) < a.totalstim →
      r.1.meout[i]? = some ((middleEarFromRest (SingleAN_consts L a.cf a.binwidth a.cohc)
        a.px i).1.2.2 / 41.1405)) := by
  refine ⟨fun k px mey1 mey2 mey3 n y hy => SingleAN_middleEar_general hy, fun i hi => ?_⟩
  obtain ⟨a', st, out1, ha', hst, hdel, p, hr, -⟩ := mexFunction_eq_ok h
  rw [ha] at ha'
  cases ha'
  obtain ⟨-, e2, -⟩ := SingleAN_delay_eq_ok hdel
  have := (SingleAN_samples_rest _ st hst i (by omega)).2.2.2
  rw [restAt_natCast] at this
  rw [hr]
  show out1.meout[i]? = _
  rw [e2, this]
  rfl

theorem C18_middle_ear_recurrence_witness :
    mexFunctionArgs impulseCall = .ok impulseArgs ∧
      mexFunction ratLibm oneSpike 0 Statics.zero impulseCall = .ok impulseRun ∧
      impulseRun.1.meout[70]? = some ((middleEarFromRest
        (SingleAN_consts ratLibm impulseArgs.cf impulseArgs.binwidth impulseArgs.cohc)
        impulseArgs.px 70).1.2.2 / 41.1405) :=
  ⟨impulseArgs_ok, impulseRun_ok,
    (C18_middle_ear_recurrence ratLibm oneSpike 0 Statics.zero impulseCall impulseArgs impulseRun
      impulseArgs_ok impulseRun_ok).2 70 (by decide)⟩

theorem getD_set {β : Type} (l : List β) (i : Nat) (x d : β) (i' : Nat) :
    (l.set i x).getD i' d = if i' = i ∧ i < l.length then x else l.getD i' d := by
  rw [List.getD_eq_getElem?_getD, List.getD_eq_getElem?_getD, List.getElem?_set]
  by_cases e : i = i'
  · subst e
    by_cases hl : i < l.length
    · simp [hl]
    · simp [hl, List.getElem?_eq_none (not_lt.1 hl)]
  · simp [e, Ne.symm e]

theorem Shape2_set2 {m : List (List α)} (h : Shape2 m) (i j : Nat) (v : α) :
    Shape2 (set2 m i j v) := by
  refine ⟨by simp [set2, h.1], fun i' hi' => ?_⟩
  unfold set2
  rw [getD_set]
  split_ifs with e
  · obtain ⟨rfl, -⟩ := e
    rw [List.length_set]
    exact h.2 _ hi'
  · exact h.2 i' hi'

theorem get2_set2 {m : List (List α)} (h : Shape2 m) {i j : Nat} (hi : i < 12) (hj : j < 4)
    (v : α) (i' j' : Nat) :
    get2 (set2 m i j v) i' j' = if i' = i ∧ j' = j then v else get2 m i' j' := by
  unfold get2 set2
  rw [getD_set]
  by_cases e : i' = i
  · subst e
    rw [if_pos ⟨rfl, by rw [h.1]; exact hi⟩, getD_set]
    simp only [true_and, h.2 i' hi, hj, and_true]
  · rw [if_neg (fun hh => e hh.1), if_neg (fun hh => e hh.1)]

theorem Agree2_set2 {m1 m2 : List (List α)} (h : Agree2 m1 m2) (i j : Nat) (hi : i < 12)
    (hj : j < 4) {v1 v2 : α} (hv : v1 = v2) : Agree2 (set2 m1 i j v1) (set2 m2 i j v2) := by
  subst hv
  refine ⟨Shape2_set2 h.1 _ _ _, Shape2_set2 h.2.1 _ _ _, fun i' j' a b c d => ?_⟩
  rw [get2_set2 h.1 hi hj, get2_set2 h.2.1 hi hj, h.2.2 i' j' a b c d]

theorem foldl_rel {σ τ ι : Type} (R : σ → τ → Prop) (f : σ → ι → σ) (g : τ → ι → τ) :
    ∀ (l : List ι), (∀ x ∈ l, ∀ a b, R a b → R (f a x) (g b x)) →
      ∀ a b, R a b → R (l.foldl f a) (l.foldl g b) := by
  intro l
  induction l with
  | nil => intro _ a b h; exact h
  | cons x l ih =>
    intro hstep a b h
    exact ih (fun y hy => hstep y (List.mem_cons_of_mem _ hy)) _ _
      (hstep x (List.mem_cons_self _ _) a b h)

/-- The time loop of the chirp filters keeps two pairs of arrays in agreement. -/
theorem chirpCascade_agree (L : Libm α) (p : List (COMPLEX α)) (fs rzero x : α)
    {in1 in2 out1 out2 : List (List α)} (hi : Agree2 in1 in2) (ho : Agree2 out1 out2) :
    Agree2 (chirpCascade L p fs rzero x 5 in1 out1).1 (chirpCascade L p fs rzero x 5 in2 out2).1 ∧
    Agree2 (chirpCascade L p fs rzero x 5 in1 out1).2
      (chirpCascade L p fs rzero x 5 in2 out2).2 := by
  unfold chirpCascade
  simp only []
  refine foldl_rel (fun (a b : List (List α) × List (List α)) => Agree2 a.1 b.1 ∧ Agree2 a.2 b.2)
    _ _ _ (fun i hi' a b hab => ?_) _ _ ⟨?_, ho⟩
  · obtain ⟨h1, h2⟩ := List.mem_range'_1.1 hi'
    obtain ⟨ha, hb⟩ := hab
    have e1 := ha.2.2 i 1 h1 (by omega) (by omega) (by omega)
    have e2 := ha.2.2 i 2 h1 (by omega) (by omega) (by omega)
    have e3 := ha.2.2 i 3 h1 (by omega) (by omega) (by omega)
    have f1 := hb.2.2 i 1 h1 (by omega) (by omega) (by omega)
    have f2 := hb.2.2 i 2 h1 (by omega) (by omega) (by omega)
    simp only [e1, e2, e3, f1, f2]
    exact ⟨Agree2_set2 (Agree2_set2 (Agree2_set2 ha (i + 1) 3 (by omega) (by omega) rfl) (i + 1) 2
        (by omega) (by omega) rfl) (i + 1) 1 (by omega) (by omega) rfl,
      Agree2_set2 (Agree2_set2 hb i 2 (by omega) (by omega) rfl) i 1 (by omega) (by omega) rfl⟩
  · have h3 := Agree2_set2 hi 1 3 (by omega) (by omega)
      (hi.2.2 1 2 (by omega) (by omega) (by omega) (by omega))
    have h2 := Agree2_set2 h3 1 2 (by omega) (by omega)
      (h3.2.2 1 1 (by omega) (by omega) (by omega) (by omega))
    exact Agree2_set2 h2 1 1 (by omega) (by omega) rfl

theorem foldl_pair {σ τ ι : Type} (f : σ → ι → σ) (g : τ → ι → τ) :
    ∀ (l : List ι) (a : σ) (b : τ),
      l.foldl (fun (acc : σ × τ) i => (f acc.1 i, g acc.2 i)) (a, b)
        = (l.foldl f a, l.foldl g b) := by
  intro l
  induction l with
  | nil => intro a b; rfl
  | cons x l ih => intro a b; exact ih _ _

/-- The clearing loop of the `n == 0` block: afterwards the entries `[i][1..3]` of the rows
`i` it visited are 0, and the other entries are as before. -/
theorem clear_rows : ∀ (l : List Nat) (m : List (List α)), Shape2 m → (∀ x ∈ l, x < 12) →
    Shape2 (l.foldl (fun acc i => set2 (set2 (set2 acc i 3 0) i 2 0) i 1 0) m) ∧
    ∀ i j, 1 ≤ j → j ≤ 3 →
      get2 (l.foldl (fun acc i => set2 (set2 (set2 acc i 3 0) i 2 0) i 1 0) m) i j
        = if i ∈ l then 0 else get2 m i j := by
  intro l
  induction l with
  | nil => intro m h _; exact ⟨h, fun i j _ _ => by simp⟩
  | cons x l ih =>
    intro m h hl
    have hx : x < 12 := hl x (List.mem_cons_self _ _)
    have h3 := Shape2_set2 h x 3 (0 : α)
    have h2 := Shape2_set2 h3 x 2 (0 : α)
    have h1 := Shape2_set2 h2 x 1 (0 : α)
    obtain ⟨hs, hg⟩ := ih _ h1 (fun y hy => hl y (List.mem_cons_of_mem _ hy))
    refine ⟨hs, fun i j hj1 hj3 => ?_⟩
    rw [List.foldl_cons, hg i j hj1 hj3, get2_set2 h2 hx (by omega), get2_set2 h3 hx (by omega),
      get2_set2 h hx (by omega)]
    by_cases hil : i ∈ l
    · simp [hil]
    · by_cases hix : i = x
      · subst hix
        have : j = 1 ∨ j = 2 ∨ j = 3 := by omega
        rcases this with rfl | rfl | rfl <;> simp
      · simp [hil, hix]

theorem chirpInit_fold : ∀ (l : List Nat) (a b : List (List α)),
    l.foldl (fun (acc : List (List α) × List (List α)) i =>
      let inp := set2 (set2 (set2 acc.1 i 3 0) i 2 0) i 1 0
      let outp := set2 (set2 (set2 acc.2 i 3 0) i 2 0) i 1 0
      (inp, outp)) (a, b) =
    (l.foldl (fun acc i => set2 (set2 (set2 acc i 3 0) i 2 0) i 1 0) a,
      l.foldl (fun acc i => set2 (set2 (set2 acc i 3 0) i 2 0) i 1 0) b) := by
  intro l
  induction l with
  | nil => intro a b; rfl
  | cons x l ih => intro a b; exact ih _ _

theorem chirpInit_io (L : Libm α) (sigma0 ipw rpa ipb rzero CF : α) (s : ChirpStatics α) :
    (chirpInit L sigma0 ipw rpa ipb rzero CF 5 10 s).input =
      (List.range' 1 (5 + 1)).foldl (fun acc i => set2 (set2 (set2 acc i 3 0) i 2 0) i 1 0)
        s.input ∧
    (chirpInit L sigma0 ipw rpa ipb rzero CF 5 10 s).output =
      (List.range' 1 (5 + 1)).foldl (fun acc i => set2 (set2 (set2 acc i 3 0) i 2 0) i 1 0)
        s.output := by
  unfold chirpInit
  simp only [chirpInit_fold]
  exact ⟨trivial, trivial⟩

theorem chirpInit_scalars (L : Libm α) (sigma0 ipw rpa ipb rzero CF : α) (s1 s2 : ChirpStatics α) :
    (chirpInit L sigma0 ipw rpa ipb rzero CF 5 10 s1).gain_norm =
      (chirpInit L sigma0 ipw rpa ipb rzero CF 5 10 s2).gain_norm ∧
    (chirpInit L sigma0 ipw rpa ipb rzero CF 5 10 s1).initphase =
      (chirpInit L sigma0 ipw rpa ipb rzero CF 5 10 s2).initphase :=
  ⟨rfl, rfl⟩

/-- The block of the chirp filters executed at `n == 0` brings two sets of static variables
of the declared dimensions into agreement. -/
theorem chirpInit_agree (L : Libm α) (sigma0 ipw rpa ipb rzero CF : α) {s1 s2 : ChirpStatics α}
    (h1 : Shape2 s1.input ∧ Shape2 s1.output) (h2 : Shape2 s2.input ∧ Shape2 s2.output) :
    ChirpAgree (chirpInit L sigma0 ipw rpa ipb rzero CF 5 10 s1)
      (chirpInit L sigma0 ipw rpa ipb rzero CF 5 10 s2) := by
  have hl : ∀ x ∈ List.range' 1 (5 + 1), x < 12 := fun x hx => by
    have := (List.mem_range'_1.1 hx).2
    omega
  have hm : ∀ i, 1 ≤ i → i ≤ 6 → i ∈ List.range' 1 (5 + 1) := fun i a b =>
    List.mem_range'_1.2 ⟨a, by omega⟩
  obtain ⟨a1, b1⟩ := clear_rows (List.range' 1 (5 + 1)) s1.input h1.1 hl
  obtain ⟨a2, b2⟩ := clear_rows (List.range' 1 (5 + 1)) s1.output h1.2 hl
  obtain ⟨c1, d1⟩ := clear_rows (List.range' 1 (5 + 1)) s2.input h2.1 hl
  obtain ⟨c2, d2⟩ := clear_rows (List.range' 1 (5 + 1)) s2.output h2.2 hl
  obtain ⟨e1, e2⟩ := chirpInit_io L sigma0 ipw rpa ipb rzero CF s1
  obtain ⟨f1, f2⟩ := chirpInit_io L sigma0 ipw rpa ipb rzero CF s2
  obtain ⟨g1, g2⟩ := chirpInit_scalars L sigma0 ipw rpa ipb rzero CF s1 s2
  refine ⟨g1, g2, ?_, ?_⟩
  · rw [e1, f1]
    refine ⟨a1, c1, fun i j hi1 hi6 hj1 hj3 => ?_⟩
    rw [b1 i j hj1 hj3, d1 i j hj1 hj3, if_pos (hm i hi1 hi6), if_pos (hm i hi1 hi6)]
  · rw [e2, f2]
    refine ⟨a2, c2, fun i j hi1 hi6 hj1 hj3 => ?_⟩
    rw [b2 i j hj1 hj3, d2 i j hj1 hj3, if_pos (hm i hi1 hi6), if_pos (hm i hi1 hi6)]

theorem AgreeResult_bind {β γ β' γ' : Type} {Q : β → γ → Prop} {R : β' → γ' → Prop}
    {x : Except MexError β} {y : Except MexError γ} {f : β → Except MexError β'}
    {g : γ → Except MexError γ'} (h : AgreeResult Q x y)
    (hf : ∀ a b, Q a b → AgreeResult R (f a) (g b)) : AgreeResult R (x >>= f) (y >>= g) := by
  cases x with
  | error e1 =>
    cases y with
    | error e2 => exact h
    | ok b => exact h.elim
  | ok a =>
    cases y with
    | error e2 => exact h.elim
    | ok b => exact hf a b h

theorem AgreeResult_bind_same {β β' γ' : Type} {R : β' → γ' → Prop}
    (x : Except MexError β) {f : β → Except MexError β'}
    {g : β → Except MexError γ'} (hf : ∀ a, AgreeResult R (f a) (g a)) :
    AgreeResult R (x >>= f) (x >>= g) := by
  cases x with
  | error e => exact rfl
  | ok a => exact hf a

/-- The chirp filter C1 gives the same result, and static variables in agreement, from
static variables that agree (or, at `n = 0`, from any of the declared dimensions). -/
theorem C1ChirpFilt_agree (L : Libm α) (x binwidth cf : α) (n : Nat) (taumax rsigma : α)
    {s1 s2 : ChirpStatics α}
    (h : if n = 0 then (Shape2 s1.input ∧ Shape2 s1.output) ∧ (Shape2 s2.input ∧ Shape2 s2.output)
      else ChirpAgree s1 s2) :
    AgreeResult (fun r1 r2 => r1.1 = r2.1 ∧ ChirpAgree r1.2 r2.2)
      (C1ChirpFilt L s1 x binwidth cf n taumax rsigma)
      (C1ChirpFilt L s2 x binwidth cf n taumax rsigma) := by
  unfold C1ChirpFilt
  simp only [Nat.reduceDiv]
  have hs : ChirpAgree
      (if (n : Int) = 0 then chirpInit L (1 / taumax) (1.01 * cf * TWOPI - 50)
          (L.pow 10 (L.log10 cf * 0.9 + 0.55) + 2000) (0.2343 * TWOPI * cf - 1104)
          (-(L.pow 10 (L.log10 cf * 0.7 + 1.6) + 500)) (TWOPI * cf) 5 10 s1 else s1)
      (if (n : Int) = 0 then chirpInit L (1 / taumax) (1.01 * cf * TWOPI - 50)
          (L.pow 10 (L.log10 cf * 0.9 + 0.55) + 2000) (0.2343 * TWOPI * cf - 1104)
          (-(L.pow 10 (L.log10 cf * 0.7 + 1.6) + 500)) (TWOPI * cf) 5 10 s2 else s2) := by
    by_cases h0 : n = 0
    · rw [if_pos h0] at h
      rw [if_pos (by exact_mod_cast h0), if_pos (by exact_mod_cast h0)]
      exact chirpInit_agree L _ _ _ _ _ _ h.1 h.2
    · rw [if_neg h0] at h
      rw [if_neg (by exact_mod_cast h0), if_neg (by exact_mod_cast h0)]
      exact h
  generalize (if (n : Int) = 0 then chirpInit L (1 / taumax) (1.01 * cf * TWOPI - 50)
          (L.pow 10 (L.log10 cf * 0.9 + 0.55) + 2000) (0.2343 * TWOPI * cf - 1104)
          (-(L.pow 10 (L.log10 cf * 0.7 + 1.6) + 500)) (TWOPI * cf) 5 10 s1 else s1) = t1
    at hs ⊢
  generalize (if (n : Int) = 0 then chirpInit L (1 / taumax) (1.01 * cf * TWOPI - 50)
          (L.pow 10 (L.log10 cf * 0.9 + 0.55) + 2000) (0.2343 * TWOPI * cf - 1104)
          (-(L.pow 10 (L.log10 cf * 0.7 + 1.6) + 500)) (TWOPI * cf) 5 10 s2 else s2) = t2
    at hs ⊢
  obtain ⟨hg, hp, hin, hout⟩ := hs
  rw [hg, hp]
  split_ifs with c1 c2
  · exact rfl
  · exact rfl
  · dsimp only [AgreeResult, ChirpAgree]
    have hc := chirpCascade_agree L
      (chirpPoles (-(1 / taumax) - rsigma) (1.01 * cf * TWOPI - 50)
        (L.pow 10 (L.log10 cf * 0.9 + 0.55) + 2000) (0.2343 * TWOPI * cf - 1104))
      (TWOPI * cf / L.tan (TWOPI * cf * binwidth / 2))
      (-(TWOPI * cf) / L.tan ((t2.initphase - chirpPhase L
        (chirpPoles (-(1 / taumax) - rsigma) (1.01 * cf * TWOPI - 50)
          (L.pow 10 (L.log10 cf * 0.9 + 0.55) + 2000) (0.2343 * TWOPI * cf - 1104))
        (TWOPI * cf) 5) / ((5 : Nat) : α))) x hin hout
    refine ⟨?_, rfl, rfl, hc.1, hc.2⟩
    rw [hc.2.2.2 5 1 (by omega) (by omega) (by omega) (by omega)]

/-- The chirp filter C2 gives the same result, and static variables in agreement, from
static variables that agree (or, at `n = 0`, from any of the declared dimensions). -/
theorem C2ChirpFilt_agree (L : Libm α) (x binwidth cf : α) (n : Nat) (taumax fcohc : α)
    {s1 s2 : ChirpStatics α}
    (h : if n = 0 then (Shape2 s1.input ∧ Shape2 s1.output) ∧ (Shape2 s2.input ∧ Shape2 s2.output)
      else ChirpAgree s1 s2) :
    AgreeResult (fun r1 r2 => r1.1 = r2.1 ∧ ChirpAgree r1.2 r2.2)
      (C2ChirpFilt L s1 x binwidth cf n taumax fcohc)
      (C2ChirpFilt L s2 x binwidth cf n taumax fcohc) := by
  unfold C2ChirpFilt
  simp only [Nat.reduceDiv]
  have hs : ChirpAgree
      (if (n : Int) = 0 then chirpInit L (1 / taumax) (1.01 * cf * TWOPI - 50)
          (L.pow 10 (L.log10 cf * 0.9 + 0.55) + 2000) (0.2343 * TWOPI * cf - 1104)
          (-(L.pow 10 (L.log10 cf * 0.7 + 1.6) + 500)) (TWOPI * cf) 5 10 s1 else s1)
      (if (n : Int) = 0 then chirpInit L (1 / taumax) (1.01 * cf * TWOPI - 50)
          (L.pow 10 (L.log10 cf * 0.9 + 0.55) + 2000) (0.2343 * TWOPI * cf - 1104)
          (-(L.pow 10 (L.log10 cf * 0.7 + 1.6) + 500)) (TWOPI * cf) 5 10 s2 else s2) := by
    by_cases h0 : n = 0
    · rw [if_pos h0] at h
      rw [if_pos (by exact_mod_cast h0), if_pos (by exact_mod_cast h0)]
      exact chirpInit_agree L _ _ _ _ _ _ h.1 h.2
    · rw [if_neg h0] at h
      rw [if_neg (by exact_mod_cast h0), if_neg (by exact_mod_cast h0)]
      exact h
  generalize (if (n : Int) = 0 then chirpInit L (1 / taumax) (1.01 * cf * TWOPI - 50)
          (L.pow 10 (L.log10 cf * 0.9 + 0.55) + 2000) (0.2343 * TWOPI * cf - 1104)
          (-(L.pow 10 (L.log10 cf * 0.7 + 1.6) + 500)) (TWOPI * cf) 5 10 s1 else s1) = t1
    at hs ⊢
  generalize (if (n : Int) = 0 then chirpInit L (1 / taumax) (1.01 * cf * TWOPI - 50)
          (L.pow 10 (L.log10 cf * 0.9 + 0.55) + 2000) (0.2343 * TWOPI * cf - 1104)
          (-(L.pow 10 (L.log10 cf * 0.7 + 1.6) + 500)) (TWOPI * cf) 5 10 s2 else s2) = t2
    at hs ⊢
  obtain ⟨hg, hp, hin, hout⟩ := hs
  rw [hg, hp]
  split_ifs with c1 c2
  · exact rfl
  · exact rfl
  · dsimp only [AgreeResult, ChirpAgree]
    have hc := chirpCascade_agree L
      (chirpPoles (-(1 / taumax) * fcohc) (1.01 * cf * TWOPI - 50)
        (L.pow 10 (L.log10 cf * 0.9 + 0.55) + 2000) (0.2343 * TWOPI * cf - 1104))
      (TWOPI * cf / L.tan (TWOPI * cf * binwidth / 2))
      (-(TWOPI * cf) / L.tan ((t2.initphase - chirpPhase L
        (chirpPoles (-(1 / taumax) * fcohc) (1.01 * cf * TWOPI - 50)
          (L.pow 10 (L.log10 cf * 0.9 + 0.55) + 2000) (0.2343 * TWOPI * cf - 1104))
        (TWOPI * cf) 5) / ((5 : Nat) : α))) x hin hout
    refine ⟨?_, rfl, rfl, hc.1, hc.2⟩
    rw [hc.2.2.2 5 1 (by omega) (by omega) (by omega) (by omega)]

theorem length_four {β : Type} {l : List β} (h : l.length = 4) : ∃ a b c d, l = [a, b, c, d] := by
  match l, h with
  | [a, b, c, d], _ => exact ⟨a, b, c, d, rfl⟩

theorem length_eight {β : Type} {l : List β} (h : l.length = 8) :
    ∃ a b c d e f g i, l = [a, b, c, d, e, f, g, i] := by
  match l, h with
  | [a, b, c, d, e, f, g, i], _ => exact ⟨a, b, c, d, e, f, g, i, rfl⟩

/-- The control-path filter gives the same result and the same static variables from equal
static variables, and at `n = 0` from any of the declared dimensions. -/
theorem WbGammaTone_agree (L : Libm α) (x binwidth centerfreq : α) (n : Nat) (tau gain : α)
    {s1 s2 : WbStatics α}
    (h : if n = 0 then (s1.wbgtf.length = 4 ∧ s1.wbgtfl.length = 4) ∧
        (s2.wbgtf.length = 4 ∧ s2.wbgtfl.length = 4) else s1 = s2) :
    WbGammaTone L s1 x binwidth centerfreq n tau gain 3 =
      WbGammaTone L s2 x binwidth centerfreq n tau gain 3 := by
  by_cases h0 : n = 0
  · rw [if_pos h0] at h
    subst h0
    obtain ⟨⟨h1, h2⟩, h3, h4⟩ := h
    obtain ⟨a1, b1, c1, d1, e1⟩ := length_four h1
    obtain ⟨a2, b2, c2, d2, e2⟩ := length_four h2
    obtain ⟨a3, b3, c3, d3, e3⟩ := length_four h3
    obtain ⟨a4, b4, c4, d4, e4⟩ := length_four h4
    have k : ∀ s : WbStatics α, s.wbgtf.length = 4 → s.wbgtfl.length = 4 →
        (if ((0 : Nat) : Int) = 0 then
          ({ wbphase := 0,
             wbgtfl := ((List.range (3 + 1)).foldl
               (fun (acc : List (COMPLEX α) × List (COMPLEX α)) i =>
                 (acc.1.set i (compmult 0 (compexp L 0)), acc.2.set i (compmult 0 (compexp L 0))))
               (s.wbgtfl, s.wbgtf)).1,
             wbgtf := ((List.range (3 + 1)).foldl
               (fun (acc : List (COMPLEX α) × List (COMPLEX α)) i =>
                 (acc.1.set i (compmult 0 (compexp L 0)), acc.2.set i (compmult 0 (compexp L 0))))
               (s.wbgtfl, s.wbgtf)).2 } : WbStatics α) else s) =
          { wbphase := 0, wbgtfl := List.replicate 4 (compmult 0 (compexp L 0)),
            wbgtf := List.replicate 4 (compmult 0 (compexp L 0)) } := by
      intro s g1 g2
      obtain ⟨p1, p2, p3, p4, q1⟩ := length_four g1
      obtain ⟨r1, r2, r3, r4, q2⟩ := length_four g2
      rw [if_pos (show ((0 : Nat) : Int) = 0 from rfl), q1, q2]
      rfl
    unfold WbGammaTone
    simp only []
    rw [k s1 h1 h2, k s2 h3 h4]
  · rw [if_neg h0] at h
    rw [h]

/-- The IHC low-pass filter gives the same result and the same static variables from equal
static variables, and at `n = 0` from any of the declared dimensions. -/
theorem IhcLowPass_agree (x binwidth Fc : α) (n : Nat) (gain : α) {s1 s2 : LowPassStatics α}
    (h : if n = 0 then (s1.cur.length = 8 ∧ s1.last.length = 8) ∧
        (s2.cur.length = 8 ∧ s2.last.length = 8) else s1 = s2) :
    IhcLowPass s1 x binwidth Fc n gain 7 = IhcLowPass s2 x binwidth Fc n gain 7 := by
  by_cases h0 : n = 0
  · rw [if_pos h0] at h
    subst h0
    obtain ⟨⟨h1, h2⟩, h3, h4⟩ := h
    have k : ∀ s : LowPassStatics α, s.cur.length = 8 → s.last.length = 8 →
        (if ((0 : Nat) : Int) = 0 then
          ({ cur := ((List.range (7 + 1)).foldl
               (fun (acc : List α × List α) i => (acc.1.set i 0, acc.2.set i 0))
               (s.cur, s.last)).1,
             last := ((List.range (7 + 1)).foldl
               (fun (acc : List α × List α) i => (acc.1.set i 0, acc.2.set i 0))
               (s.cur, s.last)).2 } : LowPassStatics α) else s) =
          { cur := List.replicate 8 0, last := List.replicate 8 0 } := by
      intro s g1 g2
      obtain ⟨p1, p2, p3, p4, p5, p6, p7, p8, q1⟩ := length_eight g1
      obtain ⟨r1, r2, r3, r4, r5, r6, r7, r8, q2⟩ := length_eight g2
      rw [if_pos (show ((0 : Nat) : Int) = 0 from rfl), q1, q2]
      rfl
    unfold IhcLowPass lowPassBody
    simp only []
    rw [k s1 h1 h2, k s2 h3 h4]
  · rw [if_neg h0] at h
    rw [h]

/-- The synapse gives the same result and the same static variables from equal static
variables, and at `n = 0` from any. -/
theorem Synapse_agree (L : Libm α) (vsat0 x binwidth cf spont : α) (n : Nat)
    {s1 s2 : SynapseStatics α} (h : n = 0 ∨ s1 = s2) :
    Synapse L vsat0 s1 x binwidth cf spont n = Synapse L vsat0 s2 x binwidth cf spont n := by
  rcases h with h | h
  · subst h
    unfold Synapse
    simp only [Nat.cast_zero, if_true]
  · rw [h]

/-- The body of the OHC low-pass filter on static arrays that agree at the entries
`[0..2]`. -/
theorem OhcLowPass_body_agree (x binwidth Fc gain : α) (a b c d1 d2 a' b' c' e1 e2 : α) :
    (OhcLowPass { cur := [a, b, c, d1], last := [a', b', c', e1] } x binwidth Fc 1 gain 2).1 =
      (OhcLowPass { cur := [a, b, c, d2], last := [a', b', c', e2] } x binwidth Fc 1 gain 2).1 ∧
    OhcAgree
      (OhcLowPass { cur := [a, b, c, d1], last := [a', b', c', e1] } x binwidth Fc 1 gain 2).2
      (OhcLowPass { cur := [a, b, c, d2], last := [a', b', c', e2] } x binwidth Fc 1 gain 2).2 :=
  ⟨rfl, _, _, _, _, _, _, _, _, _, _, rfl, rfl⟩

theorem OhcLowPass_succ (s : LowPassStatics α) (x binwidth Fc gain : α) (n : Nat) (h : n ≠ 0) :
    OhcLowPass s x binwidth Fc n gain 2 = OhcLowPass s x binwidth Fc 1 gain 2 := by
  unfold OhcLowPass lowPassBody
  simp only []
  rw [if_neg (by exact_mod_cast h), if_neg (by decide)]

theorem OhcLowPass_zero (x binwidth Fc gain : α) (a b c d a' b' c' e : α) :
    OhcLowPass { cur := [a, b, c, d], last := [a', b', c', e] } x binwidth Fc ((0 : Nat) : Int)
        gain 2 =
      OhcLowPass { cur := [0, 0, 0, d], last := [0, 0, 0, e] } x binwidth Fc 1 gain 2 := by
  unfold OhcLowPass lowPassBody
  simp only []
  rw [if_pos (show ((0 : Nat) : Int) = 0 from rfl), if_neg (by decide)]
  rfl

/-- The OHC low-pass filter gives the same result, and static variables in agreement, from
static variables that agree (or, at `n = 0`, from any of the declared dimensions). -/
theorem OhcLowPass_agree (x binwidth Fc : α) (n : Nat) (gain : α) {s1 s2 : LowPassStatics α}
    (h : if n = 0 then (s1.cur.length = 4 ∧ s1.last.length = 4) ∧
        (s2.cur.length = 4 ∧ s2.last.length = 4) else OhcAgree s1 s2) :
    (OhcLowPass s1 x binwidth Fc n gain 2).1 = (OhcLowPass s2 x binwidth Fc n gain 2).1 ∧
      OhcAgree (OhcLowPass s1 x binwidth Fc n gain 2).2 (OhcLowPass s2 x binwidth Fc n gain 2).2 := by
  by_cases h0 : n = 0
  · rw [if_pos h0] at h
    subst h0
    obtain ⟨⟨h1, h2⟩, h3, h4⟩ := h
    obtain ⟨a1, b1, c1, d1, e1⟩ := length_four h1
    obtain ⟨a2, b2, c2, d2, e2⟩ := length_four h2
    obtain ⟨a3, b3, c3, d3, e3⟩ := length_four h3
    obtain ⟨a4, b4, c4, d4, e4⟩ := length_four h4
    have k1 : s1 = { cur := [a1, b1, c1, d1], last := [a2, b2, c2, d2] } := by
      cases s1; simp only [LowPassStatics.mk.injEq]; exact ⟨e1, e2⟩
    have k2 : s2 = { cur := [a3, b3, c3, d3], last := [a4, b4, c4, d4] } := by
      cases s2; simp only [LowPassStatics.mk.injEq]; exact ⟨e3, e4⟩
    rw [k1, k2, OhcLowPass_zero, OhcLowPass_zero]
    exact OhcLowPass_body_agree x binwidth Fc gain 0 0 0 d1 d3 0 0 0 d2 d4
  · rw [if_neg h0] at h
    obtain ⟨a, b, c, d1, d2, a', b', c', e1, e2, rfl, rfl⟩ := h
    rw [OhcLowPass_succ _ _ _ _ _ n h0, OhcLowPass_succ _ _ _ _ _ n h0]
    exact OhcLowPass_body_agree x binwidth Fc gain a b c d1 d2 a' b' c' e1 e2

theorem AgreeResult_ok {β γ : Type} {R : β → γ → Prop} {a : β} {b : γ} (h : R a b) :
    AgreeResult R (Except.ok a : Except MexError β) (Except.ok b) := h

/-- A pass of the sample loop on two loop states that differ at most in their static
variables, these being ready for the pass: the same error, or two loop states that again
differ at most in their static variables, which agree where they are read. -/
theorem SingleAN_sample_agree (L : Libm α) (vsat0 : α) (a : ANArgs α) (k : ANConsts α)
    (hk : k.wborder = 3) (n : Nat) {st1 st2 : ANLoop α} (h : LoopAgree n st1 st2) :
    AgreeResult (LoopAgree (n + 1)) (SingleAN_sample L vsat0 a k st1 n)
      (SingleAN_sample L vsat0 a k st2 n) := by
  obtain ⟨hst, hr⟩ := h
  generalize st2.statics = s2 at hst hr
  subst hst
  generalize hs1 : st1.statics = s1 at hr
  have hwb : ∀ x bw cf tau gain, WbGammaTone L s1.wb x bw cf n tau gain 3 =
      WbGammaTone L s2.wb x bw cf n tau gain 3 := fun x bw cf tau gain =>
    WbGammaTone_agree L x bw cf n tau gain (by
      unfold StaticsReady at hr
      split_ifs at hr ⊢ with h0
      · exact ⟨hr.1.2.2.1, hr.2.2.2.1⟩
      · exact hr.2.2.1)
  have hoh : ∀ x bw Fc gain,
      (OhcLowPass s1.ohc x bw Fc n gain 2).1 = (OhcLowPass s2.ohc x bw Fc n gain 2).1 ∧
      OhcAgree (OhcLowPass s1.ohc x bw Fc n gain 2).2 (OhcLowPass s2.ohc x bw Fc n gain 2).2 :=
    fun x bw Fc gain => OhcLowPass_agree x bw Fc n gain (by
      unfold StaticsReady at hr
      split_ifs at hr ⊢ with h0
      · exact ⟨hr.1.2.2.2.1, hr.2.2.2.2.1⟩
      · exact hr.2.2.2.1)
  have hoh1 : ∀ x bw Fc gain,
      (OhcLowPass s1.ohc x bw Fc n gain 2).1 = (OhcLowPass s2.ohc x bw Fc n gain 2).1 :=
    fun x bw Fc gain => (hoh x bw Fc gain).1
  have hih : ∀ x bw Fc gain, IhcLowPass s1.ihc x bw Fc n gain 7 =
      IhcLowPass s2.ihc x bw Fc n gain 7 := fun x bw Fc gain =>
    IhcLowPass_agree x bw Fc n gain (by
      unfold StaticsReady at hr
      split_ifs at hr ⊢ with h0
      · exact ⟨hr.1.2.2.2.2, hr.2.2.2.2.2⟩
      · exact hr.2.2.2.2.1)
  have hsy : ∀ x bw cf spont, Synapse L vsat0 s1.syn x bw cf spont n =
      Synapse L vsat0 s2.syn x bw cf spont n := fun x bw cf spont =>
    Synapse_agree L vsat0 x bw cf spont n (by
      unfold StaticsReady at hr
      split_ifs at hr with h0
      · exact Or.inl h0
      · exact Or.inr hr.2.2.2.2.2)
  have hc1 : ∀ x bw cf taumax r,
      AgreeResult (fun r1 r2 => r1.1 = r2.1 ∧ ChirpAgree r1.2 r2.2)
        (C1ChirpFilt L s1.c1 x bw cf n taumax r) (C1ChirpFilt L s2.c1 x bw cf n taumax r) :=
    fun x bw cf taumax r => C1ChirpFilt_agree L x bw cf n taumax r (by
      unfold StaticsReady at hr
      split_ifs at hr ⊢ with h0
      · exact ⟨hr.1.1, hr.2.1⟩
      · exact hr.1)
  have hc2 : ∀ x bw cf taumax r,
      AgreeResult (fun r1 r2 => r1.1 = r2.1 ∧ ChirpAgree r1.2 r2.2)
        (C2ChirpFilt L s1.c2 x bw cf n taumax r) (C2ChirpFilt L s2.c2 x bw cf n taumax r) :=
    fun x bw cf taumax r => C2ChirpFilt_agree L x bw cf n taumax r (by
      unfold StaticsReady at hr
      split_ifs at hr ⊢ with h0
      · exact ⟨hr.1.2.1, hr.2.2.1⟩
      · exact hr.2.1)
  simp only [SingleAN_sample, hs1, hk, hwb, hoh1, hih, hsy]
  iterate 12 refine AgreeResult_bind_same _ (fun _ => ?_)
  refine AgreeResult_bind (hc1 _ _ _ _ _) (fun c1 c1' hcc => ?_)
  obtain ⟨c1o, c1s⟩ := c1
  obtain ⟨c1o', c1s'⟩ := c1'
  obtain ⟨e1, hca1⟩ := hcc
  simp only [] at e1 hca1
  subst e1
  refine AgreeResult_bind_same _ (fun _ => ?_)
  refine AgreeResult_bind (hc2 _ _ _ _ _) (fun c2 c2' hcc => ?_)
  obtain ⟨c2o, c2s⟩ := c2
  obtain ⟨c2o', c2s'⟩ := c2'
  obtain ⟨e2, hca2⟩ := hcc
  simp only [] at e2 hca2
  subst e2
  iterate 5 refine AgreeResult_bind_same _ (fun _ => ?_)
  refine AgreeResult_ok ⟨rfl, ?_⟩
  unfold StaticsReady
  rw [if_neg (Nat.succ_ne_zero n)]
  exact ⟨hca1, hca2, rfl, (hoh _ _ _ _).2, rfl, rfl⟩

theorem SingleAN_loop_agree (L : Libm α) (vsat0 : α) (a : ANArgs α) (k : ANConsts α)
    (hk : k.wborder = 3) {st1 st2 : ANLoop α} (h : LoopAgree 0 st1 st2) :
    ∀ m, AgreeResult (LoopAgree m) (SingleAN_loop L vsat0 a k st1 m)
      (SingleAN_loop L vsat0 a k st2 m) := by
  intro m
  induction m with
  | zero => exact AgreeResult_ok h
  | succ m ih =>
    rw [SingleAN_loop_succ, SingleAN_loop_succ]
    exact AgreeResult_bind ih (fun _ _ hab => SingleAN_sample_agree L vsat0 a k hk m hab)

theorem SingleAN_samples_agree (L : Libm α) (vsat0 : α) {s1 s2 : Statics α}
    (h1 : s1.WellShaped) (h2 : s2.WellShaped) (a : ANArgs α) (out : Outputs α) (m : Nat) :
    AgreeResult (LoopAgree m) (SingleAN_samples L vsat0 s1 a out m)
      (SingleAN_samples L vsat0 s2 a out m) := by
  unfold SingleAN_samples
  refine AgreeResult_bind (Q := LoopAgree 0) ?_
    (fun _ _ hab => SingleAN_loop_agree L vsat0 a _ rfl hab m)
  unfold SingleAN_start
  refine AgreeResult_bind_same _ (fun _ => ?_)
  refine AgreeResult_ok ⟨rfl, ?_⟩
  unfold StaticsReady
  rw [if_pos rfl]
  exact ⟨h1, h2⟩

theorem Statics.zero_wellShaped : Statics.zero.WellShaped := by
  simp [Statics.WellShaped, Shape2, Statics.zero]
  intro i hi
  interval_cases i <;> rfl

theorem Statics.ones_wellShaped : Statics.ones.WellShaped := by
  simp [Statics.WellShaped, Shape2, Statics.ones]
  intro i hi
  interval_cases i <;> rfl

/-- C16: for any two contents `s1`, `s2` of the static variables (arrays of the declared
dimensions), the same stimulus and parameters and the same math library: the sample loop,
run for any number `m` of passes, ends in the same error or leaves the same variables and
arrays, the contents of the static variables set aside (so every per-sample output agrees,
the first one included); and `mexFunction` returns the same error or the same nine output
arrays. -/
theorem C16_no_state_persists (L : Libm α) (G : SpikeGen α) (vsat0 : α) (s1 s2 : Statics α)
    (h1 : s1.WellShaped) (h2 : s2.WellShaped) :
    (∀ (a : ANArgs α) (out : Outputs α) (m : Nat),
      (SingleAN_samples L vsat0 s1 a out m).map (fun st => { st with statics := s1 }) =
        (SingleAN_samples L vsat0 s2 a out m).map (fun st => { st with statics := s1 })) ∧
    (∀ c : MexCall α,
      (mexFunction L G vsat0 s1 c).map Prod.fst = (mexFunction L G vsat0 s2 c).map Prod.fst) := by
  constructor
  · intro a out m
    have h := SingleAN_samples_agree L vsat0 h1 h2 a out m
    cases hx : SingleAN_samples L vsat0 s1 a out m with
    | error e1 =>
      cases hy : SingleAN_samples L vsat0 s2 a out m with
      | error e2 =>
        rw [hx, hy] at h
        have : e1 = e2 := h
        rw [this]
      | ok st2 => rw [hx, hy] at h; exact h.elim
    | ok st1 =>
      cases hy : SingleAN_samples L vsat0 s2 a out m with
      | error e2 => rw [hx, hy] at h; exact h.elim
      | ok st2 =>
        rw [hx, hy] at h
        have e : st2 = { st1 with statics := st2.statics } := h.1
        show Except.ok _ = Except.ok _
        rw [e]
  · intro c
    unfold mexFunction
    cases mexFunctionArgs c with
    | error e => rfl
    | ok a =>
      simp only []
      have h := SingleAN_samples_agree L vsat0 h1 h2 a (zeroOutputs a.totalstim)
        a.totalstim.toNat
      unfold SingleAN
      cases hx : SingleAN_samples L vsat0 s1 a (zeroOutputs a.totalstim) a.totalstim.toNat with
      | error e1 =>
        cases hy : SingleAN_samples L vsat0 s2 a (zeroOutputs a.totalstim) a.totalstim.toNat with
        | error e2 =>
          rw [hx, hy] at h
          have : e1 = e2 := h
          rw [this]
        | ok st2 => rw [hx, hy] at h; exact h.elim
      | ok st1 =>
        cases hy : SingleAN_samples L vsat0 s2 a (zeroOutputs a.totalstim) a.totalstim.toNat with
        | error e2 => rw [hx, hy] at h; exact h.elim
        | ok st2 =>
          rw [hx, hy] at h
          have e : st2 = { st1 with statics := st2.statics } := h.1
          have hd : SingleAN_delay L a st2 (zeroOutputs a.totalstim) =
              SingleAN_delay L a st1 (zeroOutputs a.totalstim) := by
            rw [e]; rfl
          simp only [ok_bind, hd]
          cases SingleAN_delay L a st1 (zeroOutputs a.totalstim) with
          | error e => rfl
          | ok o1 =>
            simp only [ok_bind]
            cases SingleAN_psth G a o1 with
            | error e => rfl
            | ok o2 => rfl

theorem C16_no_state_persists_witness :
    Statics.zero.WellShaped ∧ Statics.ones.WellShaped ∧
      (mexFunction ratLibm oneSpike 0 Statics.ones impulseCall).map Prod.fst
        = .ok impulseRun.1 := by
  refine ⟨Statics.zero_wellShaped, Statics.ones_wellShaped, ?_⟩
  have h := (C16_no_state_persists ratLibm oneSpike 0 Statics.zero Statics.ones
    Statics.zero_wellShaped Statics.ones_wellShaped).2 impulseCall
  rw [impulseRun_ok] at h
  exact h.symm

/-! ## Properties of the rounding `binary64` -/

theorem roundHalfEven_floor_le (q : ℚ) : Int.floor q ≤ roundHalfEven q := by
  unfold roundHalfEven
  simp only
  split_ifs <;> omega

theorem roundHalfEven_le_floor (q : ℚ) : roundHalfEven q ≤ Int.floor q + 1 := by
  unfold roundHalfEven
  simp only
  split_ifs <;> omega

theorem roundHalfEven_intCast (n : Int) : roundHalfEven (n : ℚ) = n := by
  unfold roundHalfEven
  simp only [Int.floor_intCast, sub_self]
  rw [if_pos (by norm_num)]

theorem roundHalfEven_mono {x y : ℚ} (h : x ≤ y) : roundHalfEven x ≤ roundHalfEven y := by
  have hf : Int.floor x ≤ Int.floor y := Int.floor_mono h
  rcases lt_or_eq_of_le hf with hlt | heq
  · calc roundHalfEven x ≤ Int.floor x + 1 := roundHalfEven_le_floor x
      _ ≤ Int.floor y := hlt
      _ ≤ roundHalfEven y := roundHalfEven_floor_le y
  · have hd : x - (Int.floor x : ℚ) ≤ y - (Int.floor y : ℚ) := by
      rw [heq]
      linarith
    unfold roundHalfEven
    simp only
    rw [← heq] at hd ⊢
    generalize Int.floor x = f at hd ⊢
    by_cases hx1 : x - (f : ℚ) < 1 / 2
    · rw [if_pos hx1]
      split_ifs <;> omega
    · rw [if_neg hx1, if_neg (by linarith : ¬ y - (f : ℚ) < 1 / 2)]
      by_cases hx2 : x - (f : ℚ) > 1 / 2
      · rw [if_pos hx2, if_pos (by linarith : y - (f : ℚ) > 1 / 2)]
      · rw [if_neg hx2]
        by_cases hy2 : y - (f : ℚ) > 1 / 2
        · rw [if_pos hy2]
          split_ifs <;> omega
        · rw [if_neg hy2]

theorem roundHalfEven_neg (q : ℚ) : roundHalfEven (-q) = -roundHalfEven q := by
  by_cases hint : (Int.floor q : ℚ) = q
  · rw [← hint, ← Int.cast_neg, roundHalfEven_intCast, roundHalfEven_intCast]
  · have hfl : (Int.floor q : ℚ) < q := lt_of_le_of_ne (Int.floor_le q) hint
    have hlt1 : q < (Int.floor q : ℚ) + 1 := Int.lt_floor_add_one q
    have hceil : Int.ceil q = Int.floor q + 1 := by
      rw [Int.ceil_eq_iff]
      constructor
      · push_cast
        linarith
      · push_cast
        exact hlt1.le
    have hneg : Int.floor (-q) = -Int.floor q - 1 := by
      rw [Int.floor_neg, hceil]
      ring
    unfold roundHalfEven
    simp only
    rw [hneg]
    push_cast
    generalize Int.floor q = f at hfl hlt1 ⊢
    by_cases h1 : q - (f : ℚ) < 1 / 2
    · rw [if_pos h1, if_neg (by linarith : ¬ (-q - (-(f : ℚ) - 1) < 1 / 2)),
        if_pos (by linarith : -q - (-(f : ℚ) - 1) > 1 / 2)]
      ring
    · rw [if_neg h1]
      by_cases h2 : q - (f : ℚ) > 1 / 2
      · rw [if_pos h2, if_pos (by linarith : -q - (-(f : ℚ) - 1) < 1 / 2)]
        ring
      · rw [if_neg h2, if_neg (by linarith : ¬ (-q - (-(f : ℚ) - 1) < 1 / 2)),
          if_neg (by linarith : ¬ (-q - (-(f : ℚ) - 1) > 1 / 2))]
        split_ifs <;> omega

theorem halvings_spec : ∀ (fuel n : Nat), 1 ≤ n → n ≤ fuel →
    2 ^ halvings fuel n ≤ n ∧ n < 2 ^ (halvings fuel n + 1)
  | 0, n, h1, h2 => by omega
  | fuel + 1, n, h1, h2 => by
    unfold halvings
    by_cases hn : n < 2
    · rw [if_pos hn]
      constructor
      · simpa using h1
      · simpa using hn
    · rw [if_neg hn]
      have ih := halvings_spec fuel (n / 2) (by omega) (by omega)
      constructor
      · rw [pow_succ]
        omega
      · rw [pow_succ]
        omega

theorem binaryExponent_spec (q : ℚ) (hq : 0 < q) :
    (2 : ℚ) ^ binaryExponent q ≤ q ∧ q < (2 : ℚ) ^ (binaryExponent q + 1) := by
  have hnum : 0 < q.num := Rat.num_pos.2 hq
  have hden : 0 < q.den := q.den_pos
  obtain ⟨ha1, ha2⟩ := halvings_spec q.num.natAbs q.num.natAbs (by omega) le_rfl
  obtain ⟨hb1, hb2⟩ := halvings_spec q.den q.den hden le_rfl
  have hqeq : q = (q.num.natAbs : ℚ) / (q.den : ℚ) := by
    have h := (Rat.num_div_den q).symm
    have hn : (q.num : ℚ) = (q.num.natAbs : ℚ) := by
      have h0 : (q.num.natAbs : Int) = q.num := Int.natAbs_of_nonneg hnum.le
      rw [← Int.cast_natCast, h0]
    rw [hn] at h
    exact h
  unfold binaryExponent
  simp only
  generalize halvings q.num.natAbs q.num.natAbs = a at ha1 ha2 ⊢
  generalize halvings q.den q.den = b at hb1 hb2 ⊢
  generalize q.num.natAbs = n at ha1 ha2 hqeq
  generalize q.den = d at hb1 hb2 hqeq hden
  have hdpos : (0 : ℚ) < d := by exact_mod_cast hden
  have ha1q : (2 : ℚ) ^ a ≤ n := by exact_mod_cast ha1
  have ha2q : (n : ℚ) < 2 ^ (a + 1) := by exact_mod_cast ha2
  have hb1q : (2 : ℚ) ^ b ≤ d := by exact_mod_cast hb1
  have hb2q : (d : ℚ) < 2 ^ (b + 1) := by exact_mod_cast hb2
  have h2a : (0 : ℚ) < 2 ^ a := by positivity
  have h2b : (0 : ℚ) < 2 ^ b := by positivity
  have hz : (2 : ℚ) ^ ((a : Int) - (b : Int)) = 2 ^ a / 2 ^ b := by
    rw [zpow_sub₀ (by norm_num), zpow_natCast, zpow_natCast]
  have hlow : (2 : ℚ) ^ ((a : Int) - (b : Int) - 1) ≤ q := by
    rw [zpow_sub₀ (by norm_num), hz, zpow_one, hqeq, div_div, div_le_div_iff₀ (by positivity) hdpos]
    rw [pow_succ] at hb2q
    nlinarith
  have hhigh : q < (2 : ℚ) ^ ((a : Int) - (b : Int) + 1) := by
    rw [zpow_add₀ (by norm_num), hz, zpow_one, hqeq, div_mul_eq_mul_div,
      div_lt_div_iff₀ hdpos (by positivity)]
    rw [pow_succ] at ha2q
    nlinarith
  by_cases hc : q < (2 : ℚ) ^ ((a : Int) - (b : Int))
  · rw [if_pos hc]
    refine ⟨hlow, ?_⟩
    rw [sub_add_cancel]
    exact hc
  · rw [if_neg hc]
    exact ⟨not_lt.1 hc, hhigh⟩

theorem binaryExponent_unique (q : ℚ) (k : Int) (h1 : (2 : ℚ) ^ k ≤ q)
    (h2 : q < (2 : ℚ) ^ (k + 1)) : binaryExponent q = k := by
  have hq : 0 < q := lt_of_lt_of_le (by positivity) h1
  obtain ⟨s1, s2⟩ := binaryExponent_spec q hq
  have hlt1 : k < binaryExponent q + 1 :=
    (zpow_lt_zpow_iff_right₀ (by norm_num : (1 : ℚ) < 2)).1 (lt_of_le_of_lt h1 s2)
  have hlt2 : binaryExponent q < k + 1 :=
    (zpow_lt_zpow_iff_right₀ (by norm_num : (1 : ℚ) < 2)).1 (lt_of_le_of_lt s1 h2)
  omega

theorem binary64_zero : binary64 0 = 0 := by
  unfold binary64
  rw [if_pos rfl]

theorem binary64_of_pos (q : ℚ) (hq : 0 < q) :
    binary64 q = (roundHalfEven (q / (2 : ℚ) ^ (binaryExponent q - 52)) : ℚ) *
      (2 : ℚ) ^ (binaryExponent q - 52) := by
  unfold binary64
  rw [if_neg hq.ne', abs_of_pos hq]

theorem binary64_neg (q : ℚ) : binary64 (-q) = -binary64 q := by
  unfold binary64
  by_cases h : q = 0
  · rw [if_pos h, if_pos (by rw [h, neg_zero]), neg_zero]
  · rw [if_neg h, if_neg (by simpa using h)]
    simp only [abs_neg, neg_div, roundHalfEven_neg, Int.cast_neg, neg_mul]

theorem two_zpow_split (e : Int) : (2 : ℚ) ^ e = 2 ^ (52 : Nat) * (2 : ℚ) ^ (e - 52) := by
  rw [← zpow_natCast, ← zpow_add₀ (by norm_num)]
  congr 1
  push_cast
  ring

theorem two_zpow_split1 (e : Int) : (2 : ℚ) ^ (e + 1) = 2 ^ (53 : Nat) * (2 : ℚ) ^ (e - 52) := by
  rw [← zpow_natCast, ← zpow_add₀ (by norm_num)]
  congr 1
  push_cast
  ring

theorem binary64_significand (q : ℚ) (hq : 0 < q) :
    (2 : Int) ^ (52 : Nat) ≤ roundHalfEven (q / (2 : ℚ) ^ (binaryExponent q - 52)) ∧
      roundHalfEven (q / (2 : ℚ) ^ (binaryExponent q - 52)) ≤ (2 : Int) ^ (53 : Nat) := by
  obtain ⟨s1, s2⟩ := binaryExponent_spec q hq
  have hs : (0 : ℚ) < (2 : ℚ) ^ (binaryExponent q - 52) := by positivity
  constructor
  · have h : (((2 : Int) ^ (52 : Nat) : Int) : ℚ) ≤ q / (2 : ℚ) ^ (binaryExponent q - 52) := by
      rw [le_div_iff₀ hs]
      rw [two_zpow_split] at s1
      norm_num at s1 ⊢
      exact s1
    have := roundHalfEven_mono h
    rwa [roundHalfEven_intCast] at this
  · have h : q / (2 : ℚ) ^ (binaryExponent q - 52) ≤ (((2 : Int) ^ (53 : Nat) : Int) : ℚ) := by
      rw [div_le_iff₀ hs]
      rw [two_zpow_split1] at s2
      norm_num at s2 ⊢
      exact s2.le
    have := roundHalfEven_mono h
    rwa [roundHalfEven_intCast] at this

theorem binary64_bounds (q : ℚ) (hq : 0 < q) :
    (2 : ℚ) ^ binaryExponent q ≤ binary64 q ∧ binary64 q ≤ (2 : ℚ) ^ (binaryExponent q + 1) := by
  obtain ⟨m1, m2⟩ := binary64_significand q hq
  have hs : (0 : ℚ) < (2 : ℚ) ^ (binaryExponent q - 52) := by positivity
  rw [binary64_of_pos q hq, two_zpow_split, two_zpow_split1]
  have m1q : ((2 : ℚ) ^ (52 : Nat)) ≤ (roundHalfEven (q / (2 : ℚ) ^ (binaryExponent q - 52)) : ℚ) := by
    exact_mod_cast m1
  have m2q : (roundHalfEven (q / (2 : ℚ) ^ (binaryExponent q - 52)) : ℚ) ≤ ((2 : ℚ) ^ (53 : Nat)) := by
    exact_mod_cast m2
  exact ⟨mul_le_mul_of_nonneg_right m1q hs.le, mul_le_mul_of_nonneg_right m2q hs.le⟩

theorem binary64_pos (q : ℚ) (hq : 0 < q) : 0 < binary64 q :=
  lt_of_lt_of_le (by positivity) (binary64_bounds q hq).1

theorem binary64_mono_pos {x y : ℚ} (hx : 0 < x) (h : x ≤ y) : binary64 x ≤ binary64 y := by
  have hy : 0 < y := lt_of_lt_of_le hx h
  obtain ⟨x1, x2⟩ := binaryExponent_spec x hx
  obtain ⟨y1, y2⟩ := binaryExponent_spec y hy
  have hlt : binaryExponent x < binaryExponent y + 1 :=
    (zpow_lt_zpow_iff_right₀ (by norm_num : (1 : ℚ) < 2)).1 (lt_of_le_of_lt (x1.trans h) y2)
  rcases lt_or_eq_of_le (Int.lt_add_one_iff.1 hlt) with hne | heq
  · calc binary64 x ≤ (2 : ℚ) ^ (binaryExponent x + 1) := (binary64_bounds x hx).2
      _ ≤ (2 : ℚ) ^ binaryExponent y :=
        (zpow_le_zpow_iff_right₀ (by norm_num : (1 : ℚ) < 2)).2 hne
      _ ≤ binary64 y := (binary64_bounds y hy).1
  · rw [binary64_of_pos x hx, binary64_of_pos y hy, heq]
    have hs : (0 : ℚ) < (2 : ℚ) ^ (binaryExponent y - 52) := by positivity
    apply mul_le_mul_of_nonneg_right _ hs.le
    exact_mod_cast roundHalfEven_mono (div_le_div_of_nonneg_right h hs.le)

theorem binary64_mono {x y : ℚ} (h : x ≤ y) : binary64 x ≤ binary64 y := by
  rcases lt_trichotomy x 0 with hx | hx | hx
  · rcases lt_trichotomy y 0 with hy | hy | hy
    · have := binary64_mono_pos (neg_pos.2 hy) (neg_le_neg h)
      rw [binary64_neg, binary64_neg] at this
      linarith
    · rw [hy, binary64_zero]
      have := binary64_pos (-x) (neg_pos.2 hx)
      rw [binary64_neg] at this
      linarith
    · have h1 := binary64_pos (-x) (neg_pos.2 hx)
      rw [binary64_neg] at h1
      have h2 := binary64_pos y hy
      linarith
  · rw [hx] at h ⊢
    rw [binary64_zero]
    rcases lt_or_eq_of_le h with hy | hy
    · exact (binary64_pos y hy).le
    · rw [← hy, binary64_zero]
  · exact binary64_mono_pos hx h

theorem binary64_idem_pos (q : ℚ) (hq : 0 < q) : binary64 (binary64 q) = binary64 q := by
  obtain ⟨m1, m2⟩ := binary64_significand q hq
  obtain ⟨b1, b2⟩ := binary64_bounds q hq
  have hp := binary64_pos q hq
  have hs : (0 : ℚ) < (2 : ℚ) ^ (binaryExponent q - 52) := by positivity
  rcases lt_or_eq_of_le m2 with hlt | heq
  · have hlt2 : binary64 q < (2 : ℚ) ^ (binaryExponent q + 1) := by
      rw [binary64_of_pos q hq, two_zpow_split1]
      apply mul_lt_mul_of_pos_right _ hs
      exact_mod_cast hlt
    have he : binaryExponent (binary64 q) = binaryExponent q :=
      binaryExponent_unique _ _ b1 hlt2
    rw [binary64_of_pos (binary64 q) hp, he]
    nth_rewrite 1 [binary64_of_pos q hq]
    rw [mul_div_assoc, div_self hs.ne', mul_one, roundHalfEven_intCast, ← binary64_of_pos q hq]
  · have hval : binary64 q = (2 : ℚ) ^ (binaryExponent q + 1) := by
      rw [binary64_of_pos q hq, two_zpow_split1, heq]
      push_cast
      rfl
    have he : binaryExponent (binary64 q) = binaryExponent q + 1 := by
      apply binaryExponent_unique
      · rw [hval]
      · rw [hval]
        exact (zpow_lt_zpow_iff_right₀ (by norm_num : (1 : ℚ) < 2)).2 (by omega)
    rw [binary64_of_pos (binary64 q) hp, he]
    have hsc : binary64 q / (2 : ℚ) ^ (binaryExponent q + 1 - 52) =
        (((2 : Int) ^ (52 : Nat) : Int) : ℚ) := by
      rw [hval, two_zpow_split (binaryExponent q + 1)]
      have : (0 : ℚ) < (2 : ℚ) ^ (binaryExponent q + 1 - 52) := by positivity
      rw [mul_div_assoc, div_self this.ne', mul_one]
      push_cast
      rfl
    rw [hsc, roundHalfEven_intCast, hval]
    push_cast
    exact (two_zpow_split (binaryExponent q + 1)).symm

theorem binary64_idem (q : ℚ) : binary64 (binary64 q) = binary64 q := by
  rcases lt_trichotomy q 0 with hq | hq | hq
  · have := binary64_idem_pos (-q) (neg_pos.2 hq)
    rw [binary64_neg, binary64_neg] at this
    linarith
  · rw [hq, binary64_zero, binary64_zero]
  · exact binary64_idem_pos q hq

theorem Binary64.one_eq : (1 : Binary64) = .num 1 := by decide!

theorem Binary64.zero_lit_eq : (0.0 : Binary64) = .num 0 := by decide!

theorem Binary64.lt_num (x y : ℚ) : (Binary64.num x < Binary64.num y) ↔ x < y := by
  show (decide (x < y) = true) ↔ x < y
  simp

theorem Binary64.le_num (x y : ℚ) : (Binary64.num x ≤ Binary64.num y) ↔ x ≤ y := by
  show (decide (x ≤ y) = true) ↔ x ≤ y
  simp

theorem Binary64.div_num (x y : ℚ) (hy : y ≠ 0) :
    Binary64.num x / Binary64.num y = .num (binary64 (x / y)) := by
  show Binary64.div (.num x) (.num y) = _
  unfold Binary64.div
  simp [hy]

theorem SingleAN_tauc1_64_eq (cohc t b : ℚ) :
    SingleAN_tauc1_64 (.num cohc) (.num t) (.num b)
      = .num (binary64 (binary64 (cohc * binary64 (t - b)) + b)) := rfl

theorem SingleAN_tauc1_64_ge (cohc t b : ℚ) (hb : binary64 b = b) (ht : b ≤ t)
    (hc : 0 ≤ cohc) : b ≤ binary64 (binary64 (cohc * binary64 (t - b)) + b) := by
  have h1 : 0 ≤ binary64 (t - b) := by
    have := binary64_mono (sub_nonneg.2 ht)
    rwa [binary64_zero] at this
  have h2 : 0 ≤ binary64 (cohc * binary64 (t - b)) := by
    have := binary64_mono (mul_nonneg hc h1)
    rwa [binary64_zero] at this
  have h3 := binary64_mono (le_add_of_nonneg_left h2 : b ≤ binary64 (cohc * binary64 (t - b)) + b)
  rwa [hb] at h3

/-- In double arithmetic, with any two doubles `0 < bmTaumin` and `0 < bmTaumax`, any `cohc ≥ 0`
and any `tmptauc1 ≥ bmTaumin`: `tauc1 ≥ bmTaumin`, the test `1/tauc1 < 0.0` of line 363 is
false, and so is the test `p[1].x > 0.0` of line 568. -/
theorem SingleAN_checks_double (cohc t b B : ℚ) (hb : binary64 b = b) (hb0 : 0 < b)
    (ht : b ≤ t) (hc : 0 ≤ cohc) (hB : 0 < B) :
    Binary64.num b ≤ SingleAN_tauc1_64 (.num cohc) (.num t) (.num b) ∧
    ¬ (1 / SingleAN_tauc1_64 (.num cohc) (.num t) (.num b) < (0.0 : Binary64)) ∧
    ¬ (C1ChirpFilt_p1x64 (.num B)
        (SingleAN_rsigma64 (SingleAN_tauc1_64 (.num cohc) (.num t) (.num b)) (.num B))
          > (0.0 : Binary64)) := by
  have hge := SingleAN_tauc1_64_ge cohc t b hb ht hc
  rw [SingleAN_tauc1_64_eq]
  generalize binary64 (binary64 (cohc * binary64 (t - b)) + b) = tau at hge
  have htau : 0 < tau := lt_of_lt_of_le hb0 hge
  have hv : 0 < binary64 (1 / tau) := binary64_pos _ (by positivity)
  refine ⟨(Binary64.le_num _ _).2 hge, ?_, ?_⟩
  · rw [Binary64.one_eq, Binary64.div_num _ _ htau.ne', Binary64.zero_lit_eq, Binary64.lt_num]
    exact not_lt.2 hv.le
  · have hr : SingleAN_rsigma64 (.num tau) (.num B)
        = .num (binary64 (binary64 (1 / tau) - binary64 (1 / B))) := by
      unfold SingleAN_rsigma64
      rw [Binary64.one_eq, Binary64.div_num _ _ htau.ne', Binary64.div_num _ _ hB.ne']
      rfl
    have hp : C1ChirpFilt_p1x64 (.num B)
        (.num (binary64 (binary64 (1 / tau) - binary64 (1 / B))))
        = .num (binary64 (-binary64 (1 / B) - binary64 (binary64 (1 / tau) - binary64 (1 / B)))) := by
      unfold C1ChirpFilt_p1x64
      rw [Binary64.one_eq, Binary64.div_num _ _ hB.ne']
      rfl
    rw [hr, hp, Binary64.zero_lit_eq]
    show ¬ (Binary64.num 0 < Binary64.num _)
    rw [Binary64.lt_num]
    apply not_lt.2
    have h1 : -binary64 (1 / B) ≤ binary64 (binary64 (1 / tau) - binary64 (1 / B)) := by
      have := binary64_mono (by linarith :
        -binary64 (1 / B) ≤ binary64 (1 / tau) - binary64 (1 / B))
      rwa [binary64_neg, binary64_idem] at this
    have := binary64_mono (by linarith :
      -binary64 (1 / B) - binary64 (binary64 (1 / tau) - binary64 (1 / B)) ≤ 0)
    rwa [binary64_zero] at this

theorem clamp64_range (o : Binary64) (b B t : ℚ) (hbB : b ≤ B)
    (h : (if (if o < .num b then .num b else o) > Binary64.num B then Binary64.num B
      else (if o < .num b then .num b else o)) = Binary64.num t) : b ≤ t ∧ t ≤ B := by
  cases o with
  | nan =>
    have h1 : ¬ (Binary64.nan < Binary64.num b) := fun hc => Bool.noConfusion hc
    rw [if_neg h1] at h
    have h2 : ¬ (Binary64.nan > Binary64.num B) := fun hc => Bool.noConfusion hc
    rw [if_neg h2] at h
    exact Binary64.noConfusion h
  | num q =>
    by_cases h1 : q < b
    · rw [if_pos ((Binary64.lt_num _ _).2 h1)] at h
      have h2 : ¬ (Binary64.num b > Binary64.num B) := by
        show ¬ (Binary64.num B < Binary64.num b)
        rw [Binary64.lt_num]
        exact not_lt.2 hbB
      rw [if_neg h2] at h
      have hbt : b = t := Binary64.num.inj h
      rw [← hbt]
      exact ⟨le_rfl, hbB⟩
    · rw [if_neg (fun hc => h1 ((Binary64.lt_num _ _).1 hc))] at h
      by_cases h2 : B < q
      · have h2b : Binary64.num q > Binary64.num B := (Binary64.lt_num _ _).2 h2
        rw [if_pos h2b] at h
        have hbt : B = t := Binary64.num.inj h
        rw [← hbt]
        exact ⟨hbB, le_rfl⟩
      · have h2b : ¬ (Binary64.num q > Binary64.num B) :=
          fun hc => h2 ((Binary64.lt_num _ _).1 hc)
        rw [if_neg h2b] at h
        have hbt : q = t := Binary64.num.inj h
        rw [← hbt]
        exact ⟨not_lt.1 h1, not_lt.1 h2⟩

theorem NLafterohc64_range (L : Libm Binary64) (x asym : Binary64) (b B t : ℚ) (hbB : b ≤ B)
    (h : NLafterohc64 L x (.num b) (.num B) asym = .num t) : b ≤ t ∧ t ≤ B :=
  clamp64_range _ b B t hbB h

theorem Binary64.mul_num_double (x y : Binary64) (b : ℚ) (h : x * y = .num b) :
    binary64 b = b := by
  cases x with
  | nan => exact absurd h (by show Binary64.mul .nan y ≠ _; simp [Binary64.mul])
  | num p =>
    cases y with
    | nan => exact absurd h (by show Binary64.mul (.num p) .nan ≠ _; simp [Binary64.mul])
    | num q =>
      have hb : binary64 (p * q) = b := Binary64.num.inj h
      rw [← hb, binary64_idem]

theorem SingleAN_bmTaumin_double (L : Libm Binary64) (cf cohc : Binary64) (b : ℚ)
    (h : (SingleAN_timeConsts64 L cf cohc).bmTaumin = .num b) : binary64 b = b :=
  Binary64.mul_num_double _ _ b h

theorem Binary64.not_lt_nan (a : Binary64) : ¬ (a < Binary64.nan) := by
  cases a <;> exact fun h => Bool.noConfusion h

theorem Binary64.not_nan_lt (a : Binary64) : ¬ (Binary64.nan < a) :=
  fun h => Bool.noConfusion h

/-- In double arithmetic, with two doubles `0 < bmTaumin ≤ bmTaumax` and `cohc ≥ 0`: a
number that `NLafterohc` returns lies in `[bmTaumin, bmTaumax]` and gives `tauc1 ≥ bmTaumin`;
and whatever `NLafterohc` returns, a number or a NaN, the test `1/tauc1 < 0.0` of line 363
and the test `p[1].x > 0.0` of line 568 are false. -/
theorem SingleAN_checks_double_all (L : Libm Binary64) (x asym : Binary64) (b B c : ℚ)
    (hb : binary64 b = b) (hb0 : 0 < b) (hbB : b ≤ B) (hc : 0 ≤ c) :
    (∀ t : ℚ, NLafterohc64 L x (.num b) (.num B) asym = .num t →
      b ≤ t ∧ t ≤ B ∧ Binary64.num b ≤ SingleAN_tauc1_64 (.num c) (.num t) (.num b)) ∧
    ¬ (1 / SingleAN_tauc1_64 (.num c) (NLafterohc64 L x (.num b) (.num B) asym) (.num b)
        < (0.0 : Binary64)) ∧
    ¬ (C1ChirpFilt_p1x64 (.num B)
        (SingleAN_rsigma64
          (SingleAN_tauc1_64 (.num c) (NLafterohc64 L x (.num b) (.num B) asym) (.num b))
          (.num B)) > (0.0 : Binary64)) := by
  have hB : 0 < B := lt_of_lt_of_le hb0 hbB
  have hrange := NLafterohc64_range L x asym b B
  generalize NLafterohc64 L x (.num b) (.num B) asym = o at hrange ⊢
  cases o with
  | nan =>
    have e : C1ChirpFilt_p1x64 (.num B)
        (SingleAN_rsigma64 (SingleAN_tauc1_64 (.num c) .nan (.num b)) (.num B))
        = Binary64.nan := by
      unfold C1ChirpFilt_p1x64
      rw [Binary64.one_eq, Binary64.div_num _ _ hB.ne']
      rfl
    rw [e]
    exact ⟨fun t ht => Binary64.noConfusion ht, Binary64.not_nan_lt _, Binary64.not_lt_nan _⟩
  | num t =>
    obtain ⟨h1, h2⟩ := hrange t hbB rfl
    obtain ⟨k1, k2, k3⟩ := SingleAN_checks_double c t b B hb hb0 h1 hc hB
    refine ⟨fun t' ht' => ?_, k2, k3⟩
    have e : t = t' := Binary64.num.inj ht'
    rw [← e]
    exact ⟨h1, h2, k1⟩

theorem Binary64.mul_num (x y : ℚ) :
    Binary64.num x * Binary64.num y = .num (binary64 (x * y)) := rfl

theorem Binary64.add_num (x y : ℚ) :
    Binary64.num x + Binary64.num y = .num (binary64 (x + y)) := rfl

theorem Binary64.neg_num (x : ℚ) : -Binary64.num x = .num (-x) := rfl

/-- In double arithmetic the gain `CAgain` is a number, at least 15, when `log10` and `tanh`
return numbers. -/
theorem SingleAN_CAgain64_num (L : Libm Binary64)
    (hlog10 : ∀ x : ℚ, 0 < x → ∃ r : ℚ, L.log10 (.num x) = .num r)
    (htanh : ∀ x : ℚ, ∃ r : ℚ, L.tanh (.num x) = .num r)
    (f : ℚ) (hf : 0 < f) : ∃ g : ℚ, SingleAN_CAgain64 L (.num f) = .num g ∧ 15 ≤ g := by
  have h600 : (600 : Binary64) = .num 600 := by decide!
  have h15 : (15 : Binary64) = .num 15 := by decide!
  have h26 : (52 / 2 : Binary64) = .num 26 := by decide!
  obtain ⟨l, hl⟩ := hlog10 (binary64 (f / 600)) (binary64_pos _ (by positivity))
  obtain ⟨t, ht⟩ := htanh (binary64 (binary64 (binary64 (2.2 : ℚ) * l) + binary64 (0.15 : ℚ)))
  have e0 : SingleAN_CAgain64 L (.num f) =
      if 52 / 2 * (L.tanh (2.2 * L.log10 (Binary64.num f / 600) + 0.15) + 1) < (15 : Binary64)
      then 15 else 52 / 2 * (L.tanh (2.2 * L.log10 (Binary64.num f / 600) + 0.15) + 1) := rfl
  have e1 : (2.2 : Binary64) * Binary64.num l + 0.15
      = .num (binary64 (binary64 (binary64 (2.2 : ℚ) * l) + binary64 (0.15 : ℚ))) := rfl
  rw [e0, h600, Binary64.div_num _ _ (by norm_num), hl, e1, ht, h26, h15]
  have e2 : Binary64.num 26 * (Binary64.num t + 1)
      = .num (binary64 (26 * binary64 (t + binary64 1))) := rfl
  rw [e2]
  by_cases hlt : binary64 (26 * binary64 (t + binary64 1)) < 15
  · rw [if_pos ((Binary64.lt_num _ _).2 hlt)]
    exact ⟨15, rfl, le_rfl⟩
  · rw [if_neg (fun hc => hlt ((Binary64.lt_num _ _).1 hc))]
    exact ⟨_, rfl, not_lt.1 hlt⟩

/-- In double arithmetic `bmTaumin` and `bmTaumax` are doubles with
`0 < bmTaumin ≤ bmTaumax`, for every `cf > 0`, when `log10` and `tanh` return numbers and
`pow(10, y)` a positive number, at most 1 for `y ≤ 0`. -/
theorem SingleAN_bm_double (L : Libm Binary64)
    (hpow : ∀ y : ℚ, ∃ r : ℚ, L.pow 10 (.num y) = .num r ∧ 0 < r ∧ (y ≤ 0 → r ≤ 1))
    (hlog10 : ∀ x : ℚ, 0 < x → ∃ r : ℚ, L.log10 (.num x) = .num r)
    (htanh : ∀ x : ℚ, ∃ r : ℚ, L.tanh (.num x) = .num r)
    (f : ℚ) (hf : 0 < f) (cohc : Binary64) :
    ∃ b B : ℚ, (SingleAN_timeConsts64 L (.num f) cohc).bmTaumin = .num b ∧
      (SingleAN_timeConsts64 L (.num f) cohc).bmTaumax = .num B ∧
      0 < b ∧ b ≤ B ∧ binary64 b = b := by
  obtain ⟨g, hg, hg15⟩ := SingleAN_CAgain64_num L hlog10 htanh f hf
  have h1e3 : (1e3 : Binary64) = .num 1000 := by decide!
  have h50 : (20.0 * 2.5 : Binary64) = .num 50 := by decide!
  obtain ⟨l, hl⟩ := hlog10 (binary64 (f / 1000)) (binary64_pos _ (by positivity))
  obtain ⟨q, hq, hq0, -⟩ :=
    hpow (binary64 (binary64 (binary64 (0.4708 : ℚ) * l) + binary64 (0.4664 : ℚ)))
  obtain ⟨r, hr, hr0, hr1⟩ := hpow (binary64 (-g / 50))
  have hr1 : r ≤ 1 := by
    apply hr1
    have := binary64_mono (by
      apply div_nonpos_of_nonpos_of_nonneg <;> linarith : -g / 50 ≤ (0 : ℚ))
    rwa [binary64_zero] at this
  have eB : (SingleAN_timeConsts64 L (.num f) cohc).bmTaumax
      = 2.0 / (TWOPI64 * (Binary64.num f
          / L.pow 10 (0.4708 * L.log10 (Binary64.num f / 1e3) + 0.4664))) / 0.7 := rfl
  have eb : (SingleAN_timeConsts64 L (.num f) cohc).bmTaumin
      = (SingleAN_timeConsts64 L (.num f) cohc).bmTaumax
        * L.pow 10 (-SingleAN_CAgain64 L (.num f) / (20.0 * 2.5)) := rfl
  have e1 : (0.4708 : Binary64) * Binary64.num l + 0.4664
      = .num (binary64 (binary64 (binary64 (0.4708 : ℚ) * l) + binary64 (0.4664 : ℚ))) := rfl
  have htp : (0 : ℚ) < binary64 (6.28318530717959 : ℚ) := binary64_pos _ (by norm_num)
  have hbw : 0 < binary64 (f / q) := binary64_pos _ (by positivity)
  have hden : 0 < binary64 (binary64 (6.28318530717959 : ℚ) * binary64 (f / q)) :=
    binary64_pos _ (by positivity)
  have h2 : (0 : ℚ) < binary64 (2.0 : ℚ) := binary64_pos _ (by norm_num)
  have hT : 0 < binary64 (binary64 (2.0 : ℚ)
      / binary64 (binary64 (6.28318530717959 : ℚ) * binary64 (f / q))) :=
    binary64_pos _ (by positivity)
  have h07 : (0 : ℚ) < binary64 (0.7 : ℚ) := binary64_pos _ (by norm_num)
  have eB2 : (SingleAN_timeConsts64 L (.num f) cohc).bmTaumax
      = .num (binary64 (binary64 (binary64 (2.0 : ℚ)
          / binary64 (binary64 (6.28318530717959 : ℚ) * binary64 (f / q)))
            / binary64 (0.7 : ℚ))) := by
    rw [eB, h1e3, Binary64.div_num _ _ (by norm_num), hl, e1, hq,
      Binary64.div_num _ _ hq0.ne']
    have e2 : TWOPI64 * Binary64.num (binary64 (f / q))
        = .num (binary64 (binary64 (6.28318530717959 : ℚ) * binary64 (f / q))) := rfl
    rw [e2]
    have e3 : (2.0 : Binary64) = .num (binary64 (2.0 : ℚ)) := rfl
    have e4 : (0.7 : Binary64) = .num (binary64 (0.7 : ℚ)) := rfl
    rw [e3, e4, Binary64.div_num _ _ hden.ne', Binary64.div_num _ _ h07.ne']
  have hB0 : 0 < binary64 (binary64 (binary64 (2.0 : ℚ)
      / binary64 (binary64 (6.28318530717959 : ℚ) * binary64 (f / q)))
        / binary64 (0.7 : ℚ)) := binary64_pos _ (by positivity)
  have hBi := binary64_idem (binary64 (binary64 (2.0 : ℚ)
      / binary64 (binary64 (6.28318530717959 : ℚ) * binary64 (f / q)))
        / binary64 (0.7 : ℚ))
  generalize binary64 (binary64 (binary64 (2.0 : ℚ)
      / binary64 (binary64 (6.28318530717959 : ℚ) * binary64 (f / q)))
        / binary64 (0.7 : ℚ)) = B at eB2 hB0 hBi
  have eb2 : (SingleAN_timeConsts64 L (.num f) cohc).bmTaumin = .num (binary64 (B * r)) := by
    rw [eb, eB2, hg, h50, Binary64.neg_num, Binary64.div_num _ _ (by norm_num), hr,
      Binary64.mul_num]
  refine ⟨binary64 (B * r), B, eb2, eB2, binary64_pos _ (by positivity), ?_, binary64_idem _⟩
  have := binary64_mono (by nlinarith : B * r ≤ B)
  rwa [hBi] at this

theorem roundedLibm_pow (y : ℚ) :
    ∃ r : ℚ, roundedLibm.pow 10 (.num y) = .num r ∧ 0 < r ∧ (y ≤ 0 → r ≤ 1) := by
  have h10 : binary64 (10 : ℚ) = 10 := by decide!
  have h1 : binary64 (1 : ℚ) = 1 := by decide!
  refine ⟨binary64 (ratLibm.pow (binary64 (10 : ℚ)) y), rfl, ?_, fun hy => ?_⟩
  · rw [h10]
    exact binary64_pos _ (ratLibm_powLaws.pow_pos 10 y (by norm_num))
  · rw [h10]
    have := binary64_mono (ratLibm_powLaws.pow_le_one 10 y (by norm_num) hy)
    rwa [h1] at this

theorem roundedLibm_log10 (x : ℚ) (_hx : 0 < x) :
    ∃ r : ℚ, roundedLibm.log10 (.num x) = .num r := ⟨_, rfl⟩

theorem roundedLibm_tanh (x : ℚ) : ∃ r : ℚ, roundedLibm.tanh (.num x) = .num r := ⟨_, rfl⟩

theorem Binary64.sub_num (x y : ℚ) :
    Binary64.num x - Binary64.num y = .num (binary64 (x - y)) := rfl

theorem binary64_nonneg {q : ℚ} (h : 0 ≤ q) : 0 ≤ binary64 q := by
  have := binary64_mono h
  rwa [binary64_zero] at this

theorem binary64_one : binary64 1 = 1 := by decide!

/-- In double arithmetic, with the parameters that `SingleAN` passes (`asym = 7`, `s0 = 12`,
`s1 = 5`, `x1 = 5`) and a math library whose `exp` returns non-negative numbers and whose
`log` returns numbers: `Boltzman` returns a number between the double `-1/7` and 1. -/
theorem Boltzman64_range (L : Libm Binary64)
    (hexp : ∀ t : ℚ, ∃ r : ℚ, L.exp (.num t) = .num r ∧ 0 ≤ r)
    (hlog : ∀ t : ℚ, ∃ r : ℚ, L.log (.num t) = .num r) (x : ℚ) :
    ∃ v : ℚ, Boltzman64 L (.num x) 7.0 12.0 5.0 5.0 = .num v ∧
      binary64 (-1 / 7) ≤ v ∧ v ≤ 1 := by
  have hshift : (1.0 / (1.0 + 7.0) : Binary64) = .num (1 / 8) := by decide!
  have h7 : (1.0 / Binary64.num (1 / 8) - 1 : Binary64) = .num 7 := by decide!
  have hx1 : (5.0 / 5.0 : Binary64) = .num 1 := by decide!
  have h1ms : (1 - Binary64.num (1 / 8) : Binary64) = .num (7 / 8) := by decide!
  have h12 : (12.0 : Binary64) = .num 12 := by decide!
  have h5 : (5.0 : Binary64) = .num 5 := by decide!
  have h1 : (1.0 : Binary64) = .num 1 := by decide!
  have h1n : (1 : Binary64) = .num 1 := by decide!
  obtain ⟨e1, he1, he1p⟩ := hexp 1
  have hd1 : 0 < binary64 (1 + e1) := binary64_pos _ (by linarith)
  obtain ⟨l, hl⟩ := hlog (binary64 (7 / binary64 (1 + e1)))
  obtain ⟨a, ha, hap⟩ := hexp (binary64 (-binary64 (x - binary64 (12 * l)) / 12))
  obtain ⟨c, hc, hcp⟩ := hexp (binary64 (-binary64 (x - 5) / 5))
  unfold Boltzman64
  simp only []
  rw [hshift, h7, hx1, h1ms, h12, h5, h1, h1n, he1, Binary64.add_num,
    Binary64.div_num _ _ hd1.ne', hl, Binary64.mul_num, Binary64.sub_num, Binary64.neg_num,
    Binary64.div_num _ _ (by norm_num), ha, Binary64.sub_num, Binary64.neg_num,
    Binary64.div_num _ _ (by norm_num), hc]
  have hE : 0 ≤ binary64 (a * binary64 (1 + c)) :=
    binary64_nonneg (mul_nonneg hap (binary64_nonneg (by linarith)))
  have hD : 1 ≤ binary64 (1 + binary64 (a * binary64 (1 + c))) := by
    have := binary64_mono (by linarith : (1 : ℚ) ≤ 1 + binary64 (a * binary64 (1 + c)))
    rwa [binary64_one] at this
  have hD0 : 0 < binary64 (1 + binary64 (a * binary64 (1 + c))) := by linarith
  rw [Binary64.add_num, Binary64.mul_num, Binary64.add_num, Binary64.div_num _ _ hD0.ne',
    Binary64.sub_num, Binary64.div_num _ _ (by norm_num)]
  generalize binary64 (1 + binary64 (a * binary64 (1 + c))) = D at hD hD0
  have hu0 : 0 ≤ binary64 (1 / D) := binary64_nonneg (by positivity)
  have hu1 : binary64 (1 / D) ≤ 1 := by
    have := binary64_mono ((div_le_one hD0).2 hD)
    rwa [binary64_one] at this
  generalize binary64 (1 / D) = u at hu0 hu1
  have hw0 : -(1 / 8) ≤ binary64 (u - 1 / 8) := by
    have := binary64_mono (by linarith : -(1 / 8 : ℚ) ≤ u - 1 / 8)
    have e : binary64 (-(1 / 8 : ℚ)) = -(1 / 8) := by decide!
    rwa [e] at this
  have hw1 : binary64 (u - 1 / 8) ≤ 7 / 8 := by
    have := binary64_mono (by linarith : u - 1 / 8 ≤ (7 / 8 : ℚ))
    have e : binary64 (7 / 8 : ℚ) = 7 / 8 := by decide!
    rwa [e] at this
  generalize binary64 (u - 1 / 8) = w at hw0 hw1
  refine ⟨_, rfl, ?_, ?_⟩
  · apply binary64_mono
    rw [le_div_iff₀ (by norm_num)]
    linarith
  · have := binary64_mono (by
      rw [div_le_iff₀ (by norm_num)]
      linarith : w / (7 / 8) ≤ (1 : ℚ))
    rwa [binary64_one] at this

theorem Boltzman64_bounds (L : Libm Binary64)
    (hexp : ∀ t : ℚ, ∃ r : ℚ, L.exp (.num t) = .num r ∧ 0 ≤ r)
    (hlog : ∀ t : ℚ, ∃ r : ℚ, L.log (.num t) = .num r) (x : ℚ) :
    (-1 / 7 : Binary64) ≤ Boltzman64 L (.num x) 7.0 12.0 5.0 5.0 ∧
      Boltzman64 L (.num x) 7.0 12.0 5.0 5.0 ≤ 1 := by
  obtain ⟨v, hv, h1, h2⟩ := Boltzman64_range L hexp hlog x
  have e7 : (-1 / 7 : Binary64) = .num (binary64 (-1 / 7)) := by decide!
  rw [hv, e7, Binary64.one_eq]
  exact ⟨(Binary64.le_num _ _).2 h1, (Binary64.le_num _ _).2 h2⟩

theorem roundedLibm_exp (t : ℚ) :
    ∃ r : ℚ, roundedLibm.exp (.num t) = .num r ∧ 0 ≤ r :=
  ⟨_, rfl, binary64_nonneg (ratExp_pos t).le⟩

theorem roundedLibm_log (t : ℚ) : ∃ r : ℚ, roundedLibm.log (.num t) = .num r := ⟨_, rfl⟩

theorem roundHalfEven_err (q : ℚ) :
    (roundHalfEven q : ℚ) - q ≤ 1 / 2 ∧ q - (roundHalfEven q : ℚ) ≤ 1 / 2 := by
  have h1 := Int.floor_le q
  have h2 := Int.lt_floor_add_one q
  unfold roundHalfEven
  simp only
  split_ifs with a b c <;> push_cast <;> constructor <;> linarith

/-- The relative error of the rounding is at most `2^-53`. -/
theorem binary64_err_pos (q : ℚ) (hq : 0 < q) :
    q * (1 - 1 / 2 ^ 53) ≤ binary64 q ∧ binary64 q ≤ q * (1 + 1 / 2 ^ 53) := by
  obtain ⟨s1, -⟩ := binaryExponent_spec q hq
  obtain ⟨r1, r2⟩ := roundHalfEven_err (q / (2 : ℚ) ^ (binaryExponent q - 52))
  have hs : (0 : ℚ) < (2 : ℚ) ^ (binaryExponent q - 52) := by positivity
  rw [binary64_of_pos q hq]
  rw [two_zpow_split] at s1
  generalize (2 : ℚ) ^ (binaryExponent q - 52) = s at hs s1 r1 r2
  generalize (roundHalfEven (q / s) : ℚ) = m at r1 r2
  have e : q / s * s = q := div_mul_cancel₀ q hs.ne'
  have k1 : (m - q / s) * s ≤ 1 / 2 * s := mul_le_mul_of_nonneg_right r1 hs.le
  have k2 : (q / s - m) * s ≤ 1 / 2 * s := mul_le_mul_of_nonneg_right r2 hs.le
  have hsq : s ≤ q / 2 ^ 52 := by
    rw [le_div_iff₀ (by positivity)]
    linarith
  have h53 : q / 2 ^ 52 * (1 / 2) = q * (1 / 2 ^ 53) := by ring
  constructor <;> nlinarith

theorem binary64_err (q : ℚ) (hq : 0 ≤ q) :
    q * (1 - 1 / 2 ^ 53) ≤ binary64 q ∧ binary64 q ≤ q * (1 + 1 / 2 ^ 53) := by
  rcases lt_or_eq_of_le hq with h | h
  · exact binary64_err_pos q h
  · rw [← h, binary64_zero]
    simp

theorem binary64_neg_sub (x y : ℚ) : binary64 (x - y) = -binary64 (y - x) := by
  rw [← binary64_neg, neg_sub]

theorem rounding_poly1 (u : ℚ) (hu0 : 0 ≤ u) (hu : u ≤ 1 / 1000) :
    (2 * u + u * u) * (1 + u) * (1 + u) * (1 + u) ≤ 7 * u * (1 / 3 * (1 - u)) := by
  have h2 : 0 ≤ u * u := mul_nonneg hu0 hu0
  have h3 : 0 ≤ u * u * u := mul_nonneg h2 hu0
  have h4 : 0 ≤ u * u * u * u := mul_nonneg h3 hu0
  have h5 : 0 ≤ u * u * u * u * u := mul_nonneg h4 hu0
  have k2 : u * u ≤ 1 / 1000 * u := mul_le_mul_of_nonneg_right hu hu0
  have k3 : u * u * u ≤ 1 / 1000 * (u * u) := by
    have := mul_le_mul_of_nonneg_right hu h2
    linarith only [this]
  have k4 : u * u * u * u ≤ 1 / 1000 * (u * u * u) := by
    have := mul_le_mul_of_nonneg_right hu h3
    linarith only [this]
  have k5 : u * u * u * u * u ≤ 1 / 1000 * (u * u * u * u) := by
    have := mul_le_mul_of_nonneg_right hu h4
    linarith only [this]
  have e : (2 * u + u * u) * (1 + u) * (1 + u) * (1 + u)
      = 2 * u + 7 * (u * u) + 9 * (u * u * u) + 5 * (u * u * u * u) + u * u * u * u * u := by
    ring
  have e2 : 7 * u * (1 / 3 * (1 - u)) = 7 / 3 * u - 7 / 3 * (u * u) := by ring
  rw [e, e2]
  linarith only [h2, h3, h4, h5, k2, k3, k4, k5, hu0]

theorem rounding_poly2 (u : ℚ) (hu0 : 0 ≤ u) (hu : u ≤ 1 / 1000) :
    (1 + u) * (1 + u) * (1 + u) ≤ 1 + 4 * u := by
  have h2 : 0 ≤ u * u := mul_nonneg hu0 hu0
  have k2 : u * u ≤ 1 / 1000 * u := mul_le_mul_of_nonneg_right hu hu0
  have k3 : u * u * u ≤ 1 / 1000 * (u * u) := by
    have := mul_le_mul_of_nonneg_right hu h2
    linarith only [this]
  have e : (1 + u) * (1 + u) * (1 + u) = 1 + 3 * u + 3 * (u * u) + u * u * u := by ring
  rw [e]
  linarith only [h2, k2, k3, hu0]

theorem rounding_poly3 (u : ℚ) (hu0 : 0 ≤ u) : 1 - 64 * u ≤ (1 - 45 * u) * (1 - u) := by
  have h2 : 0 ≤ u * u := mul_nonneg hu0 hu0
  have e : (1 - 45 * u) * (1 - u) = 1 - 46 * u + 45 * (u * u) := by ring
  rw [e]
  linarith only [h2, hu0]

theorem rounding_poly4 (u : ℚ) (hu0 : 0 ≤ u) (hu : u ≤ 1 / 1000) :
    (1 + 7 * u) * (1 + u) ≤ 1 + 64 * u := by
  have k2 : u * u ≤ 1 / 1000 * u := mul_le_mul_of_nonneg_right hu hu0
  have e : (1 + 7 * u) * (1 + u) = 1 + 8 * u + 7 * (u * u) := by ring
  rw [e]
  linarith only [k2, hu0]

theorem rounding_poly5 (u x : ℚ) (hu0 : 0 ≤ u) (hu : u ≤ 1 / 1000) (hx : 0 ≤ x) :
    1 / 4 * (x * (1 + u)) * (1 + u) ≤ x := by
  have h1 : (1 + u) * (1 + u) ≤ 4 := by
    have k2 : u * u ≤ 1 / 1000 * u := mul_le_mul_of_nonneg_right hu hu0
    have e : (1 + u) * (1 + u) = 1 + 2 * u + u * u := by ring
    rw [e]
    linarith only [k2, hu]
  have h2 := mul_le_mul_of_nonneg_left h1 hx
  linarith only [h2]

/-- The `tauc1` of line 360 under a relative rounding error `u`: at least `bmTaumin` and at
most `bmTaumax*(1 + u)^2`. -/
theorem tauc1_64_core (u : ℚ) (hu0 : 0 ≤ u)
    (key : ∀ q : ℚ, 0 ≤ q → q * (1 - u) ≤ binary64 q ∧ binary64 q ≤ q * (1 + u))
    (b B c τ : ℚ) (hb0 : 0 < b) (hbB : b ≤ B) (hc0 : 0 ≤ c) (hc1 : c ≤ 1)
    (hτb : b ≤ τ) (hτB : τ ≤ B) (eb : binary64 b = b) :
    b ≤ binary64 (binary64 (c * binary64 (τ - b)) + b) ∧
    binary64 (binary64 (c * binary64 (τ - b)) + b) - B ≤ B * (2 * u + u * u) := by
  obtain ⟨-, hG2⟩ := key (B - b) (by linarith only [hbB])
  have hG0 : 0 ≤ binary64 (B - b) := binary64_nonneg (by linarith only [hbB])
  have eG := binary64_idem (B - b)
  have hEG : binary64 (τ - b) ≤ binary64 (B - b) := binary64_mono (by linarith only [hτB])
  generalize binary64 (B - b) = G at hG2 hG0 eG hEG
  have hE0 : 0 ≤ binary64 (τ - b) := binary64_nonneg (by linarith only [hτb])
  generalize binary64 (τ - b) = E at hE0 hEG
  have hF0 : 0 ≤ binary64 (c * E) := binary64_nonneg (mul_nonneg hc0 hE0)
  have hFG : binary64 (c * E) ≤ G := by
    have hcE : c * E ≤ G := le_trans (mul_le_of_le_one_left hE0 hc1) hEG
    have := binary64_mono hcE
    rwa [eG] at this
  generalize binary64 (c * E) = F at hF0 hFG
  have hτ1a : b ≤ binary64 (F + b) := by
    have := binary64_mono (by linarith only [hF0] : b ≤ F + b)
    rwa [eb] at this
  have hτ1b : binary64 (F + b) ≤ (G + b) * (1 + u) := by
    have h1 := binary64_mono (by linarith only [hFG] : F + b ≤ G + b)
    have h2 := (key (G + b) (by linarith only [hG0, hb0])).2
    linarith only [h1, h2]
  refine ⟨hτ1a, ?_⟩
  have h3 : (G + b) * (1 + u) ≤ ((B - b) * (1 + u) + b) * (1 + u) :=
    mul_le_mul_of_nonneg_right (by linarith only [hG2]) (by linarith only [hu0])
  have h4 : 0 ≤ b * u := mul_nonneg hb0.le hu0
  have h5 : 0 ≤ b * u * u := mul_nonneg h4 hu0
  have e : ((B - b) * (1 + u) + b) * (1 + u)
      = B + B * (2 * u + u * u) - b * u - b * u * u := by ring
  linarith only [hτ1b, h3, h4, h5, e]

/-- The constants `TauWBMax` and `TauWBMin` of lines 297-298 under a relative rounding error
`u`, for doubles `0 < Taumin ≤ Taumax ≤ 11*Taumin`. -/
theorem tauWB64_core (u : ℚ) (hu0 : 0 ≤ u) (hu : u ≤ 1 / 1000)
    (key : ∀ q : ℚ, 0 ≤ q → q * (1 - u) ≤ binary64 q ∧ binary64 q ≤ q * (1 + u))
    (t T : ℚ) (ht0 : 0 < t) (htT : t ≤ T) (hT11 : T ≤ 11 * t)
    (et : binary64 t = t) (eT : binary64 T = T) :
    0 < binary64 (binary64 (binary64 (t + binary64 (binary64 (0.2 : ℚ) * binary64 (T - t))) / T)
      * t) ∧
    binary64 (binary64 (binary64 (t + binary64 (binary64 (0.2 : ℚ) * binary64 (T - t))) / T)
      * t) ≤ binary64 (t + binary64 (binary64 (0.2 : ℚ) * binary64 (T - t))) ∧
    0 < binary64 (t + binary64 (binary64 (0.2 : ℚ) * binary64 (T - t))) ∧
    binary64 (t + binary64 (binary64 (0.2 : ℚ) * binary64 (T - t))) * (1 - u) * (1 - u)
      ≤ 11 * binary64 (binary64 (binary64 (t + binary64 (binary64 (0.2 : ℚ)
          * binary64 (T - t))) / T) * t) := by
  have hT0 : 0 < T := lt_of_lt_of_le ht0 htT
  have hTt : 0 ≤ T - t := by linarith only [htT]
  obtain ⟨-, hA2⟩ := key (T - t) hTt
  have hA0 : 0 ≤ binary64 (T - t) := binary64_nonneg hTt
  generalize binary64 (T - t) = A at hA2 hA0
  have hc02 : (0 : ℚ) ≤ binary64 (0.2 : ℚ) ∧ binary64 (0.2 : ℚ) ≤ 1 / 4 := by decide!
  obtain ⟨hc02a, hc02b⟩ := hc02
  generalize binary64 (0.2 : ℚ) = c02 at hc02a hc02b
  have hP0 : 0 ≤ c02 * A := mul_nonneg hc02a hA0
  obtain ⟨-, hQ2⟩ := key (c02 * A) hP0
  have hQ0 : 0 ≤ binary64 (c02 * A) := binary64_nonneg hP0
  have hQle : binary64 (c02 * A) ≤ T - t := by
    have h1 : c02 * A ≤ 1 / 4 * ((T - t) * (1 + u)) :=
      mul_le_mul hc02b hA2 hA0 (by norm_num)
    have h2 := rounding_poly5 u (T - t) hu0 hu hTt
    have h3 : c02 * A * (1 + u) ≤ 1 / 4 * ((T - t) * (1 + u)) * (1 + u) :=
      mul_le_mul_of_nonneg_right h1 (by linarith only [hu0])
    linarith only [hQ2, h2, h3]
  generalize binary64 (c02 * A) = Q at hQ0 hQle
  have hM1 : t ≤ binary64 (t + Q) := by
    have := binary64_mono (by linarith only [hQ0] : t ≤ t + Q)
    rwa [et] at this
  have hM2 : binary64 (t + Q) ≤ T := by
    have := binary64_mono (by linarith only [hQle] : t + Q ≤ T)
    rwa [eT] at this
  generalize binary64 (t + Q) = M at hM1 hM2
  have hM0 : 0 < M := lt_of_lt_of_le ht0 hM1
  have hR0 : 0 ≤ M / T := div_nonneg hM0.le hT0.le
  obtain ⟨hR1, -⟩ := key (M / T) hR0
  have hR2 : binary64 (M / T) ≤ 1 := by
    have := binary64_mono ((div_le_one hT0).2 hM2)
    rwa [binary64_one] at this
  have hRp : 0 < binary64 (M / T) := binary64_pos _ (div_pos hM0 hT0)
  generalize binary64 (M / T) = R at hR1 hR2 hRp
  obtain ⟨hm1, -⟩ := key (R * t) (mul_nonneg hRp.le ht0.le)
  have hmp : 0 < binary64 (R * t) := binary64_pos _ (mul_pos hRp ht0)
  have hmt : binary64 (R * t) ≤ t := by
    have := binary64_mono (mul_le_of_le_one_left ht0.le hR2)
    rwa [et] at this
  have hmlow : M * (1 - u) * (1 - u) ≤ 11 * binary64 (R * t) := by
    have hu1 : 0 ≤ 1 - u := by linarith only [hu]
    have h1 : M ≤ 11 * (M / T * t) := by
      have e : 11 * (M / T * t) = M * (11 * t) / T := by ring
      rw [e, le_div_iff₀ hT0]
      exact mul_le_mul_of_nonneg_left hT11 hM0.le
    have h4 : M / T * (1 - u) * t ≤ R * t := mul_le_mul_of_nonneg_right hR1 ht0.le
    have h5 : M / T * (1 - u) * t * (1 - u) ≤ R * t * (1 - u) :=
      mul_le_mul_of_nonneg_right h4 hu1
    have h6 : M * ((1 - u) * (1 - u)) ≤ 11 * (M / T * t) * ((1 - u) * (1 - u)) :=
      mul_le_mul_of_nonneg_right h1 (mul_nonneg hu1 hu1)
    have e6 : M * ((1 - u) * (1 - u)) = M * (1 - u) * (1 - u) := by ring
    have e7 : 11 * (M / T * t) * ((1 - u) * (1 - u))
        = 11 * (M / T * (1 - u) * t * (1 - u)) := by ring
    rw [e6, e7] at h6
    linarith only [h6, h5, hm1]
  exact ⟨hmp, le_trans hmt hM1, hM0, hmlow⟩

/-- The rounding analysis of lines 297-305 and 365, for a relative rounding error `u`: with
doubles `0 < Taumin ≤ Taumax ≤ 11*Taumin` and `0 < bmTaumin ≤ 2/3*bmTaumax`, `cohc` in
`[0, 1]` and `tmptauc1` in `[bmTaumin, bmTaumax]`, the computed `tauwb` lies within the
relative distance `64*u` of `[TauWBMin, TauWBMax]`. -/
theorem tauwb64_core (u : ℚ) (hu0 : 0 ≤ u) (hu : u ≤ 1 / 1000)
    (key : ∀ q : ℚ, 0 ≤ q → q * (1 - u) ≤ binary64 q ∧ binary64 q ≤ q * (1 + u))
    (t T b B c τ : ℚ) (ht0 : 0 < t) (htT : t ≤ T) (hT11 : T ≤ 11 * t)
    (hb0 : 0 < b) (hbB : b ≤ 2 / 3 * B) (hc0 : 0 ≤ c) (hc1 : c ≤ 1) (hτb : b ≤ τ) (hτB : τ ≤ B)
    (et : binary64 t = t) (eT : binary64 T = T) (eb : binary64 b = b) :
    binary64 (binary64 (binary64 (t + binary64 (binary64 (0.2 : ℚ) * binary64 (T - t))) / T)
      * t) * (1 - 64 * u)
      ≤ binary64 (binary64 (t + binary64 (binary64 (0.2 : ℚ) * binary64 (T - t)))
        + binary64 (binary64 (binary64 (binary64 (binary64 (c * binary64 (τ - b)) + b) - B)
          * binary64 (binary64 (t + binary64 (binary64 (0.2 : ℚ) * binary64 (T - t)))
            - binary64 (binary64 (binary64 (t + binary64 (binary64 (0.2 : ℚ)
              * binary64 (T - t))) / T) * t))) / binary64 (B - b))) ∧
    binary64 (binary64 (t + binary64 (binary64 (0.2 : ℚ) * binary64 (T - t)))
        + binary64 (binary64 (binary64 (binary64 (binary64 (c * binary64 (τ - b)) + b) - B)
          * binary64 (binary64 (t + binary64 (binary64 (0.2 : ℚ) * binary64 (T - t)))
            - binary64 (binary64 (binary64 (t + binary64 (binary64 (0.2 : ℚ)
              * binary64 (T - t))) / T) * t))) / binary64 (B - b)))
      ≤ binary64 (t + binary64 (binary64 (0.2 : ℚ) * binary64 (T - t))) * (1 + 64 * u) := by
  have hu1 : 0 ≤ 1 + u := by linarith only [hu0]
  have hu1m : 0 ≤ 1 - u := by linarith only [hu]
  have hB0 : 0 < B := by linarith only [hb0, hbB]
  have hbB1 : b ≤ B := by linarith only [hbB, hB0]
  obtain ⟨hmp, hmM, hM0, hmlow⟩ := tauWB64_core u hu0 hu key t T ht0 htT hT11 et eT
  obtain ⟨hτ1a, hρ⟩ := tauc1_64_core u hu0 key b B c τ hb0 hbB1 hc0 hc1 hτb hτB eb
  have eM := binary64_idem (t + binary64 (binary64 (0.2 : ℚ) * binary64 (T - t)))
  generalize binary64 (t + binary64 (binary64 (0.2 : ℚ) * binary64 (T - t))) = M
    at hmp hmM hM0 hmlow eM
  generalize binary64 (binary64 (M / T) * t) = m at hmp hmM hmlow
  generalize binary64 (binary64 (c * binary64 (τ - b)) + b) = τ1 at hτ1a hρ
  -- the difference `TauWBMax - TauWBMin`
  have hMm : 0 ≤ M - m := by linarith only [hmM]
  obtain ⟨-, hD2⟩ := key (M - m) hMm
  have hD0 : 0 ≤ binary64 (M - m) := binary64_nonneg hMm
  have hDM : binary64 (M - m) ≤ M := by
    have := binary64_mono (by linarith only [hmp] : M - m ≤ M)
    rwa [eM] at this
  generalize binary64 (M - m) = D at hD2 hD0 hDM
  -- the difference `bmTaumax - bmTaumin`
  have hBb : 1 / 3 * B ≤ B - b := by linarith only [hbB]
  have hBb0 : 0 ≤ B - b := by linarith only [hbB1]
  obtain ⟨hG1, -⟩ := key (B - b) hBb0
  have hGp : 0 < binary64 (B - b) := binary64_pos _ (by linarith only [hBb, hB0])
  have hGneg := binary64_neg_sub b B
  generalize binary64 (B - b) = G at hG1 hGp hGneg
  have hG3 : 1 / 3 * B * (1 - u) ≤ G := by
    have := mul_le_mul_of_nonneg_right hBb hu1m
    linarith only [this, hG1]
  -- the difference `tauc1 - bmTaumax`
  have hX1 : -G ≤ binary64 (τ1 - B) := by
    have := binary64_mono (by linarith only [hτ1a] : b - B ≤ τ1 - B)
    rwa [hGneg] at this
  have hρ0 : 0 ≤ B * (2 * u + u * u) :=
    mul_nonneg hB0.le (by linarith only [hu0, mul_nonneg hu0 hu0])
  have hX2 : binary64 (τ1 - B) ≤ B * (2 * u + u * u) * (1 + u) := by
    have h1 := binary64_mono hρ
    have h2 := (key _ hρ0).2
    linarith only [h1, h2]
  generalize binary64 (τ1 - B) = X at hX1 hX2
  have hρ1 : 0 ≤ B * (2 * u + u * u) * (1 + u) := mul_nonneg hρ0 hu1
  -- the product and the quotient
  have hXD1 : -(G * D) ≤ X * D := by
    have := mul_le_mul_of_nonneg_right hX1 hD0
    linarith only [this]
  have hXD2 : X * D ≤ B * (2 * u + u * u) * (1 + u) * M := by
    rcases le_total X 0 with hx | hx
    · have h1 : X * D ≤ 0 := mul_nonpos_of_nonpos_of_nonneg hx hD0
      have h2 : 0 ≤ B * (2 * u + u * u) * (1 + u) * M := mul_nonneg hρ1 hM0.le
      linarith only [h1, h2]
    · exact mul_le_mul hX2 hDM hD0 hρ1
  have hGD : 0 ≤ G * D := mul_nonneg hGp.le hD0
  have hY1 : -(G * D * (1 + u)) ≤ binary64 (X * D) := by
    have h1 := binary64_mono hXD1
    rw [binary64_neg] at h1
    have h2 := (key (G * D) hGD).2
    linarith only [h1, h2]
  have hN0 : 0 ≤ B * (2 * u + u * u) * (1 + u) * M := mul_nonneg hρ1 hM0.le
  have hY2 : binary64 (X * D) ≤ B * (2 * u + u * u) * (1 + u) * M * (1 + u) := by
    have h1 := binary64_mono hXD2
    have h2 := (key _ hN0).2
    linarith only [h1, h2]
  generalize binary64 (X * D) = Y at hY1 hY2
  have hYG1 : -(D * (1 + u)) ≤ Y / G := by
    rw [le_div_iff₀ hGp]
    linarith only [hY1]
  have hYG2 : Y / G ≤ B * (2 * u + u * u) * (1 + u) * M * (1 + u) / G :=
    div_le_div_of_nonneg_right hY2 hGp.le
  have hDu : 0 ≤ D * (1 + u) := mul_nonneg hD0 hu1
  have hZ1 : -(D * (1 + u) * (1 + u)) ≤ binary64 (Y / G) := by
    have h1 := binary64_mono hYG1
    rw [binary64_neg] at h1
    have h2 := (key (D * (1 + u)) hDu).2
    linarith only [h1, h2]
  have hZ2 : binary64 (Y / G) ≤ 7 * u * M := by
    have hV0 : 0 ≤ B * (2 * u + u * u) * (1 + u) * M * (1 + u) / G :=
      div_nonneg (mul_nonneg hN0 hu1) hGp.le
    have h1 := binary64_mono hYG2
    have h2 := (key _ hV0).2
    have h3 : B * (2 * u + u * u) * (1 + u) * M * (1 + u) / G * (1 + u) ≤ 7 * u * M := by
      rw [div_mul_eq_mul_div, div_le_iff₀ hGp]
      have h4 : 7 * u * M * (1 / 3 * B * (1 - u)) ≤ 7 * u * M * G :=
        mul_le_mul_of_nonneg_left hG3 (mul_nonneg (mul_nonneg (by norm_num) hu0) hM0.le)
      have h6 := mul_le_mul_of_nonneg_left (rounding_poly1 u hu0 hu)
        (mul_nonneg hB0.le hM0.le)
      have e1 : B * M * ((2 * u + u * u) * (1 + u) * (1 + u) * (1 + u))
          = B * (2 * u + u * u) * (1 + u) * M * (1 + u) * (1 + u) := by ring
      have e2 : B * M * (7 * u * (1 / 3 * (1 - u))) = 7 * u * M * (1 / 3 * B * (1 - u)) := by
        ring
      rw [e1, e2] at h6
      linarith only [h4, h6]
    linarith only [h1, h2, h3]
  generalize binary64 (Y / G) = Z at hZ1 hZ2
  -- the sum
  constructor
  · have hlow : m * (1 - 45 * u) ≤ M + Z := by
      have h1 : D * (1 + u) * (1 + u) ≤ (M - m) * (1 + u) * (1 + u) * (1 + u) :=
        mul_le_mul_of_nonneg_right (mul_le_mul_of_nonneg_right hD2 hu1) hu1
      have huM : u * M ≤ 1 / 1000 * M := mul_le_mul_of_nonneg_right hu hM0.le
      have huuM : 0 ≤ u * u * M := mul_nonneg (mul_nonneg hu0 hu0) hM0.le
      have e0 : M * (1 - u) * (1 - u) = M - 2 * (u * M) + u * u * M := by ring
      have ha : M ≤ 45 / 4 * m := by
        rw [e0] at hmlow
        linarith only [hmlow, huM, huuM, hmp]
      have hb : (M - m) * ((1 + u) * (1 + u) * (1 + u)) ≤ (M - m) * (1 + 4 * u) :=
        mul_le_mul_of_nonneg_left (rounding_poly2 u hu0 hu) hMm
      have hc : u * M ≤ u * (45 / 4 * m) := mul_le_mul_of_nonneg_left ha hu0
      have hd : 0 ≤ u * m := mul_nonneg hu0 hmp.le
      have e1 : (M - m) * ((1 + u) * (1 + u) * (1 + u))
          = (M - m) * (1 + u) * (1 + u) * (1 + u) := by ring
      have e2 : (M - m) * (1 + 4 * u) = M - m + 4 * (u * M) - 4 * (u * m) := by ring
      have e3 : u * (45 / 4 * m) = 45 / 4 * (u * m) := by ring
      have e4 : m * (1 - 45 * u) = m - 45 * (u * m) := by ring
      rw [e1, e2] at hb
      rw [e3] at hc
      rw [e4]
      linarith only [hZ1, h1, hb, hc, hd]
    have h0 : 0 ≤ m * (1 - 45 * u) := mul_nonneg hmp.le (by linarith only [hu])
    have h1 := binary64_mono hlow
    have h2 := (key _ h0).1
    have h3 : m * (1 - 64 * u) ≤ m * (1 - 45 * u) * (1 - u) := by
      have := mul_le_mul_of_nonneg_left (rounding_poly3 u hu0) hmp.le
      linarith only [this]
    linarith only [h1, h2, h3]
  · have hup : M + Z ≤ M * (1 + 7 * u) := by linarith only [hZ2]
    have h0 : 0 ≤ M * (1 + 7 * u) := mul_nonneg hM0.le (by linarith only [hu0])
    have h1 := binary64_mono hup
    have h2 := (key _ h0).2
    have h3 : M * (1 + 7 * u) * (1 + u) ≤ M * (1 + 64 * u) := by
      have := mul_le_mul_of_nonneg_left (rounding_poly4 u hu0 hu) hM0.le
      linarith only [this]
    linarith only [h1, h2, h3]

/-- In double arithmetic: when the four time constants are doubles with
`0 < Taumin ≤ Taumax ≤ 11*Taumin` and `0 < bmTaumin ≤ 2/3*bmTaumax`, and `cohc` is in `[0, 1]`:
`0 < TauWBMin ≤ TauWBMax`, and the initial `tauwb` and the `tauwb` of line 365, for every
`tmptauc1` in `[bmTaumin, bmTaumax]`, lie within the relative distance `2^-47` of
`[TauWBMin, TauWBMax]`. -/
theorem SingleAN_tauwb64_near (L : Libm Binary64) (cf : Binary64) (t T b B c : ℚ)
    (hk1 : (SingleAN_timeConsts64 L cf (.num c)).Taumax = .num T)
    (hk2 : (SingleAN_timeConsts64 L cf (.num c)).Taumin = .num t)
    (hk3 : (SingleAN_timeConsts64 L cf (.num c)).bmTaumax = .num B)
    (hk4 : (SingleAN_timeConsts64 L cf (.num c)).bmTaumin = .num b)
    (ht0 : 0 < t) (htT : t ≤ T) (hT11 : T ≤ 11 * t) (hb0 : 0 < b) (hbB : b ≤ 2 / 3 * B)
    (hc0 : 0 ≤ c) (hc1 : c ≤ 1)
    (et : binary64 t = t) (eT : binary64 T = T) (eb : binary64 b = b) :
    ∃ m M : ℚ, (SingleAN_timeConsts64 L cf (.num c)).TauWBMin = .num m ∧
      (SingleAN_timeConsts64 L cf (.num c)).TauWBMax = .num M ∧ 0 < m ∧ m ≤ M ∧
      (∃ w0 : ℚ, (SingleAN_timeConsts64 L cf (.num c)).tauwb = .num w0 ∧
        m * (1 - 1 / 2 ^ 47) ≤ w0 ∧ w0 ≤ M * (1 + 1 / 2 ^ 47)) ∧
      ∀ τ : ℚ, b ≤ τ → τ ≤ B → ∃ w : ℚ,
        SingleAN_tauwb64 (SingleAN_timeConsts64 L cf (.num c))
          (SingleAN_tauc1_64 (.num c) (.num τ) (.num b)) = .num w ∧
        m * (1 - 1 / 2 ^ 47) ≤ w ∧ w ≤ M * (1 + 1 / 2 ^ 47) := by
  have hB0 : 0 < B := by linarith only [hb0, hbB]
  have hT0 : 0 < T := lt_of_lt_of_le ht0 htT
  have hG : binary64 (B - b) ≠ 0 := (binary64_pos _ (by linarith only [hbB, hB0])).ne'
  have eMax : (SingleAN_timeConsts64 L cf (.num c)).TauWBMax
      = (SingleAN_timeConsts64 L cf (.num c)).Taumin
        + 0.2 * ((SingleAN_timeConsts64 L cf (.num c)).Taumax
          - (SingleAN_timeConsts64 L cf (.num c)).Taumin) := rfl
  have eMax2 : (SingleAN_timeConsts64 L cf (.num c)).TauWBMax
      = .num (binary64 (t + binary64 (binary64 (0.2 : ℚ) * binary64 (T - t)))) := by
    rw [eMax, hk1, hk2]
    rfl
  have eMin : (SingleAN_timeConsts64 L cf (.num c)).TauWBMin
      = (SingleAN_timeConsts64 L cf (.num c)).TauWBMax
        / (SingleAN_timeConsts64 L cf (.num c)).Taumax
        * (SingleAN_timeConsts64 L cf (.num c)).Taumin := rfl
  have eMin2 : (SingleAN_timeConsts64 L cf (.num c)).TauWBMin
      = .num (binary64 (binary64 (binary64 (t + binary64 (binary64 (0.2 : ℚ)
          * binary64 (T - t))) / T) * t)) := by
    rw [eMin, eMax2, hk1, hk2, Binary64.div_num _ _ hT0.ne']
    rfl
  have eW : ∀ τ : ℚ, SingleAN_tauwb64 (SingleAN_timeConsts64 L cf (.num c))
      (SingleAN_tauc1_64 (.num c) (.num τ) (.num b))
      = .num (binary64 (binary64 (t + binary64 (binary64 (0.2 : ℚ) * binary64 (T - t)))
        + binary64 (binary64 (binary64 (binary64 (binary64 (c * binary64 (τ - b)) + b) - B)
          * binary64 (binary64 (t + binary64 (binary64 (0.2 : ℚ) * binary64 (T - t)))
            - binary64 (binary64 (binary64 (t + binary64 (binary64 (0.2 : ℚ)
              * binary64 (T - t))) / T) * t))) / binary64 (B - b)))) := by
    intro τ
    unfold SingleAN_tauwb64
    simp only []
    rw [eMax2, eMin2, hk3, hk4, SingleAN_tauc1_64_eq, Binary64.sub_num, Binary64.sub_num,
      Binary64.sub_num, Binary64.mul_num, Binary64.div_num _ _ hG, Binary64.add_num]
  have eW0 : (SingleAN_timeConsts64 L cf (.num c)).tauwb
      = SingleAN_tauwb64 (SingleAN_timeConsts64 L cf (.num c))
        (SingleAN_tauc1_64 (.num c) (SingleAN_timeConsts64 L cf (.num c)).bmTaumax
          (SingleAN_timeConsts64 L cf (.num c)).bmTaumin) := rfl
  have hu : (64 : ℚ) * (1 / 2 ^ 53) = 1 / 2 ^ 47 := by norm_num
  have core := fun τ (h1 : b ≤ τ) (h2 : τ ≤ B) =>
    tauwb64_core (1 / 2 ^ 53) (by norm_num) (by norm_num) binary64_err t T b B c τ ht0 htT hT11
      hb0 hbB hc0 hc1 h1 h2 et eT eb
  rw [hu] at core
  obtain ⟨hm0, hmM, -, -⟩ :=
    tauWB64_core (1 / 2 ^ 53) (by norm_num) (by norm_num) binary64_err t T ht0 htT hT11 et eT
  have hbB1 : b ≤ B := by linarith only [hbB, hB0]
  refine ⟨_, _, eMin2, eMax2, hm0, hmM, ⟨_, ?_, core B hbB1 le_rfl⟩,
    fun τ h1 h2 => ⟨_, eW τ, core τ h1 h2⟩⟩
  rw [eW0, hk3, hk4]
  exact eW B

/-- In double arithmetic the gain `CAgain` is a number between 15 and 52, when `log10`
returns numbers and `tanh` numbers that are at most 1. -/
theorem SingleAN_CAgain64_range (L : Libm Binary64)
    (hlog10 : ∀ x : ℚ, 0 < x → ∃ r : ℚ, L.log10 (.num x) = .num r)
    (htanh : ∀ x : ℚ, ∃ r : ℚ, L.tanh (.num x) = .num r ∧ r ≤ 1)
    (f : ℚ) (hf : 0 < f) :
    ∃ g : ℚ, SingleAN_CAgain64 L (.num f) = .num g ∧ 15 ≤ g ∧ g ≤ 52 := by
  have h600 : (600 : Binary64) = .num 600 := by decide!
  have h15 : (15 : Binary64) = .num 15 := by decide!
  have h26 : (52 / 2 : Binary64) = .num 26 := by decide!
  have h2 : binary64 (2 : ℚ) = 2 := by decide!
  have h52 : binary64 (52 : ℚ) = 52 := by decide!
  obtain ⟨l, hl⟩ := hlog10 (binary64 (f / 600)) (binary64_pos _ (by positivity))
  obtain ⟨t, ht, ht1⟩ :=
    htanh (binary64 (binary64 (binary64 (2.2 : ℚ) * l) + binary64 (0.15 : ℚ)))
  have e0 : SingleAN_CAgain64 L (.num f) =
      if 52 / 2 * (L.tanh (2.2 * L.log10 (Binary64.num f / 600) + 0.15) + 1) < (15 : Binary64)
      then 15 else 52 / 2 * (L.tanh (2.2 * L.log10 (Binary64.num f / 600) + 0.15) + 1) := rfl
  have e1 : (2.2 : Binary64) * Binary64.num l + 0.15
      = .num (binary64 (binary64 (binary64 (2.2 : ℚ) * l) + binary64 (0.15 : ℚ))) := rfl
  rw [e0, h600, Binary64.div_num _ _ (by norm_num), hl, e1, ht, h26, h15]
  have e2 : Binary64.num 26 * (Binary64.num t + 1)
      = .num (binary64 (26 * binary64 (t + binary64 1))) := rfl
  rw [e2]
  have hg0 : binary64 (26 * binary64 (t + binary64 1)) ≤ 52 := by
    have h3 : binary64 (t + binary64 1) ≤ 2 := by
      have := binary64_mono (by rw [binary64_one]; linarith : t + binary64 1 ≤ 2)
      rwa [h2] at this
    have := binary64_mono (by linarith : 26 * binary64 (t + binary64 1) ≤ 52)
    rwa [h52] at this
  by_cases hlt : binary64 (26 * binary64 (t + binary64 1)) < 15
  · rw [if_pos ((Binary64.lt_num _ _).2 hlt)]
    exact ⟨15, rfl, le_rfl, by norm_num⟩
  · rw [if_neg (fun hc => hlt ((Binary64.lt_num _ _).1 hc))]
    exact ⟨_, rfl, not_lt.1 hlt, hg0⟩

/-- In double arithmetic the four time constants are doubles with
`0 < Taumin ≤ Taumax ≤ 11*Taumin` and `0 < bmTaumin ≤ 2/3*bmTaumax`, for every `cf > 0`, when
`log10` returns numbers, `tanh` numbers that are at most 1, and `pow(10, y)` a positive
number that is at most 1 for `y ≤ 0`, at least `1/10` for `y ≥ -1` and at most `3/5` for
`y ≤ -1/4`. -/
theorem SingleAN_consts_double (L : Libm Binary64)
    (hpow : ∀ y : ℚ, ∃ r : ℚ, L.pow 10 (.num y) = .num r ∧ 0 < r ∧ (y ≤ 0 → r ≤ 1) ∧
      (-1 ≤ y → 1 / 10 ≤ r) ∧ (y ≤ -1 / 4 → r ≤ 3 / 5))
    (hlog10 : ∀ x : ℚ, 0 < x → ∃ r : ℚ, L.log10 (.num x) = .num r)
    (htanh : ∀ x : ℚ, ∃ r : ℚ, L.tanh (.num x) = .num r ∧ r ≤ 1)
    (f : ℚ) (hf : 0 < f) (cohc : Binary64) :
    ∃ t T b B : ℚ, (SingleAN_timeConsts64 L (.num f) cohc).Taumax = .num T ∧
      (SingleAN_timeConsts64 L (.num f) cohc).Taumin = .num t ∧
      (SingleAN_timeConsts64 L (.num f) cohc).bmTaumax = .num B ∧
      (SingleAN_timeConsts64 L (.num f) cohc).bmTaumin = .num b ∧
      0 < t ∧ t ≤ T ∧ T ≤ 11 * t ∧ 0 < b ∧ b ≤ 2 / 3 * B ∧
      binary64 t = t ∧ binary64 T = T ∧ binary64 b = b ∧ binary64 B = B := by
  obtain ⟨g, hg, hg15, hg52⟩ := SingleAN_CAgain64_range L hlog10 htanh f hf
  have h1e3 : (1e3 : Binary64) = .num 1000 := by decide!
  have h50 : (20.0 * 2.5 : Binary64) = .num 50 := by decide!
  have h60 : (20.0 * Binary64.ofInt 3 : Binary64) = .num 60 := by decide!
  have hm1 : binary64 (-1 : ℚ) = -1 := by decide!
  have hm4 : binary64 (-1 / 4 : ℚ) = -1 / 4 := by decide!
  obtain ⟨l, hl⟩ := hlog10 (binary64 (f / 1000)) (binary64_pos _ (by positivity))
  obtain ⟨q, hq, hq0, -⟩ :=
    hpow (binary64 (binary64 (binary64 (0.4708 : ℚ) * l) + binary64 (0.4664 : ℚ)))
  obtain ⟨r, hr, hr0, -, -, hr35⟩ := hpow (binary64 (-g / 50))
  obtain ⟨s, hs, hs0, hs1, hs10, -⟩ := hpow (binary64 (-g / 60))
  have hr35 : r ≤ 3 / 5 := by
    apply hr35
    have := binary64_mono (by
      rw [div_le_iff₀ (by norm_num)]
      linarith : -g / 50 ≤ (-1 / 4 : ℚ))
    rwa [hm4] at this
  have hs1 : s ≤ 1 := by
    apply hs1
    have := binary64_mono (by
      apply div_nonpos_of_nonpos_of_nonneg <;> linarith : -g / 60 ≤ (0 : ℚ))
    rwa [binary64_zero] at this
  have hs10 : 1 / 10 ≤ s := by
    apply hs10
    have := binary64_mono (by
      rw [le_div_iff₀ (by norm_num)]
      linarith : (-1 : ℚ) ≤ -g / 60)
    rwa [hm1] at this
  have eT : (SingleAN_timeConsts64 L (.num f) cohc).Taumax
      = 2.0 / (TWOPI64 * (Binary64.num f
          / L.pow 10 (0.4708 * L.log10 (Binary64.num f / 1e3) + 0.4664))) := rfl
  have et : (SingleAN_timeConsts64 L (.num f) cohc).Taumin
      = (SingleAN_timeConsts64 L (.num f) cohc).Taumax
        * L.pow 10 (-SingleAN_CAgain64 L (.num f) / (20.0 * Binary64.ofInt 3)) := rfl
  have eB : (SingleAN_timeConsts64 L (.num f) cohc).bmTaumax
      = (SingleAN_timeConsts64 L (.num f) cohc).Taumax / 0.7 := rfl
  have eb : (SingleAN_timeConsts64 L (.num f) cohc).bmTaumin
      = (SingleAN_timeConsts64 L (.num f) cohc).bmTaumax
        * L.pow 10 (-SingleAN_CAgain64 L (.num f) / (20.0 * 2.5)) := rfl
  have e1 : (0.4708 : Binary64) * Binary64.num l + 0.4664
      = .num (binary64 (binary64 (binary64 (0.4708 : ℚ) * l) + binary64 (0.4664 : ℚ))) := rfl
  have htp : (0 : ℚ) < binary64 (6.28318530717959 : ℚ) := binary64_pos _ (by norm_num)
  have hbw : 0 < binary64 (f / q) := binary64_pos _ (by positivity)
  have hden : 0 < binary64 (binary64 (6.28318530717959 : ℚ) * binary64 (f / q)) :=
    binary64_pos _ (by positivity)
  have h2 : (0 : ℚ) < binary64 (2.0 : ℚ) := binary64_pos _ (by norm_num)
  have h07 : (0 : ℚ) < binary64 (0.7 : ℚ) := binary64_pos _ (by norm_num)
  have eT2 : (SingleAN_timeConsts64 L (.num f) cohc).Taumax
      = .num (binary64 (binary64 (2.0 : ℚ)
          / binary64 (binary64 (6.28318530717959 : ℚ) * binary64 (f / q)))) := by
    rw [eT, h1e3, Binary64.div_num _ _ (by norm_num), hl, e1, hq,
      Binary64.div_num _ _ hq0.ne']
    have e2 : TWOPI64 * Binary64.num (binary64 (f / q))
        = .num (binary64 (binary64 (6.28318530717959 : ℚ) * binary64 (f / q))) := rfl
    rw [e2]
    have e3 : (2.0 : Binary64) = .num (binary64 (2.0 : ℚ)) := rfl
    rw [e3, Binary64.div_num _ _ hden.ne']
  have hT0 : 0 < binary64 (binary64 (2.0 : ℚ)
      / binary64 (binary64 (6.28318530717959 : ℚ) * binary64 (f / q))) :=
    binary64_pos _ (by positivity)
  have hTi := binary64_idem (binary64 (2.0 : ℚ)
      / binary64 (binary64 (6.28318530717959 : ℚ) * binary64 (f / q)))
  generalize binary64 (binary64 (2.0 : ℚ)
      / binary64 (binary64 (6.28318530717959 : ℚ) * binary64 (f / q))) = T at eT2 hT0 hTi
  have et2 : (SingleAN_timeConsts64 L (.num f) cohc).Taumin = .num (binary64 (T * s)) := by
    rw [et, eT2, hg, h60, Binary64.neg_num, Binary64.div_num _ _ (by norm_num), hs,
      Binary64.mul_num]
  have eB2 : (SingleAN_timeConsts64 L (.num f) cohc).bmTaumax
      = .num (binary64 (T / binary64 (0.7 : ℚ))) := by
    have e4 : (0.7 : Binary64) = .num (binary64 (0.7 : ℚ)) := rfl
    rw [eB, eT2, e4, Binary64.div_num _ _ h07.ne']
  have hB0 : 0 < binary64 (T / binary64 (0.7 : ℚ)) := binary64_pos _ (by positivity)
  have hBi := binary64_idem (T / binary64 (0.7 : ℚ))
  generalize binary64 (T / binary64 (0.7 : ℚ)) = B at eB2 hB0 hBi
  have eb2 : (SingleAN_timeConsts64 L (.num f) cohc).bmTaumin = .num (binary64 (B * r)) := by
    rw [eb, eB2, hg, h50, Binary64.neg_num, Binary64.div_num _ _ (by norm_num), hr,
      Binary64.mul_num]
  refine ⟨binary64 (T * s), T, binary64 (B * r), B, eT2, et2, eB2, eb2,
    binary64_pos _ (by positivity), ?_, ?_, binary64_pos _ (by positivity), ?_,
    binary64_idem _, hTi, binary64_idem _, hBi⟩
  · have := binary64_mono (by nlinarith : T * s ≤ T)
    rwa [hTi] at this
  · have h := (binary64_err (T * s) (by positivity)).1
    have h3 : T * (1 / 10) ≤ T * s := mul_le_mul_of_nonneg_left hs10 hT0.le
    nlinarith
  · have h := (binary64_err (B * r) (by positivity)).2
    have h3 : B * r ≤ B * (3 / 5) := mul_le_mul_of_nonneg_left hr35 hB0.le
    nlinarith

theorem ratLibm_pow10 (y : ℚ) :
    (-1 ≤ y → 1 / 10 ≤ ratLibm.pow 10 y) ∧ (y ≤ -1 / 4 → ratLibm.pow 10 y ≤ 4 / 13) := by
  show (-1 ≤ y → 1 / 10 ≤ (if y = 2 then (10 : ℚ) * 10 else if y = 3 then 10 * 10 * 10
      else if y = 5 then 10 * 10 * 10 * 10 * 10
      else if y = 1 / 2 then (1 + 10) / 2 else ratExp (y * ratLog 10))) ∧
    (y ≤ -1 / 4 → (if y = 2 then (10 : ℚ) * 10 else if y = 3 then 10 * 10 * 10
      else if y = 5 then 10 * 10 * 10 * 10 * 10
      else if y = 1 / 2 then (1 + 10) / 2 else ratExp (y * ratLog 10)) ≤ 4 / 13)
  have hl : ratLog 10 = 9 := by
    unfold ratLog
    norm_num
  rw [hl]
  constructor
  · intro hy
    split_ifs
    · norm_num
    · norm_num
    · norm_num
    · norm_num
    · unfold ratExp
      split_ifs with h
      · rw [div_le_div_iff₀ (by norm_num) (by linarith)]
        linarith
      · linarith
  · intro hy
    rw [if_neg (by linarith), if_neg (by linarith), if_neg (by linarith), if_neg (by linarith)]
    unfold ratExp
    rw [if_pos (by linarith), div_le_div_iff₀ (by linarith) (by norm_num)]
    linarith

theorem roundedLibm_pow_range (y : ℚ) :
    ∃ r : ℚ, roundedLibm.pow 10 (.num y) = .num r ∧ 0 < r ∧ (y ≤ 0 → r ≤ 1) ∧
      (-1 ≤ y → 1 / 10 ≤ r) ∧ (y ≤ -1 / 4 → r ≤ 3 / 5) := by
  have h10 : binary64 (10 : ℚ) = 10 := by decide!
  have hlo : (1 / 10 : ℚ) ≤ binary64 (1 / 10) := by decide!
  have hhi : binary64 (4 / 13 : ℚ) ≤ 3 / 5 := by decide!
  obtain ⟨r, hr, hr0, hr1⟩ := roundedLibm_pow y
  have e : r = binary64 (ratLibm.pow 10 y) := by
    have h : roundedLibm.pow 10 (.num y) = .num (binary64 (ratLibm.pow (binary64 (10 : ℚ)) y)) :=
      rfl
    rw [h10, hr] at h
    exact Binary64.num.inj h
  refine ⟨r, hr, hr0, hr1, fun hy => ?_, fun hy => ?_⟩
  · rw [e]
    exact le_trans hlo (binary64_mono ((ratLibm_pow10 y).1 hy))
  · rw [e]
    exact le_trans (binary64_mono ((ratLibm_pow10 y).2 hy)) hhi

theorem roundedLibm_tanh_le (x : ℚ) :
    ∃ r : ℚ, roundedLibm.tanh (.num x) = .num r ∧ r ≤ 1 := by
  refine ⟨binary64 (x / (1 + |x|)), rfl, ?_⟩
  have h : x / (1 + |x|) ≤ 1 := by
    rw [div_le_one (by positivity)]
    linarith [le_abs_self x]
  have := binary64_mono h
  rwa [binary64_one] at this
/-- C19 (amended): provided `pow` maps a positive base to a positive value and a base `≥ 1`
with an exponent `≤ 0` to a value `≤ 1`.  In exact arithmetic, for `cf` in `[80, 40000]` and
`cohc` in `[0, 1]`, `NLafterohc` returns a value in `[bmTaumin, bmTaumax]` for every input; so
in every pass of the sample loop, from every state, `tauc1` lies in `[bmTaumin, bmTaumax]`,
`rsigma = 1/tauc1 - 1/bmTaumax ≥ 0`, and the real part `-1/bmTaumax - rsigma = -1/tauc1` of
the C1 pole is negative; the check of `1/tauc1 < 0` in `SingleAN` and the check of the pole
in `C1ChirpFilt` do not fire.  In double arithmetic, for every math library `L64` whose
`log10` and `tanh` return numbers and whose `pow(10, y)` is a positive number, at most 1 for
`y ≤ 0`, for every `cf > 0` and `cohc ≥ 0`: `bmTaumin` and `bmTaumax` are numbers with
`0 < bmTaumin ≤ bmTaumax`; a number that `NLafterohc` returns lies in
`[bmTaumin, bmTaumax]` and gives `tauc1 ≥ bmTaumin`; and the tests `1/tauc1 < 0.0` (line 363)
and `p[1].x > 0.0` (line 568, with `p[1].x = -sigma0-rsigma`) are false. -/
theorem C19_poles_stable (L : Libm α) (hL : L.PowLaws) (a : ANArgs α)
    (hcf : 80 ≤ a.cf ∧ a.cf ≤ 40000) (hcohc : 0 ≤ a.cohc ∧ a.cohc ≤ 1) :
    ((∀ x : α,
      (SingleAN_consts L a.cf a.binwidth a.cohc).bmTaumin ≤
        NLafterohc L x (SingleAN_consts L a.cf a.binwidth a.cohc).bmTaumin
          (SingleAN_consts L a.cf a.binwidth a.cohc).bmTaumax
          (SingleAN_consts L a.cf a.binwidth a.cohc).ohcasym ∧
      NLafterohc L x (SingleAN_consts L a.cf a.binwidth a.cohc).bmTaumin
          (SingleAN_consts L a.cf a.binwidth a.cohc).bmTaumax
          (SingleAN_consts L a.cf a.binwidth a.cohc).ohcasym
        ≤ (SingleAN_consts L a.cf a.binwidth a.cohc).bmTaumax) ∧
    ∀ (vsat0 : α) (st : ANLoop α) (n : Nat) (m : α),
      (SingleAN_consts L a.cf a.binwidth a.cohc).bmTaumin
        ≤ SingleAN_tauc1 L a (SingleAN_consts L a.cf a.binwidth a.cohc) st n m ∧
      SingleAN_tauc1 L a (SingleAN_consts L a.cf a.binwidth a.cohc) st n m
        ≤ (SingleAN_consts L a.cf a.binwidth a.cohc).bmTaumax ∧
      0 ≤ 1 / SingleAN_tauc1 L a (SingleAN_consts L a.cf a.binwidth a.cohc) st n m
        - 1 / (SingleAN_consts L a.cf a.binwidth a.cohc).bmTaumax ∧
      -(1 / (SingleAN_consts L a.cf a.binwidth a.cohc).bmTaumax)
        - (1 / SingleAN_tauc1 L a (SingleAN_consts L a.cf a.binwidth a.cohc) st n m
          - 1 / (SingleAN_consts L a.cf a.binwidth a.cohc).bmTaumax)
        = -(1 / SingleAN_tauc1 L a (SingleAN_consts L a.cf a.binwidth a.cohc) st n m) ∧
      -(1 / SingleAN_tauc1 L a (SingleAN_consts L a.cf a.binwidth a.cohc) st n m) < 0 ∧
      (∀ (s : ChirpStatics α) (x : α),
        C1ChirpFilt L s x a.binwidth a.cf n (SingleAN_consts L a.cf a.binwidth a.cohc).bmTaumax
          (1 / SingleAN_tauc1 L a (SingleAN_consts L a.cf a.binwidth a.cohc) st n m
            - 1 / (SingleAN_consts L a.cf a.binwidth a.cohc).bmTaumax) ≠ .error .c1Unstable) ∧
      SingleAN_sample L vsat0 a (SingleAN_consts L a.cf a.binwidth a.cohc) st n
        ≠ .error .polesUnstable ∧
      SingleAN_sample L vsat0 a (SingleAN_consts L a.cf a.binwidth a.cohc) st n
        ≠ .error .c1Unstable) ∧
    ∀ (L64 : Libm Binary64),
      (∀ y : ℚ, ∃ r : ℚ, L64.pow 10 (.num y) = .num r ∧ 0 < r ∧ (y ≤ 0 → r ≤ 1)) →
      (∀ x : ℚ, 0 < x → ∃ r : ℚ, L64.log10 (.num x) = .num r) →
      (∀ x : ℚ, ∃ r : ℚ, L64.tanh (.num x) = .num r) →
      ∀ (cf cohc : ℚ), 0 < cf → 0 ≤ cohc →
      ∃ b B : ℚ,
        (SingleAN_timeConsts64 L64 (.num cf) (.num cohc)).bmTaumin = .num b ∧
        (SingleAN_timeConsts64 L64 (.num cf) (.num cohc)).bmTaumax = .num B ∧
        0 < b ∧ b ≤ B ∧
        ∀ (x asym : Binary64),
          (∀ t : ℚ, NLafterohc64 L64 x (.num b) (.num B) asym = .num t →
            b ≤ t ∧ t ≤ B ∧
            Binary64.num b ≤ SingleAN_tauc1_64 (.num cohc) (.num t) (.num b)) ∧
          ¬ (1 / SingleAN_tauc1_64 (.num cohc) (NLafterohc64 L64 x (.num b) (.num B) asym)
              (.num b) < (0.0 : Binary64)) ∧
          ¬ (C1ChirpFilt_p1x64 (.num B)
              (SingleAN_rsigma64
                (SingleAN_tauc1_64 (.num cohc) (NLafterohc64 L64 x (.num b) (.num B) asym)
                  (.num b))
                (.num B)) > (0.0 : Binary64)) := by
  refine ⟨?_, fun L64 hpow hlog10 htanh cf cohc hcf0 hc0 => ?_⟩
  swap
  · obtain ⟨b, B, e1, e2, hb0, hbB, hbi⟩ :=
      SingleAN_bm_double L64 hpow hlog10 htanh cf hcf0 (.num cohc)
    exact ⟨b, B, e1, e2, hb0, hbB, fun x asym =>
      SingleAN_checks_double_all L64 x asym b B cohc hbi hb0 hbB hc0⟩
  obtain ⟨hmin, hle⟩ := SingleAN_consts_bm L hL a.cf a.binwidth a.cohc (by linarith [hcf.1])
  generalize SingleAN_consts L a.cf a.binwidth a.cohc = k at hmin hle ⊢
  have key : ∀ (st : ANLoop α) (n : Nat) (m : α),
      0 < SingleAN_tauc1 L a k st n m ∧ SingleAN_tauc1 L a k st n m ≤ k.bmTaumax :=
    fun st n m => ⟨lt_of_lt_of_le hmin (SingleAN_tauc1_range L a k st n m hle hcohc).1,
      (SingleAN_tauc1_range L a k st n m hle hcohc).2⟩
  have hpole : ∀ (st : ANLoop α) (n : Nat) (m : α),
      ¬ -(1 / k.bmTaumax) - (1 / SingleAN_tauc1 L a k st n m - 1 / k.bmTaumax) > 0 := by
    intro st n m
    have h1 : 0 < 1 / SingleAN_tauc1 L a k st n m := one_div_pos.2 (key st n m).1
    have e : -(1 / k.bmTaumax) - (1 / SingleAN_tauc1 L a k st n m - 1 / k.bmTaumax)
        = -(1 / SingleAN_tauc1 L a k st n m) := by ring
    rw [e]
    exact not_lt.2 (by linarith)
  refine ⟨fun x => NLafterohc_range L x _ _ _ hle, fun vsat0 st n m => ?_⟩
  obtain ⟨hpos, hmax⟩ := key st n m
  have h1 : 0 < 1 / SingleAN_tauc1 L a k st n m := one_div_pos.2 hpos
  refine ⟨(SingleAN_tauc1_range L a k st n m hle hcohc).1, hmax, ?_, by ring, by linarith,
    fun s x => C1ChirpFilt_stable L s x _ _ _ _ _ (hpole st n m), fun he => ?_, fun he => ?_⟩
  · exact sub_nonneg.2 (one_div_le_one_div_of_le hpos hmax)
  · rcases SingleAN_sample_error he with h | ⟨y, hy, h | ⟨-, h | h⟩⟩
    · cases h
    · exact absurd h.2 (not_lt.2 (one_div_pos.2 (key st n _).1).le)
    · rcases C1ChirpFilt_error h with h | h <;> cases h
    · rcases C2ChirpFilt_error h with h | h <;> cases h
  · rcases SingleAN_sample_error he with h | ⟨y, hy, h | ⟨-, h | h⟩⟩
    · cases h
    · cases h.1
    · exact C1ChirpFilt_stable L _ _ _ _ _ _ _ (hpole st n _) h
    · rcases C2ChirpFilt_error h with h | h <;> cases h

/-- C19 at the silent call with the rational stand-in for the math library (exact
arithmetic), and in double arithmetic with its rounded values at `cf = 4780`, `cohc = 1`, the
control signal 0 and `asym = 7`. -/
theorem C19_poles_stable_witness :
    ((80 : ℚ) ≤ silentArgs.cf ∧ silentArgs.cf ≤ 40000) ∧
      (0 ≤ silentArgs.cohc ∧ silentArgs.cohc ≤ 1) ∧
      SingleAN_sample ratLibm 0 silentArgs
        (SingleAN_consts ratLibm silentArgs.cf silentArgs.binwidth silentArgs.cohc)
        silentStart 0 ≠ .error .polesUnstable ∧
      ∃ b B : ℚ,
        (SingleAN_timeConsts64 roundedLibm (.num 4780) (.num 1)).bmTaumin = .num b ∧
        (SingleAN_timeConsts64 roundedLibm (.num 4780) (.num 1)).bmTaumax = .num B ∧
        0 < b ∧ b ≤ B ∧
        ¬ (1 / SingleAN_tauc1_64 (.num 1) (NLafterohc64 roundedLibm 0 (.num b) (.num B) 7.0)
            (.num b) < (0.0 : Binary64)) ∧
        ¬ (C1ChirpFilt_p1x64 (.num B)
            (SingleAN_rsigma64
              (SingleAN_tauc1_64 (.num 1) (NLafterohc64 roundedLibm 0 (.num b) (.num B) 7.0)
                (.num b))
              (.num B)) > (0.0 : Binary64)) :=
  ⟨by decide!, by decide!,
    ((C19_poles_stable ratLibm ratLibm_powLaws silentArgs (by decide!) (by decide!)).1.2
      0 silentStart 0 0).2.2.2.2.2.2.1,
    (((C19_poles_stable ratLibm ratLibm_powLaws silentArgs (by decide!) (by decide!)).2
      roundedLibm roundedLibm_pow roundedLibm_log10 roundedLibm_tanh 4780 1 (by norm_num)
      (by norm_num)).imp fun b hb => hb.imp fun B hB =>
        ⟨hB.1, hB.2.1, hB.2.2.1, hB.2.2.2.1, (hB.2.2.2.2 0 7.0).2.1, (hB.2.2.2.2 0 7.0).2.2⟩)⟩


/-- The time constants and the ratio derived by `SingleAN` are positive and ordered. -/
theorem SingleAN_consts_tau (L : Libm α) (hL : L.PowLaws) (cf binwidth cohc : α) (hcf : 0 < cf) :
    0 < (SingleAN_consts L cf binwidth cohc).Taumin ∧
    (SingleAN_consts L cf binwidth cohc).Taumin ≤ (SingleAN_consts L cf binwidth cohc).Taumax ∧
    0 < (SingleAN_consts L cf binwidth cohc).bmTaumax ∧
    0 < (SingleAN_consts L cf binwidth cohc).ratiobm := by
  have hCA := SingleAN_CAgain_ge L cf
  have hQ : 0 < L.pow 10 (0.4708 * L.log10 (cf / 1e3) + 0.4664) := hL.pow_pos _ _ (by norm_num)
  have hmax : 0 < 2.0 / (TWOPI * (cf / L.pow 10 (0.4708 * L.log10 (cf / 1e3) + 0.4664))) := by
    have hT : (0 : α) < TWOPI := by unfold TWOPI; norm_num
    have : (0 : α) < 2.0 := by norm_num
    positivity
  have hr1 : 0 < L.pow 10 (-SingleAN_CAgain L cf / (20.0 * ((3 : Int) : α))) :=
    hL.pow_pos _ _ (by norm_num)
  have hr1' : L.pow 10 (-SingleAN_CAgain L cf / (20.0 * ((3 : Int) : α))) ≤ 1 := by
    refine hL.pow_le_one _ _ (by norm_num) ?_
    have : (0 : α) < 20.0 * ((3 : Int) : α) := by norm_num
    exact div_nonpos_of_nonpos_of_nonneg (by linarith) this.le
  have hr2 : 0 < L.pow 10 (-SingleAN_CAgain L cf / (20.0 * 2.5)) := hL.pow_pos _ _ (by norm_num)
  have hbm : 0 < 2.0 / (TWOPI * (cf / L.pow 10 (0.4708 * L.log10 (cf / 1e3) + 0.4664))) / 0.7 :=
    div_pos hmax (by norm_num)
  simp only [SingleAN_consts, Get_tauwb, Get_taubm]
  exact ⟨mul_pos hmax hr1, mul_le_of_le_one_right hmax.le hr1', hbm, hr2⟩

theorem C2ChirpFilt_stable (L : Libm α) (s : ChirpStatics α) (x binwidth cf : α) (n : Int)
    (taumax r : α) (h : ¬ -(1 / taumax) * r > 0) :
    C2ChirpFilt L s x binwidth cf n taumax r ≠ .error .c2Unstable := by
  obtain ⟨y, hy⟩ := C2ChirpFilt_checks L s x binwidth cf n taumax r
  rw [hy, zero_lit, if_neg h]
  split_ifs <;> simp

/-- C21: for every `taumax > 0` and `fcohc > 0`, the real part `p[1].x = -sigma0*fcohc` of the
C2 pole is `-fcohc/taumax`, which is negative, and `C2ChirpFilt` does not fail on its pole
check, at any sample and for any static variables; and provided `pow` maps a positive base
to a positive value and a base `≥ 1` with an exponent `≤ 0` to a value `≤ 1`, the arguments
`bmTaumax` and `1/ratiobm` that `SingleAN` passes are positive for `cf > 0`, so no pass of
its sample loop ends in the pole error of C2. -/
theorem C21_c2_pole_stable (L : Libm α) :
    (∀ (taumax fcohc : α), 0 < taumax → 0 < fcohc →
      -(1 / taumax) * fcohc = -fcohc / taumax ∧ -fcohc / taumax < 0 ∧
      ∀ (s : ChirpStatics α) (x binwidth cf : α) (n : Int),
        C2ChirpFilt L s x binwidth cf n taumax fcohc ≠ .error .c2Unstable) ∧
    (L.PowLaws → ∀ (vsat0 : α) (a : ANArgs α) (st : ANLoop α) (n : Nat), 0 < a.cf →
      0 < (SingleAN_consts L a.cf a.binwidth a.cohc).bmTaumax ∧
      0 < 1 / (SingleAN_consts L a.cf a.binwidth a.cohc).ratiobm ∧
      SingleAN_sample L vsat0 a (SingleAN_consts L a.cf a.binwidth a.cohc) st n
        ≠ .error .c2Unstable) := by
  have key : ∀ (taumax fcohc : α), 0 < taumax → 0 < fcohc →
      -(1 / taumax) * fcohc = -fcohc / taumax ∧ -fcohc / taumax < 0 := by
    intro taumax fcohc ht hf
    have e : -(1 / taumax) * fcohc = -fcohc / taumax := by
      field_simp
    exact ⟨e, div_neg_of_neg_of_pos (by linarith) ht⟩
  refine ⟨fun taumax fcohc ht hf => ⟨(key _ _ ht hf).1, (key _ _ ht hf).2,
    fun s x binwidth cf n => C2ChirpFilt_stable L s x binwidth cf n taumax fcohc ?_⟩,
    fun hL vsat0 a st n hcf => ?_⟩
  · rw [(key _ _ ht hf).1]
    exact not_lt.2 (key _ _ ht hf).2.le
  · obtain ⟨-, -, hbm, hr⟩ := SingleAN_consts_tau L hL a.cf a.binwidth a.cohc hcf
    have hf : 0 < 1 / (SingleAN_consts L a.cf a.binwidth a.cohc).ratiobm := one_div_pos.2 hr
    refine ⟨hbm, hf, fun he => ?_⟩
    rcases SingleAN_sample_error he with h | ⟨y, hy, h | ⟨-, h | h⟩⟩
    · cases h
    · cases h.1
    · rcases C1ChirpFilt_error h with h | h <;> cases h
    · refine C2ChirpFilt_stable L _ _ _ _ _ _ _ ?_ h
      rw [(key _ _ hbm hf).1]
      exact not_lt.2 (key _ _ hbm hf).2.le

theorem C21_c2_pole_stable_witness :
    (0 : ℚ) < 1 ∧ (0 : ℚ) < 2 ∧ -(2 : ℚ) / 1 < 0 ∧
      C2ChirpFilt ratLibm Statics.zero.c2 0 1e-5 1000 0 1 2 ≠ .error .c2Unstable :=
  ⟨by norm_num, by norm_num,
    ((C21_c2_pole_stable ratLibm).1 1 2 (by norm_num) (by norm_num)).2.1,
    ((C21_c2_pole_stable ratLibm).1 1 2 (by norm_num) (by norm_num)).2.2
      Statics.zero.c2 0 1e-5 1000 0⟩

/-- The affine map of `[bmin, bmax]` onto `[Wmin, Wmax]` that `SingleAN` uses for `tauwb`. -/
theorem tauwb_map_range {W w B b t : α} (hW : w ≤ W) (hB : b ≤ B) (ht : b ≤ t ∧ t ≤ B) :
    w ≤ W + (t - B) * (W - w) / (B - b) ∧ W + (t - B) * (W - w) / (B - b) ≤ W := by
  rcases eq_or_lt_of_le hB with h | h
  · have : B - b = 0 := by rw [h]; ring
    rw [this, div_zero, add_zero]
    exact ⟨hW, le_refl _⟩
  · have hd : 0 < B - b := sub_pos.2 h
    constructor
    · have : -(W - w) ≤ (t - B) * (W - w) / (B - b) := by
        rw [le_div_iff₀ hd]
        nlinarith [ht.1, ht.2]
      linarith
    · have : (t - B) * (W - w) / (B - b) ≤ 0 :=
        div_nonpos_of_nonpos_of_nonneg (by nlinarith [ht.1, ht.2]) hd.le
      linarith

/-- The design range of the control-path time constant. -/
theorem SingleAN_consts_wb (L : Libm α) (hL : L.PowLaws) (cf binwidth cohc : α) (hcf : 0 < cf) :
    0 < (SingleAN_consts L cf binwidth cohc).TauWBMin ∧
      (SingleAN_consts L cf binwidth cohc).TauWBMin
        ≤ (SingleAN_consts L cf binwidth cohc).TauWBMax := by
  obtain ⟨h1, h2, -, -⟩ := SingleAN_consts_tau L hL cf binwidth cohc hcf
  generalize hk : SingleAN_consts L cf binwidth cohc = k at h1 h2
  have hmax : 0 < k.Taumax := lt_of_lt_of_le h1 h2
  have eW : k.TauWBMax = k.Taumin + 0.2 * (k.Taumax - k.Taumin) := by rw [← hk]; rfl
  have ew : k.TauWBMin = k.TauWBMax / k.Taumax * k.Taumin := by rw [← hk]; rfl
  have hW : 0 < k.TauWBMax := by
    rw [eW]
    have : (0 : α) ≤ 0.2 * (k.Taumax - k.Taumin) := mul_nonneg (by norm_num) (by linarith)
    linarith
  have hWle : k.TauWBMax ≤ k.Taumax := by
    rw [eW]
    have : (0.2 : α) * (k.Taumax - k.Taumin) ≤ 1 * (k.Taumax - k.Taumin) :=
      mul_le_mul_of_nonneg_right (by norm_num) (by linarith)
    linarith
  constructor
  · rw [ew]
    exact mul_pos (div_pos hW hmax) h1
  · rw [ew, div_mul_eq_mul_div, div_le_iff₀ hmax]
    exact mul_le_mul_of_nonneg_left h2 hW.le

/-- C26 (amended).  In exact arithmetic, provided `pow` maps a positive base to a positive
value and a base `≥ 1` with an exponent `≤ 0` to a value `≤ 1`: for `cf` in `[80, 40000]` and
`cohc` in `[0, 1]`, `0 < TauWBMin ≤ TauWBMax`, and both the initial `tauwb` and the `tauwb`
that any pass of the sample loop computes, from any state, lie in `[TauWBMin, TauWBMax]`.
In double arithmetic, for every math library `L64` whose `log10` returns numbers, whose
`tanh` returns numbers that are at most 1 and whose `pow(10, y)` is a positive number, at most
1 for `y ≤ 0`, at least `1/10` for `y ≥ -1` and at most `3/5` for `y ≤ -1/4`, for every
`cf > 0` and `cohc` in `[0, 1]`: `0 < TauWBMin ≤ TauWBMax`, and the initial `tauwb` and the
`tauwb` of line 365, for every number that `NLafterohc` returns, are numbers in
`[TauWBMin*(1 - 2^-47), TauWBMax*(1 + 2^-47)]`. -/
theorem C26_tauwb_range (L : Libm α) (hL : L.PowLaws) (a : ANArgs α)
    (hcf : 80 ≤ a.cf ∧ a.cf ≤ 40000) (hcohc : 0 ≤ a.cohc ∧ a.cohc ≤ 1) :
    (0 < (SingleAN_consts L a.cf a.binwidth a.cohc).TauWBMin ∧
      (SingleAN_consts L a.cf a.binwidth a.cohc).TauWBMin
        ≤ (SingleAN_consts L a.cf a.binwidth a.cohc).TauWBMax) ∧
    (∀ (s : Statics α) (out : Outputs α) (st0 : ANLoop α),
      SingleAN_start L a (SingleAN_consts L a.cf a.binwidth a.cohc) s out = .ok st0 →
        st0.tauwb = (SingleAN_consts L a.cf a.binwidth a.cohc).TauWBMax
          + ((SingleAN_consts L a.cf a.binwidth a.cohc).bmTaubm
              - (SingleAN_consts L a.cf a.binwidth a.cohc).bmTaumax)
            * ((SingleAN_consts L a.cf a.binwidth a.cohc).TauWBMax
              - (SingleAN_consts L a.cf a.binwidth a.cohc).TauWBMin)
            / ((SingleAN_consts L a.cf a.binwidth a.cohc).bmTaumax
              - (SingleAN_consts L a.cf a.binwidth a.cohc).bmTaumin) ∧
        (SingleAN_consts L a.cf a.binwidth a.cohc).TauWBMin ≤ st0.tauwb ∧
        st0.tauwb ≤ (SingleAN_consts L a.cf a.binwidth a.cohc).TauWBMax) ∧
    (∀ (vsat0 : α) (st st' : ANLoop α) (n : Nat),
      SingleAN_sample L vsat0 a (SingleAN_consts L a.cf a.binwidth a.cohc) st n = .ok st' →
        (∃ m, st'.tauwb = (SingleAN_consts L a.cf a.binwidth a.cohc).TauWBMax
          + (SingleAN_tauc1 L a (SingleAN_consts L a.cf a.binwidth a.cohc) st n m
              - (SingleAN_consts L a.cf a.binwidth a.cohc).bmTaumax)
            * ((SingleAN_consts L a.cf a.binwidth a.cohc).TauWBMax
              - (SingleAN_consts L a.cf a.binwidth a.cohc).TauWBMin)
            / ((SingleAN_consts L a.cf a.binwidth a.cohc).bmTaumax
              - (SingleAN_consts L a.cf a.binwidth a.cohc).bmTaumin)) ∧
        (SingleAN_consts L a.cf a.binwidth a.cohc).TauWBMin ≤ st'.tauwb ∧
        st'.tauwb ≤ (SingleAN_consts L a.cf a.binwidth a.cohc).TauWBMax) ∧
    ∀ (L64 : Libm Binary64),
      (∀ y : ℚ, ∃ r : ℚ, L64.pow 10 (.num y) = .num r ∧ 0 < r ∧ (y ≤ 0 → r ≤ 1) ∧
        (-1 ≤ y → 1 / 10 ≤ r) ∧ (y ≤ -1 / 4 → r ≤ 3 / 5)) →
      (∀ x : ℚ, 0 < x → ∃ r : ℚ, L64.log10 (.num x) = .num r) →
      (∀ x : ℚ, ∃ r : ℚ, L64.tanh (.num x) = .num r ∧ r ≤ 1) →
      ∀ (cf cohc : ℚ), 0 < cf → 0 ≤ cohc → cohc ≤ 1 →
      ∃ b B m M : ℚ,
        (SingleAN_timeConsts64 L64 (.num cf) (.num cohc)).bmTaumin = .num b ∧
        (SingleAN_timeConsts64 L64 (.num cf) (.num cohc)).bmTaumax = .num B ∧
        (SingleAN_timeConsts64 L64 (.num cf) (.num cohc)).TauWBMin = .num m ∧
        (SingleAN_timeConsts64 L64 (.num cf) (.num cohc)).TauWBMax = .num M ∧
        0 < m ∧ m ≤ M ∧
        (∃ w0 : ℚ, (SingleAN_timeConsts64 L64 (.num cf) (.num cohc)).tauwb = .num w0 ∧
          m * (1 - 1 / 2 ^ 47) ≤ w0 ∧ w0 ≤ M * (1 + 1 / 2 ^ 47)) ∧
        ∀ (x asym : Binary64) (τ : ℚ),
          NLafterohc64 L64 x (.num b) (.num B) asym = .num τ →
          ∃ w : ℚ,
            SingleAN_tauwb64 (SingleAN_timeConsts64 L64 (.num cf) (.num cohc))
              (SingleAN_tauc1_64 (.num cohc) (NLafterohc64 L64 x (.num b) (.num B) asym)
                (.num b)) = .num w ∧
            m * (1 - 1 / 2 ^ 47) ≤ w ∧ w ≤ M * (1 + 1 / 2 ^ 47) := by
  have hcf0 : 0 < a.cf := by linarith [hcf.1]
  obtain ⟨hmin, hle⟩ := SingleAN_consts_bm L hL a.cf a.binwidth a.cohc hcf0
  obtain ⟨hw, hW⟩ := SingleAN_consts_wb L hL a.cf a.binwidth a.cohc hcf0
  have hbm : (SingleAN_consts L a.cf a.binwidth a.cohc).bmTaubm =
      a.cohc * ((SingleAN_consts L a.cf a.binwidth a.cohc).bmTaumax
        - (SingleAN_consts L a.cf a.binwidth a.cohc).bmTaumin)
        + (SingleAN_consts L a.cf a.binwidth a.cohc).bmTaumin := rfl
  generalize SingleAN_consts L a.cf a.binwidth a.cohc = k at hmin hle hw hW hbm ⊢
  refine ⟨⟨hw, hW⟩, fun s out st0 h0 => ?_, fun vsat0 st st' n h => ?_,
    fun L64 hpow hlog10 htanh cf cohc hcf0 hc0 hc1 => ?_⟩
  · obtain ⟨e, -⟩ := SingleAN_start_eq_ok h0
    rw [e]
    refine ⟨rfl, tauwb_map_range hW hle ⟨?_, ?_⟩⟩
    · rw [hbm]; nlinarith [hcohc.1]
    · rw [hbm]; nlinarith [hcohc.1, hcohc.2]
  · obtain ⟨⟨y, -, -, e⟩, -⟩ := SingleAN_sample_control h
    rw [e]
    exact ⟨⟨_, rfl⟩, tauwb_map_range hW hle (SingleAN_tauc1_range L a k st n _ hle hcohc)⟩
  · obtain ⟨t, T, b, B, k1, k2, k3, k4, ht0, htT, hT11, hb0, hbB, et, eT, eb, eB⟩ :=
      SingleAN_consts_double L64 hpow hlog10 htanh cf hcf0 (.num cohc)
    obtain ⟨m, M, e1, e2, hm0, hmM, hw0, hw⟩ :=
      SingleAN_tauwb64_near L64 (.num cf) t T b B cohc k1 k2 k3 k4 ht0 htT hT11 hb0 hbB hc0 hc1
        et eT eb
    have hB0 : 0 < B := by linarith
    refine ⟨b, B, m, M, k4, k3, e1, e2, hm0, hmM, hw0, fun x asym τ hτ => ?_⟩
    obtain ⟨h1, h2⟩ := NLafterohc64_range L64 x asym b B τ (by linarith) hτ
    rw [hτ]
    exact hw τ h1 h2

/-- C26 at the first pass of the silent call with the rational stand-in for the math
library (exact arithmetic), and in double arithmetic with its rounded values at `cf = 100`
and `cohc = 0`. -/
theorem C26_tauwb_range_witness :
    ((80 : ℚ) ≤ silentArgs.cf ∧ silentArgs.cf ≤ 40000) ∧
      (0 ≤ silentArgs.cohc ∧ silentArgs.cohc ≤ 1) ∧
      (SingleAN_consts ratLibm silentArgs.cf silentArgs.binwidth silentArgs.cohc).TauWBMin
        ≤ silentPass.tauwb ∧
      silentPass.tauwb
        ≤ (SingleAN_consts ratLibm silentArgs.cf silentArgs.binwidth silentArgs.cohc).TauWBMax ∧
      ∃ m M w0 : ℚ,
        (SingleAN_timeConsts64 roundedLibm (.num 100) (.num 0)).TauWBMin = .num m ∧
        (SingleAN_timeConsts64 roundedLibm (.num 100) (.num 0)).TauWBMax = .num M ∧
        (SingleAN_timeConsts64 roundedLibm (.num 100) (.num 0)).tauwb = .num w0 ∧
        0 < m ∧ m ≤ M ∧ m * (1 - 1 / 2 ^ 47) ≤ w0 ∧ w0 ≤ M * (1 + 1 / 2 ^ 47) :=
  ⟨by decide!, by decide!,
    ((C26_tauwb_range ratLibm ratLibm_powLaws silentArgs (by decide!) (by decide!)).2.2.1
      0 silentStart silentPass 0 silentPass_ok).2.1,
    ((C26_tauwb_range ratLibm ratLibm_powLaws silentArgs (by decide!) (by decide!)).2.2.1
      0 silentStart silentPass 0 silentPass_ok).2.2,
    match (C26_tauwb_range ratLibm ratLibm_powLaws silentArgs (by decide!) (by decide!)).2.2.2
      roundedLibm roundedLibm_pow_range roundedLibm_log10 roundedLibm_tanh_le 100 0
      (by norm_num) (by norm_num) (by norm_num) with
    | ⟨_, _, m, M, _, _, e1, e2, h1, h2, ⟨w0, e3, h3, h4⟩, _⟩ =>
      ⟨m, M, w0, e1, e2, e3, h1, h2, h3, h4⟩⟩

theorem ratLibm_cosLaws : ratLibm.CosLaws where
  neg_one_le_cos := by
    intro t
    show -1 ≤ (1 - t * t / 4) / (1 + t * t / 4)
    have h : (0 : ℚ) < 1 + t * t / 4 := by nlinarith [mul_self_nonneg t]
    rw [le_div_iff₀ h]
    nlinarith [mul_self_nonneg t]
  cos_le_one := by
    intro t
    show (1 - t * t / 4) / (1 + t * t / 4) ≤ 1
    have h : (0 : ℚ) < 1 + t * t / 4 := by nlinarith [mul_self_nonneg t]
    rw [div_le_iff₀ h]
    nlinarith [mul_self_nonneg t]

/-- The quotient floored by `gain_groupdelay`, for a coefficient `c` in `(-1, 1)` and a cosine
`t` in `[-1, 1]`: the denominator is positive and the floored value is positive. -/
theorem groupdelay_pos {c t : α} (hc : -1 < c ∧ c < 1) (ht : -1 ≤ t ∧ t ≤ 1) :
    0 < 1 + c * c - 2 * c * t ∧ 0 < 0.5 - (c * c - c * t) / (1 + c * c - 2 * c * t) := by
  have hden : 0 < 1 + c * c - 2 * c * t := by
    have h1 : 0 ≤ (1 + t) * ((1 - c) * (1 - c)) :=
      mul_nonneg (by linarith [ht.1]) (mul_self_nonneg _)
    have h2 : 0 ≤ (1 - t) * ((1 + c) * (1 + c)) :=
      mul_nonneg (by linarith [ht.2]) (mul_self_nonneg _)
    rcases le_or_lt 0 t with h0 | h0
    · have h3 : 0 < (1 - c) * (1 - c) := mul_pos (by linarith [hc.2]) (by linarith [hc.2])
      nlinarith
    · have h3 : 0 < (1 + c) * (1 + c) := mul_pos (by linarith [hc.1]) (by linarith [hc.1])
      nlinarith
  refine ⟨hden, ?_⟩
  have e : (0.5 : α) - (c * c - c * t) / (1 + c * c - 2 * c * t)
      = (1 - c * c) / (2 * (1 + c * c - 2 * c * t)) := by
    field_simp
    ring
  rw [e]
  exact div_pos (by nlinarith [hc.1, hc.2]) (by linarith)

/-- The coefficient `c1LP` of `gain_groupdelay` lies in `(-1, 1)` for positive `tau` and
`binwidth`. -/
theorem c1LP_range {tau binwidth : α} (htau : 0 < tau) (hbw : 0 < binwidth) :
    -1 < (tau * 2.0 / binwidth - 1) / (tau * 2.0 / binwidth + 1) ∧
      (tau * 2.0 / binwidth - 1) / (tau * 2.0 / binwidth + 1) < 1 := by
  have hd : 0 < tau * 2.0 / binwidth := div_pos (mul_pos htau (by norm_num)) hbw
  have h1 : 0 < tau * 2.0 / binwidth + 1 := by linarith
  constructor
  · rw [lt_div_iff₀ h1]; linarith
  · rw [div_lt_iff₀ h1]; linarith

theorem gain_groupdelay_nonneg (L : Libm α) (hL : L.CosLaws) (binwidth centerfreq cf tau : α)
    (htau : 0 < tau) (hbw : 0 < binwidth) :
    0 ≤ (gain_groupdelay L binwidth centerfreq cf tau).2 := by
  have h := (groupdelay_pos (c1LP_range htau hbw)
    ⟨hL.neg_one_le_cos (TWOPI * (centerfreq - cf) * binwidth),
      hL.cos_le_one (TWOPI * (centerfreq - cf) * binwidth)⟩).2
  unfold gain_groupdelay
  simp only []
  rw [cInt_cfloor]
  exact Int.floor_nonneg.2 h.le

/-- C24: provided the values of `cos` lie in `[-1, 1]`: for every `tau > 0` and
`binwidth > 0` and any `centerfreq` and `cf`, with `c1LP = (2*tau/binwidth - 1)/(2*tau/binwidth + 1)`
and `tmpcos` the cosine, the denominator `1 + c1LP^2 - 2*c1LP*tmpcos` is positive, the group
delay that `gain_groupdelay` returns is `floor(0.5 - (c1LP^2 - c1LP*tmpcos)/(1 + c1LP^2 - 2*c1LP*tmpcos))`
and is non-negative, so for every sample `n` the index `grd + n` is at least `n` and not
negative.  And provided also the two facts about `pow`, for `cf` in `[80, 40000]`, `cohc` in
`[0, 1]` and `binwidth > 0`, the group delay `grd[n]` that a pass of the sample loop stores is
non-negative. -/
theorem C24_groupdelay_nonneg (L : Libm α) (hL : L.CosLaws) :
    (∀ (binwidth centerfreq cf tau : α), 0 < tau → 0 < binwidth →
      0 < 1 + (tau * 2.0 / binwidth - 1) / (tau * 2.0 / binwidth + 1)
            * ((tau * 2.0 / binwidth - 1) / (tau * 2.0 / binwidth + 1))
          - 2 * ((tau * 2.0 / binwidth - 1) / (tau * 2.0 / binwidth + 1))
            * L.cos (TWOPI * (centerfreq - cf) * binwidth) ∧
      (gain_groupdelay L binwidth centerfreq cf tau).2 =
        Int.floor (0.5 - ((tau * 2.0 / binwidth - 1) / (tau * 2.0 / binwidth + 1)
              * ((tau * 2.0 / binwidth - 1) / (tau * 2.0 / binwidth + 1))
            - (tau * 2.0 / binwidth - 1) / (tau * 2.0 / binwidth + 1)
              * L.cos (TWOPI * (centerfreq - cf) * binwidth))
          / (1 + (tau * 2.0 / binwidth - 1) / (tau * 2.0 / binwidth + 1)
              * ((tau * 2.0 / binwidth - 1) / (tau * 2.0 / binwidth + 1))
            - 2 * ((tau * 2.0 / binwidth - 1) / (tau * 2.0 / binwidth + 1))
              * L.cos (TWOPI * (centerfreq - cf) * binwidth))) ∧
      0 ≤ (gain_groupdelay L binwidth centerfreq cf tau).2 ∧
      ∀ n : Nat, (n : Int) ≤ (gain_groupdelay L binwidth centerfreq cf tau).2 + (n : Int) ∧
        0 ≤ (gain_groupdelay L binwidth centerfreq cf tau).2 + (n : Int)) ∧
    (L.PowLaws → ∀ (vsat0 : α) (a : ANArgs α) (st st' : ANLoop α) (n : Nat),
      (80 ≤ a.cf ∧ a.cf ≤ 40000) → (0 ≤ a.cohc ∧ a.cohc ≤ 1) → 0 < a.binwidth →
      SingleAN_sample L vsat0 a (SingleAN_consts L a.cf a.binwidth a.cohc) st n = .ok st' →
        ∃ g : Int, st'.grd[n]? = some g ∧ 0 ≤ g ∧ (n : Int) ≤ g + (n : Int)) := by
  refine ⟨fun binwidth centerfreq cf tau htau hbw => ?_,
    fun hP vsat0 a st st' n hcf hcohc hbw h => ?_⟩
  · have hg := gain_groupdelay_nonneg L hL binwidth centerfreq cf tau htau hbw
    have h := (groupdelay_pos (c1LP_range htau hbw)
      ⟨hL.neg_one_le_cos (TWOPI * (centerfreq - cf) * binwidth),
        hL.cos_le_one (TWOPI * (centerfreq - cf) * binwidth)⟩).1
    refine ⟨h, ?_, hg, fun n => ⟨by omega, by omega⟩⟩
    unfold gain_groupdelay
    simp only []
    rw [cInt_cfloor]
  · have hcf0 : 0 < a.cf := by linarith [hcf.1]
    obtain ⟨hmin, hle⟩ := SingleAN_consts_bm L hP a.cf a.binwidth a.cohc hcf0
    obtain ⟨hw, hW⟩ := SingleAN_consts_wb L hP a.cf a.binwidth a.cohc hcf0
    obtain ⟨⟨y, -, -, e⟩, hgrd, -⟩ := SingleAN_sample_control h
    have ht : 0 < st'.tauwb := by
      rw [e]
      exact lt_of_lt_of_le hw (tauwb_map_range hW hle
        (SingleAN_tauc1_range L a _ st n _ hle hcohc)).1
    have hg := gain_groupdelay_nonneg L hL a.binwidth
      (SingleAN_consts L a.cf a.binwidth a.cohc).centerfreq a.cf st'.tauwb ht hbw
    exact ⟨_, writeAt_getElem hgrd, hg, by omega⟩

theorem C24_groupdelay_nonneg_witness :
    (0 : ℚ) < 1e-4 ∧ (0 : ℚ) < 1e-5 ∧ 0 ≤ (gain_groupdelay ratLibm 1e-5 1200 1000 1e-4).2 :=
  ⟨by norm_num, by norm_num,
    ((C24_groupdelay_nonneg ratLibm ratLibm_cosLaws).1 1e-5 1200 1000 1e-4 (by norm_num)
      (by norm_num)).2.2.1⟩

theorem one_lit : (1.0 : α) = 1 := by norm_num

/-- The value of `Boltzman` in terms of the product `E` of the two exponential factors:
its distances from `1` and from `-1/asym`. -/
theorem Boltzman_distances (L : Libm α) (x asym s0 s1 x1 : α) (hasym : 0 < asym)
    (hE : 0 < L.exp (-(x - s0 * L.log ((1.0 / (1.0 / (1.0 + asym)) - 1)
      / (1 + L.exp (x1 / s1)))) / s0) * (1.0 + L.exp (-(x - x1) / s1))) :
    1 - Boltzman L x asym s0 s1 x1 =
      (1 + asym) / asym
        * (L.exp (-(x - s0 * L.log ((1.0 / (1.0 / (1.0 + asym)) - 1)
            / (1 + L.exp (x1 / s1)))) / s0) * (1.0 + L.exp (-(x - x1) / s1))
          / (1 + L.exp (-(x - s0 * L.log ((1.0 / (1.0 / (1.0 + asym)) - 1)
            / (1 + L.exp (x1 / s1)))) / s0) * (1.0 + L.exp (-(x - x1) / s1)))) ∧
    Boltzman L x asym s0 s1 x1 - -1 / asym =
      (1 + asym) / asym
        * (1 / (1 + L.exp (-(x - s0 * L.log ((1.0 / (1.0 / (1.0 + asym)) - 1)
            / (1 + L.exp (x1 / s1)))) / s0) * (1.0 + L.exp (-(x - x1) / s1)))) := by
  unfold Boltzman
  dsimp only
  generalize L.exp (-(x - s0 * L.log ((1.0 / (1.0 / (1.0 + asym)) - 1)
    / (1 + L.exp (x1 / s1)))) / s0) * (1.0 + L.exp (-(x - x1) / s1)) = E at hE ⊢
  simp only [one_lit]
  have h1 : (0 : α) < 1 + asym := by linarith
  have h2 : (0 : α) < 1 + E := by linarith
  have hs : 1 - 1 / (1 + asym) = asym / (1 + asym) := by
    field_simp
  rw [hs]
  constructor
  · field_simp
    ring
  · field_simp
    ring

/-- The value of `Boltzman` lies strictly between `-1/asym` and `1`. -/
theorem Boltzman_bounds (L : Libm α) (hexp : ∀ t : α, 0 < L.exp t) (x asym s0 s1 x1 : α)
    (hasym : 0 < asym) :
    -1 / asym < Boltzman L x asym s0 s1 x1 ∧ Boltzman L x asym s0 s1 x1 < 1 := by
  have hE : 0 < L.exp (-(x - s0 * L.log ((1.0 / (1.0 / (1.0 + asym)) - 1)
      / (1 + L.exp (x1 / s1)))) / s0) * (1.0 + L.exp (-(x - x1) / s1)) :=
    mul_pos (hexp _) (by rw [one_lit]; linarith [hexp (-(x - x1) / s1)])
  obtain ⟨h1, h2⟩ := Boltzman_distances L x asym s0 s1 x1 hasym hE
  generalize L.exp (-(x - s0 * L.log ((1.0 / (1.0 / (1.0 + asym)) - 1)
    / (1 + L.exp (x1 / s1)))) / s0) * (1.0 + L.exp (-(x - x1) / s1)) = E at hE h1 h2
  have hc : 0 < (1 + asym) / asym := div_pos (by linarith) hasym
  have hp : 0 < 1 + E := by linarith
  have a1 : 0 < (1 + asym) / asym * (E / (1 + E)) := mul_pos hc (div_pos hE hp)
  have a2 : 0 < (1 + asym) / asym * (1 / (1 + E)) := mul_pos hc (one_div_pos.2 hp)
  constructor
  · linarith
  · linarith

/-- The value 1 is approached: `Boltzman` exceeds `1 - ε` for a large input. -/
theorem Boltzman_sup (L : Libm α) (hexp : ∀ t : α, 0 < L.exp t)
    (hlim : ∀ ε : α, 0 < ε → ∃ T : α, ∀ t : α, t ≤ T → L.exp t < ε)
    (asym s0 s1 x1 : α) (hasym : 0 < asym) (hs0 : 0 < s0) (hs1 : 0 < s1) (ε : α) (hε : 0 < ε) :
    ∃ x : α, 1 - ε < Boltzman L x asym s0 s1 x1 := by
  have hc : 0 < (1 + asym) / asym := div_pos (by linarith) hasym
  obtain ⟨T0, hT0⟩ := hlim (ε / (2 * ((1 + asym) / asym))) (div_pos hε (by positivity))
  obtain ⟨T1, hT1⟩ := hlim 1 one_pos
  refine ⟨max (s0 * L.log ((1.0 / (1.0 / (1.0 + asym)) - 1) / (1 + L.exp (x1 / s1)))
    - s0 * T0) (x1 - s1 * T1), ?_⟩
  generalize hx : max (s0 * L.log ((1.0 / (1.0 / (1.0 + asym)) - 1) / (1 + L.exp (x1 / s1)))
    - s0 * T0) (x1 - s1 * T1) = x
  have hxa : s0 * L.log ((1.0 / (1.0 / (1.0 + asym)) - 1) / (1 + L.exp (x1 / s1))) - s0 * T0 ≤ x :=
    hx ▸ le_max_left _ _
  have hxb : x1 - s1 * T1 ≤ x := hx ▸ le_max_right _ _
  have e0 := hT0 (-(x - s0 * L.log ((1.0 / (1.0 / (1.0 + asym)) - 1)
      / (1 + L.exp (x1 / s1)))) / s0) (by
    rw [div_le_iff₀ hs0]
    linarith)
  have e1 := hT1 (-(x - x1) / s1) (by
    rw [div_le_iff₀ hs1]
    linarith)
  have p0 := hexp (-(x - s0 * L.log ((1.0 / (1.0 / (1.0 + asym)) - 1)
      / (1 + L.exp (x1 / s1)))) / s0)
  have p1 := hexp (-(x - x1) / s1)
  have hE : 0 < L.exp (-(x - s0 * L.log ((1.0 / (1.0 / (1.0 + asym)) - 1)
      / (1 + L.exp (x1 / s1)))) / s0) * (1.0 + L.exp (-(x - x1) / s1)) :=
    mul_pos p0 (by rw [one_lit]; linarith)
  obtain ⟨h1, -⟩ := Boltzman_distances L x asym s0 s1 x1 hasym hE
  have hlt : L.exp (-(x - s0 * L.log ((1.0 / (1.0 / (1.0 + asym)) - 1)
      / (1 + L.exp (x1 / s1)))) / s0) * (1.0 + L.exp (-(x - x1) / s1))
      < ε / ((1 + asym) / asym) := by
    rw [one_lit]
    have : ε / ((1 + asym) / asym) = ε / (2 * ((1 + asym) / asym)) * 2 := by
      field_simp
      ring
    rw [this]
    generalize ε / (2 * ((1 + asym) / asym)) = η at e0
    nlinarith
  generalize L.exp (-(x - s0 * L.log ((1.0 / (1.0 / (1.0 + asym)) - 1)
    / (1 + L.exp (x1 / s1)))) / s0) * (1.0 + L.exp (-(x - x1) / s1)) = E at hE h1 hlt
  have hp : 0 < 1 + E := by linarith
  have hfrac : E / (1 + E) ≤ E := div_le_self hE.le (by linarith)
  have : (1 + asym) / asym * (E / (1 + E)) < ε := by
    calc (1 + asym) / asym * (E / (1 + E)) ≤ (1 + asym) / asym * E :=
          mul_le_mul_of_nonneg_left hfrac hc.le
      _ < (1 + asym) / asym * (ε / ((1 + asym) / asym)) := mul_lt_mul_of_pos_left hlt hc
      _ = ε := by
        field_simp
        ring
  linarith

/-- The value `-1/asym` is approached: `Boltzman` is below `-1/asym + ε` for a large
negative input. -/
theorem Boltzman_inf (L : Libm α) (hexp : ∀ t : α, 0 < L.exp t)
    (hlim : ∀ M : α, ∃ T : α, ∀ t : α, T ≤ t → M < L.exp t)
    (asym s0 s1 x1 : α) (hasym : 0 < asym) (hs0 : 0 < s0) (ε : α) (hε : 0 < ε) :
    ∃ x : α, Boltzman L x asym s0 s1 x1 < -1 / asym + ε := by
  have hc : 0 < (1 + asym) / asym := div_pos (by linarith) hasym
  obtain ⟨T, hT⟩ := hlim ((1 + asym) / asym / ε)
  refine ⟨s0 * L.log ((1.0 / (1.0 / (1.0 + asym)) - 1) / (1 + L.exp (x1 / s1))) - s0 * T, ?_⟩
  generalize hx : s0 * L.log ((1.0 / (1.0 / (1.0 + asym)) - 1) / (1 + L.exp (x1 / s1)))
    - s0 * T = x
  have e0 := hT (-(x - s0 * L.log ((1.0 / (1.0 / (1.0 + asym)) - 1)
      / (1 + L.exp (x1 / s1)))) / s0) (by
    rw [le_div_iff₀ hs0]
    linarith)
  have p1 := hexp (-(x - x1) / s1)
  have p0 := hexp (-(x - s0 * L.log ((1.0 / (1.0 / (1.0 + asym)) - 1)
      / (1 + L.exp (x1 / s1)))) / s0)
  have hE : 0 < L.exp (-(x - s0 * L.log ((1.0 / (1.0 / (1.0 + asym)) - 1)
      / (1 + L.exp (x1 / s1)))) / s0) * (1.0 + L.exp (-(x - x1) / s1)) :=
    mul_pos p0 (by rw [one_lit]; linarith)
  obtain ⟨-, h2⟩ := Boltzman_distances L x asym s0 s1 x1 hasym hE
  have hgt : (1 + asym) / asym / ε
      < L.exp (-(x - s0 * L.log ((1.0 / (1.0 / (1.0 + asym)) - 1)
        / (1 + L.exp (x1 / s1)))) / s0) * (1.0 + L.exp (-(x - x1) / s1)) := by
    rw [one_lit]
    nlinarith
  generalize L.exp (-(x - s0 * L.log ((1.0 / (1.0 / (1.0 + asym)) - 1)
    / (1 + L.exp (x1 / s1)))) / s0) * (1.0 + L.exp (-(x - x1) / s1)) = E at hE h2 hgt
  have hp : 0 < 1 + E := by linarith
  have : (1 + asym) / asym * (1 / (1 + E)) < ε := by
    rw [mul_one_div, div_lt_iff₀ hp]
    rw [div_lt_iff₀ hε] at hgt
    nlinarith
  linarith

/-- C27 (amended).  In exact arithmetic, provided `exp` is positive, tends to 0 at `-∞` and
is unbounded at `+∞`: for every `asym > 0`, `s0 > 0`, `s1 > 0` and every `x1`, every value of
`Boltzman` lies strictly between `-1/asym` and `1`, and both bounds are approached (values
above `1 - ε` and values below `-1/asym + ε` occur for every `ε > 0`): the maximum is
normalised to 1 and `asym` is the ratio of the positive to the negative maximum.  In double
arithmetic, with the parameters that `SingleAN` passes (`asym = 7`, `s0 = 12`, `s1 = 5`,
`x1 = 5`) and a math library whose `exp` returns non-negative numbers and whose `log`
returns numbers: every value of `Boltzman` lies between the double `-1/7` and 1, the bounds
included; with the values of glibc both bounds are reached, 1 at `x = 1000` and the double
`-1/7` at `x = -300`. -/
theorem C27_boltzman_range (L : Libm α) (hexp : ∀ t : α, 0 < L.exp t)
    (hlim0 : ∀ ε : α, 0 < ε → ∃ T : α, ∀ t : α, t ≤ T → L.exp t < ε)
    (hlimInf : ∀ M : α, ∃ T : α, ∀ t : α, T ≤ t → M < L.exp t)
    (asym s0 s1 x1 : α) (hasym : 0 < asym) (hs0 : 0 < s0) (hs1 : 0 < s1) :
    (∀ x : α, -1 / asym < Boltzman L x asym s0 s1 x1 ∧ Boltzman L x asym s0 s1 x1 < 1) ∧
    (∀ ε : α, 0 < ε → ∃ x : α, 1 - ε < Boltzman L x asym s0 s1 x1) ∧
    (∀ ε : α, 0 < ε → ∃ x : α, Boltzman L x asym s0 s1 x1 < -1 / asym + ε) ∧
    (∀ (L64 : Libm Binary64),
      (∀ t : ℚ, ∃ r : ℚ, L64.exp (.num t) = .num r ∧ 0 ≤ r) →
      (∀ t : ℚ, ∃ r : ℚ, L64.log (.num t) = .num r) →
      ∀ x : ℚ, (-1 / 7 : Binary64) ≤ Boltzman64 L64 (.num x) 7.0 12.0 5.0 5.0 ∧
        Boltzman64 L64 (.num x) 7.0 12.0 5.0 5.0 ≤ 1) ∧
    Boltzman64 glibcTable 1000 7.0 12.0 5.0 5.0 = 1 ∧
    Boltzman64 glibcTable (-300) 7.0 12.0 5.0 5.0 = -1 / 7 :=
  ⟨fun x => Boltzman_bounds L hexp x asym s0 s1 x1 hasym,
    fun ε hε => Boltzman_sup L hexp hlim0 asym s0 s1 x1 hasym hs0 hs1 ε hε,
    fun ε hε => Boltzman_inf L hexp hlimInf asym s0 s1 x1 hasym hs0 ε hε,
    fun L64 h1 h2 x => Boltzman64_bounds L64 h1 h2 x, by decide!, by decide!⟩

theorem ratExp_pos_all : ∀ t : ℚ, 0 < ratLibm.exp t := fun t => ratExp_pos t

theorem ratExp_lim0 (ε : ℚ) (hε : 0 < ε) : ∃ T : ℚ, ∀ t : ℚ, t ≤ T → ratLibm.exp t < ε := by
  refine ⟨-(1 / ε), fun t ht => ?_⟩
  have hT : 0 < 1 / ε := one_div_pos.2 hε
  show ratExp t < ε
  unfold ratExp
  rw [if_pos (by linarith)]
  have h1 : 0 < 1 - t := by linarith
  rw [div_lt_iff₀ h1]
  have : 1 / ε < 1 - t := by linarith
  rw [div_lt_iff₀ hε] at this
  linarith

theorem ratExp_limInf (M : ℚ) : ∃ T : ℚ, ∀ t : ℚ, T ≤ t → M < ratLibm.exp t := by
  refine ⟨max M 1, fun t ht => ?_⟩
  have h1 : M ≤ t := le_trans (le_max_left _ _) ht
  have h2 : 1 ≤ t := le_trans (le_max_right _ _) ht
  show M < ratExp t
  unfold ratExp
  rw [if_neg (by linarith)]
  linarith

/-- C27 for the parameters of the program and the rational stand-in for the math
library, in exact arithmetic and, with its rounded values, in double arithmetic. -/
theorem C27_boltzman_range_witness :
    (0 : ℚ) < 7 ∧ (0 : ℚ) < 12 ∧ (0 : ℚ) < 5 ∧
      (-1 / 7 < Boltzman ratLibm 0 7 12 5 5 ∧ Boltzman ratLibm 0 7 12 5 5 < 1) ∧
      (∃ x : ℚ, 1 - 1 / 1000 < Boltzman ratLibm x 7 12 5 5) ∧
      ((-1 / 7 : Binary64) ≤ Boltzman64 roundedLibm (.num 0) 7.0 12.0 5.0 5.0 ∧
        Boltzman64 roundedLibm (.num 0) 7.0 12.0 5.0 5.0 ≤ 1) :=
  have h := C27_boltzman_range ratLibm ratExp_pos_all ratExp_lim0 ratExp_limInf 7 12 5 5
    (by norm_num) (by norm_num) (by norm_num)
  ⟨by norm_num, by norm_num, by norm_num, h.1 0, h.2.1 (1 / 1000) (by norm_num),
    h.2.2.2.1 roundedLibm roundedLibm_exp roundedLibm_log 0⟩

/-- The second half of a pass of the sample loop that succeeds: the C2 filter output and the
C2 transduction value it stores, and its call of `Synapse`, which receives the `spont` of the
arguments. -/
theorem SingleAN_sample_stages {L : Libm α} {vsat0 : α} {a : ANArgs α} {k : ANConsts α}
    {st st' : ANLoop α} {n : Nat} (h : SingleAN_sample L vsat0 a k st n = .ok st') :
    (∃ c2 : α, st'.c2filterouttmp[n]? = some c2 ∧
      st'.c2vihctmp[n]? = some (SingleAN_c2vihc L a.cf c2)) ∧
    ∃ x : α,
      st'.synouttmp[n]? = some (Synapse L vsat0 st.statics.syn x a.binwidth a.cf a.spont n).1 ∧
      st'.statics.syn = (Synapse L vsat0 st.statics.syn x a.binwidth a.cf a.spont n).2 := by
  simp only [SingleAN_sample, bind_eq_ok_iff, pure, Except.pure, Except.ok.injEq] at h
  obtain ⟨y, hy, m1, hm1, m2, hm2, m3, hm3, mo, hmo, t, ht, u, hu, g, hg, tg, htg, tn, htn, tg2,
    htg2, wg, hwg, c1, hc1, c1t, hc1t, c2, hc2, c2t, hc2t, c1v, hc1v, c2v, hc2v, ih, hih, sy, hsy,
    rfl⟩ := h
  exact ⟨⟨_, writeAt_getElem hc2t, writeAt_getElem hc2v⟩, _, writeAt_getElem hsy, rfl⟩

/-- C29: in every call that passes the checks of `mexFunction` the `spont` handed on is at
least 0.1, so the condition `spont < 0` of the second check inside `Synapse` is false; every
pass of the sample loop calls `Synapse` with that `spont`; and `Synapse` with the statement
`if(spont<0) spont = 50;` removed returns the same output and the same static variables, for
all arguments. -/
theorem C29_spont_recheck_dead (L : Libm α) (vsat0 : α) :
    (∀ (c : MexCall α) (a : ANArgs α), mexFunctionArgs c = .ok a →
      0.1 ≤ a.spont ∧ ¬ a.spont < 0 ∧
      ∀ (k : ANConsts α) (st st' : ANLoop α) (n : Nat),
        SingleAN_sample L vsat0 a k st n = .ok st' →
          ∃ x : α, st'.synouttmp[n]? =
            some (Synapse L vsat0 st.statics.syn x a.binwidth a.cf a.spont n).1) ∧
    (∀ (s : SynapseStatics α) (x binwidth cf spont : α) (n : Int),
      Synapse_noRecheck L vsat0 s x binwidth cf spont n = Synapse L vsat0 s x binwidth cf spont n) := by
  refine ⟨fun c a ha => ?_, fun s x binwidth cf spont n => rfl⟩
  obtain ⟨-, -, hs, -⟩ := mexFunctionArgs_fields ha
  have h1 : (0.1 : α) ≤ a.spont := by rw [hs]; exact le_max_right _ _
  refine ⟨h1, not_lt.2 (le_trans (by norm_num) h1), fun k st st' n h => ?_⟩
  obtain ⟨-, x, hx, -⟩ := SingleAN_sample_stages h
  exact ⟨x, hx⟩

theorem silentArgs_ok : mexFunctionArgs silentCall = .ok silentArgs := by
  with_unfolding_all rfl

theorem C29_spont_recheck_dead_witness :
    mexFunctionArgs silentCall = .ok silentArgs ∧ (0.1 : ℚ) ≤ silentArgs.spont ∧
      ¬ silentArgs.spont < 0 :=
  ⟨silentArgs_ok, ((C29_spont_recheck_dead ratLibm 0).1 silentCall silentArgs silentArgs_ok).1,
    ((C29_spont_recheck_dead ratLibm 0).1 silentCall silentArgs silentArgs_ok).2.1⟩

/-- With the rational stand-in for the math library, `NLogarithm` with asymmetry 1 is
linear. -/
theorem NLogarithm_ratLibm (x slope : ℚ) :
    NLogarithm ratLibm x slope 1.0 = 20e6 / 37 * slope * x := by
  have hp : ratLibm.pow 10 (80 / 20) = 37 := by decide!
  have hl : ∀ y : ℚ, 0 ≤ y → ratLibm.log (1 + y) = y := by
    intro y hy
    show ratLog (1 + y) = y
    unfold ratLog
    rcases eq_or_lt_of_le hy with h | h
    · rw [← h]; norm_num
    · rw [if_neg (by linarith), if_neg (by linarith)]; ring
  unfold NLogarithm
  simp only [hp, one_lit]
  have hs : (0 : ℚ) ≤ 20.0e6 / 37 * |x| := mul_nonneg (by norm_num) (abs_nonneg x)
  rw [hl _ hs]
  split_ifs with h
  · rw [abs_of_neg h]
    norm_num
    ring
  · rw [abs_of_nonneg (not_lt.1 h)]
    norm_num
    ring

/-- C22 as stated fails: at `cf = 1000`, no scale factor `k` makes the value the code
computes equal to `-NLogarithm(k * c2^3, 0.2, 1.0)` both for the C2 filter output `c2 = 1`
and for `c2 = 2` (the code passes `50` and `200` to `NLogarithm`, a cube would pass `k` and
`8*k`). -/
theorem C22_counterexample :
    ¬ ∃ k : ℚ, SingleAN_c2vihc ratLibm 1000 1 = c2vihcCubed ratLibm k 1 ∧
      SingleAN_c2vihc ratLibm 1000 2 = c2vihcCubed ratLibm k 2 := by
  rintro ⟨k, h1, h2⟩
  unfold SingleAN_c2vihc c2vihcCubed at h1 h2
  rw [NLogarithm_ratLibm, NLogarithm_ratLibm] at h1 h2
  norm_num at h1 h2
  linarith

/-- C22 (amended): in every pass of the sample loop that succeeds, the C2 transduction value
is `c2vihc = -NLogarithm(k(cf) * c2*|c2|, 0.2, 1.0)` with `c2` the C2 filter output of the
sample and the scale factor `k(cf) = cf*cf/20000`: the filter output enters as a signed
square. -/
theorem C22_c2_transduction (L : Libm α) :
    (∀ cf c2 : α, SingleAN_c2vihc L cf c2 =
      -NLogarithm L (cf * cf / 20000 * (c2 * |c2|)) 0.2 1.0) ∧
    (∀ (vsat0 : α) (a : ANArgs α) (k : ANConsts α) (st st' : ANLoop α) (n : Nat),
      SingleAN_sample L vsat0 a k st n = .ok st' →
        ∃ c2 : α, st'.c2filterouttmp[n]? = some c2 ∧
          st'.c2vihctmp[n]? =
            some (-NLogarithm L (a.cf * a.cf / 20000 * (c2 * |c2|)) 0.2 1.0)) := by
  have key : ∀ cf c2 : α, SingleAN_c2vihc L cf c2 =
      -NLogarithm L (cf * cf / 20000 * (c2 * |c2|)) 0.2 1.0 := by
    intro cf c2
    unfold SingleAN_c2vihc
    have e : c2 * |c2| * cf / 10 * cf / 2e3 = cf * cf / 20000 * (c2 * |c2|) := by
      norm_num
      ring
    rw [e]
  refine ⟨key, fun vsat0 a k st st' n h => ?_⟩
  obtain ⟨⟨c2, h1, h2⟩, -⟩ := SingleAN_sample_stages h
  exact ⟨c2, h1, by rw [h2, key]⟩

theorem C22_c2_transduction_witness :
    ∃ c2 : ℚ, silentPass.c2filterouttmp[0]? = some c2 ∧
      silentPass.c2vihctmp[0]? =
        some (-NLogarithm ratLibm (silentArgs.cf * silentArgs.cf / 20000 * (c2 * |c2|)) 0.2 1.0) :=
  (C22_c2_transduction ratLibm).2 0 silentArgs _ silentStart silentPass 0 silentPass_ok

/-- The function `NLogarithm` in terms of its logarithm arguments and divisors. -/
theorem NLogarithm_eq (L : Libm α) (x slope asym : α) :
    NLogarithm L x slope asym =
      if x < 0 then
        -1 / NLogarithm_asym_t L x asym * (L.log (NLogarithm_logArg L x) * slope)
      else L.log (NLogarithm_logArg L x) * slope :=
  rfl

/-- The function `Boltzman` in terms of its logarithm argument and divisors. -/
theorem Boltzman_eq (L : Libm α) (x asym s0 s1 x1 : α) :
    Boltzman L x asym s0 s1 x1 =
      (1.0 / Boltzman_out1Den L x asym s0 s1 x1 - Boltzman_shift asym)
        / (1 - Boltzman_shift asym) :=
  rfl

/-- The function `NLafterohc` in terms of its logarithm argument and divisors. -/
theorem NLafterohc_eq (L : Libm α) (x taumin taumax asym : α) :
    NLafterohc L x taumin taumax asym =
      (if (if taumax * (NLafterohc_minR taumin taumax + (1.0 - NLafterohc_minR taumin taumax)
              * L.exp (-|x| / NLafterohc_s0 L taumin taumax asym)) < taumin then taumin
            else taumax * (NLafterohc_minR taumin taumax
              + (1.0 - NLafterohc_minR taumin taumax)
                * L.exp (-|x| / NLafterohc_s0 L taumin taumax asym))) > taumax then taumax
        else (if taumax * (NLafterohc_minR taumin taumax
              + (1.0 - NLafterohc_minR taumin taumax)
                * L.exp (-|x| / NLafterohc_s0 L taumin taumax asym)) < taumin then taumin
            else taumax * (NLafterohc_minR taumin taumax
              + (1.0 - NLafterohc_minR taumin taumax)
                * L.exp (-|x| / NLafterohc_s0 L taumin taumax asym)))) :=
  rfl

/-- The logarithm argument of `NLafterohc` lies strictly between 0 and 1 when
`0 < taumin < taumax` and `taumin/taumax` is not `0.05`. -/
theorem NLafterohc_logArg_range (taumin taumax : α) (h0 : 0 < taumin) (h1 : taumin < taumax)
    (hR : taumin / taumax ≠ 0.05) :
    0 < NLafterohc_logArg taumin taumax ∧ NLafterohc_logArg taumin taumax < 1 := by
  have hmax : 0 < taumax := h0.trans h1
  have hRpos : 0 < taumin / taumax := div_pos h0 hmax
  have hRlt : taumin / taumax < 1 := (div_lt_one hmax).2 h1
  unfold NLafterohc_logArg NLafterohc_minR
  generalize taumin / taumax = R at hR hRpos hRlt
  have h05 : (0.05 : α) = 1 / 20 := by norm_num
  have h5 : (0.5 : α) = 1 / 2 := by norm_num
  rw [h05] at hR
  simp only [h05, h5]
  split_ifs with h
  · have hd : 0 < 1 - 1 / 2 * R := by linarith
    exact ⟨div_pos (by linarith) hd, (div_lt_one hd).2 (by linarith)⟩
  · have hge : 1 / 20 < R := lt_of_le_of_ne (not_lt.1 h) (Ne.symm hR)
    have hd : (0 : α) < 1 - 1 / 20 := by norm_num
    exact ⟨div_pos (by linarith) hd, (div_lt_one hd).2 (by linarith)⟩

/-- The divisor `asym_t` of `NLogarithm` is at least 1 when `asym ≥ 1`. -/
theorem NLogarithm_asym_t_ge (L : Libm α) (hexp : ∀ t : α, 0 < L.exp t) (x asym : α)
    (hasym : 1 ≤ asym) : 1 ≤ NLogarithm_asym_t L x asym := by
  show 1 ≤ asym - (asym - 1) / (1 + L.exp (20 * L.log10 (NLogarithm_log10Arg x) / 5.0))
  have hE := hexp (20 * L.log10 (NLogarithm_log10Arg x) / 5.0)
  generalize L.exp (20 * L.log10 (NLogarithm_log10Arg x) / 5.0) = E at hE ⊢
  have hd : 0 < 1 + E := by linarith
  have : (asym - 1) / (1 + E) ≤ asym - 1 := by
    rw [div_le_iff₀ hd]
    nlinarith
  linarith


/-- The logarithm argument and the divisors of `NLogarithm`, for `asym ≥ 1`. -/
theorem NLogarithm_guards (L : Libm α) (hpow : ∀ x y : α, 0 < x → 0 < L.pow x y)
    (hexp : ∀ t : α, 0 < L.exp t) (x asym : α) (hasym : 1 ≤ asym) :
    NLogarithm_strengthDen L ≠ 0 ∧ 0 < NLogarithm_logArg L x ∧
      (x < 0 → 0 < NLogarithm_log10Arg x) ∧
      1 + L.exp (20 * L.log10 (NLogarithm_log10Arg x) / 5.0) ≠ 0 ∧
      NLogarithm_asym_t L x asym ≠ 0 := by
  have hden : 0 < NLogarithm_strengthDen L := hpow _ _ (by norm_num)
  refine ⟨hden.ne', ?_, ?_, ?_, ?_⟩
  · unfold NLogarithm_logArg
    rw [one_lit]
    have : 0 ≤ 20.0e6 / NLogarithm_strengthDen L * |x| :=
      mul_nonneg (div_nonneg (by norm_num) hden.le) (abs_nonneg x)
    simp only
    linarith
  · intro hx
    unfold NLogarithm_log10Arg
    exact div_pos (by linarith) (by norm_num)
  · exact (show 0 < 1 + L.exp (20 * L.log10 (NLogarithm_log10Arg x) / 5.0) by
      linarith [hexp (20 * L.log10 (NLogarithm_log10Arg x) / 5.0)]).ne'
  · exact (lt_of_lt_of_le one_pos (NLogarithm_asym_t_ge L hexp x asym hasym)).ne'

/-- The logarithm argument and the divisors of `Boltzman`, for `asym ≥ 1`. -/
theorem Boltzman_guards (L : Libm α) (hexp : ∀ t : α, 0 < L.exp t) (x asym s0 s1 x1 : α)
    (hasym : 1 ≤ asym) :
    (1.0 : α) + asym ≠ 0 ∧ Boltzman_shift asym ≠ 0 ∧ 1 + L.exp (x1 / s1) ≠ 0 ∧
      0 < Boltzman_logArg L asym s1 x1 ∧ Boltzman_out1Den L x asym s0 s1 x1 ≠ 0 ∧
      1 - Boltzman_shift asym ≠ 0 := by
  have hshift : 0 < Boltzman_shift asym := by
    unfold Boltzman_shift
    rw [one_lit]
    exact div_pos one_pos (by linarith)
  have hshift1 : Boltzman_shift asym < 1 := by
    unfold Boltzman_shift
    rw [one_lit, div_lt_one (by linarith)]
    linarith
  have hshiftinv : 1.0 / Boltzman_shift asym - 1 = asym := by
    unfold Boltzman_shift
    rw [one_lit, one_div_one_div]
    ring
  refine ⟨?_, hshift.ne', ?_, ?_, ?_, ?_⟩
  · rw [one_lit]
    exact (show (0 : α) < 1 + asym by linarith).ne'
  · exact (show 0 < 1 + L.exp (x1 / s1) by linarith [hexp (x1 / s1)]).ne'
  · unfold Boltzman_logArg
    rw [hshiftinv]
    exact div_pos (by linarith) (by linarith [hexp (x1 / s1)])
  · unfold Boltzman_out1Den
    rw [one_lit]
    have h2 := hexp (-(x - s0 * L.log (Boltzman_logArg L asym s1 x1)) / s0)
    have h3 := hexp (-(x - x1) / s1)
    have : 0 < L.exp (-(x - s0 * L.log (Boltzman_logArg L asym s1 x1)) / s0)
        * (1 + L.exp (-(x - x1) / s1)) := mul_pos h2 (by linarith)
    simp only
    exact (show (0 : α) < 1 + L.exp (-(x - s0 * L.log (Boltzman_logArg L asym s1 x1)) / s0)
        * (1 + L.exp (-(x - x1) / s1)) by linarith).ne'
  · exact (show 0 < 1 - Boltzman_shift asym by linarith).ne'

/-- The local `minR` of `NLafterohc` lies in `(0, 0.05]` for `0 < taumin < taumax`. -/
theorem NLafterohc_minR_range (taumin taumax : α) (h0 : 0 < taumin) (h1 : taumin < taumax) :
    0 < NLafterohc_minR taumin taumax ∧ NLafterohc_minR taumin taumax ≤ 0.05 := by
  have hmax : 0 < taumax := h0.trans h1
  have hRpos : 0 < taumin / taumax := div_pos h0 hmax
  unfold NLafterohc_minR
  simp only
  split_ifs with h
  · constructor
    · have h5 : (0 : α) < 0.5 := by norm_num
      positivity
    · have h5 : (0.5 : α) = 1 / 2 := by norm_num
      rw [h5]
      have : (0 : α) < 0.05 := by norm_num
      linarith
  · exact ⟨by norm_num, le_refl _⟩

/-- The logarithm argument and the divisors of `NLafterohc`, for `asym ≥ 1` and
`0 < taumin < taumax`; the logarithm needs `taumin/taumax ≠ 0.05`, and the divisor `s0` a
non-zero `dc`. -/
theorem NLafterohc_guards (L : Libm α) (hlog : ∀ y : α, 0 < y → y < 1 → L.log y < 0)
    (taumin taumax asym : α) (hasym : 1 ≤ asym) (h0 : 0 < taumin) (h1 : taumin < taumax) :
    taumax ≠ 0 ∧ asym + 1.0 ≠ 0 ∧ 1 - NLafterohc_minR taumin taumax ≠ 0 ∧
      (taumin / taumax ≠ 0.05 →
        0 < NLafterohc_logArg taumin taumax ∧
        L.log (NLafterohc_logArg taumin taumax) ≠ 0 ∧
        (NLafterohc_dc taumin taumax asym ≠ 0 → NLafterohc_s0 L taumin taumax asym ≠ 0)) := by
  have hmax : 0 < taumax := h0.trans h1
  obtain ⟨-, hm⟩ := NLafterohc_minR_range taumin taumax h0 h1
  refine ⟨hmax.ne', ?_, ?_, fun hR => ?_⟩
  · rw [one_lit]
    exact (show (0 : α) < asym + 1 by linarith).ne'
  · have : (0.05 : α) < 1 := by norm_num
    exact (show 0 < 1 - NLafterohc_minR taumin taumax by linarith).ne'
  · obtain ⟨ha0, ha1⟩ := NLafterohc_logArg_range taumin taumax h0 h1 hR
    have hl := hlog _ ha0 ha1
    refine ⟨ha0, hl.ne, fun hdc => ?_⟩
    unfold NLafterohc_s0
    rw [Ne, div_eq_zero_iff, not_or, neg_eq_zero]
    exact ⟨hdc, hl.ne⟩

/-- The cochlear-amplifier gain is at most 52 when `tanh` is at most 1. -/
theorem SingleAN_CAgain_le (L : Libm α) (htanh : ∀ t : α, L.tanh t ≤ 1) (cf : α) :
    SingleAN_CAgain L cf ≤ 52 := by
  unfold SingleAN_CAgain
  simp only []
  split_ifs with h
  · norm_num
  · have := htanh (2.2 * L.log10 (cf / 600) + 0.15)
    linarith

/-- The time constants that `SingleAN` passes to `NLafterohc`: `0 < bmTaumin < bmTaumax`
with a ratio above `0.05`. -/
theorem SingleAN_consts_ratio (L : Libm α) (hpow : ∀ x y : α, 0 < x → 0 < L.pow x y)
    (hpow1 : ∀ y : α, y < 0 → L.pow 10 y < 1)
    (hpow05 : ∀ y : α, -(26 / 25) ≤ y → 0.05 < L.pow 10 y)
    (htanh : ∀ t : α, L.tanh t ≤ 1) (cf binwidth cohc : α) (hcf : 0 < cf) :
    0 < (SingleAN_consts L cf binwidth cohc).bmTaumin ∧
    (SingleAN_consts L cf binwidth cohc).bmTaumin
      < (SingleAN_consts L cf binwidth cohc).bmTaumax ∧
    0.05 < (SingleAN_consts L cf binwidth cohc).bmTaumin
      / (SingleAN_consts L cf binwidth cohc).bmTaumax := by
  have hCA := SingleAN_CAgain_ge L cf
  have hCA2 := SingleAN_CAgain_le L htanh cf
  have hQ : 0 < L.pow 10 (0.4708 * L.log10 (cf / 1e3) + 0.4664) := hpow _ _ (by norm_num)
  have hmax : 0 < 2.0 / (TWOPI * (cf / L.pow 10 (0.4708 * L.log10 (cf / 1e3) + 0.4664))) := by
    have hT : (0 : α) < TWOPI := by unfold TWOPI; norm_num
    have : (0 : α) < 2.0 := by norm_num
    positivity
  have hbm : 0 < 2.0 / (TWOPI * (cf / L.pow 10 (0.4708 * L.log10 (cf / 1e3) + 0.4664))) / 0.7 :=
    div_pos hmax (by norm_num)
  have hy1 : -SingleAN_CAgain L cf / (20.0 * 2.5) < 0 := by
    have : (0 : α) < 20.0 * 2.5 := by norm_num
    exact div_neg_of_neg_of_pos (by linarith) this
  have hy2 : -(26 / 25) ≤ -SingleAN_CAgain L cf / (20.0 * 2.5) := by
    have : (0 : α) < 20.0 * 2.5 := by norm_num
    rw [le_div_iff₀ this]
    norm_num
    linarith
  have hr0 := hpow 10 (-SingleAN_CAgain L cf / (20.0 * 2.5)) (by norm_num)
  have hr1 := hpow1 _ hy1
  have hr2 := hpow05 _ hy2
  have e1 : (SingleAN_consts L cf binwidth cohc).bmTaumax
      = 2.0 / (TWOPI * (cf / L.pow 10 (0.4708 * L.log10 (cf / 1e3) + 0.4664))) / 0.7 := rfl
  have e2 : (SingleAN_consts L cf binwidth cohc).bmTaumin
      = (SingleAN_consts L cf binwidth cohc).bmTaumax
        * L.pow 10 (-SingleAN_CAgain L cf / (20.0 * 2.5)) := rfl
  rw [e2]
  rw [← e1] at hbm
  generalize (SingleAN_consts L cf binwidth cohc).bmTaumax = B at hbm ⊢
  generalize L.pow 10 (-SingleAN_CAgain L cf / (20.0 * 2.5)) = r at hr0 hr1 hr2
  refine ⟨mul_pos hbm hr0, ?_, ?_⟩
  · nlinarith
  · rw [mul_div_assoc, mul_comm, div_mul_cancel₀ _ hbm.ne']
    exact hr2

theorem ratLog_neg_all (y : ℚ) (h0 : 0 < y) (h1 : y < 1) : ratLibm.log y < 0 := by
  show ratLog y < 0
  unfold ratLog
  rw [if_neg (not_le.2 h0), if_pos h1.le, sub_neg, lt_div_iff₀ h0]
  linarith

/-- C28: provided `pow` is positive on a positive base, `pow(10, y) < 1` for `y < 0`,
`pow(10, y) > 0.05` for `y ≥ -26/25`, `exp` is positive, `log y < 0` for `0 < y < 1` and
`tanh ≤ 1`.  The three nonlinearities are expressed through their logarithm arguments and
divisors.  For every `asym ≥ 1` and every input `x`, the logarithms of `NLogarithm` and
`Boltzman` have a positive argument (the `log10` of `NLogarithm` where it is evaluated,
`x < 0`) and their divisors (`pow(10,corner/20)`, `1+exp(splx/5)`, `asym_t`; `1.0+asym`,
`shift`, `1+exp(x1/s1)`, the slopes, the divisor of `out1`, `1-shift`) are non-zero.  In
`NLafterohc`, for `asym ≥ 1` and `0 < taumin < taumax`, the divisors `taumax`, `asym+1.0`
and `1-minR` are non-zero, and when `taumin/taumax` is not `0.05` the logarithm has a
positive argument and is non-zero, and `s0` is non-zero when `dc` is.  And for the values
that `SingleAN` passes to `NLafterohc`, for every `cf > 0`: `asym = ohcasym = 7`,
`0 < bmTaumin < bmTaumax`, `bmTaumin/bmTaumax > 0.05`, so the logarithm has a positive
argument and is non-zero, `dc` is positive, and `s0` is positive; `ihcasym = 3`. -/
theorem C28_nonlinearities_guarded (L : Libm α) (hpow : ∀ x y : α, 0 < x → 0 < L.pow x y)
    (hpow1 : ∀ y : α, y < 0 → L.pow 10 y < 1)
    (hpow05 : ∀ y : α, -(26 / 25) ≤ y → 0.05 < L.pow 10 y)
    (hexp : ∀ t : α, 0 < L.exp t) (hlog : ∀ y : α, 0 < y → y < 1 → L.log y < 0)
    (htanh : ∀ t : α, L.tanh t ≤ 1) :
    (∀ x slope asym : α, NLogarithm L x slope asym =
      if x < 0 then
        -1 / NLogarithm_asym_t L x asym * (L.log (NLogarithm_logArg L x) * slope)
      else L.log (NLogarithm_logArg L x) * slope) ∧
    (∀ x asym s0 s1 x1 : α, Boltzman L x asym s0 s1 x1 =
      (1.0 / Boltzman_out1Den L x asym s0 s1 x1 - Boltzman_shift asym)
        / (1 - Boltzman_shift asym)) ∧
    (∀ x taumin taumax asym : α, NLafterohc L x taumin taumax asym =
      cmin taumax (cmax taumin
        (taumax * (NLafterohc_minR taumin taumax + (1.0 - NLafterohc_minR taumin taumax)
          * L.exp (-|x| / NLafterohc_s0 L taumin taumax asym))))) ∧
    (∀ x asym : α, 1 ≤ asym →
      NLogarithm_strengthDen L ≠ 0 ∧ 0 < NLogarithm_logArg L x ∧
      (x < 0 → 0 < NLogarithm_log10Arg x) ∧
      1 + L.exp (20 * L.log10 (NLogarithm_log10Arg x) / 5.0) ≠ 0 ∧
      NLogarithm_asym_t L x asym ≠ 0) ∧
    (∀ x asym s0 s1 x1 : α, 1 ≤ asym → 0 < s0 → 0 < s1 →
      s0 ≠ 0 ∧ s1 ≠ 0 ∧ (1.0 : α) + asym ≠ 0 ∧ Boltzman_shift asym ≠ 0 ∧
      1 + L.exp (x1 / s1) ≠ 0 ∧ 0 < Boltzman_logArg L asym s1 x1 ∧
      Boltzman_out1Den L x asym s0 s1 x1 ≠ 0 ∧ 1 - Boltzman_shift asym ≠ 0) ∧
    (∀ taumin taumax asym : α, 1 ≤ asym → 0 < taumin → taumin < taumax →
      taumax ≠ 0 ∧ asym + 1.0 ≠ 0 ∧ 1 - NLafterohc_minR taumin taumax ≠ 0 ∧
      (taumin / taumax ≠ 0.05 →
        0 < NLafterohc_logArg taumin taumax ∧
        L.log (NLafterohc_logArg taumin taumax) ≠ 0 ∧
        (NLafterohc_dc taumin taumax asym ≠ 0 → NLafterohc_s0 L taumin taumax asym ≠ 0))) ∧
    (∀ cf binwidth cohc : α, 0 < cf →
      (SingleAN_consts L cf binwidth cohc).ohcasym = 7 ∧
      (SingleAN_consts L cf binwidth cohc).ihcasym = 3 ∧
      0 < (SingleAN_consts L cf binwidth cohc).bmTaumin ∧
      (SingleAN_consts L cf binwidth cohc).bmTaumin
        < (SingleAN_consts L cf binwidth cohc).bmTaumax ∧
      0.05 < (SingleAN_consts L cf binwidth cohc).bmTaumin
        / (SingleAN_consts L cf binwidth cohc).bmTaumax ∧
      0 < NLafterohc_logArg (SingleAN_consts L cf binwidth cohc).bmTaumin
        (SingleAN_consts L cf binwidth cohc).bmTaumax ∧
      L.log (NLafterohc_logArg (SingleAN_consts L cf binwidth cohc).bmTaumin
        (SingleAN_consts L cf binwidth cohc).bmTaumax) < 0 ∧
      0 < NLafterohc_dc (SingleAN_consts L cf binwidth cohc).bmTaumin
        (SingleAN_consts L cf binwidth cohc).bmTaumax
        (SingleAN_consts L cf binwidth cohc).ohcasym ∧
      0 < NLafterohc_s0 L (SingleAN_consts L cf binwidth cohc).bmTaumin
        (SingleAN_consts L cf binwidth cohc).bmTaumax
        (SingleAN_consts L cf binwidth cohc).ohcasym) := by
  refine ⟨fun x slope asym => rfl, fun x asym s0 s1 x1 => rfl, fun x taumin taumax asym => rfl,
    fun x asym hasym => NLogarithm_guards L hpow hexp x asym hasym,
    fun x asym s0 s1 x1 hasym hs0 hs1 =>
      ⟨hs0.ne', hs1.ne', Boltzman_guards L hexp x asym s0 s1 x1 hasym⟩,
    fun taumin taumax asym hasym h0 h1 => NLafterohc_guards L hlog taumin taumax asym hasym h0 h1,
    fun cf binwidth cohc hcf => ?_⟩
  · obtain ⟨hmin, hlt, hr⟩ := SingleAN_consts_ratio L hpow hpow1 hpow05 htanh cf binwidth cohc hcf
    have e7 : (SingleAN_consts L cf binwidth cohc).ohcasym = 7 := by
      show (7.0 : α) = 7
      norm_num
    have e3 : (SingleAN_consts L cf binwidth cohc).ihcasym = 3 := by
      show (3.0 : α) = 3
      norm_num
    rw [e7]
    generalize (SingleAN_consts L cf binwidth cohc).bmTaumin = b at hmin hlt hr ⊢
    generalize (SingleAN_consts L cf binwidth cohc).bmTaumax = B at hlt hr ⊢
    obtain ⟨ha0, ha1⟩ := NLafterohc_logArg_range b B hmin hlt hr.ne'
    have hl := hlog _ ha0 ha1
    obtain ⟨-, hm⟩ := NLafterohc_minR_range b B hmin hlt
    have hdc : 0 < NLafterohc_dc b B 7 := by
      unfold NLafterohc_dc
      have : ((7 : α) - 1) / (7 + 1.0) / 2.0 = 0.375 := by norm_num
      rw [this]
      have : (0.05 : α) < 0.375 := by norm_num
      linarith
    refine ⟨rfl, e3, hmin, hlt, hr, ha0, hl, hdc, ?_⟩
    unfold NLafterohc_s0
    exact div_pos_of_neg_of_neg (by linarith) hl

theorem ratLibm_pow_lt_one (y : ℚ) (hy : y < 0) : ratLibm.pow 10 y < 1 := by
  show (if y = 2 then (10 : ℚ) * 10 else if y = 3 then 10 * 10 * 10
    else if y = 5 then 10 * 10 * 10 * 10 * 10
    else if y = 1 / 2 then (1 + 10) / 2 else ratExp (y * ratLog 10)) < 1
  rw [if_neg (by linarith), if_neg (by linarith), if_neg (by linarith), if_neg (by linarith)]
  have h10 : ratLog 10 = 9 := by
    unfold ratLog
    norm_num
  rw [h10]
  unfold ratExp
  rw [if_pos (by linarith)]
  rw [div_lt_one (by linarith)]
  linarith

theorem ratLibm_pow_gt (y : ℚ) (hy : -(26 / 25) ≤ y) : 0.05 < ratLibm.pow 10 y := by
  show 0.05 < (if y = 2 then (10 : ℚ) * 10 else if y = 3 then 10 * 10 * 10
    else if y = 5 then 10 * 10 * 10 * 10 * 10
    else if y = 1 / 2 then (1 + 10) / 2 else ratExp (y * ratLog 10))
  have h10 : ratLog 10 = 9 := by
    unfold ratLog
    norm_num
  split_ifs
  · norm_num
  · norm_num
  · norm_num
  · norm_num
  · rw [h10]
    unfold ratExp
    split_ifs with h
    · rw [lt_div_iff₀ (by linarith)]
      norm_num
      linarith
    · norm_num
      linarith [not_le.1 h]

theorem ratLibm_tanh_le (t : ℚ) : ratLibm.tanh t ≤ 1 := by
  show t / (1 + |t|) ≤ 1
  have h : 0 < 1 + |t| := by positivity
  rw [div_le_one h]
  linarith [le_abs_self t]

/-- C28 with the rational stand-in for the math library: the guards of `NLogarithm` at
`x = -1`, `asym = 3`, of `Boltzman` at the parameters of the program, and of `NLafterohc` at
the values that `SingleAN` passes for `cf = 1000`. -/
theorem C28_nonlinearities_guarded_witness :
    (0 < NLogarithm_logArg ratLibm (-1) ∧ 0 < NLogarithm_log10Arg (-1 : ℚ) ∧
      NLogarithm_asym_t ratLibm (-1) 3 ≠ 0) ∧
    (0 < Boltzman_logArg ratLibm 7 5 5 ∧ 1 - Boltzman_shift (7 : ℚ) ≠ 0) ∧
    (0 < NLafterohc_logArg (SingleAN_consts ratLibm 1000 1e-5 1).bmTaumin
        (SingleAN_consts ratLibm 1000 1e-5 1).bmTaumax ∧
      0 < NLafterohc_s0 ratLibm (SingleAN_consts ratLibm 1000 1e-5 1).bmTaumin
        (SingleAN_consts ratLibm 1000 1e-5 1).bmTaumax
        (SingleAN_consts ratLibm 1000 1e-5 1).ohcasym) :=
  have h := C28_nonlinearities_guarded ratLibm ratLibm_powLaws.pow_pos ratLibm_pow_lt_one
    ratLibm_pow_gt ratExp_pos_all ratLog_neg_all ratLibm_tanh_le
  have h1 := h.2.2.2.1 (-1) 3 (by norm_num)
  have h2 := h.2.2.2.2.1 0 7 12 5 5 (by norm_num) (by norm_num) (by norm_num)
  have h4 := h.2.2.2.2.2.2 1000 1e-5 1 (by norm_num)
  ⟨⟨h1.2.1, h1.2.2.1 (by norm_num), h1.2.2.2.2⟩, ⟨h2.2.2.2.2.2.1, h2.2.2.2.2.2.2.2⟩,
    ⟨h4.2.2.2.2.2.1, h4.2.2.2.2.2.2.2.2⟩⟩

/-- The zero of `C1ChirpFilt` is the quotient of `-CF` and the tangent term. -/
theorem C1ChirpFilt_rzero_eq (L : Libm α) (s : ChirpStatics α) (binwidth cf : α) (n : Int)
    (taumax r : α) :
    C1ChirpFilt_rzero L s binwidth cf n taumax r
      = -(TWOPI * cf) / C1ChirpFilt_rzeroDen L s binwidth cf n taumax r :=
  rfl

/-- The zero of `C2ChirpFilt` is the quotient of `-CF` and the tangent term. -/
theorem C2ChirpFilt_rzero_eq (L : Libm α) (s : ChirpStatics α) (binwidth cf : α) (n : Int)
    (taumax r : α) :
    C2ChirpFilt_rzero L s binwidth cf n taumax r
      = -(TWOPI * cf) / C2ChirpFilt_rzeroDen L s binwidth cf n taumax r :=
  rfl

theorem TWOPI_pos : (0 : α) < TWOPI := by
  unfold TWOPI
  norm_num

/-- C12: for `cf > 0` the zero solved by phase matching,
`rzero = -CF/tan((initphase - phase)/5)`, is the quotient of a non-zero `-CF` and the tangent
term, so where the tangent term is non-zero (where the quotient is a division by a non-zero
number) `rzero` is not 0.  Then `C1ChirpFilt` and `C2ChirpFilt` fail on the check of the zero
exactly when the check of `p[1].x` passed and `rzero ≥ 0`, and they return a filter output
exactly when the check of `p[1].x` passed and `rzero < 0`. -/
theorem C12_zero_check (L : Libm α) (s : ChirpStatics α) (x binwidth cf : α) (n : Int)
    (taumax r : α) (hcf : 0 < cf) :
    C1ChirpFilt_rzero L s binwidth cf n taumax r
      = -(TWOPI * cf) / C1ChirpFilt_rzeroDen L s binwidth cf n taumax r ∧
    C2ChirpFilt_rzero L s binwidth cf n taumax r
      = -(TWOPI * cf) / C2ChirpFilt_rzeroDen L s binwidth cf n taumax r ∧
    -(TWOPI * cf) ≠ 0 ∧
    (C1ChirpFilt_rzeroDen L s binwidth cf n taumax r ≠ 0 →
      C1ChirpFilt_rzero L s binwidth cf n taumax r ≠ 0 ∧
      (C1ChirpFilt L s x binwidth cf n taumax r = .error .c1Zeros ↔
        ¬ (-(1 / taumax) - r > 0) ∧ 0 ≤ C1ChirpFilt_rzero L s binwidth cf n taumax r) ∧
      ((∃ y, C1ChirpFilt L s x binwidth cf n taumax r = .ok y) ↔
        ¬ (-(1 / taumax) - r > 0) ∧ C1ChirpFilt_rzero L s binwidth cf n taumax r < 0)) ∧
    (C2ChirpFilt_rzeroDen L s binwidth cf n taumax r ≠ 0 →
      C2ChirpFilt_rzero L s binwidth cf n taumax r ≠ 0 ∧
      (C2ChirpFilt L s x binwidth cf n taumax r = .error .c2Zeros ↔
        ¬ (-(1 / taumax) * r > 0) ∧ 0 ≤ C2ChirpFilt_rzero L s binwidth cf n taumax r) ∧
      ((∃ y, C2ChirpFilt L s x binwidth cf n taumax r = .ok y) ↔
        ¬ (-(1 / taumax) * r > 0) ∧ C2ChirpFilt_rzero L s binwidth cf n taumax r < 0)) := by
  have hCF : -(TWOPI * cf) ≠ 0 := neg_ne_zero.2 (mul_pos TWOPI_pos hcf).ne'
  obtain ⟨a1, a2, b1, b2⟩ := chirp_zero_check L s x binwidth cf n taumax r
  refine ⟨rfl, rfl, hCF, fun hd => ?_, fun hd => ?_⟩
  · have hz : C1ChirpFilt_rzero L s binwidth cf n taumax r ≠ 0 := by
      rw [C1ChirpFilt_rzero_eq]
      exact div_ne_zero hCF hd
    refine ⟨hz, a1.trans (and_congr_right fun _ => ?_), a2.trans (and_congr_right fun _ => ?_)⟩
    · exact ⟨fun h => le_of_lt h, fun h => lt_of_le_of_ne h (Ne.symm hz)⟩
    · exact ⟨fun h => lt_of_le_of_ne h hz, fun h => le_of_lt h⟩
  · have hz : C2ChirpFilt_rzero L s binwidth cf n taumax r ≠ 0 := by
      rw [C2ChirpFilt_rzero_eq]
      exact div_ne_zero hCF hd
    refine ⟨hz, b1.trans (and_congr_right fun _ => ?_), b2.trans (and_congr_right fun _ => ?_)⟩
    · exact ⟨fun h => le_of_lt h, fun h => lt_of_le_of_ne h (Ne.symm hz)⟩
    · exact ⟨fun h => lt_of_le_of_ne h hz, fun h => le_of_lt h⟩

/-- C12 at the first sample of a run with `cf = 1000`, the C1 poles at their reference
position and the rational stand-in for the math library: the tangent term is not 0, the zero
is negative and `C1ChirpFilt` returns a filter output. -/
theorem C12_zero_check_witness :
    (0 : ℚ) < 1000 ∧ C1ChirpFilt_rzeroDen ratLibm Statics.zero.c1 1e-5 1000 0 1 0 ≠ 0 ∧
    C1ChirpFilt_rzero ratLibm Statics.zero.c1 1e-5 1000 0 1 0 < 0 ∧
    ∃ y, C1ChirpFilt ratLibm Statics.zero.c1 0 1e-5 1000 0 1 0 = .ok y :=
  have h := ((C12_zero_check ratLibm Statics.zero.c1 0 1e-5 1000 0 1 0
    (by norm_num)).2.2.2.1 (by decide!)).2.2
  ⟨by norm_num, by decide!, (h.1 (Exists.intro _ (okOr_of_isOk _ (0, Statics.zero.c1)
    (by decide!)))).2, Exists.intro _ (okOr_of_isOk _ (0, Statics.zero.c1) (by decide!))⟩

/-- C4 fails on the code: the range tests of `mexFunction` have the form
`(x<lo)|(x>hi)`, and both comparisons are false when `x` is a NaN.  The call
`nanHealthCall`, with a NaN as `cohc`, `cihc` and `spont`, passes every check, and
`SingleAN` is reached with `cohc`, `cihc` and `spont` that are NaN: none of `0 <= cohc`,
`cohc <= 1`, `0 <= cihc`, `cihc <= 1`, `0.1 <= spont`, `spont <= 150` holds. -/
theorem C4_nan_passes_validation :
    (acceptedArgs (mexFunctionArgs64 nanHealthCall)).map (fun a => (a.cohc, a.cihc, a.spont))
      = some (.nan, .nan, .nan) ∧
    ¬ (0 : Binary64) ≤ .nan ∧ ¬ Binary64.nan ≤ 1 ∧ ¬ (0.1 : Binary64) ≤ .nan ∧
    ¬ Binary64.nan ≤ 150 := by
  decide!

/-- C6 fails on the code: both comparisons of `(cf<80)|(cf>20e3)` and of
`(cf<80)|(cf>40e3)` are false when `cf` is a NaN.  With a NaN as `cf` the call is accepted
at the sample period 10 µs (`nanCfCall`) and at 5 µs (`nanCfFineCall`), and `SingleAN` is
reached with a `cf` for which `80 <= cf` does not hold. -/
theorem C6_nan_cf_accepted :
    (acceptedArgs (mexFunctionArgs64 nanCfCall)).map (fun a => a.cf) = some .nan ∧
    (acceptedArgs (mexFunctionArgs64 nanCfFineCall)).map (fun a => a.cf) = some .nan ∧
    (0.005e-3 : Binary64) < nanCfCall.binwidth ∧
    ¬ (0.005e-3 : Binary64) < nanCfFineCall.binwidth ∧
    ¬ (80 : Binary64) ≤ .nan ∧ ¬ Binary64.nan ≤ 20e3 ∧ ¬ Binary64.nan ≤ 40e3 := by
  decide!

/-- C8 fails on the code: `sevenCall` has a 7-sample stimulus, `binwidth = 1e-5` and
`reptime = 7e-5`, so the duration of the stimulus equals the repetition period
(`7e-5 = 7 * 1e-5`).  In double arithmetic the quotient `(reptime*1e3)/(binwidth*1e3)` is
below 7, `totalstim` is 6, and the call is rejected with "reptime should be equal to or
longer than the stimulus duration."  (In exact arithmetic `totalstim` is 7 and the call
passes.)  And `longCall`, with a 2-sample stimulus and `reptime = 3e4`, is rejected with the
same message although `floor((reptime*1e3)/(binwidth*1e3))` is 3000000000: the conversion
to the 32-bit `int` gives `totalstim = -2147483648`. -/
theorem C8_duration_check_rounding :
    (7e-5 : ℚ) = 7 * 1e-5 ∧
    ((7e-5 : Binary64) * 1e3) / ((1e-5 : Binary64) * 1e3) < 7 ∧
    Binary64.toInt (Binary64.floor (((7e-5 : Binary64) * 1e3) / ((1e-5 : Binary64) * 1e3)))
      = 6 ∧
    failsWith (mexFunctionArgs64 sevenCall.toDouble) .reptimeShort = true ∧
    acceptedTotalstim (mexFunctionArgs sevenCall) = some 7 ∧
    Binary64.floor (((3e4 : Binary64) * 1e3) / ((1e-5 : Binary64) * 1e3))
      = .num 3000000000 ∧
    Binary64.toInt (Binary64.floor (((3e4 : Binary64) * 1e3) / ((1e-5 : Binary64) * 1e3)))
      = -2147483648 ∧
    failsWith (mexFunctionArgs64 longCall.toDouble) .reptimeShort = true := by
  decide!

/-- C15 fails on the code: `seventyCall` (`binwidth = 1e-5`, `reptime = 7e-4`) passes the
checks with `totalstim = 70`; in double arithmetic `binwidth*totalstim` rounds above
`7e-4`, so for a spike at `7e-4` `fmod` returns the spike time itself, the quotient by
`binwidth` is 70 and the bin index is `ipst = 70 = totalstim`: the folding loop reads and
writes `psth[70]`, outside the 70 elements of `psth`.  (In exact arithmetic the index is 0.)
And at `totalstim = 5` the spike times `1e-5` and `6e-5`, whose difference in double
arithmetic is the period `binwidth*totalstim`, get the different indices 1 and 0. -/
theorem C15_psth_index_rounding :
    acceptedTotalstim (mexFunctionArgs64 seventyCall.toDouble) = some 70 ∧
    (7e-4 : Binary64) < (1e-5 : Binary64) * Binary64.ofInt 70 ∧
    SingleAN_ipst64 1e-5 70 7e-4 = 70 ∧
    failsWith (readAt (List.replicate 70 (0 : Binary64)) (SingleAN_ipst64 1e-5 70 7e-4))
      .outOfBounds = true ∧
    cInt (fmod (7e-4 : ℚ) (1e-5 * ((70 : Int) : ℚ)) / 1e-5) = 0 ∧
    (6e-5 : Binary64) - 1e-5 = (1e-5 : Binary64) * Binary64.ofInt 5 ∧
    SingleAN_ipst64 1e-5 5 1e-5 = 1 ∧ SingleAN_ipst64 1e-5 5 6e-5 = 0 := by
  decide!

/-- C19 as stated fails in double arithmetic: at `cf = 4780` and `cohc = 1`, for the
control signal 0, `NLafterohc` returns `bmTaumax`, which lies in `[bmTaumin, bmTaumax]`,
but `tauc1 = cohc*(tmptauc1-bmTaumin)+bmTaumin` rounds to the double above `bmTaumax`, and
`rsigma = 1/tauc1-1/bmTaumax` is negative (it is `-2^-41`).  The tests `1/tauc1 < 0.0` and
`p[1].x > 0.0` are false there all the same. -/
theorem C19_counterexample :
    NLafterohc64 glibcTable 0 (SingleAN_timeConsts64 glibcTable 4780 1).bmTaumin
        (SingleAN_timeConsts64 glibcTable 4780 1).bmTaumax 7.0
      = (SingleAN_timeConsts64 glibcTable 4780 1).bmTaumax ∧
    (SingleAN_timeConsts64 glibcTable 4780 1).bmTaumin
      ≤ (SingleAN_timeConsts64 glibcTable 4780 1).bmTaumax ∧
    (SingleAN_timeConsts64 glibcTable 4780 1).bmTaumax
      < SingleAN_tauc1_64 1 (SingleAN_timeConsts64 glibcTable 4780 1).bmTaumax
          (SingleAN_timeConsts64 glibcTable 4780 1).bmTaumin ∧
    SingleAN_rsigma64
        (SingleAN_tauc1_64 1 (SingleAN_timeConsts64 glibcTable 4780 1).bmTaumax
          (SingleAN_timeConsts64 glibcTable 4780 1).bmTaumin)
        (SingleAN_timeConsts64 glibcTable 4780 1).bmTaumax = Binary64.scaled (-1) (-41) ∧
    Binary64.scaled (-1) (-41) < 0 ∧
    ¬ (1 / SingleAN_tauc1_64 1 (SingleAN_timeConsts64 glibcTable 4780 1).bmTaumax
        (SingleAN_timeConsts64 glibcTable 4780 1).bmTaumin < (0.0 : Binary64)) ∧
    ¬ (C1ChirpFilt_p1x64 (SingleAN_timeConsts64 glibcTable 4780 1).bmTaumax
        (Binary64.scaled (-1) (-41)) > (0.0 : Binary64)) := by
  decide!

/-- C26 as stated fails in double arithmetic: at `cf = 4780` and `cohc = 1` the initial
`tauwb` is the double above `TauWBMax`, and so is the `tauwb` that the first pass of the
sample loop computes for the control signal 0 (`tmptauc1 = bmTaumax`); at `cf = 100` and
`cohc = 0` the initial `tauwb` is the double below `TauWBMin`. -/
theorem C26_counterexample :
    (SingleAN_timeConsts64 glibcTable 4780 1).TauWBMax
      < (SingleAN_timeConsts64 glibcTable 4780 1).tauwb ∧
    (SingleAN_timeConsts64 glibcTable 4780 1).TauWBMax
      < SingleAN_tauwb64 (SingleAN_timeConsts64 glibcTable 4780 1)
          (SingleAN_tauc1_64 1
            (NLafterohc64 glibcTable 0 (SingleAN_timeConsts64 glibcTable 4780 1).bmTaumin
              (SingleAN_timeConsts64 glibcTable 4780 1).bmTaumax 7.0)
            (SingleAN_timeConsts64 glibcTable 4780 1).bmTaumin) ∧
    (SingleAN_timeConsts64 glibcTable 100 0).tauwb
      < (SingleAN_timeConsts64 glibcTable 100 0).TauWBMin ∧
    (SingleAN_timeConsts64 glibcTable 100 0).tauwb = Binary64.scaled 5310536431713270 (-62) ∧
    (SingleAN_timeConsts64 glibcTable 100 0).TauWBMin
      = Binary64.scaled 5310536431713271 (-62) := by
  decide!

/-- C27 as stated fails in double arithmetic: with the parameters of the program
(`asym = 7`, `s0 = 12`, `s1 = 5`, `x1 = 5`) `Boltzman` returns exactly 1 at `x = 1000`, and at
`x = -300` it returns the double `-1/7` (the quotient formed in double arithmetic); so in
double arithmetic neither `Boltzman < 1` nor `-1/asym < Boltzman` holds there. -/
theorem C27_counterexample :
    Boltzman64 glibcTable 1000 7.0 12.0 5.0 5.0 = 1 ∧
    ¬ Boltzman64 glibcTable 1000 7.0 12.0 5.0 5.0 < 1 ∧
    Boltzman64 glibcTable (-300) 7.0 12.0 5.0 5.0 = -1 / 7 ∧
    ¬ (-1 / 7 : Binary64) < Boltzman64 glibcTable (-300) 7.0 12.0 5.0 5.0 := by
  decide!
end ZBCat
